import Mathlib

/-!
# Shopfloor wall-network geometry engine

A shallow embedding of the geometry functions of `src/js/app.js`, and the properties of
them stated in the specification.

Conventions of the embedding:

* a JavaScript number is an exact real number (`ℝ`): `Math.sqrt` is `Real.sqrt`,
  `Math.atan2` is the argument of a complex number, `Math.round x` is `⌊x + 1/2⌋`;
  rounding errors, infinities, not-a-number and negative zero are not modelled, and a
  division by zero yields `0`;
* a wall object is a record; the wall array `data.walls` is a `List Wall`, and the
  identity of a wall object (`wall === excludeWall`) is its position in that array;
  a function that mutates walls in place returns the new wall array;
* the `Set` of used wall ids is a list of ids queried with `∈`;
* a `while (true)` loop and the recursion of `douglasPeucker` are functions with a fuel
  argument which return `none` when the fuel is exhausted; the callers pass a bound
  that depends on the input only (`walls.length + 1`, `points.length`);
* a `for` loop is a recursive function over the remaining elements, with the loop
  variables as arguments; `forEach` is `List.foldl`;
* `state.gridSize`, `state.defaultWallThickness` and `state.defaultWallHeight` are
  parameters.
-/

namespace Shopfloor

/-! The records below are used through their fields and constructors only: no `SizeOf`
instance is generated for them and, from `Miter` on, no injectivity lemma. -/

set_option genSizeOf false
set_option genSizeOfSpec false

/-- A plain 2D coordinate `{x, y}`. -/
structure Point where
  x : ℝ
  y : ℝ

/-- The persisted fields of the `Wall` class that the geometry engine reads. The `id`
(`Date.now() + Math.random()`) is only ever compared for equality; it is a natural
number here. -/
structure Wall where
  id : ℕ
  start : Point
  end_ : Point
  thickness : ℝ
  height : ℝ

/-- The two endpoint selectors `'start'` and `'end'`. -/
inductive PointType where
  | start
  | end_
  deriving DecidableEq

/-- One chain entry `{wall, start, end}` of `findWallChains`. -/
structure Segment where
  wall : Wall
  start : Point
  end_ : Point

/-- The record `{wall, startPoint, endPoint}` returned by `findConnectedWall`;
`idx` is the position of `wall` in the wall array (its identity). -/
structure Connected where
  idx : ℕ
  wall : Wall
  startPoint : PointType
  endPoint : PointType

/-- The function `calculateDistance(p1, p2)`. -/
noncomputable def calculateDistance (p1 p2 : Point) : ℝ :=
  let dx := p2.x - p1.x
  let dy := p2.y - p1.y
  Real.sqrt (dx * dx + dy * dy)

/-- The access `wall[pointType]`, also `getWallPointPos(wall, pointType)`. -/
def getWallPointPos (wall : Wall) : PointType → Point
  | .start => wall.start
  | .end_ => wall.end_

/-- The function `pointsMatch(p1, p2)` of `findWallChains`, with `threshold = 5`. -/
def pointsMatch (p1 p2 : Point) : Prop :=
  calculateDistance p1 p2 < 5

noncomputable instance pointsMatchDecidable (p1 p2 : Point) : Decidable (pointsMatch p1 p2) :=
  Classical.propDecidable _

/-- The `for (const wall of wallsCopy)` loop of `findConnectedWall`, started at
array position `i` with the remaining walls. -/
noncomputable def findConnectedWallFrom (used : List ℕ) (point : Point) (excludeWall : ℕ) :
    ℕ → List Wall → Option Connected
  | _, [] => none
  | i, wall :: rest =>
    if i = excludeWall ∨ wall.id ∈ used then
      findConnectedWallFrom used point excludeWall (i + 1) rest
    else if pointsMatch point wall.start then
      some ⟨i, wall, .start, .end_⟩
    else if pointsMatch point wall.end_ then
      some ⟨i, wall, .end_, .start⟩
    else
      findConnectedWallFrom used point excludeWall (i + 1) rest

/-- The function `findConnectedWall(point, excludeWall)`. -/
noncomputable def findConnectedWall (wallsCopy : List Wall) (used : List ℕ) (point : Point)
    (excludeWall : ℕ) : Option Connected :=
  findConnectedWallFrom used point excludeWall 0 wallsCopy

/-- The "extend forward from end" loop of `findWallChains`. The state is
`(used, chain)` together with `currentEnd` and `lastWall`. -/
noncomputable def extendForward (wallsCopy : List Wall) :
    ℕ → List ℕ → Point → ℕ → List Segment → Option (List ℕ × List Segment)
  | 0, _, _, _, _ => none
  | fuel + 1, used, currentEnd, lastWall, chain =>
    match findConnectedWall wallsCopy used currentEnd lastWall with
    | none => some (used, chain)
    | some next =>
      let segStart := getWallPointPos next.wall next.startPoint
      let segEnd := getWallPointPos next.wall next.endPoint
      extendForward wallsCopy fuel (next.wall.id :: used) segEnd next.idx
        (chain ++ [⟨next.wall, segStart, segEnd⟩])

/-- The "extend backward from start" loop of `findWallChains`. The state is
`(used, frontSegments)` together with `currentStart` and `lastWall`. -/
noncomputable def extendBackward (wallsCopy : List Wall) :
    ℕ → List ℕ → Point → ℕ → List Segment → Option (List ℕ × List Segment)
  | 0, _, _, _, _ => none
  | fuel + 1, used, currentStart, lastWall, frontSegments =>
    match findConnectedWall wallsCopy used currentStart lastWall with
    | none => some (used, frontSegments)
    | some prev =>
      let segStart := getWallPointPos prev.wall prev.endPoint
      let segEnd := getWallPointPos prev.wall prev.startPoint
      extendBackward wallsCopy fuel (prev.wall.id :: used) segStart prev.idx
        (⟨prev.wall, segStart, segEnd⟩ :: frontSegments)

/-- The "build chains" loop `for (const startWall of wallsCopy)` of
`findWallChains`, started at array position `i` with the remaining walls. -/
noncomputable def buildChainsFrom (wallsCopy : List Wall) :
    ℕ → List Wall → List ℕ → List (List Segment) → Option (List (List Segment))
  | _, [], _, chains => some chains
  | i, startWall :: rest, used, chains =>
    if startWall.id ∈ used then
      buildChainsFrom wallsCopy (i + 1) rest used chains
    else
      match extendForward wallsCopy (wallsCopy.length + 1) (startWall.id :: used)
          startWall.end_ i [⟨startWall, startWall.start, startWall.end_⟩] with
      | none => none
      | some (used1, chain) =>
        match extendBackward wallsCopy (wallsCopy.length + 1) used1 startWall.start i [] with
        | none => none
        | some (used2, frontSegments) =>
          buildChainsFrom wallsCopy (i + 1) rest used2 (chains ++ [frontSegments ++ chain])

/-- The function `findWallChains()` on the wall array `data.walls`. -/
noncomputable def findWallChains (walls : List Wall) : Option (List (List Segment)) :=
  buildChainsFrom walls 0 walls [] []

/-- The `isClosed` test of `createChainMesh`. -/
def isClosed (firstSeg lastSeg : Segment) : Prop :=
  calculateDistance firstSeg.start lastSeg.end_ < 5

/-! ### Miter joints and corner arcs -/

set_option genInjectivity false

/-- The record `{outer, inner, outerArc, innerArc}` returned by `calculateMiterPoint`;
a `null` arc is `none`. -/
structure Miter where
  outer : Point
  inner : Point
  outerArc : Option (List Point)
  innerArc : Option (List Point)

/-- The function `Math.atan2(y, x)`: the angle in `(-π, π]` of the vector `(x, y)`, and `0` at the
origin. (The real numbers have no negative zero, so `atan2 (-0) x` is `atan2 0 x`.) -/
noncomputable def atan2 (y x : ℝ) : ℝ :=
  Complex.arg ⟨x, y⟩

/-- The loop `while (angleDiff > Math.PI) angleDiff -= 2 * Math.PI`. -/
noncomputable def wrapAbovePi (angleDiff : ℝ) : ℝ :=
  if Real.pi < angleDiff then wrapAbovePi (angleDiff - 2 * Real.pi) else angleDiff
termination_by ⌈angleDiff / (2 * Real.pi)⌉₊
decreasing_by
  have hpi := Real.pi_pos
  rename_i h
  have h1 : (angleDiff - 2 * Real.pi) / (2 * Real.pi) = angleDiff / (2 * Real.pi) - 1 := by
    field_simp
  have hx : 0 < angleDiff / (2 * Real.pi) := div_pos (by linarith) (by linarith)
  rw [h1, Nat.lt_ceil]
  rcases le_or_lt 0 (angleDiff / (2 * Real.pi) - 1) with h0 | h0
  · have := Nat.ceil_lt_add_one h0
    linarith
  · rw [Nat.ceil_eq_zero.2 h0.le]
    simpa using hx

/-- The loop `while (angleDiff < -Math.PI) angleDiff += 2 * Math.PI`. -/
noncomputable def wrapBelowNegPi (angleDiff : ℝ) : ℝ :=
  if angleDiff < -Real.pi then wrapBelowNegPi (angleDiff + 2 * Real.pi) else angleDiff
termination_by ⌈-angleDiff / (2 * Real.pi)⌉₊
decreasing_by
  have hpi := Real.pi_pos
  rename_i h
  have h1 : -(angleDiff + 2 * Real.pi) / (2 * Real.pi) = -angleDiff / (2 * Real.pi) - 1 := by
    field_simp
    ring
  have hx : 0 < -angleDiff / (2 * Real.pi) := div_pos (by linarith) (by linarith)
  rw [h1, Nat.lt_ceil]
  rcases le_or_lt 0 (-angleDiff / (2 * Real.pi) - 1) with h0 | h0
  · have := Nat.ceil_lt_add_one h0
    linarith
  · rw [Nat.ceil_eq_zero.2 h0.le]
    simpa using hx

/-- The function `generateCornerArc(center, seg1, seg2, halfThick, isOuter)`; `null` is `none`. -/
noncomputable def generateCornerArc (center : Point) (seg1 seg2 : Segment) (halfThick : ℝ)
    (isOuter : Bool) : Option (List Point) :=
  let angle1 := atan2 (-(seg1.end_.y - seg1.start.y)) (-(seg1.end_.x - seg1.start.x))
  let angle2 := atan2 (seg2.end_.y - seg2.start.y) (seg2.end_.x - seg2.start.x)
  let perpAngle1 := angle1 + (if isOuter then Real.pi / 2 else -Real.pi / 2)
  let perpAngle2 := angle2 + (if isOuter then -Real.pi / 2 else Real.pi / 2)
  let angleDiff := wrapBelowNegPi (wrapAbovePi (perpAngle2 - perpAngle1))
  if |angleDiff| < 0.1 then none
  else
    let radius := halfThick
    let steps : ℕ := max 3 ⌈|angleDiff| / (Real.pi / 8)⌉₊
    some ((List.range (steps + 1)).map fun (i : ℕ) =>
      let t := (i : ℝ) / (steps : ℝ)
      let angle := perpAngle1 + angleDiff * t
      ⟨center.x + Real.cos angle * radius, center.y + Real.sin angle * radius⟩)

/-- The function `calculateMiterPoint(seg1, seg2, halfThick, smooth)`. -/
noncomputable def calculateMiterPoint (seg1 seg2 : Segment) (halfThick : ℝ) (smooth : Bool) :
    Miter :=
  let d1x := seg1.end_.x - seg1.start.x
  let d1y := seg1.end_.y - seg1.start.y
  let len1 := Real.sqrt (d1x * d1x + d1y * d1y)
  let dir1x := d1x / len1
  let dir1y := d1y / len1
  let d2x := seg2.end_.x - seg2.start.x
  let d2y := seg2.end_.y - seg2.start.y
  let len2 := Real.sqrt (d2x * d2x + d2y * d2y)
  let dir2x := d2x / len2
  let dir2y := d2y / len2
  let perp1x := -dir1y
  let perp1y := dir1x
  let perp2x := -dir2y
  let perp2y := dir2x
  let miterX0 := perp1x + perp2x
  let miterY0 := perp1y + perp2y
  let miterLen := Real.sqrt (miterX0 * miterX0 + miterY0 * miterY0)
  let miterX := if miterLen < 0.01 then perp1x else miterX0 / miterLen
  let miterY := if miterLen < 0.01 then perp1y else miterY0 / miterLen
  let dot := perp1x * miterX + perp1y * miterY
  let miterScale := if dot > 0.1 then halfThick / dot else halfThick
  let maxMiter := halfThick * 2
  let actualMiter := min miterScale maxMiter
  let jointPoint := seg1.end_
  { outer := ⟨jointPoint.x + miterX * actualMiter, jointPoint.y + miterY * actualMiter⟩
    inner := ⟨jointPoint.x - miterX * actualMiter, jointPoint.y - miterY * actualMiter⟩
    outerArc := if smooth then generateCornerArc jointPoint seg1 seg2 halfThick true else none
    innerArc := if smooth then generateCornerArc jointPoint seg1 seg2 halfThick false else none }

/-- The vector `(miterX * actualMiter, miterY * actualMiter)` that `calculateMiterPoint`
adds to the joint to get `outer` (and subtracts to get `inner`), as a function of the two
directions `(dir1x, dir1y)`, `(dir2x, dir2y)` and `halfThick`. -/
noncomputable def miterOffset (dir1x dir1y dir2x dir2y halfThick : ℝ) : ℝ × ℝ :=
  let perp1x := -dir1y
  let perp1y := dir1x
  let perp2x := -dir2y
  let perp2y := dir2x
  let miterX0 := perp1x + perp2x
  let miterY0 := perp1y + perp2y
  let miterLen := Real.sqrt (miterX0 * miterX0 + miterY0 * miterY0)
  let miterX := if miterLen < 0.01 then perp1x else miterX0 / miterLen
  let miterY := if miterLen < 0.01 then perp1y else miterY0 / miterLen
  let dot := perp1x * miterX + perp1y * miterY
  let miterScale := if dot > 0.1 then halfThick / dot else halfThick
  let maxMiter := halfThick * 2
  let actualMiter := min miterScale maxMiter
  (miterX * actualMiter, miterY * actualMiter)

/-- The perpendicular distance from `p` to the line through `a` and `b` (the
centerline of a segment `a`-`b`, `a ≠ b`). -/
noncomputable def distanceToLine (p a b : Point) : ℝ :=
  |(b.x - a.x) * (p.y - a.y) - (b.y - a.y) * (p.x - a.x)| / calculateDistance a b

/-- The left-hand unit perpendicular `(-dirY, dirX)` of a segment, as computed in
`calculateMiterPoint` and `createChainMesh`. -/
noncomputable def unitPerp (seg : Segment) : ℝ × ℝ :=
  let dx := seg.end_.x - seg.start.x
  let dy := seg.end_.y - seg.start.y
  let len := Real.sqrt (dx * dx + dy * dy)
  (-(dy / len), dx / len)

/-- The magnitude `miterLen` of the sum of the two left-hand unit perpendiculars. -/
noncomputable def perpSumLength (seg1 seg2 : Segment) : ℝ :=
  let miterX := (unitPerp seg1).1 + (unitPerp seg2).1
  let miterY := (unitPerp seg1).2 + (unitPerp seg2).2
  Real.sqrt (miterX * miterX + miterY * miterY)

/-- The turn angle between two segments: the angle in `[0, π]` between their
direction vectors. -/
noncomputable def turnAngle (seg1 seg2 : Segment) : ℝ :=
  Real.arccos
    (((seg1.end_.x - seg1.start.x) * (seg2.end_.x - seg2.start.x) +
        (seg1.end_.y - seg1.start.y) * (seg2.end_.y - seg2.start.y)) /
      (calculateDistance seg1.start seg1.end_ * calculateDistance seg2.start seg2.end_))

/-- A wall of default thickness 6 and height 96 traversed from `start` to `end`, as
the chain entry `{wall, start, end}`. -/
def segmentOf (id : ℕ) (start end_ : Point) : Segment :=
  ⟨⟨id, start, end_, 6, 96⟩, start, end_⟩

/-! ### Constrained corner mover -/

/-- The function `setWallPointPos(wall, pointType, pos)`: overwrite the coordinates of one
endpoint. -/
def setWallPointPos (wall : Wall) (pointType : PointType) (pos : Point) : Wall :=
  match pointType with
  | .start => { wall with start := ⟨pos.x, pos.y⟩ }
  | .end_ => { wall with end_ := ⟨pos.x, pos.y⟩ }

/-- The assignment `wall.start.y = y` or `wall.end.y = y`, by `pointType`. -/
def setWallPointY (wall : Wall) (pointType : PointType) (y : ℝ) : Wall :=
  match pointType with
  | .start => { wall with start := ⟨wall.start.x, y⟩ }
  | .end_ => { wall with end_ := ⟨wall.end_.x, y⟩ }

/-- The assignment `wall.start.x = x` or `wall.end.x = x`, by `pointType`. -/
def setWallPointX (wall : Wall) (pointType : PointType) (x : ℝ) : Wall :=
  match pointType with
  | .start => { wall with start := ⟨x, wall.start.y⟩ }
  | .end_ => { wall with end_ := ⟨x, wall.end_.y⟩ }

/-- The other endpoint selector, `point === 'start' ? 'end' : 'start'`. -/
def otherPointType : PointType → PointType
  | .start => .end_
  | .end_ => .start

/-- An in-place mutation `f` of the wall object at position `i` of `data.walls`. -/
def updateWall : List Wall → ℕ → (Wall → Wall) → List Wall
  | [], _, _ => []
  | wall :: rest, 0, f => f wall :: rest
  | wall :: rest, i + 1, f => wall :: updateWall rest i f

/-- The loop of `findWallsAtPoint`, started at array position `i` with the remaining
walls; an entry `{wall, point}` is the pair of the wall's position and `point`. -/
noncomputable def findWallsAtPointFrom (pos : Point) (excludeWall : Option ℕ) :
    ℕ → List Wall → List (ℕ × PointType)
  | _, [] => []
  | i, wall :: rest =>
    if some i = excludeWall then findWallsAtPointFrom pos excludeWall (i + 1) rest
    else if calculateDistance pos wall.start < 5 then
      (i, .start) :: findWallsAtPointFrom pos excludeWall (i + 1) rest
    else if calculateDistance pos wall.end_ < 5 then
      (i, .end_) :: findWallsAtPointFrom pos excludeWall (i + 1) rest
    else findWallsAtPointFrom pos excludeWall (i + 1) rest

/-- The function `findWallsAtPoint(pos, excludeWall)` on the wall array `data.walls`. -/
noncomputable def findWallsAtPoint (walls : List Wall) (pos : Point) (excludeWall : Option ℕ) :
    List (ℕ × PointType) :=
  findWallsAtPointFrom pos excludeWall 0 walls

/-- The free-movement branch of `moveWallPointWithConstraints`: the body of
`connectedWalls.forEach` moving one connected endpoint to `newPos`. -/
def freeStep (newPos : Point) (walls : List Wall) (conn : ℕ × PointType) : List Wall :=
  updateWall walls conn.1 (fun connWall => setWallPointPos connWall conn.2 newPos)

/-- The position that the first `connectedWalls.forEach` of the constrained branch
assigns to the endpoint `connPoint` of a connected wall. -/
noncomputable def alignTarget (newPos : Point) (connWall : Wall) (connPoint : PointType) :
    Point :=
  let connCurrentPos := getWallPointPos connWall connPoint
  let otherPos := getWallPointPos connWall (otherPointType connPoint)
  if |connCurrentPos.y - otherPos.y| < 5 then ⟨newPos.x, otherPos.y⟩
  else if |connCurrentPos.x - otherPos.x| < 5 then ⟨otherPos.x, newPos.y⟩
  else newPos

/-- The body of the first `connectedWalls.forEach` of the constrained branch: move the
connected endpoint, keeping a horizontal or vertical connected wall axis-aligned, and
re-align the dragged endpoint of `wall` with it. -/
noncomputable def alignStep (wall : ℕ) (pointType : PointType) (newPos : Point)
    (walls : List Wall) (conn : ℕ × PointType) : List Wall :=
  match walls[conn.1]? with
  | none => walls
  | some connWall =>
    let connCurrentPos := getWallPointPos connWall conn.2
    let otherPoint := otherPointType conn.2
    let otherPos := getWallPointPos connWall otherPoint
    if |connCurrentPos.y - otherPos.y| < 5 then
      updateWall
        (updateWall walls conn.1 (fun w => setWallPointPos w conn.2 ⟨newPos.x, otherPos.y⟩))
        wall (fun w => setWallPointY w pointType otherPos.y)
    else if |connCurrentPos.x - otherPos.x| < 5 then
      updateWall
        (updateWall walls conn.1 (fun w => setWallPointPos w conn.2 ⟨otherPos.x, newPos.y⟩))
        wall (fun w => setWallPointX w pointType otherPos.x)
    else
      updateWall walls conn.1 (fun w => setWallPointPos w conn.2 newPos)

/-- The body of `furtherWalls.forEach`: re-align one wall met at the far end `otherPos`
of a connected wall. -/
noncomputable def furtherStep (wall : ℕ) (otherPos : Point) (walls : List Wall)
    (further : ℕ × PointType) : List Wall :=
  if further.1 = wall then walls
  else
    match walls[further.1]? with
    | none => walls
    | some furtherWall =>
      let furtherOtherPoint := otherPointType further.2
      let furtherOtherPos := getWallPointPos furtherWall furtherOtherPoint
      if |otherPos.y - furtherOtherPos.y| < 5 then
        updateWall walls further.1
          (fun w => setWallPointPos w further.2 ⟨otherPos.x, furtherOtherPos.y⟩)
      else if |otherPos.x - furtherOtherPos.x| < 5 then
        updateWall walls further.1
          (fun w => setWallPointPos w further.2 ⟨furtherOtherPos.x, otherPos.y⟩)
      else walls

/-- The body of the second `connectedWalls.forEach` of the constrained branch: one hop
further, from the far end of a connected wall. -/
noncomputable def propagateStep (wall : ℕ) (walls : List Wall) (conn : ℕ × PointType) :
    List Wall :=
  match walls[conn.1]? with
  | none => walls
  | some connWall =>
    let otherPoint := otherPointType conn.2
    let otherPos := getWallPointPos connWall otherPoint
    let furtherWalls := findWallsAtPoint walls otherPos (some conn.1)
    furtherWalls.foldl (furtherStep wall otherPos) walls

/-- The state of `data.walls` after the first `connectedWalls.forEach` of the
constrained branch of `moveWallPointWithConstraints`. -/
noncomputable def constrainedAlign (walls : List Wall) (wall : ℕ) (pointType : PointType)
    (newPos : Point) (connectedWalls : List (ℕ × PointType)) : List Wall :=
  connectedWalls.foldl (alignStep wall pointType newPos)
    (updateWall walls wall (fun w => setWallPointPos w pointType newPos))

/-- The function `moveWallPointWithConstraints(wall, pointType, newPos, shiftKey)` as a function on
the wall array `data.walls`; `wall` is the position of the dragged wall in it (an
index outside the array leaves the array alone). -/
noncomputable def moveWallPointWithConstraints (walls : List Wall) (wall : ℕ)
    (pointType : PointType) (newPos : Point) (shiftKey : Bool) : List Wall :=
  match walls[wall]? with
  | none => walls
  | some w =>
    let currentPos := getWallPointPos w pointType
    let connectedWalls := findWallsAtPoint walls currentPos (some wall)
    if shiftKey = true ∨ connectedWalls.length = 0 then
      connectedWalls.foldl (freeStep newPos)
        (updateWall walls wall (fun w => setWallPointPos w pointType newPos))
    else
      connectedWalls.foldl (propagateStep wall)
        (constrainedAlign walls wall pointType newPos connectedWalls)

/-! ### Path simplifier -/

/-- The function `snapToGrid(value)` with `state.gridSize` as a parameter; `Math.round(x)` is the
nearest integer with ties upward, `⌊x + 1/2⌋`. -/
noncomputable def snapToGrid (gridSize value : ℝ) : ℝ :=
  if gridSize = 0 then value
  else (⌊value / gridSize + 1 / 2⌋ : ℝ) * gridSize

/-- The function `snapPointToGrid(point)`. -/
noncomputable def snapPointToGrid (gridSize : ℝ) (point : Point) : Point :=
  ⟨snapToGrid gridSize point.x, snapToGrid gridSize point.y⟩

/-- The function `perpendicularDistance(point, lineStart, lineEnd)`. -/
noncomputable def perpendicularDistance (point lineStart lineEnd : Point) : ℝ :=
  let dx := lineEnd.x - lineStart.x
  let dy := lineEnd.y - lineStart.y
  if dx = 0 ∧ dy = 0 then calculateDistance point lineStart
  else
    let t := ((point.x - lineStart.x) * dx + (point.y - lineStart.y) * dy) / (dx * dx + dy * dy)
    if t < 0 then calculateDistance point lineStart
    else if t > 1 then calculateDistance point lineEnd
    else calculateDistance point ⟨lineStart.x + t * dx, lineStart.y + t * dy⟩

/-- The loop `for (let i = 1; i < points.length - 1; i++)` of `douglasPeucker` over the
remaining interior points, from index `i`; the state is `(maxDistance, maxIndex)`. -/
noncomputable def maxDistanceLoop (start end_ : Point) : ℕ → List Point → ℝ × ℕ → ℝ × ℕ
  | _, [], state => state
  | i, point :: rest, (maxDistance, maxIndex) =>
    let distance := perpendicularDistance point start end_
    if distance > maxDistance then maxDistanceLoop start end_ (i + 1) rest (distance, i)
    else maxDistanceLoop start end_ (i + 1) rest (maxDistance, maxIndex)

/-- The function `douglasPeucker(points, tolerance)` with a bound `fuel` on the depth of the
recursion; `none` when the bound is reached. -/
noncomputable def douglasPeuckerFuel : ℕ → List Point → ℝ → Option (List Point)
  | 0, points, _ => if points.length ≤ 2 then some points else none
  | fuel + 1, points, tolerance =>
    if points.length ≤ 2 then some points
    else
      match points.head?, points.getLast? with
      | some start, some end_ =>
        let found := maxDistanceLoop start end_ 1 points.tail.dropLast (0, 0)
        let maxDistance := found.1
        let maxIndex := found.2
        if maxDistance > tolerance then
          match douglasPeuckerFuel fuel (points.take (maxIndex + 1)) tolerance,
              douglasPeuckerFuel fuel (points.drop maxIndex) tolerance with
          | some left, some right => some (left.dropLast ++ right)
          | _, _ => none
        else some [start, end_]
      | _, _ => none

/-- The function `douglasPeucker(points, tolerance)`; the depth of the recursion is bounded by the
number of points whenever the recursion terminates. -/
noncomputable def douglasPeucker (points : List Point) (tolerance : ℝ) : Option (List Point) :=
  douglasPeuckerFuel points.length points tolerance

/-- The loop of `simplifyPath` that removes duplicate consecutive points; the state is
`result`. -/
noncomputable def removeDuplicates : List Point → List Point → List Point
  | result, [] => result
  | result, point :: rest =>
    match result.getLast? with
    | some prev =>
      if calculateDistance prev point > 2 then removeDuplicates (result ++ [point]) rest
      else removeDuplicates result rest
    | none => removeDuplicates result rest

/-- The function `simplifyPath(points, tolerance)` with `state.gridSize` as a parameter. The case
`[]` of the match stands for `result = [undefined]`; it is not reached, the output of
`douglasPeucker` on a non-empty list being non-empty. -/
noncomputable def simplifyPath (gridSize : ℝ) (points : List Point) (tolerance : ℝ) :
    Option (List Point) :=
  if points.length < 2 then some points
  else
    match douglasPeucker points tolerance with
    | none => none
    | some simplified0 =>
      match simplified0.map (snapPointToGrid gridSize) with
      | [] => none
      | first :: rest => some (removeDuplicates [first] rest)

/-- The rectangle of the specification: walls `(0,0)-(100,0)`, `(100,0)-(100,80)`,
`(100,80)-(0,80)`, `(0,80)-(0,0)`, thickness 6, height 96, ids 1 to 4. -/
def rectangleWalls : List Wall :=
  [⟨1, ⟨0, 0⟩, ⟨100, 0⟩, 6, 96⟩, ⟨2, ⟨100, 0⟩, ⟨100, 80⟩, 6, 96⟩,
   ⟨3, ⟨100, 80⟩, ⟨0, 80⟩, 6, 96⟩, ⟨4, ⟨0, 80⟩, ⟨0, 0⟩, 6, 96⟩]

/-! ### Extrusion outline of a chain -/

/-- The points pushed to `outerPoints` (or `innerPoints`) at a miter joint: all the
points of the arc when the arc is non-null and non-empty, else the miter point. -/
def jointPoints (arc : Option (List Point)) (miterPoint : Point) : List Point :=
  match arc with
  | some arcPoints => if arcPoints.length > 0 then arcPoints else [miterPoint]
  | none => [miterPoint]

/-- The loop `for (let i = 0; i < chain.length; i++)` of `createChainMesh` over the
remaining segments; `first` is the test `i === 0`; the state is
`(outerPoints, innerPoints)`. -/
noncomputable def chainLoop (halfThick : ℝ) :
    Bool → List Segment → List Point → List Point → List Point × List Point
  | _, [], outerPoints, innerPoints => (outerPoints, innerPoints)
  | first, seg :: rest, outerPoints, innerPoints =>
    let nextSeg := rest.head?
    let dx := seg.end_.x - seg.start.x
    let dy := seg.end_.y - seg.start.y
    let len := Real.sqrt (dx * dx + dy * dy)
    if len < 0.1 then chainLoop halfThick false rest outerPoints innerPoints
    else
      let dirX := dx / len
      let dirY := dy / len
      let perpX := -dirY
      let perpY := dirX
      let outer1 := if first then
          outerPoints ++ [⟨seg.start.x + perpX * halfThick, seg.start.y + perpY * halfThick⟩]
        else outerPoints
      let inner1 := if first then
          innerPoints ++ [⟨seg.start.x - perpX * halfThick, seg.start.y - perpY * halfThick⟩]
        else innerPoints
      match nextSeg with
      | some nextSeg =>
        let miter := calculateMiterPoint seg nextSeg halfThick true
        chainLoop halfThick false rest (outer1 ++ jointPoints miter.outerArc miter.outer)
          (inner1 ++ jointPoints miter.innerArc miter.inner)
      | none =>
        chainLoop halfThick false rest
          (outer1 ++ [⟨seg.end_.x + perpX * halfThick, seg.end_.y + perpY * halfThick⟩])
          (inner1 ++ [⟨seg.end_.x - perpX * halfThick, seg.end_.y - perpY * halfThick⟩])

/-- The array assignment `points[points.length - 1] = value`; on an empty array it
sets the property `-1` and leaves the elements alone. -/
def setLast (points : List Point) (value : Point) : List Point :=
  if points.length = 0 then points else points.set (points.length - 1) value

/-- The array assignment `points[0] = value`; an empty array gets the one element. -/
def setFirst (points : List Point) (value : Point) : List Point :=
  match points with
  | [] => [value]
  | _ :: rest => value :: rest

/-- The lists `outerPoints` and `innerPoints` of `createChainMesh` for a non-empty
chain, after the loop over the segments and the closing joint. -/
noncomputable def chainBoundaryPoints (firstSeg lastSeg : Segment) (chain : List Segment)
    (halfThick : ℝ) : List Point × List Point :=
  let points := chainLoop halfThick true chain [] []
  let isClosed := calculateDistance firstSeg.start lastSeg.end_ < 5
  if isClosed ∧ chain.length > 1 then
    let miter := calculateMiterPoint lastSeg firstSeg halfThick true
    (setFirst (setLast points.1 miter.outer) miter.outer,
      setFirst (setLast points.2 miter.inner) miter.inner)
  else points

/-- The arguments `(p.x, -p.y)` with which `createChainMesh` passes a point to
`shape.moveTo` and `shape.lineTo`. -/
def shapePoint (p : Point) : Point :=
  ⟨p.x, -p.y⟩

/-- The part of the result of `createChainMesh` that is geometry: the path of the
`THREE.Shape` (the arguments of `moveTo` and of the `lineTo` calls, in order) and the
extrusion `depth`. -/
structure ChainMesh where
  outline : List Point
  depth : ℝ

/-- The function `createChainMesh(chain)` with `state.defaultWallThickness` and
`state.defaultWallHeight` as parameters. `.ok none` is the result `null`; `.error` is
the `TypeError` raised by reading `outerPoints[0].x` when `outerPoints` is empty. -/
noncomputable def createChainMesh (chain : List Segment)
    (defaultWallThickness defaultWallHeight : ℝ) : Except String (Option ChainMesh) :=
  match chain.head?, chain.getLast? with
  | some firstSeg, some lastSeg =>
    let thickness := defaultWallThickness
    let height := defaultWallHeight
    let halfThick := thickness / 2
    let points := chainBoundaryPoints firstSeg lastSeg chain halfThick
    let outerPoints := points.1
    let innerPoints := points.2
    match outerPoints.head? with
    | none => .error "TypeError: outerPoints[0] is undefined"
    | some outer0 =>
      .ok (some
        { outline := (outerPoints ++ innerPoints.reverse ++ [outer0]).map shapePoint
          depth := height })
  | _, _ => .ok none

/-- A necessary condition for the polygon with vertices `poly` to contain `p`: the
point lies in every closed half-plane `a * x + b * y ≤ c` that contains all the
vertices, that is, in the convex hull of the vertices. -/
def inHullOf (poly : List Point) (p : Point) : Prop :=
  ∀ a b c : ℝ, (∀ q ∈ poly, a * q.x + b * q.y ≤ c) → a * p.x + b * p.y ≤ c

/-- The chain entry of the rectangle wall `(0,0)-(100,0)`. -/
def rectangleSeg1 : Segment := ⟨⟨1, ⟨0, 0⟩, ⟨100, 0⟩, 6, 96⟩, ⟨0, 0⟩, ⟨100, 0⟩⟩

/-- The chain entry of the rectangle wall `(100,0)-(100,80)`. -/
def rectangleSeg2 : Segment := ⟨⟨2, ⟨100, 0⟩, ⟨100, 80⟩, 6, 96⟩, ⟨100, 0⟩, ⟨100, 80⟩⟩

/-- The chain entry of the rectangle wall `(100,80)-(0,80)`. -/
def rectangleSeg3 : Segment := ⟨⟨3, ⟨100, 80⟩, ⟨0, 80⟩, 6, 96⟩, ⟨100, 80⟩, ⟨0, 80⟩⟩

/-- The chain entry of the rectangle wall `(0,80)-(0,0)`. -/
def rectangleSeg4 : Segment := ⟨⟨4, ⟨0, 80⟩, ⟨0, 0⟩, 6, 96⟩, ⟨0, 80⟩, ⟨0, 0⟩⟩

/-- The closed chain that `findWallChains` produces from `rectangleWalls`. -/
def rectangleChain : List Segment :=
  [rectangleSeg1, rectangleSeg2, rectangleSeg3, rectangleSeg4]

/-! ### Snap resolver -/

/-- The result `{ point, snappedX, snappedY }` of `snapToHVAlignment`. -/
structure HVResult where
  point : Point
  snappedX : Bool
  snappedY : Bool

/-- The body of the loop `for (const ep of endpoints)` of `snapToHVAlignment`, threshold 8:
the test of the horizontal alignment (same `y`), then that of the vertical alignment
(same `x`). -/
noncomputable def hvEndpointStep (point : Point) (st : HVResult) (ep : Point) : HVResult :=
  let st1 : HVResult :=
    if st.snappedY = false ∧ |point.y - ep.y| < 8 then ⟨⟨st.point.x, ep.y⟩, st.snappedX, true⟩
    else st
  if st1.snappedX = false ∧ |point.x - ep.x| < 8 then ⟨⟨ep.x, st1.point.y⟩, true, st1.snappedY⟩
  else st1

/-- The loop `for (const wall of data.walls)` of `snapToHVAlignment` over the remaining
walls, from index `i`; `excludeWalls` holds the indices of the excluded walls. -/
noncomputable def snapToHVAlignmentFrom (point : Point) (excludeWalls : List ℕ) :
    ℕ → List Wall → HVResult → HVResult
  | _, [], st => st
  | i, wall :: rest, st =>
    if i ∈ excludeWalls then snapToHVAlignmentFrom point excludeWalls (i + 1) rest st
    else
      let st1 := [wall.start, wall.end_].foldl (hvEndpointStep point) st
      if st1.snappedX && st1.snappedY then st1
      else snapToHVAlignmentFrom point excludeWalls (i + 1) rest st1

/-- The function `snapToHVAlignment(point, excludeWalls)` with `data.walls` as a parameter. -/
noncomputable def snapToHVAlignment (walls : List Wall) (point : Point)
    (excludeWalls : List ℕ) : HVResult :=
  snapToHVAlignmentFrom point excludeWalls 0 walls ⟨⟨point.x, point.y⟩, false, false⟩

/-- The function `snapPointWithHVAlignment(point, excludeWalls)` with `state.gridSize` and
`data.walls` as parameters. -/
noncomputable def snapPointWithHVAlignment (gridSize : ℝ) (walls : List Wall) (point : Point)
    (excludeWalls : List ℕ) : Point :=
  let snapped := snapPointToGrid gridSize point
  let hvResult := snapToHVAlignment walls point excludeWalls
  let snapped1 : Point := if hvResult.snappedX then ⟨hvResult.point.x, snapped.y⟩ else snapped
  if hvResult.snappedY then ⟨snapped1.x, hvResult.point.y⟩ else snapped1

/-- The scan order of the specification: the walls in insertion order from index `i`,
skipping the excluded walls, `start` before `end`. -/
def scanEndpoints (excludeWalls : List ℕ) : ℕ → List Wall → List Point
  | _, [] => []
  | i, wall :: rest =>
    if i ∈ excludeWalls then scanEndpoints excludeWalls (i + 1) rest
    else wall.start :: wall.end_ :: scanEndpoints excludeWalls (i + 1) rest

/-- The T-junction of the specification: walls `(0,0)-(100,0)`, `(100,0)-(200,0)` and
`(100,0)-(100,100)`, in this order, with ids 1, 2, 3. -/
def tJunctionWalls : List Wall :=
  [⟨1, ⟨0, 0⟩, ⟨100, 0⟩, 6, 96⟩, ⟨2, ⟨100, 0⟩, ⟨200, 0⟩, 6, 96⟩, ⟨3, ⟨100, 0⟩, ⟨100, 100⟩, 6, 96⟩]

/-! ### Openings -/

/-- The fields of the `Opening` class that the engine reads. The reference `opening.wall`
is the id of the wall object. -/
structure Opening where
  id : ℕ
  type : String
  wall : ℕ
  position : ℝ
  width : ℝ
  height : ℝ
  sillHeight : ℝ

/-- The materials created in `createOpening3DMesh`. -/
inductive Material where
  | wallMat
  | frameMat
  | voidMat
  | frameMatDark
  | frameMatLight
  deriving DecidableEq

/-- A mesh `new THREE.Mesh(new THREE.BoxGeometry(width, height, depth), material)` with its
`position.set(x, y, z)`; a mesh whose position is not set is at `(0, 0, 0)`. -/
structure BoxMesh where
  width : ℝ
  height : ℝ
  depth : ℝ
  x : ℝ
  y : ℝ
  z : ℝ
  material : Material

/-- The lowest height of a box: a `BoxGeometry` is centred on the position of its mesh. -/
noncomputable def BoxMesh.bottom (b : BoxMesh) : ℝ := b.y - b.height / 2

/-- The highest height of a box. -/
noncomputable def BoxMesh.top (b : BoxMesh) : ℝ := b.y + b.height / 2

/-- The `THREE.Group` returned by `createOpening3DMesh`: its children in the order of the
`group.add` calls, its position and its rotation about the vertical axis. -/
structure OpeningGroup where
  children : List BoxMesh
  position : ℝ × ℝ × ℝ
  rotationY : ℝ

/-- The getter `opening.worldPosition`, `wall` being the wall `opening.wall`. -/
noncomputable def worldPosition (wall : Wall) (opening : Opening) : Point :=
  let dx := wall.end_.x - wall.start.x
  let dy := wall.end_.y - wall.start.y
  ⟨wall.start.x + dx * opening.position, wall.start.y + dy * opening.position⟩

/-- The getter `wall.angle`. -/
noncomputable def wallAngle (wall : Wall) : ℝ :=
  atan2 (wall.end_.y - wall.start.y) (wall.end_.x - wall.start.x)

/-- The function `createOpening3DMesh(opening)`, `wall` being the wall `opening.wall`. The
default `opening.sillHeight || 0` is the identity on the real numbers. -/
noncomputable def createOpening3DMesh (wall : Wall) (opening : Opening) : OpeningGroup :=
  let pos := worldPosition wall opening
  let angle := wallAngle wall
  let openingHeight := opening.height
  let width := opening.width
  let depth := wall.thickness + 2
  let sillHeight := opening.sillHeight
  let wallHeight := wall.height
  let isDoor := opening.type.startsWith "door"
  let group0 : List BoxMesh :=
    if sillHeight > 0 then [⟨width, sillHeight, depth, 0, sillHeight / 2, 0, .wallMat⟩] else []
  let headerHeight := wallHeight - sillHeight - openingHeight
  let group1 : List BoxMesh :=
    if headerHeight > 0 then
      group0 ++ [⟨width, headerHeight, depth, 0, sillHeight + openingHeight + headerHeight / 2, 0,
        .wallMat⟩]
    else group0
  let group2 : List BoxMesh :=
    if isDoor then
      group1 ++
        [⟨width, openingHeight, depth, 0, sillHeight + openingHeight / 2, 0, .voidMat⟩,
          ⟨width - 2, openingHeight - 2, 2, 0, sillHeight + openingHeight / 2, depth / 2 - 1,
            .frameMat⟩,
          ⟨width, 2, depth, 0, sillHeight + openingHeight - 1, 0, .frameMatDark⟩,
          ⟨2, openingHeight, depth, -width / 2 + 1, sillHeight + openingHeight / 2, 0,
            .frameMatDark⟩,
          ⟨2, openingHeight, depth, width / 2 - 1, sillHeight + openingHeight / 2, 0,
            .frameMatDark⟩,
          ⟨width, 1, depth, 0, 0.5, 0, .frameMatDark⟩]
    else
      group1 ++
        [⟨width - 2, openingHeight - 2, depth, 0, sillHeight + openingHeight / 2, 0, .voidMat⟩,
          ⟨width - 4, openingHeight - 4, 1, 0, sillHeight + openingHeight / 2, 0, .frameMat⟩,
          ⟨width, 2, depth, 0, sillHeight + openingHeight - 1, 0, .frameMatLight⟩,
          ⟨width, 2, depth, 0, sillHeight + 1, 0, .frameMatLight⟩,
          ⟨2, openingHeight, depth, -width / 2 + 1, sillHeight + openingHeight / 2, 0,
            .frameMatLight⟩,
          ⟨2, openingHeight, depth, width / 2 - 1, sillHeight + openingHeight / 2, 0,
            .frameMatLight⟩] ++
        (if opening.type = "window-double" then
          [⟨2, openingHeight - 4, depth, 0, sillHeight + openingHeight / 2, 0, .frameMatLight⟩]
        else [])
  { children := group2
    position := (pos.x, 0, pos.y)
    rotationY := -angle }

/-! ### Deletion of walls -/

/-- A wall object together with its array `wall.openings`, which holds the ids of its
openings. The identity of a wall object is its id. -/
structure WallObject where
  wall : Wall
  openings : List ℕ

/-- The two arrays `data.walls` and `data.openings` of the scene. -/
structure SceneData where
  walls : List WallObject
  openings : List Opening

/-- The statements `idx = array.indexOf(obj); if (idx > -1) array.splice(idx, 1)` on
`data.openings`, for the opening object with the id `opening`. -/
def removeOpening (openings : List Opening) (opening : ℕ) : List Opening :=
  openings.eraseP (fun o => o.id = opening)

/-- The function `deleteObject(obj)` for a wall `obj`. -/
def deleteObject (data : SceneData) (obj : WallObject) : SceneData :=
  { walls := data.walls.eraseP (fun w => w.wall.id = obj.wall.id)
    openings := obj.openings.foldl removeOpening data.openings }

/-- The function `deleteWallPoint({ wall, point })` on the scene data, with
`state.defaultWallThickness` and `state.defaultWallHeight` as parameters; `newId` is the
id of the wall created by the merge. -/
noncomputable def deleteWallPoint (data : SceneData) (wall : WallObject) (point : PointType)
    (defaultWallThickness defaultWallHeight : ℝ) (newId : ℕ) : SceneData :=
  let pointToDelete := if point = .start then wall.wall.start else wall.wall.end_
  let otherPoint := if point = .start then wall.wall.end_ else wall.wall.start
  let connectedWalls := data.walls.filter fun w =>
    if w.wall.id = wall.wall.id then false
    else decide (calculateDistance w.wall.start pointToDelete < 10 ∨
      calculateDistance w.wall.end_ pointToDelete < 10)
  match connectedWalls with
  | [otherWall] =>
    let otherConnectsAtStart := calculateDistance otherWall.wall.start pointToDelete < 10
    let newStart := otherPoint
    let newEnd := if otherConnectsAtStart then otherWall.wall.end_ else otherWall.wall.start
    let newWall : WallObject :=
      ⟨⟨newId, newStart, newEnd, defaultWallThickness, defaultWallHeight⟩, []⟩
    { walls := (data.walls.filter fun w =>
          decide (w.wall.id ≠ wall.wall.id ∧ w.wall.id ≠ otherWall.wall.id)) ++ [newWall]
      openings := data.openings }
  | [] =>
    { walls := data.walls.filter fun w => decide (w.wall.id ≠ wall.wall.id)
      openings := data.openings }
  | _ =>
    { walls := data.walls.filter fun w => decide (w.wall.id ≠ wall.wall.id)
      openings := data.openings }

/-- The invariant of the specification: every opening in `data.openings` refers to a wall
that is in `data.walls`. -/
def openingsAttached (data : SceneData) : Prop :=
  ∀ o ∈ data.openings, ∃ w ∈ data.walls, w.wall.id = o.wall

/-- The point of the chord from `a` to `b` at the parameter `s`; the closed segment
`[a, b]` is the set of these points for `0 ≤ s ≤ 1`. -/
def chordPoint (a b : Point) (s : ℝ) : Point :=
  ⟨a.x + s * (b.x - a.x), a.y + s * (b.y - a.y)⟩

/-- The guarantee of the specification for the simplification of `points` to `out`, with
tolerance `tol`: `out` keeps the first point; the points of `points` between two
consecutive points `q`, `q'` of `out` (in input order) are at a `perpendicularDistance` of
at most `tol` from the chord `(q, q')`; and `out` ends with the last point. -/
def keepsWithin (tol : ℝ) : List Point → List Point → Prop
  | [], points => points = []
  | [q], points => points = [q]
  | q :: q' :: rest, points =>
    ∃ between remaining, points = q :: (between ++ remaining) ∧
      (∀ p ∈ between, perpendicularDistance p q q' ≤ tol) ∧
      keepsWithin tol (q' :: rest) remaining

/-- Three walls meeting at the corner `(100,100)`: the diagonal wall `(100,100)-(200,200)`,
the horizontal wall `(0,100)-(100,100)` and the vertical wall `(100,0)-(100,100)`. -/
def cornerWalls : List Wall :=
  [⟨1, ⟨100, 100⟩, ⟨200, 200⟩, 6, 96⟩, ⟨2, ⟨0, 100⟩, ⟨100, 100⟩, 6, 96⟩,
    ⟨3, ⟨100, 0⟩, ⟨100, 100⟩, 6, 96⟩]

/-! ### Chain discovery with a count of the loop passes -/

/-- The "extend forward from end" loop of `findWallChains` with two counters added to its
state: `steps`, the passes through the loop body that find a wall and mark it as used, and
`exits`, the passes that find none and leave the loop by `break`. -/
noncomputable def extendForwardCount (wallsCopy : List Wall) :
    ℕ → List ℕ → Point → ℕ → List Segment → ℕ × ℕ → Option (List ℕ × List Segment × (ℕ × ℕ))
  | 0, _, _, _, _, _ => none
  | fuel + 1, used, currentEnd, lastWall, chain, (steps, exits) =>
    match findConnectedWall wallsCopy used currentEnd lastWall with
    | none => some (used, chain, (steps, exits + 1))
    | some next =>
      let segStart := getWallPointPos next.wall next.startPoint
      let segEnd := getWallPointPos next.wall next.endPoint
      extendForwardCount wallsCopy fuel (next.wall.id :: used) segEnd next.idx
        (chain ++ [⟨next.wall, segStart, segEnd⟩]) (steps + 1, exits)

/-- The "extend backward from start" loop of `findWallChains` with the two counters. -/
noncomputable def extendBackwardCount (wallsCopy : List Wall) :
    ℕ → List ℕ → Point → ℕ → List Segment → ℕ × ℕ → Option (List ℕ × List Segment × (ℕ × ℕ))
  | 0, _, _, _, _, _ => none
  | fuel + 1, used, currentStart, lastWall, frontSegments, (steps, exits) =>
    match findConnectedWall wallsCopy used currentStart lastWall with
    | none => some (used, frontSegments, (steps, exits + 1))
    | some prev =>
      let segStart := getWallPointPos prev.wall prev.endPoint
      let segEnd := getWallPointPos prev.wall prev.startPoint
      extendBackwardCount wallsCopy fuel (prev.wall.id :: used) segStart prev.idx
        (⟨prev.wall, segStart, segEnd⟩ :: frontSegments) (steps + 1, exits)

/-- The "build chains" loop of `findWallChains` with the two counters of the passes
through the bodies of its two `while (true)` loops. -/
noncomputable def buildChainsFromCount (wallsCopy : List Wall) :
    ℕ → List Wall → List ℕ → List (List Segment) → ℕ × ℕ →
      Option (List (List Segment) × (ℕ × ℕ))
  | _, [], _, chains, count => some (chains, count)
  | i, startWall :: rest, used, chains, count =>
    if startWall.id ∈ used then
      buildChainsFromCount wallsCopy (i + 1) rest used chains count
    else
      match extendForwardCount wallsCopy (wallsCopy.length + 1) (startWall.id :: used)
          startWall.end_ i [⟨startWall, startWall.start, startWall.end_⟩] count with
      | none => none
      | some (used1, chain, count1) =>
        match extendBackwardCount wallsCopy (wallsCopy.length + 1) used1 startWall.start i []
            count1 with
        | none => none
        | some (used2, frontSegments, count2) =>
          buildChainsFromCount wallsCopy (i + 1) rest used2 (chains ++ [frontSegments ++ chain])
            count2

/-- The function `findWallChains()` with the two counters, which start at 0. -/
noncomputable def findWallChainsCount (walls : List Wall) :
    Option (List (List Segment) × (ℕ × ℕ)) :=
  buildChainsFromCount walls 0 walls [] [] (0, 0)

/-! ## Theorems -/

/-! Auxiliary facts are proved in groups. A theorem called `..._lemmas` states the
conjunction of its parts and proves each part under a name of its own; a theorem that uses
a part introduces it under that name, as in `have pointsMatch_self := distance_lemmas.2.2.1`. -/

/-! ### Distances -/

/-- Facts on distances against a threshold and on `pointsMatch`, and chain discovery on four walls
with pairwise distinct ids that form a closed loop; the parts are stated and explained one by one
in the proof. -/
theorem distance_lemmas :
    (∀ (p q : Point) (t : ℝ) (_ : 0 < t),
        calculateDistance p q < t ↔
          (q.x - p.x) * (q.x - p.x) + (q.y - p.y) * (q.y - p.y) < t ^ 2) ∧
    (∀ (p q : Point),
        pointsMatch p q ↔ (q.x - p.x) * (q.x - p.x) + (q.y - p.y) * (q.y - p.y) < 25) ∧
    (∀ (p : Point),
        pointsMatch p p) ∧
    (∀ (p q : Point) (t : ℝ) (_ : 0 < t),
        t ≤ calculateDistance p q ↔
          t ^ 2 ≤ (q.x - p.x) * (q.x - p.x) + (q.y - p.y) * (q.y - p.y)) ∧
    (∀ (p q : Point),
        calculateDistance p q < 5 ↔
          (q.x - p.x) * (q.x - p.x) + (q.y - p.y) * (q.y - p.y) < 25) ∧
    (∀ (w0 w1 w2 w3 : Wall) (_ : w0.end_ = w1.start) (_ : w1.end_ = w2.start)
        (_ : w2.end_ = w3.start) (_ : [w0.id, w1.id, w2.id, w3.id].Nodup),
        findWallChains [w0, w1, w2, w3] =
          some [[⟨w0, w0.start, w0.end_⟩, ⟨w1, w1.start, w1.end_⟩, ⟨w2, w2.start, w2.end_⟩,
            ⟨w3, w3.start, w3.end_⟩]]) := by
  have calculateDistance_lt_iff : ∀ (p q : Point) (t : ℝ) (_ : 0 < t),
      calculateDistance p q < t ↔
        (q.x - p.x) * (q.x - p.x) + (q.y - p.y) * (q.y - p.y) < t ^ 2 := by
    intro p q t ht
    unfold calculateDistance
    exact Real.sqrt_lt' ht
  have pointsMatch_iff : ∀ (p q : Point),
      pointsMatch p q ↔ (q.x - p.x) * (q.x - p.x) + (q.y - p.y) * (q.y - p.y) < 25 := by
    intro p q
    unfold pointsMatch
    rw [calculateDistance_lt_iff p q 5 (by norm_num)]
    norm_num
  have pointsMatch_self : ∀ (p : Point),
      pointsMatch p p := by
    intro p
    rw [pointsMatch_iff]; norm_num
  have le_calculateDistance_iff : ∀ (p q : Point) (t : ℝ) (_ : 0 < t),
      t ≤ calculateDistance p q ↔
        t ^ 2 ≤ (q.x - p.x) * (q.x - p.x) + (q.y - p.y) * (q.y - p.y) := by
    intro p q t ht
    rw [← not_lt, calculateDistance_lt_iff p q t ht, not_lt]
  have calculateDistance_lt_five : ∀ (p q : Point),
      calculateDistance p q < 5 ↔
        (q.x - p.x) * (q.x - p.x) + (q.y - p.y) * (q.y - p.y) < 25 := by
    intro p q
    rw [calculateDistance_lt_iff p q 5 (by norm_num)]
    norm_num
  /- Chain discovery on a closed loop of four walls -/
  /- Four walls with pairwise distinct ids, listed so that each one ends where the
  next one starts, are assembled into one chain in list order. -/
  have findWallChains_loop4 : ∀ (w0 w1 w2 w3 : Wall) (_ : w0.end_ = w1.start)
      (_ : w1.end_ = w2.start) (_ : w2.end_ = w3.start) (_ : [w0.id, w1.id, w2.id, w3.id].Nodup),
      findWallChains [w0, w1, w2, w3] =
        some [[⟨w0, w0.start, w0.end_⟩, ⟨w1, w1.start, w1.end_⟩, ⟨w2, w2.start, w2.end_⟩,
          ⟨w3, w3.start, w3.end_⟩]] := by
    intro w0 w1 w2 w3 h01 h12 h23 hid
    simp only [List.nodup_cons, List.mem_cons, List.mem_singleton, not_or, List.not_mem_nil,
      not_false_eq_true, List.nodup_nil, and_true] at hid
    obtain ⟨⟨a, b, c⟩, ⟨d, e⟩, f⟩ := hid
    simp [findWallChains, buildChainsFrom, extendForward, extendBackward, findConnectedWall,
      findConnectedWallFrom, h01, h12, h23, pointsMatch_self, getWallPointPos, a, b, c, d, e, f,
      Ne.symm a, Ne.symm b, Ne.symm c, Ne.symm d, Ne.symm e, Ne.symm f]
  exact ⟨calculateDistance_lt_iff, pointsMatch_iff, pointsMatch_self, le_calculateDistance_iff,
    calculateDistance_lt_five, findWallChains_loop4⟩
/-- C1, amended (chain closure). For every axis-aligned rectangle `A B C D` whose sides
are at least 5 units long, given as the four walls `A-B`, `B-C`, `C-D`, `D-A` with
pairwise distinct ids, `findWallChains` returns exactly one chain; the chain has exactly
four entries, one per wall in list order, and it passes the `isClosed` test. -/
theorem C1_rectangle_chain_closed (A B C D : Point) (w0 w1 w2 w3 : Wall)
    (hrect : (A.y = B.y ∧ B.x = C.x ∧ C.y = D.y ∧ D.x = A.x) ∨
      (A.x = B.x ∧ B.y = C.y ∧ C.x = D.x ∧ D.y = A.y))
    (hAB : 5 ≤ calculateDistance A B) (hBC : 5 ≤ calculateDistance B C)
    (hw0 : w0.start = A ∧ w0.end_ = B) (hw1 : w1.start = B ∧ w1.end_ = C)
    (hw2 : w2.start = C ∧ w2.end_ = D) (hw3 : w3.start = D ∧ w3.end_ = A)
    (hid : [w0.id, w1.id, w2.id, w3.id].Nodup) :
    ∃ e0 e1 e2 e3 : Segment,
      findWallChains [w0, w1, w2, w3] = some [[e0, e1, e2, e3]] ∧
      e0.wall = w0 ∧ e1.wall = w1 ∧ e2.wall = w2 ∧ e3.wall = w3 ∧
      isClosed e0 e3 := by
  have pointsMatch_self := distance_lemmas.2.2.1
  have findWallChains_loop4 := distance_lemmas.2.2.2.2.2
  refine ⟨_, _, _, _, findWallChains_loop4 w0 w1 w2 w3 (by rw [hw0.2, hw1.1])
    (by rw [hw1.2, hw2.1]) (by rw [hw2.2, hw3.1]) hid, rfl, rfl, rfl, rfl, ?_⟩
  show calculateDistance w0.start w3.end_ < 5
  rw [hw0.1, hw3.2]
  exact pointsMatch_self A

/-- C1 at the rectangle of the specification. -/
theorem C1_rectangle_chain_closed_witness :
    ∃ e0 e1 e2 e3 : Segment,
      findWallChains rectangleWalls = some [[e0, e1, e2, e3]] ∧
      e0.wall = ⟨1, ⟨0, 0⟩, ⟨100, 0⟩, 6, 96⟩ ∧ e1.wall = ⟨2, ⟨100, 0⟩, ⟨100, 80⟩, 6, 96⟩ ∧
      e2.wall = ⟨3, ⟨100, 80⟩, ⟨0, 80⟩, 6, 96⟩ ∧ e3.wall = ⟨4, ⟨0, 80⟩, ⟨0, 0⟩, 6, 96⟩ ∧
      isClosed e0 e3 := by
  have le_calculateDistance_iff := distance_lemmas.2.2.2.1
  exact
    C1_rectangle_chain_closed ⟨0, 0⟩ ⟨100, 0⟩ ⟨100, 80⟩ ⟨0, 80⟩ _ _ _ _
      (Or.inl ⟨rfl, rfl, rfl, rfl⟩)
      (by rw [le_calculateDistance_iff _ _ _ (by norm_num)]; norm_num)
      (by rw [le_calculateDistance_iff _ _ _ (by norm_num)]; norm_num)
      ⟨rfl, rfl⟩ ⟨rfl, rfl⟩ ⟨rfl, rfl⟩ ⟨rfl, rfl⟩ (by decide)

/-- C1 as stated fails: the four walls of the rectangle `(0,0)`, `(100,0)`, `(100,80)`,
`(0,80)`, the second of which has the id of the first, give one chain with three entries;
the wall `(100,0)-(100,80)` is in no chain. -/
theorem C1_counterexample :
    findWallChains [⟨1, ⟨0, 0⟩, ⟨100, 0⟩, 6, 96⟩, ⟨1, ⟨100, 0⟩, ⟨100, 80⟩, 6, 96⟩,
        ⟨3, ⟨100, 80⟩, ⟨0, 80⟩, 6, 96⟩, ⟨4, ⟨0, 80⟩, ⟨0, 0⟩, 6, 96⟩] =
      some [[⟨⟨3, ⟨100, 80⟩, ⟨0, 80⟩, 6, 96⟩, ⟨100, 80⟩, ⟨0, 80⟩⟩,
        ⟨⟨4, ⟨0, 80⟩, ⟨0, 0⟩, 6, 96⟩, ⟨0, 80⟩, ⟨0, 0⟩⟩,
        ⟨⟨1, ⟨0, 0⟩, ⟨100, 0⟩, 6, 96⟩, ⟨0, 0⟩, ⟨100, 0⟩⟩]] ∧
    ∀ e0 e1 e2 e3 : Segment,
      findWallChains [⟨1, ⟨0, 0⟩, ⟨100, 0⟩, 6, 96⟩, ⟨1, ⟨100, 0⟩, ⟨100, 80⟩, 6, 96⟩,
        ⟨3, ⟨100, 80⟩, ⟨0, 80⟩, 6, 96⟩, ⟨4, ⟨0, 80⟩, ⟨0, 0⟩, 6, 96⟩] ≠
      some [[e0, e1, e2, e3]] := by
  have calculateDistance_lt_five := distance_lemmas.2.2.2.2.1
  have h : findWallChains [⟨1, ⟨0, 0⟩, ⟨100, 0⟩, 6, 96⟩, ⟨1, ⟨100, 0⟩, ⟨100, 80⟩, 6, 96⟩,
        ⟨3, ⟨100, 80⟩, ⟨0, 80⟩, 6, 96⟩, ⟨4, ⟨0, 80⟩, ⟨0, 0⟩, 6, 96⟩] =
      some [[⟨⟨3, ⟨100, 80⟩, ⟨0, 80⟩, 6, 96⟩, ⟨100, 80⟩, ⟨0, 80⟩⟩,
        ⟨⟨4, ⟨0, 80⟩, ⟨0, 0⟩, 6, 96⟩, ⟨0, 80⟩, ⟨0, 0⟩⟩,
        ⟨⟨1, ⟨0, 0⟩, ⟨100, 0⟩, 6, 96⟩, ⟨0, 0⟩, ⟨100, 0⟩⟩]] := by
    norm_num [findWallChains, buildChainsFrom, extendForward, extendBackward,
      findConnectedWall, findConnectedWallFrom, pointsMatch, calculateDistance_lt_five,
      getWallPointPos]
  refine ⟨h, ?_⟩
  intro e0 e1 e2 e3 hc
  rw [h] at hc
  simp at hc

/-! ### Chain discovery: every wall is consumed exactly once -/

/-- Invariants of chain discovery: what `findConnectedWall` returns, and what the forward loop,
the backward loop and the chain builder keep true of the set of used ids and of the entries; the
parts are explained one by one in the proof. -/
theorem chain_partition_lemmas :
    (∀ (used : List ℕ) (p : Point) (ex : ℕ) (c : Connected),
        ∀ (rest : List Wall) (i : ℕ), findConnectedWallFrom used p ex i rest = some c →
          c.wall ∈ rest ∧ c.wall.id ∉ used ∧
            ((c.startPoint = .start ∧ c.endPoint = .end_ ∧ pointsMatch p c.wall.start) ∨
              (c.startPoint = .end_ ∧ c.endPoint = .start ∧ pointsMatch p c.wall.end_))) ∧
    (∀ (walls : List Wall) (used : List ℕ) (_ : used.Nodup)
        (_ : ∀ a ∈ used, a ∈ walls.map Wall.id),
        used.length ≤ walls.length) ∧
    (∀ (walls : List Wall),
        ∀ (fuel : ℕ) (used : List ℕ) (p : Point) (last : ℕ) (chain : List Segment),
          used.Nodup → (∀ a ∈ used, a ∈ walls.map Wall.id) → walls.length < fuel + used.length →
          ∃ used1 new, extendForward walls fuel used p last chain = some (used1, chain ++ new) ∧
            used1.Nodup ∧ (∀ a ∈ used1, a ∈ walls.map Wall.id) ∧
            used1.Perm (new.map (fun e => e.wall.id) ++ used) ∧ ∀ e ∈ new, e.wall ∈ walls) ∧
    (∀ (walls : List Wall),
        ∀ (fuel : ℕ) (used : List ℕ) (p : Point) (last : ℕ) (front : List Segment),
          used.Nodup → (∀ a ∈ used, a ∈ walls.map Wall.id) → walls.length < fuel + used.length →
          ∃ used1 new, extendBackward walls fuel used p last front = some (used1, new ++ front) ∧
            used1.Nodup ∧ (∀ a ∈ used1, a ∈ walls.map Wall.id) ∧
            used1.Perm (new.map (fun e => e.wall.id) ++ used) ∧ ∀ e ∈ new, e.wall ∈ walls) ∧
    (∀ (walls : List Wall),
        ∀ (rest : List Wall) (i : ℕ) (used : List ℕ) (chains : List (List Segment)),
          (∀ w ∈ rest, w ∈ walls) → used.Nodup → (∀ a ∈ used, a ∈ walls.map Wall.id) →
          (chains.flatten.map (fun e => e.wall.id)).Perm used →
          (∀ e ∈ chains.flatten, e.wall ∈ walls) →
          ∃ chains1 used1, buildChainsFrom walls i rest used chains = some chains1 ∧
            used1.Nodup ∧ (∀ a ∈ used1, a ∈ walls.map Wall.id) ∧
            (chains1.flatten.map (fun e => e.wall.id)).Perm used1 ∧
            (∀ e ∈ chains1.flatten, e.wall ∈ walls) ∧
            (∀ a ∈ used, a ∈ used1) ∧ (∀ w ∈ rest, w.id ∈ used1)) := by
  have findConnectedWallFrom_some : ∀ (used : List ℕ) (p : Point) (ex : ℕ) (c : Connected),
      ∀ (rest : List Wall) (i : ℕ), findConnectedWallFrom used p ex i rest = some c →
        c.wall ∈ rest ∧ c.wall.id ∉ used ∧
          ((c.startPoint = .start ∧ c.endPoint = .end_ ∧ pointsMatch p c.wall.start) ∨
            (c.startPoint = .end_ ∧ c.endPoint = .start ∧ pointsMatch p c.wall.end_)) := by
    intro used p ex c
    intro rest
    induction rest with
    | nil => intro i h; simp [findConnectedWallFrom] at h
    | cons wall rest ih =>
      intro i h
      unfold findConnectedWallFrom at h
      split_ifs at h with h1 h2 h3
      · obtain ⟨a, b, c⟩ := ih _ h
        exact ⟨List.mem_cons_of_mem _ a, b, c⟩
      · cases h
        exact ⟨List.mem_cons_self _ _, fun hu => h1 (Or.inr hu), Or.inl ⟨rfl, rfl, h2⟩⟩
      · cases h
        exact ⟨List.mem_cons_self _ _, fun hu => h1 (Or.inr hu), Or.inr ⟨rfl, rfl, h3⟩⟩
      · obtain ⟨a, b, c⟩ := ih _ h
        exact ⟨List.mem_cons_of_mem _ a, b, c⟩
  have used_length_le : ∀ (walls : List Wall) (used : List ℕ) (_ : used.Nodup)
      (_ : ∀ a ∈ used, a ∈ walls.map Wall.id),
      used.length ≤ walls.length := by
    intro walls used hn hs
    have := (List.Nodup.subperm hn (fun a ha => hs a ha)).length_le
    simpa using this
  have extendForward_spec : ∀ (walls : List Wall),
      ∀ (fuel : ℕ) (used : List ℕ) (p : Point) (last : ℕ) (chain : List Segment),
        used.Nodup → (∀ a ∈ used, a ∈ walls.map Wall.id) → walls.length < fuel + used.length →
        ∃ used1 new, extendForward walls fuel used p last chain = some (used1, chain ++ new) ∧
          used1.Nodup ∧ (∀ a ∈ used1, a ∈ walls.map Wall.id) ∧
          used1.Perm (new.map (fun e => e.wall.id) ++ used) ∧ ∀ e ∈ new, e.wall ∈ walls := by
    intro walls
    intro fuel
    induction fuel with
    | zero =>
      intro used p last chain hn hs hf
      have := used_length_le walls used hn hs
      omega
    | succ fuel ih =>
      intro used p last chain hn hs hf
      unfold extendForward
      cases h : findConnectedWall walls used p last with
      | none => exact ⟨used, [], by simp, hn, hs, by simp, by simp⟩
      | some next =>
        obtain ⟨hmem, hnot, -⟩ := findConnectedWallFrom_some used p last next walls 0 h
        have hn1 : (next.wall.id :: used).Nodup := List.nodup_cons.2 ⟨hnot, hn⟩
        have hs1 : ∀ a ∈ next.wall.id :: used, a ∈ walls.map Wall.id := by
          intro a ha
          rcases List.mem_cons.1 ha with rfl | ha
          · exact List.mem_map_of_mem _ hmem
          · exact hs a ha
        obtain ⟨used1, new, h1, h2, h3, h4, h5⟩ :=
          ih (next.wall.id :: used) (getWallPointPos next.wall next.endPoint) next.idx
            (chain ++ [⟨next.wall, getWallPointPos next.wall next.startPoint,
              getWallPointPos next.wall next.endPoint⟩]) hn1 hs1
            (by simp only [List.length_cons]; omega)
        refine ⟨used1, ⟨next.wall, getWallPointPos next.wall next.startPoint,
              getWallPointPos next.wall next.endPoint⟩ :: new, ?_, h2, h3, ?_, ?_⟩
        · simpa using h1
        · refine h4.trans ?_
          simp
        · intro e he
          rcases List.mem_cons.1 he with rfl | he
          · exact hmem
          · exact h5 e he
  have extendBackward_spec : ∀ (walls : List Wall),
      ∀ (fuel : ℕ) (used : List ℕ) (p : Point) (last : ℕ) (front : List Segment),
        used.Nodup → (∀ a ∈ used, a ∈ walls.map Wall.id) → walls.length < fuel + used.length →
        ∃ used1 new, extendBackward walls fuel used p last front = some (used1, new ++ front) ∧
          used1.Nodup ∧ (∀ a ∈ used1, a ∈ walls.map Wall.id) ∧
          used1.Perm (new.map (fun e => e.wall.id) ++ used) ∧ ∀ e ∈ new, e.wall ∈ walls := by
    intro walls
    intro fuel
    induction fuel with
    | zero =>
      intro used p last front hn hs hf
      have := used_length_le walls used hn hs
      omega
    | succ fuel ih =>
      intro used p last front hn hs hf
      unfold extendBackward
      cases h : findConnectedWall walls used p last with
      | none => exact ⟨used, [], by simp, hn, hs, by simp, by simp⟩
      | some prev =>
        obtain ⟨hmem, hnot, -⟩ := findConnectedWallFrom_some used p last prev walls 0 h
        have hn1 : (prev.wall.id :: used).Nodup := List.nodup_cons.2 ⟨hnot, hn⟩
        have hs1 : ∀ a ∈ prev.wall.id :: used, a ∈ walls.map Wall.id := by
          intro a ha
          rcases List.mem_cons.1 ha with rfl | ha
          · exact List.mem_map_of_mem _ hmem
          · exact hs a ha
        obtain ⟨used1, new, h1, h2, h3, h4, h5⟩ :=
          ih (prev.wall.id :: used) (getWallPointPos prev.wall prev.endPoint) prev.idx
            (⟨prev.wall, getWallPointPos prev.wall prev.endPoint,
              getWallPointPos prev.wall prev.startPoint⟩ :: front) hn1 hs1
            (by simp only [List.length_cons]; omega)
        refine ⟨used1, new ++ [⟨prev.wall, getWallPointPos prev.wall prev.endPoint,
              getWallPointPos prev.wall prev.startPoint⟩], ?_, h2, h3, ?_, ?_⟩
        · simpa using h1
        · refine h4.trans ?_
          simp only [List.map_append, List.map_cons, List.map_nil, List.append_assoc,
            List.singleton_append]
          exact List.Perm.refl _
        · intro e he
          rcases List.mem_append.1 he with he | he
          · exact h5 e he
          · rw [List.mem_singleton] at he
            subst he
            exact hmem
  have buildChainsFrom_spec : ∀ (walls : List Wall),
      ∀ (rest : List Wall) (i : ℕ) (used : List ℕ) (chains : List (List Segment)),
        (∀ w ∈ rest, w ∈ walls) → used.Nodup → (∀ a ∈ used, a ∈ walls.map Wall.id) →
        (chains.flatten.map (fun e => e.wall.id)).Perm used →
        (∀ e ∈ chains.flatten, e.wall ∈ walls) →
        ∃ chains1 used1, buildChainsFrom walls i rest used chains = some chains1 ∧
          used1.Nodup ∧ (∀ a ∈ used1, a ∈ walls.map Wall.id) ∧
          (chains1.flatten.map (fun e => e.wall.id)).Perm used1 ∧
          (∀ e ∈ chains1.flatten, e.wall ∈ walls) ∧
          (∀ a ∈ used, a ∈ used1) ∧ (∀ w ∈ rest, w.id ∈ used1) := by
    intro walls
    intro rest
    induction rest with
    | nil =>
      intro i used chains _ hn hs hp hw
      exact ⟨chains, used, rfl, hn, hs, hp, hw, fun a ha => ha, by simp⟩
    | cons startWall rest ih =>
      intro i used chains hr hn hs hp hw
      have hr1 : ∀ w ∈ rest, w ∈ walls := fun w hw1 => hr w (List.mem_cons_of_mem _ hw1)
      have hsw : startWall ∈ walls := hr startWall (List.mem_cons_self _ _)
      unfold buildChainsFrom
      by_cases hu : startWall.id ∈ used
      · rw [if_pos hu]
        obtain ⟨chains1, used1, h1, h2, h3, h4, h5, h6, h7⟩ := ih (i + 1) used chains hr1 hn hs hp hw
        refine ⟨chains1, used1, h1, h2, h3, h4, h5, h6, ?_⟩
        intro w hw1
        rcases List.mem_cons.1 hw1 with rfl | hw1
        · exact h6 _ hu
        · exact h7 w hw1
      · rw [if_neg hu]
        have hn0 : (startWall.id :: used).Nodup := List.nodup_cons.2 ⟨hu, hn⟩
        have hs0 : ∀ a ∈ startWall.id :: used, a ∈ walls.map Wall.id := by
          intro a ha
          rcases List.mem_cons.1 ha with rfl | ha
          · exact List.mem_map_of_mem _ hsw
          · exact hs a ha
        obtain ⟨usedF, newF, f1, f2, f3, f4, f5⟩ :=
          extendForward_spec walls (walls.length + 1) (startWall.id :: used) startWall.end_ i
            [⟨startWall, startWall.start, startWall.end_⟩] hn0 hs0 (by omega)
        obtain ⟨usedB, newB, b1, b2, b3, b4, b5⟩ :=
          extendBackward_spec walls (walls.length + 1) usedF startWall.start i [] f2 f3 (by omega)
        rw [f1]
        simp only []
        rw [b1]
        simp only []
        have hp1 : ((chains ++ [newB ++ [] ++ ([(⟨startWall, startWall.start, startWall.end_⟩ :
            Segment)] ++ newF)]).flatten.map (fun e : Segment => e.wall.id)).Perm usedB := by
          refine List.Perm.trans ?_ b4.symm
          simp only [List.append_nil, List.flatten_append, List.flatten_cons, List.flatten_nil,
            List.map_append, List.map_cons, List.map_nil]
          refine List.Perm.trans (List.Perm.append_right _ hp) ?_
          refine List.Perm.trans ?_ (List.Perm.append_left _ f4.symm)
          rw [List.perm_iff_count]
          intro a
          simp only [List.count_append, List.count_cons, List.count_nil]
          split_ifs <;> omega
        have hw1 : ∀ e ∈ (chains ++ [newB ++ [] ++ ([(⟨startWall, startWall.start,
            startWall.end_⟩ : Segment)] ++ newF)]).flatten, e.wall ∈ walls := by
          intro e he
          simp only [List.append_nil, List.flatten_append, List.flatten_cons, List.flatten_nil,
            List.mem_append, List.mem_singleton] at he
          rcases he with he | he | he | he
          · exact hw e he
          · exact b5 e he
          · subst he; exact hsw
          · exact f5 e he
        obtain ⟨chains1, used1, h1, h2, h3, h4, h5, h6, h7⟩ :=
          ih (i + 1) usedB _ hr1 b2 b3 hp1 hw1
        refine ⟨chains1, used1, h1, h2, h3, h4, h5, ?_, ?_⟩
        · intro a ha
          apply h6
          apply b4.mem_iff.2
          apply List.mem_append_right
          apply f4.mem_iff.2
          apply List.mem_append_right
          exact List.mem_cons_of_mem _ ha
        · intro w hw2
          rcases List.mem_cons.1 hw2 with rfl | hw2
          · apply h6
            apply b4.mem_iff.2
            apply List.mem_append_right
            apply f4.mem_iff.2
            apply List.mem_append_right
            exact List.mem_cons_self _ _
          · exact h7 w hw2
  exact ⟨findConnectedWallFrom_some, used_length_le, extendForward_spec, extendBackward_spec,
    buildChainsFrom_spec⟩
/-- C2 (chains partition the walls). For every wall list with pairwise distinct ids,
`findWallChains` returns chains whose entries, taken together, are a permutation of the
walls: the total number of entries is the number of walls, and every wall occurs exactly
once over all the chains (hence in exactly one chain, exactly once there). -/
theorem C2_chains_partition_walls (walls : List Wall) (hid : (walls.map Wall.id).Nodup) :
    ∃ chains, findWallChains walls = some chains ∧
      (chains.flatten.map Segment.wall).Perm walls ∧
      (chains.map List.length).sum = walls.length ∧
      ∀ w ∈ walls, (chains.map (fun chain => chain.countP (fun e => e.wall.id = w.id))).sum = 1 := by
  have buildChainsFrom_spec := chain_partition_lemmas.2.2.2.2
  obtain ⟨chains, used, h1, h2, h3, h4, h5, -, h7⟩ :=
    buildChainsFrom_spec walls walls 0 [] [] (fun w hw => hw) List.nodup_nil (by simp)
      (by simp) (by simp)
  have hperm : (chains.flatten.map Segment.wall).Perm walls := by
    have hnd : ((chains.flatten.map Segment.wall).map Wall.id).Nodup := by
      rw [List.map_map]
      exact h4.nodup_iff.2 h2
    rw [List.perm_ext_iff_of_nodup (List.Nodup.of_map _ hnd) (List.Nodup.of_map _ hid)]
    intro w
    constructor
    · intro hw
      obtain ⟨e, he, rfl⟩ := List.mem_map.1 hw
      exact h5 e he
    · intro hw
      have : w.id ∈ chains.flatten.map (fun e => e.wall.id) := h4.mem_iff.2 (h7 w hw)
      obtain ⟨e, he, hew⟩ := List.mem_map.1 this
      have : e.wall = w := List.inj_on_of_nodup_map hid (h5 e he) hw hew
      exact List.mem_map.2 ⟨e, he, this⟩
  refine ⟨chains, h1, hperm, ?_, ?_⟩
  · rw [← List.length_flatten, ← hperm.length_eq, List.length_map]
  · intro w hw
    have hc : (chains.map (fun chain => chain.countP (fun e => e.wall.id = w.id))).sum
        = chains.flatten.countP (fun e => e.wall.id = w.id) := by
      rw [List.countP_flatten]
    rw [hc]
    have hc2 : chains.flatten.countP (fun e => e.wall.id = w.id)
        = (chains.flatten.map (fun e => e.wall.id)).count w.id := by
      rw [List.count, List.countP_map]
      congr 1
    rw [hc2, (h4.trans ?_).count_eq w.id, List.count_eq_one_of_mem hid (List.mem_map_of_mem _ hw)]
    have := hperm.map Wall.id
    rw [List.map_map] at this
    exact h4.symm.trans this

/-- C2 at the rectangle of the specification. -/
theorem C2_chains_partition_walls_witness :
    ∃ chains, findWallChains rectangleWalls = some chains ∧
      (chains.flatten.map Segment.wall).Perm rectangleWalls ∧
      (chains.map List.length).sum = rectangleWalls.length ∧
      ∀ w ∈ rectangleWalls,
        (chains.map (fun chain => chain.countP (fun e => e.wall.id = w.id))).sum = 1 :=
  C2_chains_partition_walls rectangleWalls (by decide)

/-! ### Miter joints -/

/-- Facts on the miter point of two segments: `outer` and `inner` in terms of `miterOffset`, and
the offset for unit directions; the parts are explained one by one in the proof. -/
theorem miter_offset_lemmas :
    (∀ (dx dy : ℝ) (_ : dx ≠ 0 ∨ dy ≠ 0),
        0 < Real.sqrt (dx * dx + dy * dy) ∧
        (dx / Real.sqrt (dx * dx + dy * dy)) * (dx / Real.sqrt (dx * dx + dy * dy)) +
          (dy / Real.sqrt (dx * dx + dy * dy)) * (dy / Real.sqrt (dx * dx + dy * dy)) = 1) ∧
    (∀ (seg1 seg2 : Segment) (h : ℝ) (smooth : Bool),
        (calculateMiterPoint seg1 seg2 h smooth).outer =
          ⟨seg1.end_.x + (miterOffset
              ((seg1.end_.x - seg1.start.x) / calculateDistance seg1.start seg1.end_)
              ((seg1.end_.y - seg1.start.y) / calculateDistance seg1.start seg1.end_)
              ((seg2.end_.x - seg2.start.x) / calculateDistance seg2.start seg2.end_)
              ((seg2.end_.y - seg2.start.y) / calculateDistance seg2.start seg2.end_) h).1,
            seg1.end_.y + (miterOffset
              ((seg1.end_.x - seg1.start.x) / calculateDistance seg1.start seg1.end_)
              ((seg1.end_.y - seg1.start.y) / calculateDistance seg1.start seg1.end_)
              ((seg2.end_.x - seg2.start.x) / calculateDistance seg2.start seg2.end_)
              ((seg2.end_.y - seg2.start.y) / calculateDistance seg2.start seg2.end_) h).2⟩) ∧
    (∀ (seg1 seg2 : Segment) (h : ℝ) (smooth : Bool),
        (calculateMiterPoint seg1 seg2 h smooth).inner =
          ⟨seg1.end_.x - (miterOffset
              ((seg1.end_.x - seg1.start.x) / calculateDistance seg1.start seg1.end_)
              ((seg1.end_.y - seg1.start.y) / calculateDistance seg1.start seg1.end_)
              ((seg2.end_.x - seg2.start.x) / calculateDistance seg2.start seg2.end_)
              ((seg2.end_.y - seg2.start.y) / calculateDistance seg2.start seg2.end_) h).1,
            seg1.end_.y - (miterOffset
              ((seg1.end_.x - seg1.start.x) / calculateDistance seg1.start seg1.end_)
              ((seg1.end_.y - seg1.start.y) / calculateDistance seg1.start seg1.end_)
              ((seg2.end_.x - seg2.start.x) / calculateDistance seg2.start seg2.end_)
              ((seg2.end_.y - seg2.start.y) / calculateDistance seg2.start seg2.end_) h).2⟩) ∧
    (∀ (s e : Point) (_ : s ≠ e),
        0 < calculateDistance s e ∧
        ((e.x - s.x) / calculateDistance s e) * ((e.x - s.x) / calculateDistance s e) +
          ((e.y - s.y) / calculateDistance s e) * ((e.y - s.y) / calculateDistance s e) = 1 ∧
        e.x - s.x = (e.x - s.x) / calculateDistance s e * calculateDistance s e ∧
        e.y - s.y = (e.y - s.y) / calculateDistance s e * calculateDistance s e) ∧
    (∀ (x y : ℝ) (_ : 0 ≤ y) (_ : y * y = x),
        Real.sqrt x = y) ∧
    (∀ (a b c e h : ℝ) (_ : a * a + b * b = 1) (_ : c * c + e * e = 1)
        (_ : 0.01 ≤ Real.sqrt (2 + 2 * (a * c + b * e))),
        miterOffset a b c e h =
          (-(b + e) / Real.sqrt (2 + 2 * (a * c + b * e)) *
              min (if Real.sqrt (2 + 2 * (a * c + b * e)) / 2 > 0.1 then
                h / (Real.sqrt (2 + 2 * (a * c + b * e)) / 2) else h) (h * 2),
            (a + c) / Real.sqrt (2 + 2 * (a * c + b * e)) *
              min (if Real.sqrt (2 + 2 * (a * c + b * e)) / 2 > 0.1 then
                h / (Real.sqrt (2 + 2 * (a * c + b * e)) / 2) else h) (h * 2))) ∧
    (∀ (k : ℝ) (_ : -1 ≤ k) (_ : k ≤ 1),
        Real.cos (Real.arccos k / 2) = Real.sqrt ((1 + k) / 2)) ∧
    (∀ (a b c e h : ℝ) (_ : a * a + b * b = 1) (_ : c * c + e * e = 1)
        (_ : -1 / 2 ≤ a * c + b * e) (_ : 0 ≤ h),
        miterOffset a b c e h =
          (-(b + e) * (h / (1 + (a * c + b * e))), (a + c) * (h / (1 + (a * c + b * e))))) := by
  have unit_of_ne : ∀ (dx dy : ℝ) (_ : dx ≠ 0 ∨ dy ≠ 0),
      0 < Real.sqrt (dx * dx + dy * dy) ∧
      (dx / Real.sqrt (dx * dx + dy * dy)) * (dx / Real.sqrt (dx * dx + dy * dy)) +
        (dy / Real.sqrt (dx * dx + dy * dy)) * (dy / Real.sqrt (dx * dx + dy * dy)) = 1 := by
    intro dx dy h
    have hpos : 0 < dx * dx + dy * dy := by
      rcases h with h | h
      · have := mul_self_pos.2 h
        nlinarith [mul_self_nonneg dy]
      · have := mul_self_pos.2 h
        nlinarith [mul_self_nonneg dx]
    have hs : 0 < Real.sqrt (dx * dx + dy * dy) := Real.sqrt_pos.2 hpos
    refine ⟨hs, ?_⟩
    have hsq : Real.sqrt (dx * dx + dy * dy) * Real.sqrt (dx * dx + dy * dy) = dx * dx + dy * dy :=
      Real.mul_self_sqrt hpos.le
    field_simp
  have calculateMiterPoint_outer : ∀ (seg1 seg2 : Segment) (h : ℝ) (smooth : Bool),
      (calculateMiterPoint seg1 seg2 h smooth).outer =
        ⟨seg1.end_.x + (miterOffset
            ((seg1.end_.x - seg1.start.x) / calculateDistance seg1.start seg1.end_)
            ((seg1.end_.y - seg1.start.y) / calculateDistance seg1.start seg1.end_)
            ((seg2.end_.x - seg2.start.x) / calculateDistance seg2.start seg2.end_)
            ((seg2.end_.y - seg2.start.y) / calculateDistance seg2.start seg2.end_) h).1,
          seg1.end_.y + (miterOffset
            ((seg1.end_.x - seg1.start.x) / calculateDistance seg1.start seg1.end_)
            ((seg1.end_.y - seg1.start.y) / calculateDistance seg1.start seg1.end_)
            ((seg2.end_.x - seg2.start.x) / calculateDistance seg2.start seg2.end_)
            ((seg2.end_.y - seg2.start.y) / calculateDistance seg2.start seg2.end_) h).2⟩ := by
    intro seg1 seg2 h smooth
    exact
      rfl
  have calculateMiterPoint_inner : ∀ (seg1 seg2 : Segment) (h : ℝ) (smooth : Bool),
      (calculateMiterPoint seg1 seg2 h smooth).inner =
        ⟨seg1.end_.x - (miterOffset
            ((seg1.end_.x - seg1.start.x) / calculateDistance seg1.start seg1.end_)
            ((seg1.end_.y - seg1.start.y) / calculateDistance seg1.start seg1.end_)
            ((seg2.end_.x - seg2.start.x) / calculateDistance seg2.start seg2.end_)
            ((seg2.end_.y - seg2.start.y) / calculateDistance seg2.start seg2.end_) h).1,
          seg1.end_.y - (miterOffset
            ((seg1.end_.x - seg1.start.x) / calculateDistance seg1.start seg1.end_)
            ((seg1.end_.y - seg1.start.y) / calculateDistance seg1.start seg1.end_)
            ((seg2.end_.x - seg2.start.x) / calculateDistance seg2.start seg2.end_)
            ((seg2.end_.y - seg2.start.y) / calculateDistance seg2.start seg2.end_) h).2⟩ := by
    intro seg1 seg2 h smooth
    exact
      rfl
  /- The unit direction of a non-degenerate segment. -/
  have direction_facts : ∀ (s e : Point) (_ : s ≠ e),
      0 < calculateDistance s e ∧
      ((e.x - s.x) / calculateDistance s e) * ((e.x - s.x) / calculateDistance s e) +
        ((e.y - s.y) / calculateDistance s e) * ((e.y - s.y) / calculateDistance s e) = 1 ∧
      e.x - s.x = (e.x - s.x) / calculateDistance s e * calculateDistance s e ∧
      e.y - s.y = (e.y - s.y) / calculateDistance s e * calculateDistance s e := by
    intro s e hne
    have hd : e.x - s.x ≠ 0 ∨ e.y - s.y ≠ 0 := by
      by_contra hcon
      push_neg at hcon
      apply hne
      cases s; cases e
      simp only [Point.mk.injEq]
      simp only at hcon
      constructor <;> linarith [hcon.1, hcon.2]
    obtain ⟨hpos, hunit⟩ := unit_of_ne _ _ hd
    have hpos' : 0 < calculateDistance s e := hpos
    refine ⟨hpos', hunit, ?_, ?_⟩
    · field_simp
    · field_simp
  have sqrt_eq_of_mul_self : ∀ (x y : ℝ) (_ : 0 ≤ y) (_ : y * y = x),
      Real.sqrt x = y := by
    intro x y hy h
    rw [← h, Real.sqrt_mul_self hy]
  /- The offset vector when the two perpendiculars do not cancel (`miterLen ≥ 0.01`):
  the unit bisector scaled by the clamped miter length. -/
  have miterOffset_normalized : ∀ (a b c e h : ℝ) (_ : a * a + b * b = 1) (_ : c * c + e * e = 1)
      (_ : 0.01 ≤ Real.sqrt (2 + 2 * (a * c + b * e))),
      miterOffset a b c e h =
        (-(b + e) / Real.sqrt (2 + 2 * (a * c + b * e)) *
            min (if Real.sqrt (2 + 2 * (a * c + b * e)) / 2 > 0.1 then
              h / (Real.sqrt (2 + 2 * (a * c + b * e)) / 2) else h) (h * 2),
          (a + c) / Real.sqrt (2 + 2 * (a * c + b * e)) *
            min (if Real.sqrt (2 + 2 * (a * c + b * e)) / 2 > 0.1 then
              h / (Real.sqrt (2 + 2 * (a * c + b * e)) / 2) else h) (h * 2)) := by
    intro a b c e h h1 h2 hM
    set k := a * c + b * e with hkdef
    have hS : (-b + -e) * (-b + -e) + (a + c) * (a + c) = 2 + 2 * k := by
      rw [hkdef]; linear_combination h1 + h2
    have hLpos : 0 < Real.sqrt (2 + 2 * k) := lt_of_lt_of_le (by norm_num) hM
    have hpos : 0 < 2 + 2 * k := Real.sqrt_pos.1 hLpos
    have hLsq : Real.sqrt (2 + 2 * k) * Real.sqrt (2 + 2 * k) = 2 + 2 * k :=
      Real.mul_self_sqrt hpos.le
    have hdot : -b * ((-b + -e) / Real.sqrt (2 + 2 * k)) + a * ((a + c) / Real.sqrt (2 + 2 * k))
        = Real.sqrt (2 + 2 * k) / 2 := by
      have hab : b * b + b * e + a * a + a * c = 1 + k := by rw [hkdef]; linarith
      field_simp
      linear_combination (2 * Real.sqrt (2 + 2 * k)) * hab
    have hne : ¬ Real.sqrt (2 + 2 * k) < 0.01 := not_lt.2 hM
    unfold miterOffset
    simp only [hS, if_neg hne, hdot]
    have e1 : -b + -e = -(b + e) := by ring
    rw [e1]
  have cos_half_arccos : ∀ (k : ℝ) (_ : -1 ≤ k) (_ : k ≤ 1),
      Real.cos (Real.arccos k / 2) = Real.sqrt ((1 + k) / 2) := by
    intro k h1 h2
    rw [Real.cos_half (by linarith [Real.arccos_nonneg k, Real.pi_pos]) (Real.arccos_le_pi k),
      Real.cos_arccos h1 h2]
  /- The offset vector when the turn is at most 120 degrees: the miter is not clamped. -/
  have miterOffset_unclamped : ∀ (a b c e h : ℝ) (_ : a * a + b * b = 1) (_ : c * c + e * e = 1)
      (_ : -1 / 2 ≤ a * c + b * e) (_ : 0 ≤ h),
      miterOffset a b c e h =
        (-(b + e) * (h / (1 + (a * c + b * e))), (a + c) * (h / (1 + (a * c + b * e)))) := by
    intro a b c e h h1 h2 hk hh
    have hpos : 0 < 2 + 2 * (a * c + b * e) := by linarith
    have hL1 : 1 ≤ Real.sqrt (2 + 2 * (a * c + b * e)) := by
      rw [Real.one_le_sqrt]; linarith
    have hLsq : Real.sqrt (2 + 2 * (a * c + b * e)) * Real.sqrt (2 + 2 * (a * c + b * e))
        = 2 + 2 * (a * c + b * e) := Real.mul_self_sqrt hpos.le
    rw [miterOffset_normalized a b c e h h1 h2 (le_trans (by norm_num) hL1)]
    set M := Real.sqrt (2 + 2 * (a * c + b * e)) with hMdef
    have hgt : M / 2 > 0.1 := by
      norm_num; linarith
    have hmin : min (h / (M / 2)) (h * 2) = h / (M / 2) := by
      apply min_eq_left
      rw [div_le_iff₀ (by linarith)]
      have : 0 ≤ h * (M - 1) := mul_nonneg hh (by linarith)
      linarith
    rw [if_pos hgt, hmin]
    have hM0 : M ≠ 0 := by linarith
    have h1k : (1 + (a * c + b * e)) ≠ 0 := by linarith
    have hMM : M * M = 2 * (1 + (a * c + b * e)) := by rw [hLsq]; ring
    ext
    · simp only
      field_simp
      linear_combination ((b + e) * h) * hMM
    · simp only
      field_simp
      linear_combination (-((a + c) * h)) * hMM
  exact ⟨unit_of_ne, calculateMiterPoint_outer, calculateMiterPoint_inner, direction_facts,
    sqrt_eq_of_mul_self, miterOffset_normalized, cos_half_arccos, miterOffset_unclamped⟩
/-- C3 (miter symmetry). For two non-degenerate segments that share a joint and are
perpendicular to each other, and `halfThickness > 0`, the `outer` point returned by
`calculateMiterPoint` is at distance exactly `halfThickness * √2` from the joint, and
the vector from the joint to `outer` makes an angle of 45 degrees with the centerline
of each of the two walls: `|v · d| = cos (π / 4) * (|v| * |d|)` for both directions `d`. -/
theorem C3_miter_symmetry (segA segB : Segment) (h : ℝ) (smooth : Bool)
    (hA : segA.start ≠ segA.end_) (hB : segB.start ≠ segB.end_)
    (hjoint : segA.end_ = segB.start)
    (hperp : (segA.end_.x - segA.start.x) * (segB.end_.x - segB.start.x) +
      (segA.end_.y - segA.start.y) * (segB.end_.y - segB.start.y) = 0)
    (hh : 0 < h) :
    calculateDistance segA.end_ (calculateMiterPoint segA segB h smooth).outer
        = h * Real.sqrt 2 ∧
    |((calculateMiterPoint segA segB h smooth).outer.x - segA.end_.x) *
          (segA.end_.x - segA.start.x) +
        ((calculateMiterPoint segA segB h smooth).outer.y - segA.end_.y) *
          (segA.end_.y - segA.start.y)|
      = Real.cos (Real.pi / 4) *
          (calculateDistance segA.end_ (calculateMiterPoint segA segB h smooth).outer *
            calculateDistance segA.start segA.end_) ∧
    |((calculateMiterPoint segA segB h smooth).outer.x - segB.start.x) *
          (segB.end_.x - segB.start.x) +
        ((calculateMiterPoint segA segB h smooth).outer.y - segB.start.y) *
          (segB.end_.y - segB.start.y)|
      = Real.cos (Real.pi / 4) *
          (calculateDistance segB.start (calculateMiterPoint segA segB h smooth).outer *
            calculateDistance segB.start segB.end_) := by
  have calculateMiterPoint_outer := miter_offset_lemmas.2.1
  have direction_facts := miter_offset_lemmas.2.2.2.1
  have miterOffset_unclamped := miter_offset_lemmas.2.2.2.2.2.2.2
  obtain ⟨hL1, hu1, hx1, hy1⟩ := direction_facts segA.start segA.end_ hA
  obtain ⟨hL2, hu2, hx2, hy2⟩ := direction_facts segB.start segB.end_ hB
  rw [calculateMiterPoint_outer]
  set L1 := calculateDistance segA.start segA.end_ with hL1def
  set L2 := calculateDistance segB.start segB.end_ with hL2def
  set a := (segA.end_.x - segA.start.x) / L1 with hadef
  set b := (segA.end_.y - segA.start.y) / L1 with hbdef
  set c := (segB.end_.x - segB.start.x) / L2 with hcdef
  set e := (segB.end_.y - segB.start.y) / L2 with hedef
  have hk : a * c + b * e = 0 := by
    have hprod : (a * c + b * e) * (L1 * L2) = 0 := by
      linear_combination hperp - (segB.end_.x - segB.start.x) * hx1 - a * L1 * hx2
        - (segB.end_.y - segB.start.y) * hy1 - b * L1 * hy2
    rcases mul_eq_zero.1 hprod with h0 | h0
    · exact h0
    · exact absurd h0 (mul_pos hL1 hL2).ne'
  have hcross : |c * b - e * a| = 1 := by
    have hsq : (c * b - e * a) * (c * b - e * a) = 1 := by
      linear_combination (c * c + e * e) * hu1 + hu2 - (a * c + b * e) * hk
    rcases mul_self_eq_one_iff.1 hsq with h1 | h1
    · rw [h1]; simp
    · rw [h1]; simp
  rw [miterOffset_unclamped a b c e h hu1 hu2 (by rw [hk]; norm_num) hh.le, hk]
  have hdist : calculateDistance segA.end_
      ⟨segA.end_.x + -(b + e) * (h / (1 + 0)), segA.end_.y + (a + c) * (h / (1 + 0))⟩
      = h * Real.sqrt 2 := by
    unfold calculateDistance
    simp only [add_sub_cancel_left, add_zero, div_one]
    have : -(b + e) * h * (-(b + e) * h) + (a + c) * h * ((a + c) * h) = h * h * 2 := by
      linear_combination h * h * hu1 + h * h * hu2 + 2 * h * h * hk
    rw [this, Real.sqrt_mul (mul_self_nonneg h), Real.sqrt_mul_self hh.le]
  have hcos : Real.cos (Real.pi / 4) * Real.sqrt 2 = 1 := by
    rw [Real.cos_pi_div_four]
    have := Real.mul_self_sqrt (show (0 : ℝ) ≤ 2 by norm_num)
    linarith
  refine ⟨hdist, ?_, ?_⟩
  · rw [hdist]
    simp only [add_sub_cancel_left, add_zero, div_one]
    have e1 : -(b + e) * h * (segA.end_.x - segA.start.x) +
        (a + c) * h * (segA.end_.y - segA.start.y) = (c * b - e * a) * (h * L1) := by
      rw [hx1, hy1]; ring
    rw [e1, abs_mul, hcross, one_mul, abs_of_pos (mul_pos hh hL1)]
    linear_combination (-(h * L1)) * hcos
  · rw [← hjoint, hdist]
    simp only [add_sub_cancel_left, add_zero, div_one]
    rw [hjoint]
    have e1 : -(b + e) * h * (segB.end_.x - segB.start.x) +
        (a + c) * h * (segB.end_.y - segB.start.y) = (-(c * b - e * a)) * (h * L2) := by
      rw [hx2, hy2]; ring
    rw [e1, abs_mul, abs_neg, hcross, one_mul, abs_of_pos (mul_pos hh hL2)]
    linear_combination (-(h * L2)) * hcos

/-- Two points with different `x`, or with different `y`, are different points. -/
theorem point_ne_lemmas :
    (∀ (p q : Point) (_ : p.x ≠ q.x),
        p ≠ q) ∧
    (∀ (p q : Point) (_ : p.y ≠ q.y),
        p ≠ q) := by
  have point_ne_of_x : ∀ (p q : Point) (_ : p.x ≠ q.x),
      p ≠ q := by
    intro p q h
    exact
      fun hpq => h (congrArg Point.x hpq)
  have point_ne_of_y : ∀ (p q : Point) (_ : p.y ≠ q.y),
      p ≠ q := by
    intro p q h
    exact
      fun hpq => h (congrArg Point.y hpq)
  exact ⟨point_ne_of_x, point_ne_of_y⟩
/-- C3 at the corner `(0,0)-(100,0)`, `(100,0)-(100,80)` with `halfThickness = 3`: the
outer point is at distance `3 * √2` from the joint. -/
theorem C3_miter_symmetry_witness :
    calculateDistance ⟨100, 0⟩
      (calculateMiterPoint (segmentOf 1 ⟨0, 0⟩ ⟨100, 0⟩) (segmentOf 2 ⟨100, 0⟩ ⟨100, 80⟩) 3
        true).outer = 3 * Real.sqrt 2 := by
  have point_ne_of_x := point_ne_lemmas.1
  have point_ne_of_y := point_ne_lemmas.2
  exact
    (C3_miter_symmetry (segmentOf 1 ⟨0, 0⟩ ⟨100, 0⟩) (segmentOf 2 ⟨100, 0⟩ ⟨100, 80⟩) 3 true
      (point_ne_of_x _ _ (by simp [segmentOf])) (point_ne_of_y _ _ (by simp [segmentOf])) rfl
      (by simp [segmentOf]) (by norm_num)).1

/-- C4 as stated fails where the miter is clamped. At the sharp turn `(-1,0)-(0,0)`,
`(0,0)-(-119,120)` with `halfThickness = 13` the outer point is `(-24, 10)`, at
perpendicular distance `10`, not `13`, from the centerline of the first segment. -/
theorem C4_counterexample :
    (segmentOf 1 ⟨-1, 0⟩ ⟨0, 0⟩).start ≠ (segmentOf 1 ⟨-1, 0⟩ ⟨0, 0⟩).end_ ∧
    (segmentOf 2 ⟨0, 0⟩ ⟨-119, 120⟩).start ≠ (segmentOf 2 ⟨0, 0⟩ ⟨-119, 120⟩).end_ ∧
    (segmentOf 1 ⟨-1, 0⟩ ⟨0, 0⟩).end_ = (segmentOf 2 ⟨0, 0⟩ ⟨-119, 120⟩).start ∧
    (calculateMiterPoint (segmentOf 1 ⟨-1, 0⟩ ⟨0, 0⟩) (segmentOf 2 ⟨0, 0⟩ ⟨-119, 120⟩) 13
      true).outer = ⟨-24, 10⟩ ∧
    distanceToLine (calculateMiterPoint (segmentOf 1 ⟨-1, 0⟩ ⟨0, 0⟩)
      (segmentOf 2 ⟨0, 0⟩ ⟨-119, 120⟩) 13 true).outer ⟨-1, 0⟩ ⟨0, 0⟩ ≠ 13 := by
  have calculateMiterPoint_outer := miter_offset_lemmas.2.1
  have sqrt_eq_of_mul_self := miter_offset_lemmas.2.2.2.2.1
  have miterOffset_normalized := miter_offset_lemmas.2.2.2.2.2.1
  have point_ne_of_x := point_ne_lemmas.1
  have hL1 : calculateDistance ⟨-1, 0⟩ ⟨0, 0⟩ = 1 := by
    unfold calculateDistance
    exact sqrt_eq_of_mul_self _ _ (by norm_num) (by norm_num)
  have hL2 : calculateDistance ⟨0, 0⟩ ⟨-119, 120⟩ = 169 := by
    unfold calculateDistance
    exact sqrt_eq_of_mul_self _ _ (by norm_num) (by norm_num)
  have hM : Real.sqrt (2 + 2 * ((1 : ℝ) * (-119 / 169) + 0 * (120 / 169))) = 10 / 13 :=
    sqrt_eq_of_mul_self _ _ (by norm_num) (by norm_num)
  have hout : (calculateMiterPoint (segmentOf 1 ⟨-1, 0⟩ ⟨0, 0⟩)
      (segmentOf 2 ⟨0, 0⟩ ⟨-119, 120⟩) 13 true).outer = ⟨-24, 10⟩ := by
    rw [calculateMiterPoint_outer]
    simp only [segmentOf, hL1, hL2]
    have e1 : ((0 : ℝ) - -1) / 1 = 1 := by norm_num
    have e2 : ((0 : ℝ) - 0) / 1 = 0 := by norm_num
    have e3 : ((-119 : ℝ) - 0) / 169 = -119 / 169 := by norm_num
    have e4 : ((120 : ℝ) - 0) / 169 = 120 / 169 := by norm_num
    rw [e1, e2, e3, e4,
      miterOffset_normalized 1 0 (-119 / 169) (120 / 169) 13 (by norm_num) (by norm_num)
        (by rw [hM]; norm_num), hM]
    norm_num
  refine ⟨point_ne_of_x _ _ (by simp [segmentOf]), point_ne_of_x _ _ (by simp [segmentOf]),
    rfl, hout, ?_⟩
  rw [hout]
  unfold distanceToLine
  rw [hL1]
  norm_num

/-- The turn condition in terms of the unit directions. -/
theorem turn_cos_ge (sA eA sB eB : Point) (hA : sA ≠ eA) (hB : sB ≠ eB) (t : ℝ)
    (hturn : t * (calculateDistance sA eA * calculateDistance sB eB) ≤
      (eA.x - sA.x) * (eB.x - sB.x) + (eA.y - sA.y) * (eB.y - sB.y)) :
    t ≤ (eA.x - sA.x) / calculateDistance sA eA * ((eB.x - sB.x) / calculateDistance sB eB) +
      (eA.y - sA.y) / calculateDistance sA eA * ((eB.y - sB.y) / calculateDistance sB eB) := by
  have direction_facts := miter_offset_lemmas.2.2.2.1
  obtain ⟨hL1, -, -, -⟩ := direction_facts sA eA hA
  obtain ⟨hL2, -, -, -⟩ := direction_facts sB eB hB
  have e1 : (eA.x - sA.x) / calculateDistance sA eA * ((eB.x - sB.x) / calculateDistance sB eB) +
      (eA.y - sA.y) / calculateDistance sA eA * ((eB.y - sB.y) / calculateDistance sB eB)
      = ((eA.x - sA.x) * (eB.x - sB.x) + (eA.y - sA.y) * (eB.y - sB.y)) /
        (calculateDistance sA eA * calculateDistance sB eB) := by
    field_simp
  rw [e1, le_div_iff₀ (mul_pos hL1 hL2)]
  exact hturn

/-- C4, amended (miter offset distance). For two consecutive non-degenerate segments
sharing a joint whose turn is at most 120 degrees (`dA · dB ≥ -|dA| |dB| / 2`, so that the
miter length is not clamped to `2 * halfThickness`) and every `halfThickness > 0`, the
`outer` and the `inner` point returned by `calculateMiterPoint` each lie at perpendicular
distance exactly `halfThickness` from the centerline of `segA` and from that of `segB`. -/
theorem C4_miter_offset_distance (segA segB : Segment) (h : ℝ) (smooth : Bool)
    (hA : segA.start ≠ segA.end_) (hB : segB.start ≠ segB.end_)
    (hjoint : segA.end_ = segB.start)
    (hturn : -1 / 2 * (calculateDistance segA.start segA.end_ *
        calculateDistance segB.start segB.end_) ≤
      (segA.end_.x - segA.start.x) * (segB.end_.x - segB.start.x) +
        (segA.end_.y - segA.start.y) * (segB.end_.y - segB.start.y))
    (hh : 0 < h) :
    distanceToLine (calculateMiterPoint segA segB h smooth).outer segA.start segA.end_ = h ∧
    distanceToLine (calculateMiterPoint segA segB h smooth).outer segB.start segB.end_ = h ∧
    distanceToLine (calculateMiterPoint segA segB h smooth).inner segA.start segA.end_ = h ∧
    distanceToLine (calculateMiterPoint segA segB h smooth).inner segB.start segB.end_ = h := by
  have calculateMiterPoint_outer := miter_offset_lemmas.2.1
  have calculateMiterPoint_inner := miter_offset_lemmas.2.2.1
  have direction_facts := miter_offset_lemmas.2.2.2.1
  have miterOffset_unclamped := miter_offset_lemmas.2.2.2.2.2.2.2
  obtain ⟨hL1, hu1, hx1, hy1⟩ := direction_facts segA.start segA.end_ hA
  obtain ⟨hL2, hu2, hx2, hy2⟩ := direction_facts segB.start segB.end_ hB
  have hk := turn_cos_ge segA.start segA.end_ segB.start segB.end_ hA hB _ hturn
  rw [calculateMiterPoint_outer, calculateMiterPoint_inner]
  set L1 := calculateDistance segA.start segA.end_ with hL1def
  set L2 := calculateDistance segB.start segB.end_ with hL2def
  set a := (segA.end_.x - segA.start.x) / L1 with hadef
  set b := (segA.end_.y - segA.start.y) / L1 with hbdef
  set c := (segB.end_.x - segB.start.x) / L2 with hcdef
  set e := (segB.end_.y - segB.start.y) / L2 with hedef
  rw [miterOffset_unclamped a b c e h hu1 hu2 hk hh.le]
  have h1k : 0 < 1 + (a * c + b * e) := by linarith
  set t := h / (1 + (a * c + b * e)) with htdef
  have ht : t * (1 + (a * c + b * e)) = h := by
    rw [htdef]; field_simp
  have hjx : segA.end_.x = segB.start.x := by rw [hjoint]
  have hjy : segA.end_.y = segB.start.y := by rw [hjoint]
  have hhL1 : |h * L1| = h * L1 := abs_of_pos (mul_pos hh hL1)
  have hhL2 : |h * L2| = h * L2 := abs_of_pos (mul_pos hh hL2)
  have hnL1 : |-(h * L1)| = h * L1 := by rw [abs_neg, hhL1]
  have hnL2 : |-(h * L2)| = h * L2 := by rw [abs_neg, hhL2]
  unfold distanceToLine
  simp only [← hL1def, ← hL2def]
  refine ⟨?_, ?_, ?_, ?_⟩
  · have e1 : (segA.end_.x - segA.start.x) * (segA.end_.y + (a + c) * t - segA.start.y) -
        (segA.end_.y - segA.start.y) * (segA.end_.x + -(b + e) * t - segA.start.x) = h * L1 := by
      have : (segA.end_.x - segA.start.x) * (segA.end_.y + (a + c) * t - segA.start.y) -
        (segA.end_.y - segA.start.y) * (segA.end_.x + -(b + e) * t - segA.start.x)
          = t * ((segA.end_.x - segA.start.x) * (a + c) + (segA.end_.y - segA.start.y) * (b + e)) := by
        ring
      rw [this, hx1, hy1]
      linear_combination L1 * ht + t * L1 * hu1
    rw [e1, hhL1]
    field_simp
  · have e1 : (segB.end_.x - segB.start.x) * (segA.end_.y + (a + c) * t - segB.start.y) -
        (segB.end_.y - segB.start.y) * (segA.end_.x + -(b + e) * t - segB.start.x) = h * L2 := by
      rw [hjx, hjy]
      have : (segB.end_.x - segB.start.x) * (segB.start.y + (a + c) * t - segB.start.y) -
        (segB.end_.y - segB.start.y) * (segB.start.x + -(b + e) * t - segB.start.x)
          = t * ((segB.end_.x - segB.start.x) * (a + c) + (segB.end_.y - segB.start.y) * (b + e)) := by
        ring
      rw [this, hx2, hy2]
      linear_combination L2 * ht + t * L2 * hu2
    rw [e1, hhL2]
    field_simp
  · have e1 : (segA.end_.x - segA.start.x) * (segA.end_.y - (a + c) * t - segA.start.y) -
        (segA.end_.y - segA.start.y) * (segA.end_.x - -(b + e) * t - segA.start.x) = -(h * L1) := by
      have : (segA.end_.x - segA.start.x) * (segA.end_.y - (a + c) * t - segA.start.y) -
        (segA.end_.y - segA.start.y) * (segA.end_.x - -(b + e) * t - segA.start.x)
          = -(t * ((segA.end_.x - segA.start.x) * (a + c) + (segA.end_.y - segA.start.y) * (b + e))) := by
        ring
      rw [this, hx1, hy1]
      linear_combination (-L1) * ht - t * L1 * hu1
    rw [e1, hnL1]
    field_simp
  · have e1 : (segB.end_.x - segB.start.x) * (segA.end_.y - (a + c) * t - segB.start.y) -
        (segB.end_.y - segB.start.y) * (segA.end_.x - -(b + e) * t - segB.start.x) = -(h * L2) := by
      rw [hjx, hjy]
      have : (segB.end_.x - segB.start.x) * (segB.start.y - (a + c) * t - segB.start.y) -
        (segB.end_.y - segB.start.y) * (segB.start.x - -(b + e) * t - segB.start.x)
          = -(t * ((segB.end_.x - segB.start.x) * (a + c) + (segB.end_.y - segB.start.y) * (b + e))) := by
        ring
      rw [this, hx2, hy2]
      linear_combination (-L2) * ht - t * L2 * hu2
    rw [e1, hnL2]
    field_simp

/-- C4 (amended) at the corner `(0,0)-(100,0)`, `(100,0)-(100,80)` with
`halfThickness = 3`. -/
theorem C4_miter_offset_distance_witness :
    distanceToLine (calculateMiterPoint (segmentOf 1 ⟨0, 0⟩ ⟨100, 0⟩)
      (segmentOf 2 ⟨100, 0⟩ ⟨100, 80⟩) 3 true).outer ⟨0, 0⟩ ⟨100, 0⟩ = 3 := by
  have point_ne_of_x := point_ne_lemmas.1
  have point_ne_of_y := point_ne_lemmas.2
  exact
    (C4_miter_offset_distance (segmentOf 1 ⟨0, 0⟩ ⟨100, 0⟩) (segmentOf 2 ⟨100, 0⟩ ⟨100, 80⟩) 3
      true (point_ne_of_x _ _ (by simp [segmentOf])) (point_ne_of_y _ _ (by simp [segmentOf])) rfl
      (by
        have h1 : 0 ≤ calculateDistance (segmentOf 1 ⟨0, 0⟩ ⟨100, 0⟩).start
            (segmentOf 1 ⟨0, 0⟩ ⟨100, 0⟩).end_ := Real.sqrt_nonneg _
        have h2 : 0 ≤ calculateDistance (segmentOf 2 ⟨100, 0⟩ ⟨100, 80⟩).start
            (segmentOf 2 ⟨100, 0⟩ ⟨100, 80⟩).end_ := Real.sqrt_nonneg _
        have h3 := mul_nonneg h1 h2
        simp only [segmentOf] at h3 ⊢
        linarith)
      (by norm_num)).1

/-- Facts on the length of the sum of the two perpendiculars and on the distance of `outer` from
the joint; the parts are explained one by one in the proof. -/
theorem miter_scale_lemmas :
    (∀ (a b c e : ℝ) (_ : a * a + b * b = 1) (_ : c * c + e * e = 1),
        -1 ≤ a * c + b * e ∧ a * c + b * e ≤ 1) ∧
    (∀ (segA segB : Segment) (_ : segA.start ≠ segA.end_) (_ : segB.start ≠ segB.end_),
        perpSumLength segA segB = Real.sqrt (2 + 2 *
          ((segA.end_.x - segA.start.x) / calculateDistance segA.start segA.end_ *
              ((segB.end_.x - segB.start.x) / calculateDistance segB.start segB.end_) +
            (segA.end_.y - segA.start.y) / calculateDistance segA.start segA.end_ *
              ((segB.end_.y - segB.start.y) / calculateDistance segB.start segB.end_))) ∧
        Real.cos (turnAngle segA segB / 2) = perpSumLength segA segB / 2) ∧
    (∀ (segA segB : Segment) (h : ℝ) (smooth : Bool) (_ : segA.start ≠ segA.end_)
        (_ : segB.start ≠ segB.end_) (_ : 0.01 ≤ perpSumLength segA segB) (_ : 0 ≤ h),
        calculateDistance segA.end_ (calculateMiterPoint segA segB h smooth).outer =
          min (if perpSumLength segA segB / 2 > 0.1 then h / (perpSumLength segA segB / 2) else h)
            (h * 2)) := by
  have calculateMiterPoint_outer := miter_offset_lemmas.2.1
  have direction_facts := miter_offset_lemmas.2.2.2.1
  have miterOffset_normalized := miter_offset_lemmas.2.2.2.2.2.1
  have cos_half_arccos := miter_offset_lemmas.2.2.2.2.2.2.1
  have unit_dot_bounds : ∀ (a b c e : ℝ) (_ : a * a + b * b = 1) (_ : c * c + e * e = 1),
      -1 ≤ a * c + b * e ∧ a * c + b * e ≤ 1 := by
    intro a b c e h1 h2
    constructor
    · nlinarith [sq_nonneg (a + c), sq_nonneg (b + e)]
    · nlinarith [sq_nonneg (a - c), sq_nonneg (b - e)]
  /- The two quantities of the miter scale law in terms of the unit directions:
  `miterLen = √(2 + 2k)` and `cos (turnAngle / 2) = miterLen / 2`, where `k` is the cosine
  of the turn angle. -/
  have perpSumLength_turnAngle : ∀ (segA segB : Segment) (_ : segA.start ≠ segA.end_)
      (_ : segB.start ≠ segB.end_),
      perpSumLength segA segB = Real.sqrt (2 + 2 *
        ((segA.end_.x - segA.start.x) / calculateDistance segA.start segA.end_ *
            ((segB.end_.x - segB.start.x) / calculateDistance segB.start segB.end_) +
          (segA.end_.y - segA.start.y) / calculateDistance segA.start segA.end_ *
            ((segB.end_.y - segB.start.y) / calculateDistance segB.start segB.end_))) ∧
      Real.cos (turnAngle segA segB / 2) = perpSumLength segA segB / 2 := by
    intro segA segB hA hB
    obtain ⟨hL1, hu1, hx1, hy1⟩ := direction_facts segA.start segA.end_ hA
    obtain ⟨hL2, hu2, hx2, hy2⟩ := direction_facts segB.start segB.end_ hB
    have hP : perpSumLength segA segB = Real.sqrt (2 + 2 *
        ((segA.end_.x - segA.start.x) / calculateDistance segA.start segA.end_ *
            ((segB.end_.x - segB.start.x) / calculateDistance segB.start segB.end_) +
          (segA.end_.y - segA.start.y) / calculateDistance segA.start segA.end_ *
            ((segB.end_.y - segB.start.y) / calculateDistance segB.start segB.end_))) := by
      have e0 : perpSumLength segA segB = Real.sqrt (
          (-((segA.end_.y - segA.start.y) / calculateDistance segA.start segA.end_) +
            -((segB.end_.y - segB.start.y) / calculateDistance segB.start segB.end_)) *
          (-((segA.end_.y - segA.start.y) / calculateDistance segA.start segA.end_) +
            -((segB.end_.y - segB.start.y) / calculateDistance segB.start segB.end_)) +
          ((segA.end_.x - segA.start.x) / calculateDistance segA.start segA.end_ +
            (segB.end_.x - segB.start.x) / calculateDistance segB.start segB.end_) *
          ((segA.end_.x - segA.start.x) / calculateDistance segA.start segA.end_ +
            (segB.end_.x - segB.start.x) / calculateDistance segB.start segB.end_)) := rfl
      rw [e0]
      congr 1
      linear_combination hu1 + hu2
    refine ⟨hP, ?_⟩
    have hT : turnAngle segA segB = Real.arccos
        ((segA.end_.x - segA.start.x) / calculateDistance segA.start segA.end_ *
            ((segB.end_.x - segB.start.x) / calculateDistance segB.start segB.end_) +
          (segA.end_.y - segA.start.y) / calculateDistance segA.start segA.end_ *
            ((segB.end_.y - segB.start.y) / calculateDistance segB.start segB.end_)) := by
      unfold turnAngle
      congr 1
      field_simp
    obtain ⟨hk1, hk2⟩ := unit_dot_bounds _ _ _ _ hu1 hu2
    rw [hT, cos_half_arccos _ hk1 hk2, hP]
    set k := (segA.end_.x - segA.start.x) / calculateDistance segA.start segA.end_ *
            ((segB.end_.x - segB.start.x) / calculateDistance segB.start segB.end_) +
          (segA.end_.y - segA.start.y) / calculateDistance segA.start segA.end_ *
            ((segB.end_.y - segB.start.y) / calculateDistance segB.start segB.end_)
    clear_value k
    have e1 : 2 + 2 * k = (1 + k) / 2 * (2 * 2) := by ring
    rw [e1, Real.sqrt_mul (by linarith), Real.sqrt_mul_self (by norm_num)]
    ring
  /- The distance from the joint to `outer` when the perpendiculars do not cancel. -/
  have outer_distance_normalized : ∀ (segA segB : Segment) (h : ℝ) (smooth : Bool)
      (_ : segA.start ≠ segA.end_) (_ : segB.start ≠ segB.end_)
      (_ : 0.01 ≤ perpSumLength segA segB) (_ : 0 ≤ h),
      calculateDistance segA.end_ (calculateMiterPoint segA segB h smooth).outer =
        min (if perpSumLength segA segB / 2 > 0.1 then h / (perpSumLength segA segB / 2) else h)
          (h * 2) := by
    intro segA segB h smooth hA hB hM hh
    obtain ⟨hL1, hu1, hx1, hy1⟩ := direction_facts segA.start segA.end_ hA
    obtain ⟨hL2, hu2, hx2, hy2⟩ := direction_facts segB.start segB.end_ hB
    obtain ⟨hP, -⟩ := perpSumLength_turnAngle segA segB hA hB
    rw [calculateMiterPoint_outer]
    rw [hP] at hM ⊢
    set L1 := calculateDistance segA.start segA.end_ with hL1def
    set L2 := calculateDistance segB.start segB.end_ with hL2def
    set a := (segA.end_.x - segA.start.x) / L1 with hadef
    set b := (segA.end_.y - segA.start.y) / L1 with hbdef
    set c := (segB.end_.x - segB.start.x) / L2 with hcdef
    set e := (segB.end_.y - segB.start.y) / L2 with hedef
    rw [miterOffset_normalized a b c e h hu1 hu2 hM]
    set M := Real.sqrt (2 + 2 * (a * c + b * e)) with hMdef
    have hMpos : 0 < M := lt_of_lt_of_le (by norm_num) hM
    have hMM : M * M = 2 + 2 * (a * c + b * e) :=
      Real.mul_self_sqrt (Real.sqrt_pos.1 hMpos).le
    set act := min (if M / 2 > 0.1 then h / (M / 2) else h) (h * 2) with hact
    have hact0 : 0 ≤ act := by
      rw [hact]
      apply le_min
      · split_ifs
        · exact div_nonneg hh (by linarith)
        · exact hh
      · linarith
    unfold calculateDistance
    simp only [add_sub_cancel_left]
    have e1 : -(b + e) / M * act * (-(b + e) / M * act) + (a + c) / M * act * ((a + c) / M * act)
        = act * act := by
      have hM0 : M ≠ 0 := hMpos.ne'
      field_simp
      linear_combination (act ^ 2) * (hu1 + hu2 - hMM)
    rw [e1, Real.sqrt_mul_self hact0]
  exact ⟨unit_dot_bounds, perpSumLength_turnAngle, outer_distance_normalized⟩
/-- C5 as stated fails between the reversal fallback and the division guard. At the
near-reversal `(-40,-399)-(0,0)`, `(0,0)-(40,-399)` the perpendicular sum has magnitude
`80/401 ≥ 0.01` and `cos φ = 40/401 ≤ 0.1`, so the code does not divide: with
`halfThickness = 1` the distance from the joint to `outer` is `1`, while
`min (1 / cos φ) 2 = 2`. -/
theorem C5_counterexample :
    (segmentOf 1 ⟨-40, -399⟩ ⟨0, 0⟩).start ≠ (segmentOf 1 ⟨-40, -399⟩ ⟨0, 0⟩).end_ ∧
    (segmentOf 2 ⟨0, 0⟩ ⟨40, -399⟩).start ≠ (segmentOf 2 ⟨0, 0⟩ ⟨40, -399⟩).end_ ∧
    0.01 ≤ perpSumLength (segmentOf 1 ⟨-40, -399⟩ ⟨0, 0⟩) (segmentOf 2 ⟨0, 0⟩ ⟨40, -399⟩) ∧
    calculateDistance (segmentOf 1 ⟨-40, -399⟩ ⟨0, 0⟩).end_
      (calculateMiterPoint (segmentOf 1 ⟨-40, -399⟩ ⟨0, 0⟩) (segmentOf 2 ⟨0, 0⟩ ⟨40, -399⟩) 1
        true).outer ≠
      min (1 / Real.cos (turnAngle (segmentOf 1 ⟨-40, -399⟩ ⟨0, 0⟩)
        (segmentOf 2 ⟨0, 0⟩ ⟨40, -399⟩) / 2)) (2 * 1) := by
  have sqrt_eq_of_mul_self := miter_offset_lemmas.2.2.2.2.1
  have point_ne_of_x := point_ne_lemmas.1
  have perpSumLength_turnAngle := miter_scale_lemmas.2.1
  have outer_distance_normalized := miter_scale_lemmas.2.2
  have hA : (segmentOf 1 ⟨-40, -399⟩ ⟨0, 0⟩).start ≠ (segmentOf 1 ⟨-40, -399⟩ ⟨0, 0⟩).end_ :=
    point_ne_of_x _ _ (by simp [segmentOf])
  have hB : (segmentOf 2 ⟨0, 0⟩ ⟨40, -399⟩).start ≠ (segmentOf 2 ⟨0, 0⟩ ⟨40, -399⟩).end_ :=
    point_ne_of_x _ _ (by simp [segmentOf])
  obtain ⟨hP, hC⟩ := perpSumLength_turnAngle _ _ hA hB
  have hL1 : calculateDistance (segmentOf 1 ⟨-40, -399⟩ ⟨0, 0⟩).start
      (segmentOf 1 ⟨-40, -399⟩ ⟨0, 0⟩).end_ = 401 := by
    unfold calculateDistance
    exact sqrt_eq_of_mul_self _ _ (by norm_num) (by simp [segmentOf]; norm_num)
  have hL2 : calculateDistance (segmentOf 2 ⟨0, 0⟩ ⟨40, -399⟩).start
      (segmentOf 2 ⟨0, 0⟩ ⟨40, -399⟩).end_ = 401 := by
    unfold calculateDistance
    exact sqrt_eq_of_mul_self _ _ (by norm_num) (by simp [segmentOf]; norm_num)
  have hPv : perpSumLength (segmentOf 1 ⟨-40, -399⟩ ⟨0, 0⟩) (segmentOf 2 ⟨0, 0⟩ ⟨40, -399⟩)
      = 80 / 401 := by
    rw [hP, hL1, hL2]
    exact sqrt_eq_of_mul_self _ _ (by norm_num) (by simp [segmentOf]; norm_num)
  have hM : (0.01 : ℝ) ≤ perpSumLength (segmentOf 1 ⟨-40, -399⟩ ⟨0, 0⟩)
      (segmentOf 2 ⟨0, 0⟩ ⟨40, -399⟩) := by
    rw [hPv]; norm_num
  refine ⟨hA, hB, hM, ?_⟩
  rw [outer_distance_normalized _ _ 1 true hA hB hM (by norm_num), hC, hPv]
  norm_num

/-- C5, amended (miter scale law). For two consecutive non-degenerate segments whose
left-hand unit perpendiculars do not cancel (their sum has magnitude at least 0.01) and
every `halfThickness ≥ 0`, with `φ` half the turn angle: the distance from the joint to
`outer` is `min (halfThickness / cos φ) (2 * halfThickness)` when `cos φ > 0.1`, and it is
`halfThickness` (which is `min halfThickness (2 * halfThickness)`) when `cos φ ≤ 0.1`. -/
theorem C5_miter_scale_law (segA segB : Segment) (h : ℝ) (smooth : Bool)
    (hA : segA.start ≠ segA.end_) (hB : segB.start ≠ segB.end_)
    (hM : 0.01 ≤ perpSumLength segA segB) (hh : 0 ≤ h) :
    calculateDistance segA.end_ (calculateMiterPoint segA segB h smooth).outer =
      min (if Real.cos (turnAngle segA segB / 2) > 0.1 then
        h / Real.cos (turnAngle segA segB / 2) else h) (2 * h) := by
  have perpSumLength_turnAngle := miter_scale_lemmas.2.1
  have outer_distance_normalized := miter_scale_lemmas.2.2
  rw [outer_distance_normalized segA segB h smooth hA hB hM hh,
    (perpSumLength_turnAngle segA segB hA hB).2, mul_comm h 2]

/-- C5 (amended) at the corner `(0,0)-(100,0)`, `(100,0)-(100,80)` with
`halfThickness = 3`. -/
theorem C5_miter_scale_law_witness :
    calculateDistance ⟨100, 0⟩
      (calculateMiterPoint (segmentOf 1 ⟨0, 0⟩ ⟨100, 0⟩) (segmentOf 2 ⟨100, 0⟩ ⟨100, 80⟩) 3
        true).outer =
      min (if Real.cos (turnAngle (segmentOf 1 ⟨0, 0⟩ ⟨100, 0⟩)
          (segmentOf 2 ⟨100, 0⟩ ⟨100, 80⟩) / 2) > 0.1 then
        3 / Real.cos (turnAngle (segmentOf 1 ⟨0, 0⟩ ⟨100, 0⟩)
          (segmentOf 2 ⟨100, 0⟩ ⟨100, 80⟩) / 2) else 3) (2 * 3) := by
  have point_ne_of_x := point_ne_lemmas.1
  have point_ne_of_y := point_ne_lemmas.2
  have perpSumLength_turnAngle := miter_scale_lemmas.2.1
  exact
    C5_miter_scale_law (segmentOf 1 ⟨0, 0⟩ ⟨100, 0⟩) (segmentOf 2 ⟨100, 0⟩ ⟨100, 80⟩) 3 true
      (point_ne_of_x _ _ (by simp [segmentOf])) (point_ne_of_y _ _ (by simp [segmentOf]))
      (by
        have hA : (segmentOf 1 ⟨0, 0⟩ ⟨100, 0⟩).start ≠ (segmentOf 1 ⟨0, 0⟩ ⟨100, 0⟩).end_ :=
          point_ne_of_x _ _ (by simp [segmentOf])
        have hB : (segmentOf 2 ⟨100, 0⟩ ⟨100, 80⟩).start ≠
            (segmentOf 2 ⟨100, 0⟩ ⟨100, 80⟩).end_ := point_ne_of_y _ _ (by simp [segmentOf])
        rw [(perpSumLength_turnAngle _ _ hA hB).1]
        apply Real.le_sqrt_of_sq_le
        simp [segmentOf]
        norm_num)
      (by norm_num)

/-! ### The extrusion outline -/

/-- Facts on the outline of a chain: the points pushed at a joint, the loop of `createChainMesh`,
and the boundary lists of the rectangle; the parts are explained one by one in the proof. -/
theorem rectangle_outline_lemmas :
    (∀ (dx dy : ℝ),
        |dx / Real.sqrt (dx * dx + dy * dy)| ≤ 1 ∧ |dy / Real.sqrt (dx * dx + dy * dy)| ≤ 1) ∧
    (∀ (a b c e h : ℝ) (_ : |a| ≤ 1) (_ : |b| ≤ 1) (_ : 0 ≤ h),
        |(miterOffset a b c e h).1| ≤ 2 * h ∧ |(miterOffset a b c e h).2| ≤ 2 * h) ∧
    (∀ (center : Point) (seg1 seg2 : Segment) (h : ℝ) (isOuter : Bool) (arc : List Point)
        (_ : generateCornerArc center seg1 seg2 h isOuter = some arc),
        ∀ p ∈ arc, ∃ θ : ℝ, p = ⟨center.x + Real.cos θ * h, center.y + Real.sin θ * h⟩) ∧
    (∀ (seg1 seg2 : Segment) (h : ℝ) (_ : 0 ≤ h),
        (∀ p ∈ jointPoints (calculateMiterPoint seg1 seg2 h true).outerArc
            (calculateMiterPoint seg1 seg2 h true).outer,
          |p.x - seg1.end_.x| ≤ 2 * h ∧ |p.y - seg1.end_.y| ≤ 2 * h) ∧
        (∀ p ∈ jointPoints (calculateMiterPoint seg1 seg2 h true).innerArc
            (calculateMiterPoint seg1 seg2 h true).inner,
          |p.x - seg1.end_.x| ≤ 2 * h ∧ |p.y - seg1.end_.y| ≤ 2 * h)) ∧
    (∀ (h : ℝ) (first : Bool) (seg next : Segment) (rest : List Segment)
        (outer inner : List Point) (_ : ¬ calculateDistance seg.start seg.end_ < 0.1),
        chainLoop h first (seg :: next :: rest) outer inner =
          chainLoop h false (next :: rest)
            ((if first then outer ++ [⟨seg.start.x +
                  -((seg.end_.y - seg.start.y) / calculateDistance seg.start seg.end_) * h,
                seg.start.y + (seg.end_.x - seg.start.x) / calculateDistance seg.start seg.end_ * h⟩]
              else outer) ++
              jointPoints (calculateMiterPoint seg next h true).outerArc
                (calculateMiterPoint seg next h true).outer)
            ((if first then inner ++ [⟨seg.start.x -
                  -((seg.end_.y - seg.start.y) / calculateDistance seg.start seg.end_) * h,
                seg.start.y - (seg.end_.x - seg.start.x) / calculateDistance seg.start seg.end_ * h⟩]
              else inner) ++
              jointPoints (calculateMiterPoint seg next h true).innerArc
                (calculateMiterPoint seg next h true).inner)) ∧
    (∀ (h : ℝ) (first : Bool) (seg : Segment) (outer inner : List Point)
        (_ : ¬ calculateDistance seg.start seg.end_ < 0.1),
        chainLoop h first [seg] outer inner =
          ((if first then outer ++ [⟨seg.start.x +
                  -((seg.end_.y - seg.start.y) / calculateDistance seg.start seg.end_) * h,
                seg.start.y + (seg.end_.x - seg.start.x) / calculateDistance seg.start seg.end_ * h⟩]
              else outer) ++
              [⟨seg.end_.x + -((seg.end_.y - seg.start.y) / calculateDistance seg.start seg.end_) * h,
                seg.end_.y + (seg.end_.x - seg.start.x) / calculateDistance seg.start seg.end_ * h⟩],
            (if first then inner ++ [⟨seg.start.x -
                  -((seg.end_.y - seg.start.y) / calculateDistance seg.start seg.end_) * h,
                seg.start.y - (seg.end_.x - seg.start.x) / calculateDistance seg.start seg.end_ * h⟩]
              else inner) ++
              [⟨seg.end_.x - -((seg.end_.y - seg.start.y) / calculateDistance seg.start seg.end_) * h,
                seg.end_.y - (seg.end_.x - seg.start.x) / calculateDistance seg.start seg.end_ * h⟩])) ∧
    (∀ (xs : List Point) (e v : Point),
        setLast (xs ++ [e]) v = xs ++ [v]) ∧
    (∀ (c : Point) (xs : List Point) (v : Point),
        setFirst (c :: xs) v = v :: xs) ∧
    (∀ (x1 x2 y : ℝ),
        calculateDistance ⟨x1, y⟩ ⟨x2, y⟩ = |x2 - x1|) ∧
    (∀ (x y1 y2 : ℝ),
        calculateDistance ⟨x, y1⟩ ⟨x, y2⟩ = |y2 - y1|) ∧
    (
        (calculateMiterPoint rectangleSeg4 rectangleSeg1 3 true).outer = ⟨3, 3⟩ ∧
        (calculateMiterPoint rectangleSeg4 rectangleSeg1 3 true).inner = ⟨-3, -3⟩) ∧
    (∀ (c e v : Point) (j1 j2 j3 : List Point),
        setFirst (setLast (c :: j1 ++ (j2 ++ (j3 ++ [e]))) v) v = v :: ((j1 ++ (j2 ++ j3)) ++ [v])) ∧
    (
        ¬ calculateDistance rectangleSeg1.start rectangleSeg1.end_ < 0.1 ∧
        ¬ calculateDistance rectangleSeg2.start rectangleSeg2.end_ < 0.1 ∧
        ¬ calculateDistance rectangleSeg3.start rectangleSeg3.end_ < 0.1 ∧
        ¬ calculateDistance rectangleSeg4.start rectangleSeg4.end_ < 0.1) ∧
    (
        ∃ midOuter midInner : List Point,
          chainBoundaryPoints rectangleSeg1 rectangleSeg4 rectangleChain 3 =
            (⟨3, 3⟩ :: (midOuter ++ [⟨3, 3⟩]), ⟨-3, -3⟩ :: (midInner ++ [⟨-3, -3⟩])) ∧
          (∀ p ∈ midOuter ++ midInner,
            ∃ j ∈ [Point.mk 100 0, Point.mk 100 80, Point.mk 0 80],
              |p.x - j.x| ≤ 6 ∧ |p.y - j.y| ≤ 6) ∧
          ¬ inHullOf (⟨3, 3⟩ :: (midOuter ++ [⟨3, 3⟩])) ⟨-3, -3⟩) ∧
    (
        findWallChains rectangleWalls = some [rectangleChain]) := by
  have calculateDistance_lt_iff := distance_lemmas.1
  have findWallChains_loop4 := distance_lemmas.2.2.2.2.2
  have calculateMiterPoint_outer := miter_offset_lemmas.2.1
  have calculateMiterPoint_inner := miter_offset_lemmas.2.2.1
  have miterOffset_unclamped := miter_offset_lemmas.2.2.2.2.2.2.2
  have dir_abs_le_one : ∀ (dx dy : ℝ),
      |dx / Real.sqrt (dx * dx + dy * dy)| ≤ 1 ∧ |dy / Real.sqrt (dx * dx + dy * dy)| ≤ 1 := by
    intro dx dy
    have hs := Real.sqrt_nonneg (dx * dx + dy * dy)
    have hx : |dx| ≤ Real.sqrt (dx * dx + dy * dy) :=
      Real.abs_le_sqrt (by nlinarith [mul_self_nonneg dy])
    have hy : |dy| ≤ Real.sqrt (dx * dx + dy * dy) :=
      Real.abs_le_sqrt (by nlinarith [mul_self_nonneg dx])
    constructor
    · rw [abs_div, abs_of_nonneg hs]
      exact div_le_one_of_le₀ hx hs
    · rw [abs_div, abs_of_nonneg hs]
      exact div_le_one_of_le₀ hy hs
  /- Spike limit on the offset vector: each component is at most `2 * halfThick` long. -/
  have miterOffset_bound : ∀ (a b c e h : ℝ) (_ : |a| ≤ 1) (_ : |b| ≤ 1) (_ : 0 ≤ h),
      |(miterOffset a b c e h).1| ≤ 2 * h ∧ |(miterOffset a b c e h).2| ≤ 2 * h := by
    intro a b c e h ha hb hh
    have key : ∀ (m s : ℝ), |m| ≤ 1 → 0 ≤ s → |m * min s (h * 2)| ≤ 2 * h := by
      intro m s hm hs
      have h0 : 0 ≤ min s (h * 2) := le_min hs (by linarith)
      have h1 : min s (h * 2) ≤ h * 2 := min_le_right _ _
      rw [abs_mul, abs_of_nonneg h0]
      calc |m| * min s (h * 2) ≤ 1 * (h * 2) := mul_le_mul hm h1 h0 (by norm_num)
        _ = 2 * h := by ring
    have hscale : ∀ d : ℝ, 0 ≤ (if d > 0.1 then h / d else h) := by
      intro d
      split_ifs with hd
      · exact div_nonneg hh (le_trans (by norm_num) hd.le)
      · exact hh
    obtain ⟨hX, hY⟩ := dir_abs_le_one (-b + -e) (a + c)
    have hY' : |(a + c) / Real.sqrt ((-b + -e) * (-b + -e) + (a + c) * (a + c))| ≤ 1 := by
      have := (dir_abs_le_one (a + c) (-b + -e)).1
      rwa [add_comm ((a + c) * (a + c))] at this
    unfold miterOffset
    simp only
    constructor
    · apply key _ _ _ (hscale _)
      split_ifs
      · rwa [abs_neg]
      · exact hX
    · apply key _ _ _ (hscale _)
      split_ifs
      · exact ha
      · exact hY'
  have generateCornerArc_mem : ∀ (center : Point) (seg1 seg2 : Segment) (h : ℝ) (isOuter : Bool)
      (arc : List Point) (_ : generateCornerArc center seg1 seg2 h isOuter = some arc),
      ∀ p ∈ arc, ∃ θ : ℝ, p = ⟨center.x + Real.cos θ * h, center.y + Real.sin θ * h⟩ := by
    intro center seg1 seg2 h isOuter arc harc
    unfold generateCornerArc at harc
    simp only at harc
    split_ifs at harc <;>
    · simp only [Option.some.injEq] at harc
      intro p hp
      rw [← harc] at hp
      obtain ⟨i, -, rfl⟩ := List.mem_map.1 hp
      exact ⟨_, rfl⟩
  /- Every point pushed at a miter joint, arc point or miter point, is within
  `2 * halfThick` of the joint in each coordinate. -/
  have jointPoints_near : ∀ (seg1 seg2 : Segment) (h : ℝ) (_ : 0 ≤ h),
      (∀ p ∈ jointPoints (calculateMiterPoint seg1 seg2 h true).outerArc
          (calculateMiterPoint seg1 seg2 h true).outer,
        |p.x - seg1.end_.x| ≤ 2 * h ∧ |p.y - seg1.end_.y| ≤ 2 * h) ∧
      (∀ p ∈ jointPoints (calculateMiterPoint seg1 seg2 h true).innerArc
          (calculateMiterPoint seg1 seg2 h true).inner,
        |p.x - seg1.end_.x| ≤ 2 * h ∧ |p.y - seg1.end_.y| ≤ 2 * h) := by
    intro seg1 seg2 h hh
    obtain ⟨ha, hb⟩ := dir_abs_le_one (seg1.end_.x - seg1.start.x) (seg1.end_.y - seg1.start.y)
    obtain ⟨b1, b2⟩ := miterOffset_bound
      ((seg1.end_.x - seg1.start.x) / calculateDistance seg1.start seg1.end_)
      ((seg1.end_.y - seg1.start.y) / calculateDistance seg1.start seg1.end_)
      ((seg2.end_.x - seg2.start.x) / calculateDistance seg2.start seg2.end_)
      ((seg2.end_.y - seg2.start.y) / calculateDistance seg2.start seg2.end_) h ha hb hh
    have hm1 : |(calculateMiterPoint seg1 seg2 h true).outer.x - seg1.end_.x| ≤ 2 * h ∧
        |(calculateMiterPoint seg1 seg2 h true).outer.y - seg1.end_.y| ≤ 2 * h := by
      rw [calculateMiterPoint_outer]
      simp only [add_sub_cancel_left]
      exact ⟨b1, b2⟩
    have hm2 : |(calculateMiterPoint seg1 seg2 h true).inner.x - seg1.end_.x| ≤ 2 * h ∧
        |(calculateMiterPoint seg1 seg2 h true).inner.y - seg1.end_.y| ≤ 2 * h := by
      rw [calculateMiterPoint_inner]
      simp only [sub_sub_cancel_left, abs_neg]
      exact ⟨b1, b2⟩
    have harcs : ∀ (o : Bool) (arc : List Point),
        generateCornerArc seg1.end_ seg1 seg2 h o = some arc →
        ∀ p ∈ arc, |p.x - seg1.end_.x| ≤ 2 * h ∧ |p.y - seg1.end_.y| ≤ 2 * h := by
      intro o arc harc p hp
      obtain ⟨θ, rfl⟩ := generateCornerArc_mem _ _ _ _ _ _ harc p hp
      simp only [add_sub_cancel_left]
      constructor
      · rw [abs_mul, abs_of_nonneg hh]
        nlinarith [Real.abs_cos_le_one θ, abs_nonneg (Real.cos θ)]
      · rw [abs_mul, abs_of_nonneg hh]
        nlinarith [Real.abs_sin_le_one θ, abs_nonneg (Real.sin θ)]
    have hjoint : ∀ (arc : Option (List Point)) (m : Point),
        (∀ l, arc = some l → ∀ p ∈ l, |p.x - seg1.end_.x| ≤ 2 * h ∧ |p.y - seg1.end_.y| ≤ 2 * h) →
        (|m.x - seg1.end_.x| ≤ 2 * h ∧ |m.y - seg1.end_.y| ≤ 2 * h) →
        ∀ p ∈ jointPoints arc m, |p.x - seg1.end_.x| ≤ 2 * h ∧ |p.y - seg1.end_.y| ≤ 2 * h := by
      intro arc m h1 h2 p hp
      unfold jointPoints at hp
      cases arc with
      | none =>
        simp only [List.mem_singleton] at hp
        rw [hp]; exact h2
      | some l =>
        simp only at hp
        split_ifs at hp
        · exact h1 l rfl p hp
        · simp only [List.mem_singleton] at hp
          rw [hp]; exact h2
    constructor
    · apply hjoint _ _ _ hm1
      intro l hl
      exact harcs true l hl
    · apply hjoint _ _ _ hm2
      intro l hl
      exact harcs false l hl
  have chainLoop_cons_cons : ∀ (h : ℝ) (first : Bool) (seg next : Segment) (rest : List Segment)
      (outer inner : List Point) (_ : ¬ calculateDistance seg.start seg.end_ < 0.1),
      chainLoop h first (seg :: next :: rest) outer inner =
        chainLoop h false (next :: rest)
          ((if first then outer ++ [⟨seg.start.x +
                -((seg.end_.y - seg.start.y) / calculateDistance seg.start seg.end_) * h,
              seg.start.y + (seg.end_.x - seg.start.x) / calculateDistance seg.start seg.end_ * h⟩]
            else outer) ++
            jointPoints (calculateMiterPoint seg next h true).outerArc
              (calculateMiterPoint seg next h true).outer)
          ((if first then inner ++ [⟨seg.start.x -
                -((seg.end_.y - seg.start.y) / calculateDistance seg.start seg.end_) * h,
              seg.start.y - (seg.end_.x - seg.start.x) / calculateDistance seg.start seg.end_ * h⟩]
            else inner) ++
            jointPoints (calculateMiterPoint seg next h true).innerArc
              (calculateMiterPoint seg next h true).inner) := by
    intro h first seg next rest outer inner hlen
    rw [chainLoop]
    simp only [List.head?_cons]
    exact (if_neg hlen).trans rfl
  have chainLoop_single : ∀ (h : ℝ) (first : Bool) (seg : Segment) (outer inner : List Point)
      (_ : ¬ calculateDistance seg.start seg.end_ < 0.1),
      chainLoop h first [seg] outer inner =
        ((if first then outer ++ [⟨seg.start.x +
                -((seg.end_.y - seg.start.y) / calculateDistance seg.start seg.end_) * h,
              seg.start.y + (seg.end_.x - seg.start.x) / calculateDistance seg.start seg.end_ * h⟩]
            else outer) ++
            [⟨seg.end_.x + -((seg.end_.y - seg.start.y) / calculateDistance seg.start seg.end_) * h,
              seg.end_.y + (seg.end_.x - seg.start.x) / calculateDistance seg.start seg.end_ * h⟩],
          (if first then inner ++ [⟨seg.start.x -
                -((seg.end_.y - seg.start.y) / calculateDistance seg.start seg.end_) * h,
              seg.start.y - (seg.end_.x - seg.start.x) / calculateDistance seg.start seg.end_ * h⟩]
            else inner) ++
            [⟨seg.end_.x - -((seg.end_.y - seg.start.y) / calculateDistance seg.start seg.end_) * h,
              seg.end_.y - (seg.end_.x - seg.start.x) / calculateDistance seg.start seg.end_ * h⟩]) := by
    intro h first seg outer inner hlen
    rw [chainLoop]
    simp only [List.head?_nil]
    exact (if_neg hlen).trans rfl
  have setLast_append_singleton : ∀ (xs : List Point) (e v : Point),
      setLast (xs ++ [e]) v = xs ++ [v] := by
    intro xs e v
    unfold setLast
    rw [if_neg (by simp)]
    simp
  have setFirst_cons : ∀ (c : Point) (xs : List Point) (v : Point),
      setFirst (c :: xs) v = v :: xs := by
    intro c xs v
    exact
     rfl
  have calculateDistance_horizontal : ∀ (x1 x2 y : ℝ),
      calculateDistance ⟨x1, y⟩ ⟨x2, y⟩ = |x2 - x1| := by
    intro x1 x2 y
    unfold calculateDistance
    simp only [sub_self, mul_zero, add_zero]
    exact Real.sqrt_mul_self_eq_abs _
  have calculateDistance_vertical : ∀ (x y1 y2 : ℝ),
      calculateDistance ⟨x, y1⟩ ⟨x, y2⟩ = |y2 - y1| := by
    intro x y1 y2
    unfold calculateDistance
    simp only [sub_self, mul_zero, zero_add]
    exact Real.sqrt_mul_self_eq_abs _
  /- The closing miter of the rectangle, between `(0,80)-(0,0)` and `(0,0)-(100,0)`. -/
  have rectangle_closing_miter :
      (calculateMiterPoint rectangleSeg4 rectangleSeg1 3 true).outer = ⟨3, 3⟩ ∧
      (calculateMiterPoint rectangleSeg4 rectangleSeg1 3 true).inner = ⟨-3, -3⟩ := by
    rw [calculateMiterPoint_outer, calculateMiterPoint_inner]
    simp only [rectangleSeg4, rectangleSeg1, calculateDistance_horizontal,
      calculateDistance_vertical]
    have e1 : ((0 : ℝ) - 0) / |(0 : ℝ) - 80| = 0 := by norm_num
    have e2 : ((0 : ℝ) - 80) / |(0 : ℝ) - 80| = -1 := by norm_num [abs_of_neg]
    have e3 : ((100 : ℝ) - 0) / |(100 : ℝ) - 0| = 1 := by norm_num
    have e4 : ((0 : ℝ) - 0) / |(100 : ℝ) - 0| = 0 := by norm_num
    rw [e1, e2, e3, e4, miterOffset_unclamped 0 (-1) 1 0 3 (by norm_num) (by norm_num)
      (by norm_num) (by norm_num)]
    norm_num
  have closing_assign : ∀ (c e v : Point) (j1 j2 j3 : List Point),
      setFirst (setLast (c :: j1 ++ (j2 ++ (j3 ++ [e]))) v) v = v :: ((j1 ++ (j2 ++ j3)) ++ [v]) := by
    intro c e v j1 j2 j3
    have h : c :: j1 ++ (j2 ++ (j3 ++ [e])) = (c :: (j1 ++ (j2 ++ j3))) ++ [e] := by simp
    rw [h, setLast_append_singleton]
    rfl
  have rectangle_lengths :
      ¬ calculateDistance rectangleSeg1.start rectangleSeg1.end_ < 0.1 ∧
      ¬ calculateDistance rectangleSeg2.start rectangleSeg2.end_ < 0.1 ∧
      ¬ calculateDistance rectangleSeg3.start rectangleSeg3.end_ < 0.1 ∧
      ¬ calculateDistance rectangleSeg4.start rectangleSeg4.end_ < 0.1 := by
    simp only [rectangleSeg1, rectangleSeg2, rectangleSeg3, rectangleSeg4,
      calculateDistance_horizontal, calculateDistance_vertical]
    norm_num [abs_of_neg]
  /- The lists `outerPoints` and `innerPoints` of `createChainMesh` for the rectangle: the
  closing miter points `(3,3)` and `(-3,-3)` at both ends, and in between the points
  pushed at the joints `(100,0)`, `(100,80)`, `(0,80)`, each within 6 units of its
  joint in each coordinate. The half-plane `x + y ≥ 6` holds all the outer points and not
  the inner point `(-3,-3)`. -/
  have rectangle_boundary :
      ∃ midOuter midInner : List Point,
        chainBoundaryPoints rectangleSeg1 rectangleSeg4 rectangleChain 3 =
          (⟨3, 3⟩ :: (midOuter ++ [⟨3, 3⟩]), ⟨-3, -3⟩ :: (midInner ++ [⟨-3, -3⟩])) ∧
        (∀ p ∈ midOuter ++ midInner,
          ∃ j ∈ [Point.mk 100 0, Point.mk 100 80, Point.mk 0 80],
            |p.x - j.x| ≤ 6 ∧ |p.y - j.y| ≤ 6) ∧
        ¬ inHullOf (⟨3, 3⟩ :: (midOuter ++ [⟨3, 3⟩])) ⟨-3, -3⟩ := by
    have hB := jointPoints_near rectangleSeg1 rectangleSeg2 3 (by norm_num)
    have hC := jointPoints_near rectangleSeg2 rectangleSeg3 3 (by norm_num)
    have hD := jointPoints_near rectangleSeg3 rectangleSeg4 3 (by norm_num)
    have h6 : (2 : ℝ) * 3 = 6 := by norm_num
    rw [h6] at hB hC hD
    obtain ⟨hmo, hmi⟩ := rectangle_closing_miter
    obtain ⟨l1, l2, l3, l4⟩ := rectangle_lengths
    have hclosed : calculateDistance rectangleSeg1.start rectangleSeg4.end_ < 5 ∧
        rectangleChain.length > 1 := by
      constructor
      · rw [calculateDistance_lt_iff _ _ _ (by norm_num)]
        norm_num [rectangleSeg1, rectangleSeg4]
      · simp [rectangleChain]
    have hnear : ∀ p ∈
        (jointPoints (calculateMiterPoint rectangleSeg1 rectangleSeg2 3 true).outerArc
          (calculateMiterPoint rectangleSeg1 rectangleSeg2 3 true).outer ++
        (jointPoints (calculateMiterPoint rectangleSeg2 rectangleSeg3 3 true).outerArc
          (calculateMiterPoint rectangleSeg2 rectangleSeg3 3 true).outer ++
        jointPoints (calculateMiterPoint rectangleSeg3 rectangleSeg4 3 true).outerArc
          (calculateMiterPoint rectangleSeg3 rectangleSeg4 3 true).outer)) ++
        (jointPoints (calculateMiterPoint rectangleSeg1 rectangleSeg2 3 true).innerArc
          (calculateMiterPoint rectangleSeg1 rectangleSeg2 3 true).inner ++
        (jointPoints (calculateMiterPoint rectangleSeg2 rectangleSeg3 3 true).innerArc
          (calculateMiterPoint rectangleSeg2 rectangleSeg3 3 true).inner ++
        jointPoints (calculateMiterPoint rectangleSeg3 rectangleSeg4 3 true).innerArc
          (calculateMiterPoint rectangleSeg3 rectangleSeg4 3 true).inner)),
        ∃ j ∈ [Point.mk 100 0, Point.mk 100 80, Point.mk 0 80],
          |p.x - j.x| ≤ 6 ∧ |p.y - j.y| ≤ 6 := by
      intro p hp
      simp only [List.mem_append] at hp
      rcases hp with (hp | hp | hp) | (hp | hp | hp)
      · exact ⟨_, List.mem_cons_self _ _, hB.1 p hp⟩
      · exact ⟨_, List.mem_cons_of_mem _ (List.mem_cons_self _ _), hC.1 p hp⟩
      · exact ⟨_, List.mem_cons_of_mem _ (List.mem_cons_of_mem _ (List.mem_cons_self _ _)),
          hD.1 p hp⟩
      · exact ⟨_, List.mem_cons_self _ _, hB.2 p hp⟩
      · exact ⟨_, List.mem_cons_of_mem _ (List.mem_cons_self _ _), hC.2 p hp⟩
      · exact ⟨_, List.mem_cons_of_mem _ (List.mem_cons_of_mem _ (List.mem_cons_self _ _)),
          hD.2 p hp⟩
    refine ⟨_, _, ?_, hnear, ?_⟩
    · unfold chainBoundaryPoints
      simp only []
      rw [if_pos hclosed]
      unfold rectangleChain
      rw [chainLoop_cons_cons _ _ _ _ _ _ _ l1, chainLoop_cons_cons _ _ _ _ _ _ _ l2,
        chainLoop_cons_cons _ _ _ _ _ _ _ l3, chainLoop_single _ _ _ _ _ l4]
      simp only [hmo, hmi, if_true, List.nil_append, List.append_assoc,
        List.singleton_append, Bool.false_eq_true, if_false]
      rw [closing_assign, closing_assign]
      simp only [List.append_assoc]
    · intro hhull
      have := hhull (-1) (-1) (-6) (by
        intro q hq
        have hq6 : 6 ≤ q.x + q.y := by
          rcases List.mem_cons.1 hq with rfl | hq
          · norm_num
          · rcases List.mem_append.1 hq with hq | hq
            · obtain ⟨j, hj, h1, h2⟩ := hnear q (List.mem_append_left _ hq)
              rw [abs_le] at h1 h2
              simp only [List.mem_cons, List.mem_singleton, List.not_mem_nil, or_false] at hj
              rcases hj with rfl | rfl | rfl <;> simp only at h1 h2 <;> linarith [h1.1, h2.1]
            · rw [List.mem_singleton] at hq
              rw [hq]; norm_num
        linarith)
      norm_num at this
  have findWallChains_rectangleWalls :
      findWallChains rectangleWalls = some [rectangleChain] := by
    unfold rectangleWalls
    rw [findWallChains_loop4 _ _ _ _ rfl rfl rfl (by decide)]
    rfl
  exact ⟨dir_abs_le_one, miterOffset_bound, generateCornerArc_mem, jointPoints_near,
    chainLoop_cons_cons, chainLoop_single, setLast_append_singleton, setFirst_cons,
    calculateDistance_horizontal, calculateDistance_vertical, rectangle_closing_miter,
    closing_assign, rectangle_lengths, rectangle_boundary, findWallChains_rectangleWalls⟩
/-- C6 as stated fails: on the rectangle, the inner boundary contains the point
`(-3,-3)`, while every outer boundary point satisfies `x + y ≥ 6`; the half-plane
`x + y ≥ 6` separates `(-3,-3)` from the polygon of the outer boundary points, which
therefore does not contain it. -/
theorem C6_counterexample :
    findWallChains rectangleWalls = some [rectangleChain] ∧
    ∃ outerPoints innerPoints : List Point,
      chainBoundaryPoints rectangleSeg1 rectangleSeg4 rectangleChain (6 / 2) =
        (outerPoints, innerPoints) ∧
      Point.mk (-3) (-3) ∈ innerPoints ∧ ¬ inHullOf outerPoints (Point.mk (-3) (-3)) := by
  have rectangle_boundary := rectangle_outline_lemmas.2.2.2.2.2.2.2.2.2.2.2.2.2.1
  have findWallChains_rectangleWalls := rectangle_outline_lemmas.2.2.2.2.2.2.2.2.2.2.2.2.2.2
  obtain ⟨midOuter, midInner, hb, -, hhull⟩ := rectangle_boundary
  have h3 : (6 : ℝ) / 2 = 3 := by norm_num
  exact ⟨findWallChains_rectangleWalls, _, _, by rw [h3]; exact hb, List.mem_cons_self _ _,
    hhull⟩

/-- C6, amended (volume outline of the rectangle). For the closed chain that
`findWallChains` produces from the four rectangle walls, with thickness 6 and height 96,
`createChainMesh` builds the outline "outer points in order, then inner points reversed,
then the first outer point again" (drawn with `y` negated), extruded by 96; its first and
last points coincide. The outer boundary does not enclose the inner boundary. The outer
points begin and end with `(3,3)`, the `outer` point of the miter of the closing joint,
which lies inside the rectangle; the inner points begin and end with `(-3,-3)`, its
`inner` point, which lies outside the rectangle and outside the polygon of the outer
points. Every other outer or inner point is within 6 units, in each coordinate, of one of
the joints `(100,0)`, `(100,80)`, `(0,80)`. -/
theorem C6_rectangle_outline :
    findWallChains rectangleWalls = some [rectangleChain] ∧
    ∃ (outerPoints innerPoints : List Point) (mesh : ChainMesh),
      chainBoundaryPoints rectangleSeg1 rectangleSeg4 rectangleChain (6 / 2) =
        (outerPoints, innerPoints) ∧
      createChainMesh rectangleChain 6 96 = Except.ok (some mesh) ∧
      mesh.outline = (outerPoints ++ innerPoints.reverse ++ [(Point.mk 3 3)]).map shapePoint ∧
      mesh.depth = 96 ∧
      outerPoints.head? = some (Point.mk 3 3) ∧ innerPoints.head? = some (Point.mk (-3) (-3)) ∧
      mesh.outline.head? = some (Point.mk 3 (-3)) ∧
      mesh.outline.getLast? = some (Point.mk 3 (-3)) ∧
      (calculateMiterPoint rectangleSeg4 rectangleSeg1 (6 / 2) true).outer = Point.mk 3 3 ∧
      (calculateMiterPoint rectangleSeg4 rectangleSeg1 (6 / 2) true).inner =
        Point.mk (-3) (-3) ∧
      (∃ midOuter midInner : List Point,
        outerPoints = Point.mk 3 3 :: (midOuter ++ [Point.mk 3 3]) ∧
        innerPoints = Point.mk (-3) (-3) :: (midInner ++ [Point.mk (-3) (-3)]) ∧
        ∀ p ∈ midOuter ++ midInner,
          ∃ j ∈ [Point.mk 100 0, Point.mk 100 80, Point.mk 0 80],
            |p.x - j.x| ≤ 6 ∧ |p.y - j.y| ≤ 6) ∧
      ¬ inHullOf outerPoints (Point.mk (-3) (-3)) := by
  have rectangle_closing_miter := rectangle_outline_lemmas.2.2.2.2.2.2.2.2.2.2.1
  have rectangle_boundary := rectangle_outline_lemmas.2.2.2.2.2.2.2.2.2.2.2.2.2.1
  have findWallChains_rectangleWalls := rectangle_outline_lemmas.2.2.2.2.2.2.2.2.2.2.2.2.2.2
  obtain ⟨midOuter, midInner, hb, hnear, hhull⟩ := rectangle_boundary
  obtain ⟨hmo, hmi⟩ := rectangle_closing_miter
  have h3 : (6 : ℝ) / 2 = 3 := by norm_num
  have hmesh : createChainMesh rectangleChain 6 96 = Except.ok (some
      ⟨((Point.mk 3 3 :: (midOuter ++ [(Point.mk 3 3)])) ++
        (Point.mk (-3) (-3) :: (midInner ++ [(Point.mk (-3) (-3))])).reverse ++
        [(Point.mk 3 3)]).map shapePoint, 96⟩) := by
    unfold createChainMesh
    have hh : rectangleChain.head? = some rectangleSeg1 := rfl
    have hl : rectangleChain.getLast? = some rectangleSeg4 := rfl
    rw [hh, hl]
    simp only [h3, hb, List.head?_cons]
  refine ⟨findWallChains_rectangleWalls, _, _, _, by rw [h3]; exact hb, hmesh, rfl, rfl, rfl, rfl,
    ?_, ?_, by rw [h3]; exact hmo, by rw [h3]; exact hmi,
    ⟨midOuter, midInner, rfl, rfl, hnear⟩, hhull⟩
  · simp [shapePoint]
  · show (List.map shapePoint (_ ++ [Point.mk 3 3])).getLast? = _
    rw [List.map_append]
    exact List.getLast?_concat _

/-! ### Constrained corner mover -/

/-- Facts on `updateWall` and on the walls found at a point; the parts are explained one by one in
the proof. -/
theorem updateWall_lemmas :
    (∀ (f : Wall → Wall),
        ∀ (walls : List Wall) (i : ℕ), (updateWall walls i f).length = walls.length) ∧
    (∀ (f : Wall → Wall),
        ∀ (walls : List Wall) (i j : ℕ),
          (updateWall walls i f)[j]? = if j = i then (walls[j]?).map f else walls[j]?) ∧
    (∀ (pos : Point) (ex : Option ℕ),
        ∀ (rest : List Wall) (i : ℕ),
          (∀ c ∈ findWallsAtPointFrom pos ex i rest, i ≤ c.1 ∧ some c.1 ≠ ex) ∧
          (findWallsAtPointFrom pos ex i rest).Pairwise (fun a b => a.1 < b.1) ∧
          ∀ (k : ℕ) (w : Wall), rest[k]? = some w → some (i + k) ≠ ex →
            (findWallsAtPointFrom pos ex i rest).lookup (i + k) =
              if calculateDistance pos w.start < 5 then some PointType.start
              else if calculateDistance pos w.end_ < 5 then some PointType.end_ else none) := by
  have updateWall_length : ∀ (f : Wall → Wall),
      ∀ (walls : List Wall) (i : ℕ), (updateWall walls i f).length = walls.length := by
    intro f
    intro walls
    induction walls with
    | nil => intro i; rfl
    | cons w rest ih =>
      intro i
      cases i with
      | zero => rfl
      | succ i => simp [updateWall, ih]
  have updateWall_getElem? : ∀ (f : Wall → Wall),
      ∀ (walls : List Wall) (i j : ℕ),
        (updateWall walls i f)[j]? = if j = i then (walls[j]?).map f else walls[j]? := by
    intro f
    intro walls
    induction walls with
    | nil => intro i j; simp [updateWall]
    | cons w rest ih =>
      intro i j
      cases i with
      | zero =>
        cases j with
        | zero => simp [updateWall]
        | succ j => simp [updateWall]
      | succ i =>
        cases j with
        | zero => simp [updateWall]
        | succ j => simp [updateWall, ih]
  /- The endpoint that `findWallsAtPoint` records for one wall: `start` when it is within
  5 units of `pos`, else `end` when that one is, else none. -/
  have findWallsAtPointFrom_spec : ∀ (pos : Point) (ex : Option ℕ),
      ∀ (rest : List Wall) (i : ℕ),
        (∀ c ∈ findWallsAtPointFrom pos ex i rest, i ≤ c.1 ∧ some c.1 ≠ ex) ∧
        (findWallsAtPointFrom pos ex i rest).Pairwise (fun a b => a.1 < b.1) ∧
        ∀ (k : ℕ) (w : Wall), rest[k]? = some w → some (i + k) ≠ ex →
          (findWallsAtPointFrom pos ex i rest).lookup (i + k) =
            if calculateDistance pos w.start < 5 then some PointType.start
            else if calculateDistance pos w.end_ < 5 then some PointType.end_ else none := by
    intro pos ex
    intro rest
    induction rest with
    | nil =>
      intro i
      simp [findWallsAtPointFrom]
    | cons wall rest ih =>
      intro i
      obtain ⟨ih1, ih2, ih3⟩ := ih (i + 1)
      have hlookup_lt : (findWallsAtPointFrom pos ex (i + 1) rest).lookup i = none := by
        rw [List.lookup_eq_none_iff]
        intro c hc
        have := (ih1 c hc).1
        simp only [bne_iff_ne, ne_eq]
        omega
      have hmem : ∀ c ∈ findWallsAtPointFrom pos ex (i + 1) rest, i ≤ c.1 ∧ some c.1 ≠ ex :=
        fun c hc => ⟨by have := (ih1 c hc).1; omega, (ih1 c hc).2⟩
      have hpair : ∀ pt : PointType, (((i, pt) :: findWallsAtPointFrom pos ex (i + 1) rest)).Pairwise
          (fun a b => a.1 < b.1) := by
        intro pt
        refine List.Pairwise.cons ?_ ih2
        intro c hc
        have := (ih1 c hc).1
        simp only
        omega
      have htail : ∀ (k : ℕ) (w : Wall), rest[k]? = some w → some (i + (k + 1)) ≠ ex →
          (findWallsAtPointFrom pos ex (i + 1) rest).lookup (i + (k + 1)) =
            if calculateDistance pos w.start < 5 then some PointType.start
            else if calculateDistance pos w.end_ < 5 then some PointType.end_ else none := by
        intro k w hk hex
        have := ih3 k w hk (by rwa [show i + 1 + k = i + (k + 1) by omega])
        rwa [show i + 1 + k = i + (k + 1) by omega] at this
      unfold findWallsAtPointFrom
      split_ifs with h1 h2 h3
      · refine ⟨hmem, ih2, ?_⟩
        intro k w hk hex
        cases k with
        | zero => exact absurd h1 hex
        | succ k => exact htail k w (by simpa using hk) hex
      · refine ⟨?_, hpair _, ?_⟩
        · intro c hc
          rcases List.mem_cons.1 hc with rfl | hc
          · exact ⟨le_refl _, h1⟩
          · exact hmem c hc
        · intro k w hk hex
          cases k with
          | zero =>
            simp only [List.getElem?_cons_zero, Option.some.injEq] at hk
            subst hk
            simp [List.lookup, h2]
          | succ k =>
            have hne : (i + (k + 1) == i) = false := by simp
            rw [List.lookup_cons, hne]
            exact htail k w (by simpa using hk) hex
      · refine ⟨?_, hpair _, ?_⟩
        · intro c hc
          rcases List.mem_cons.1 hc with rfl | hc
          · exact ⟨le_refl _, h1⟩
          · exact hmem c hc
        · intro k w hk hex
          cases k with
          | zero =>
            simp only [List.getElem?_cons_zero, Option.some.injEq] at hk
            subst hk
            simp [List.lookup, h2, h3]
          | succ k =>
            have hne : (i + (k + 1) == i) = false := by simp
            rw [List.lookup_cons, hne]
            exact htail k w (by simpa using hk) hex
      · refine ⟨hmem, ih2, ?_⟩
        intro k w hk hex
        cases k with
        | zero =>
          simp only [List.getElem?_cons_zero, Option.some.injEq] at hk
          subst hk
          simp only [add_zero]
          rw [hlookup_lt, if_neg h2, if_neg h3]
        | succ k => exact htail k w (by simpa using hk) hex
  exact ⟨updateWall_length, updateWall_getElem?, findWallsAtPointFrom_spec⟩
/-- C7 fails on the code. On the rectangle, in constrained mode: dragging the end
`(100,0)` of the wall `(0,0)-(100,0)` by `(dx, 0)` leaves all four walls unchanged for
every `dx` (the vertical connected wall resets the dragged `x`), so no wall length changes
by `dx`; dragging the start `(100,0)` of the wall `(100,0)-(100,80)` by `(10, 0)` moves
that corner only, so this wall becomes the diagonal `(110,0)-(100,80)` and the four walls
no longer form a rectangle. -/
theorem C7_constrained_move_on_rectangle :
    (∀ dx : ℝ,
      moveWallPointWithConstraints rectangleWalls 0 .end_ ⟨100 + dx, 0⟩ false = rectangleWalls) ∧
    moveWallPointWithConstraints rectangleWalls 1 .start ⟨100 + 10, 0⟩ false =
      [⟨1, ⟨0, 0⟩, ⟨110, 0⟩, 6, 96⟩, ⟨2, ⟨110, 0⟩, ⟨100, 80⟩, 6, 96⟩,
       ⟨3, ⟨100, 80⟩, ⟨0, 80⟩, 6, 96⟩, ⟨4, ⟨0, 80⟩, ⟨0, 0⟩, 6, 96⟩] := by
  have calculateDistance_lt_five := distance_lemmas.2.2.2.2.1
  constructor
  · intro dx
    norm_num [moveWallPointWithConstraints, rectangleWalls, findWallsAtPoint,
      findWallsAtPointFrom, getWallPointPos, calculateDistance_lt_five, constrainedAlign,
      alignStep, propagateStep, furtherStep, updateWall, setWallPointPos, setWallPointX,
      setWallPointY, otherPointType]
  · norm_num [moveWallPointWithConstraints, rectangleWalls, findWallsAtPoint,
      findWallsAtPointFrom, getWallPointPos, calculateDistance_lt_five, constrainedAlign,
      alignStep, propagateStep, furtherStep, updateWall, setWallPointPos, setWallPointX,
      setWallPointY, otherPointType]

/-- Facts on the walls found at a point and on the free mover's loop; the parts are explained one
by one in the proof. -/
theorem free_move_lemmas :
    (∀ (walls : List Wall) (pos : Point) (ex : Option ℕ),
        (∀ c ∈ findWallsAtPoint walls pos ex, some c.1 ≠ ex) ∧
        (findWallsAtPoint walls pos ex).Pairwise (fun a b => a.1 < b.1) ∧
        ∀ (k : ℕ) (w : Wall), walls[k]? = some w → some k ≠ ex →
          (findWallsAtPoint walls pos ex).lookup k =
            if calculateDistance pos w.start < 5 then some PointType.start
            else if calculateDistance pos w.end_ < 5 then some PointType.end_ else none) ∧
    (∀ (newPos : Point),
        ∀ (conns : List (ℕ × PointType)) (ws : List Wall),
          (conns.foldl (freeStep newPos) ws).length = ws.length) ∧
    (∀ (newPos : Point),
        ∀ (conns : List (ℕ × PointType)) (ws : List Wall),
          conns.Pairwise (fun a b => a.1 < b.1) →
          ∀ j, (conns.foldl (freeStep newPos) ws)[j]? =
            (ws[j]?).map (fun w =>
              match conns.lookup j with
              | some pt => setWallPointPos w pt newPos
              | none => w)) := by
  have updateWall_length := updateWall_lemmas.1
  have updateWall_getElem? := updateWall_lemmas.2.1
  have findWallsAtPointFrom_spec := updateWall_lemmas.2.2
  have findWallsAtPoint_spec : ∀ (walls : List Wall) (pos : Point) (ex : Option ℕ),
      (∀ c ∈ findWallsAtPoint walls pos ex, some c.1 ≠ ex) ∧
      (findWallsAtPoint walls pos ex).Pairwise (fun a b => a.1 < b.1) ∧
      ∀ (k : ℕ) (w : Wall), walls[k]? = some w → some k ≠ ex →
        (findWallsAtPoint walls pos ex).lookup k =
          if calculateDistance pos w.start < 5 then some PointType.start
          else if calculateDistance pos w.end_ < 5 then some PointType.end_ else none := by
    intro walls pos ex
    obtain ⟨h1, h2, h3⟩ := findWallsAtPointFrom_spec pos ex walls 0
    refine ⟨fun c hc => (h1 c hc).2, h2, ?_⟩
    intro k w hk hex
    have := h3 k w hk (by rwa [zero_add])
    rwa [zero_add] at this
  have foldl_freeStep_length : ∀ (newPos : Point),
      ∀ (conns : List (ℕ × PointType)) (ws : List Wall),
        (conns.foldl (freeStep newPos) ws).length = ws.length := by
    intro newPos
    intro conns
    induction conns with
    | nil => intro ws; rfl
    | cons c conns ih =>
      intro ws
      rw [List.foldl_cons, ih, freeStep, updateWall_length]
  have foldl_freeStep_getElem? : ∀ (newPos : Point),
      ∀ (conns : List (ℕ × PointType)) (ws : List Wall),
        conns.Pairwise (fun a b => a.1 < b.1) →
        ∀ j, (conns.foldl (freeStep newPos) ws)[j]? =
          (ws[j]?).map (fun w =>
            match conns.lookup j with
            | some pt => setWallPointPos w pt newPos
            | none => w) := by
    intro newPos
    intro conns
    induction conns with
    | nil =>
      intro ws _ j
      simp
    | cons c conns ih =>
      intro ws hp j
      rw [List.pairwise_cons] at hp
      rw [List.foldl_cons, ih _ hp.2, freeStep, updateWall_getElem?]
      by_cases hj : j = c.1
      · have hnone : conns.lookup j = none := by
          rw [List.lookup_eq_none_iff]
          intro d hd
          have := hp.1 d hd
          simp only [bne_iff_ne, ne_eq]
          omega
        have hsome : (c :: conns).lookup j = some c.2 := by
          rw [List.lookup_cons]
          simp [hj]
        rw [if_pos hj, hnone, hsome]
        cases ws[j]? <;> simp [hj]
      · have hsame : (c :: conns).lookup j = conns.lookup j := by
          rw [List.lookup_cons]
          have : (j == c.1) = false := by simpa using hj
          rw [this]
        rw [if_neg hj, hsame]
  exact ⟨findWallsAtPoint_spec, foldl_freeStep_length, foldl_freeStep_getElem?⟩
/-- C8 as stated fails for a wall with both endpoints within 5 units of the old corner:
`findWallsAtPoint` records its `start` only, so its `end` stays. Walls `(0,0)-(100,0)`
and `(1,0)-(3,0)`, dragging the first wall's `start` to `(50,50)` in free mode: the point
`(3,0)` was at distance 3 from the old corner `(0,0)` and is not moved. -/
theorem C8_counterexample :
    moveWallPointWithConstraints
        [⟨1, ⟨0, 0⟩, ⟨100, 0⟩, 6, 96⟩, ⟨2, ⟨1, 0⟩, ⟨3, 0⟩, 6, 96⟩] 0 .start ⟨50, 50⟩ true =
      [⟨1, ⟨50, 50⟩, ⟨100, 0⟩, 6, 96⟩, ⟨2, ⟨50, 50⟩, ⟨3, 0⟩, 6, 96⟩] ∧
    calculateDistance ⟨0, 0⟩ ⟨3, 0⟩ < 5 ∧ (⟨3, 0⟩ : Point) ≠ ⟨50, 50⟩ := by
  have calculateDistance_lt_five := distance_lemmas.2.2.2.2.1
  have point_ne_of_x := point_ne_lemmas.1
  refine ⟨?_, ?_, ?_⟩
  · norm_num [moveWallPointWithConstraints, findWallsAtPoint, findWallsAtPointFrom,
      getWallPointPos, calculateDistance_lt_five, freeStep, updateWall, setWallPointPos]
  · rw [calculateDistance_lt_five]; norm_num
  · exact point_ne_of_x _ _ (by norm_num)

/-- C8, amended (free-mode move). After `moveWallPointWithConstraints` with
`shiftKey = true` the wall array has the same length; the dragged endpoint equals
`newPos` and the dragged wall is otherwise unchanged; of every other wall, the `start`
equals `newPos` if it was within 5 units of the old corner position, else the `end`
equals `newPos` if that one was within 5 units (one endpoint per wall, `start` first);
every other endpoint of every wall is unchanged. -/
theorem C8_free_move (walls : List Wall) (wall : ℕ) (pointType : PointType) (newPos : Point)
    (w : Wall) (hw : walls[wall]? = some w) :
    (moveWallPointWithConstraints walls wall pointType newPos true).length = walls.length ∧
    (moveWallPointWithConstraints walls wall pointType newPos true)[wall]? =
      some (match pointType with
        | .start => { w with start := newPos }
        | .end_ => { w with end_ := newPos }) ∧
    ∀ (j : ℕ) (wj : Wall), j ≠ wall → walls[j]? = some wj →
      (moveWallPointWithConstraints walls wall pointType newPos true)[j]? =
        some (if calculateDistance (getWallPointPos w pointType) wj.start < 5 then
            { wj with start := newPos }
          else if calculateDistance (getWallPointPos w pointType) wj.end_ < 5 then
            { wj with end_ := newPos }
          else wj) := by
  have updateWall_length := updateWall_lemmas.1
  have updateWall_getElem? := updateWall_lemmas.2.1
  have findWallsAtPoint_spec := free_move_lemmas.1
  have foldl_freeStep_length := free_move_lemmas.2.1
  have foldl_freeStep_getElem? := free_move_lemmas.2.2
  obtain ⟨hmem, hpair, hlook⟩ :=
    findWallsAtPoint_spec walls (getWallPointPos w pointType) (some wall)
  have hmove : moveWallPointWithConstraints walls wall pointType newPos true =
      (findWallsAtPoint walls (getWallPointPos w pointType) (some wall)).foldl (freeStep newPos)
        (updateWall walls wall (fun w => setWallPointPos w pointType newPos)) := by
    unfold moveWallPointWithConstraints
    rw [hw]
    simp
  rw [hmove]
  refine ⟨?_, ?_, ?_⟩
  · rw [foldl_freeStep_length, updateWall_length]
  · rw [foldl_freeStep_getElem? _ _ _ hpair, updateWall_getElem?, if_pos rfl, hw]
    have hnone : (findWallsAtPoint walls (getWallPointPos w pointType) (some wall)).lookup wall
        = none := by
      rw [List.lookup_eq_none_iff]
      intro c hc
      have := hmem c hc
      simp only [bne_iff_ne, ne_eq]
      intro h
      exact this (by rw [← h])
    rw [hnone]
    cases pointType <;> rfl
  · intro j wj hj hwj
    rw [foldl_freeStep_getElem? _ _ _ hpair, updateWall_getElem?, if_neg hj, hwj]
    rw [hlook j wj hwj (by simpa using hj)]
    simp only [Option.map_some']
    split_ifs <;> rfl

/-- C8 (amended) on the rectangle, dragging the end `(100,0)` of the first wall to
`(120,30)` in free mode. -/
theorem C8_free_move_witness :
    (moveWallPointWithConstraints rectangleWalls 0 .end_ ⟨120, 30⟩ true)[0]? =
      some ⟨1, ⟨0, 0⟩, ⟨120, 30⟩, 6, 96⟩ :=
  (C8_free_move rectangleWalls 0 .end_ ⟨120, 30⟩ ⟨1, ⟨0, 0⟩, ⟨100, 0⟩, 6, 96⟩ rfl).2.1

/-- Facts on the alignment loop of the constrained mover; the parts are explained one by one in
the proof. -/
theorem constrained_move_lemmas :
    (∀ (wall : ℕ) (pointType : PointType) (newPos : Point) (ws : List Wall) (c : ℕ × PointType)
        (j : ℕ) (_ : j ≠ wall),
        (alignStep wall pointType newPos ws c)[j]? =
          if j = c.1 then (ws[j]?).map (fun w => setWallPointPos w c.2 (alignTarget newPos w c.2))
          else ws[j]?) ∧
    (
        ∀ (conns : List (ℕ × PointType)) (j : ℕ) (pt : PointType),
          conns.Pairwise (fun a b => a.1 < b.1) → (j, pt) ∈ conns → conns.lookup j = some pt) ∧
    (∀ (wall : ℕ) (pointType : PointType) (newPos : Point),
        ∀ (conns : List (ℕ × PointType)) (ws : List Wall),
          conns.Pairwise (fun a b => a.1 < b.1) →
          ∀ j, j ≠ wall → (conns.foldl (alignStep wall pointType newPos) ws)[j]? =
            (ws[j]?).map (fun w =>
              match conns.lookup j with
              | some pt => setWallPointPos w pt (alignTarget newPos w pt)
              | none => w)) ∧
    (∀ (w : Wall) (pt : PointType) (pos : Point),
        getWallPointPos (setWallPointPos w pt pos) pt = pos ∧
        getWallPointPos (setWallPointPos w pt pos) (otherPointType pt) =
          getWallPointPos w (otherPointType pt)) := by
  have updateWall_getElem? := updateWall_lemmas.2.1
  have alignStep_getElem? : ∀ (wall : ℕ) (pointType : PointType) (newPos : Point) (ws : List Wall)
      (c : ℕ × PointType) (j : ℕ) (_ : j ≠ wall),
      (alignStep wall pointType newPos ws c)[j]? =
        if j = c.1 then (ws[j]?).map (fun w => setWallPointPos w c.2 (alignTarget newPos w c.2))
        else ws[j]? := by
    intro wall pointType newPos ws c j hj
    unfold alignStep
    cases hc : ws[c.1]? with
    | none =>
      simp only
      split_ifs with h
      · rw [h, hc]; rfl
      · rfl
    | some connWall =>
      simp only
      split_ifs
      all_goals
        simp only [updateWall_getElem?, if_neg hj]
      all_goals
        first
        | rw [if_pos (by assumption)]
          subst_vars
          rw [hc]
          simp only [Option.map_some', alignTarget]
          simp [*]
        | rw [if_neg (by assumption)]
  have lookup_of_mem_pairwise :
      ∀ (conns : List (ℕ × PointType)) (j : ℕ) (pt : PointType),
        conns.Pairwise (fun a b => a.1 < b.1) → (j, pt) ∈ conns → conns.lookup j = some pt := by
    intro conns
    induction conns with
    | nil => intro j pt _ h; cases h
    | cons c conns ih =>
      intro j pt hp h
      rw [List.pairwise_cons] at hp
      rw [List.lookup_cons]
      rcases List.mem_cons.1 h with rfl | h
      · simp
      · have hlt := hp.1 _ h
        have hne : (j == c.1) = false := by
          simp only [beq_eq_false_iff_ne, ne_eq]
          simp only at hlt
          omega
        rw [hne]
        exact ih j pt hp.2 h
  have foldl_alignStep_getElem? : ∀ (wall : ℕ) (pointType : PointType) (newPos : Point),
      ∀ (conns : List (ℕ × PointType)) (ws : List Wall),
        conns.Pairwise (fun a b => a.1 < b.1) →
        ∀ j, j ≠ wall → (conns.foldl (alignStep wall pointType newPos) ws)[j]? =
          (ws[j]?).map (fun w =>
            match conns.lookup j with
            | some pt => setWallPointPos w pt (alignTarget newPos w pt)
            | none => w) := by
    intro wall pointType newPos
    intro conns
    induction conns with
    | nil =>
      intro ws _ j _
      simp
    | cons c conns ih =>
      intro ws hp j hjw
      rw [List.pairwise_cons] at hp
      rw [List.foldl_cons, ih _ hp.2 j hjw, alignStep_getElem? _ _ _ _ _ _ hjw]
      by_cases hj : j = c.1
      · have hnone : conns.lookup j = none := by
          rw [List.lookup_eq_none_iff]
          intro d hd
          have := hp.1 d hd
          simp only [bne_iff_ne, ne_eq]
          omega
        have hsome : (c :: conns).lookup j = some c.2 := by
          rw [List.lookup_cons]
          simp [hj]
        rw [if_pos hj, hnone, hsome]
        cases ws[j]? <;> simp
      · have hsame : (c :: conns).lookup j = conns.lookup j := by
          rw [List.lookup_cons]
          have : (j == c.1) = false := by simpa using hj
          rw [this]
        rw [if_neg hj, hsame]
  have getWallPointPos_setWallPointPos : ∀ (w : Wall) (pt : PointType) (pos : Point),
      getWallPointPos (setWallPointPos w pt pos) pt = pos ∧
      getWallPointPos (setWallPointPos w pt pos) (otherPointType pt) =
        getWallPointPos w (otherPointType pt) := by
    intro w pt pos
    cases pt <;> exact ⟨rfl, rfl⟩
  exact ⟨alignStep_getElem?, lookup_of_mem_pairwise, foldl_alignStep_getElem?,
    getWallPointPos_setWallPointPos⟩
/-- C9 (constrained-mode rule for directly connected walls). In constrained mode
(`shiftKey = false`, at least one connected wall) the move is the first pass
`constrainedAlign` followed by the one-hop propagation. After the first pass, for each
wall connected at the old corner, with `other` its far endpoint: the far endpoint is not
moved, and the connected endpoint is `(newPos.x, other.y)` if `|connected.y - other.y| < 5`
(horizontal), else `(other.x, newPos.y)` if `|connected.x - other.x| < 5` (vertical),
else `newPos` (diagonal). -/
theorem C9_constrained_rule (walls : List Wall) (wall : ℕ) (pointType : PointType)
    (newPos : Point) (w : Wall) (hw : walls[wall]? = some w)
    (j : ℕ) (connPoint : PointType) (connWall : Wall) (hj : walls[j]? = some connWall)
    (hconn : (j, connPoint) ∈ findWallsAtPoint walls (getWallPointPos w pointType) (some wall)) :
    moveWallPointWithConstraints walls wall pointType newPos false =
      (findWallsAtPoint walls (getWallPointPos w pointType) (some wall)).foldl
        (propagateStep wall)
        (constrainedAlign walls wall pointType newPos
          (findWallsAtPoint walls (getWallPointPos w pointType) (some wall))) ∧
    ∃ moved : Wall,
      (constrainedAlign walls wall pointType newPos
        (findWallsAtPoint walls (getWallPointPos w pointType) (some wall)))[j]? = some moved ∧
      getWallPointPos moved (otherPointType connPoint) =
        getWallPointPos connWall (otherPointType connPoint) ∧
      getWallPointPos moved connPoint =
        (if |(getWallPointPos connWall connPoint).y -
            (getWallPointPos connWall (otherPointType connPoint)).y| < 5 then
          ⟨newPos.x, (getWallPointPos connWall (otherPointType connPoint)).y⟩
        else if |(getWallPointPos connWall connPoint).x -
            (getWallPointPos connWall (otherPointType connPoint)).x| < 5 then
          ⟨(getWallPointPos connWall (otherPointType connPoint)).x, newPos.y⟩
        else newPos) := by
  have updateWall_getElem? := updateWall_lemmas.2.1
  have findWallsAtPoint_spec := free_move_lemmas.1
  have lookup_of_mem_pairwise := constrained_move_lemmas.2.1
  have foldl_alignStep_getElem? := constrained_move_lemmas.2.2.1
  have getWallPointPos_setWallPointPos := constrained_move_lemmas.2.2.2
  obtain ⟨hmem, hpair, -⟩ := findWallsAtPoint_spec walls (getWallPointPos w pointType) (some wall)
  have hjw : j ≠ wall := by
    intro h
    exact hmem _ hconn (by rw [h])
  constructor
  · unfold moveWallPointWithConstraints
    rw [hw]
    simp only
    rw [if_neg]
    intro h
    rcases h with h | h
    · cases h
    · rw [List.length_eq_zero] at h
      rw [h] at hconn
      cases hconn
  · refine ⟨setWallPointPos connWall connPoint (alignTarget newPos connWall connPoint), ?_, ?_, ?_⟩
    · unfold constrainedAlign
      rw [foldl_alignStep_getElem? _ _ _ _ _ hpair j hjw, updateWall_getElem?, if_neg hjw, hj,
        lookup_of_mem_pairwise _ _ _ hpair hconn]
      rfl
    · exact (getWallPointPos_setWallPointPos _ _ _).2
    · rw [(getWallPointPos_setWallPointPos _ _ _).1]
      rfl

/-- C9 on the rectangle: dragging the start `(100,0)` of the wall `(100,0)-(100,80)` to
`(110, 7)`, the connected horizontal wall `(0,0)-(100,0)` gets the end `(110, 0)`. -/
theorem C9_constrained_rule_witness :
    ∃ moved : Wall,
      (constrainedAlign rectangleWalls 1 .start ⟨110, 7⟩
        (findWallsAtPoint rectangleWalls ⟨100, 0⟩ (some 1)))[0]? = some moved ∧
      moved.start = ⟨0, 0⟩ ∧ moved.end_ = ⟨110, 0⟩ := by
  have calculateDistance_lt_five := distance_lemmas.2.2.2.2.1
  have hconn : (0, PointType.end_) ∈ findWallsAtPoint rectangleWalls ⟨100, 0⟩ (some 1) := by
    norm_num [rectangleWalls, findWallsAtPoint, findWallsAtPointFrom,
      calculateDistance_lt_five]
  obtain ⟨moved, h1, h2, h3⟩ := (C9_constrained_rule rectangleWalls 1 .start ⟨110, 7⟩
    ⟨2, ⟨100, 0⟩, ⟨100, 80⟩, 6, 96⟩ rfl 0 .end_ ⟨1, ⟨0, 0⟩, ⟨100, 0⟩, 6, 96⟩ rfl hconn).2
  refine ⟨moved, h1, h2, ?_⟩
  have h4 : moved.end_ = getWallPointPos moved PointType.end_ := rfl
  rw [h4, h3]
  norm_num [getWallPointPos, otherPointType]

/-! ### Path simplifier -/

/-- Facts on `perpendicularDistance`, on the search for the farthest point and on the
Douglas-Peucker recursion; the parts are explained one by one in the proof. -/
theorem simplifier_lemmas :
    (∀ (p : Point),
        calculateDistance p p = 0) ∧
    (∀ (p q : Point),
        0 ≤ calculateDistance p q) ∧
    (∀ (p a b : Point),
        0 ≤ perpendicularDistance p a b) ∧
    (∀ (a b : Point),
        perpendicularDistance a a b = 0) ∧
    (∀ (a b : Point),
        perpendicularDistance b a b = 0) ∧
    (∀ (s e : Point),
        ∀ (rest : List Point) (i : ℕ) (md : ℝ) (mi : ℕ),
          md ≤ (maxDistanceLoop s e i rest (md, mi)).1 ∧
          (∀ p ∈ rest, perpendicularDistance p s e ≤ (maxDistanceLoop s e i rest (md, mi)).1) ∧
          (maxDistanceLoop s e i rest (md, mi) = (md, mi) ∨
            (i ≤ (maxDistanceLoop s e i rest (md, mi)).2 ∧
              (maxDistanceLoop s e i rest (md, mi)).2 < i + rest.length ∧
              md < (maxDistanceLoop s e i rest (md, mi)).1))) ∧
    (∀ (fuel : ℕ) (points : List Point) (tol : ℝ) (_ : points.length ≤ 2),
        douglasPeuckerFuel fuel points tol = some points) ∧
    (∀ (fuel : ℕ) (start e : Point) (mid : List Point) (tol : ℝ) (_ : mid ≠ []),
        douglasPeuckerFuel (fuel + 1) (start :: (mid ++ [e])) tol =
          if (maxDistanceLoop start e 1 mid (0, 0)).1 > tol then
            match douglasPeuckerFuel fuel
                ((start :: (mid ++ [e])).take ((maxDistanceLoop start e 1 mid (0, 0)).2 + 1)) tol,
              douglasPeuckerFuel fuel
                ((start :: (mid ++ [e])).drop (maxDistanceLoop start e 1 mid (0, 0)).2) tol with
            | some left, some right => some (left.dropLast ++ right)
            | _, _ => none
          else some [start, e]) ∧
    (∀ (tol : ℝ) (_ : 0 ≤ tol),
        ∀ (fuel : ℕ) (points : List Point), 2 ≤ points.length → points.length ≤ fuel + 2 →
          ∃ out, douglasPeuckerFuel fuel points tol = some out ∧
            out.head? = points.head? ∧ out.getLast? = points.getLast? ∧
            ∀ p ∈ points, ∃ (a b : Point) (pre post : List Point),
              out = pre ++ a :: b :: post ∧ perpendicularDistance p a b ≤ tol) ∧
    (
        simplifyPath 10 [⟨0, 0⟩, ⟨14, 0⟩] 1 = some [⟨0, 0⟩, ⟨10, 0⟩] ∧
        perpendicularDistance ⟨14, 0⟩ ⟨0, 0⟩ ⟨10, 0⟩ = 4) ∧
    (∀ (p q a b : Point) (pre post : List Point) (_ : [p, q] = pre ++ a :: b :: post),
        a = p ∧ b = q) ∧
    (
        simplifyPath 0 [⟨0, 0⟩, ⟨10, 0⟩, ⟨11, 1⟩] 0 = some [⟨0, 0⟩, ⟨10, 0⟩] ∧
        perpendicularDistance ⟨11, 1⟩ ⟨0, 0⟩ ⟨10, 0⟩ = Real.sqrt 2) := by
  have calculateDistance_horizontal := rectangle_outline_lemmas.2.2.2.2.2.2.2.2.1
  have calculateDistance_self : ∀ (p : Point),
      calculateDistance p p = 0 := by
    intro p
    unfold calculateDistance
    simp
  have calculateDistance_nonneg : ∀ (p q : Point),
      0 ≤ calculateDistance p q := by
    intro p q
    exact
      Real.sqrt_nonneg _
  have perpendicularDistance_nonneg : ∀ (p a b : Point),
      0 ≤ perpendicularDistance p a b := by
    intro p a b
    unfold perpendicularDistance
    simp only
    split_ifs <;> exact calculateDistance_nonneg _ _
  have perpendicularDistance_start : ∀ (a b : Point),
      perpendicularDistance a a b = 0 := by
    intro a b
    unfold perpendicularDistance
    simp only [sub_self, zero_mul, add_zero, zero_div, lt_self_iff_false, if_false]
    split_ifs with h1 h2
    · exact calculateDistance_self a
    · exact absurd h2 (by norm_num)
    · exact calculateDistance_self a
  have perpendicularDistance_end : ∀ (a b : Point),
      perpendicularDistance b a b = 0 := by
    intro a b
    unfold perpendicularDistance
    simp only
    split_ifs with h1 h2 h3
    · have hx : b.x = a.x := by linarith [h1.1]
      have hy : b.y = a.y := by linarith [h1.2]
      have : b = a := by
        cases a; cases b; simp only [Point.mk.injEq]; exact ⟨hx, hy⟩
      rw [this]
      exact calculateDistance_self a
    · exfalso
      have hpos : 0 < (b.x - a.x) * (b.x - a.x) + (b.y - a.y) * (b.y - a.y) := by
        rcases not_and_or.1 h1 with h | h
        · have := mul_self_pos.2 h
          nlinarith [mul_self_nonneg (b.y - a.y)]
        · have := mul_self_pos.2 h
          nlinarith [mul_self_nonneg (b.x - a.x)]
      rw [div_self hpos.ne'] at h2
      exact absurd h2 (by norm_num)
    · exact calculateDistance_self b
    · have hpos : (b.x - a.x) * (b.x - a.x) + (b.y - a.y) * (b.y - a.y) ≠ 0 := by
        rcases not_and_or.1 h1 with h | h
        · have := mul_self_pos.2 h
          nlinarith [mul_self_nonneg (b.y - a.y)]
        · have := mul_self_pos.2 h
          nlinarith [mul_self_nonneg (b.x - a.x)]
      rw [div_self hpos]
      have : (⟨a.x + 1 * (b.x - a.x), a.y + 1 * (b.y - a.y)⟩ : Point) = b := by
        cases b; simp only [Point.mk.injEq]; constructor <;> ring
      rw [this]
      exact calculateDistance_self b
  /- The maximum search: the result bounds the distance of every scanned point, and the
  index moves only to a scanned position with a strictly larger distance. -/
  have maxDistanceLoop_spec : ∀ (s e : Point),
      ∀ (rest : List Point) (i : ℕ) (md : ℝ) (mi : ℕ),
        md ≤ (maxDistanceLoop s e i rest (md, mi)).1 ∧
        (∀ p ∈ rest, perpendicularDistance p s e ≤ (maxDistanceLoop s e i rest (md, mi)).1) ∧
        (maxDistanceLoop s e i rest (md, mi) = (md, mi) ∨
          (i ≤ (maxDistanceLoop s e i rest (md, mi)).2 ∧
            (maxDistanceLoop s e i rest (md, mi)).2 < i + rest.length ∧
            md < (maxDistanceLoop s e i rest (md, mi)).1)) := by
    intro s e
    intro rest
    induction rest with
    | nil =>
      intro i md mi
      simp [maxDistanceLoop]
    | cons p rest ih =>
      intro i md mi
      unfold maxDistanceLoop
      simp only
      split_ifs with h
      · obtain ⟨h1, h2, h3⟩ := ih (i + 1) (perpendicularDistance p s e) i
        refine ⟨le_trans h.le h1, ?_, Or.inr ?_⟩
        · intro q hq
          rcases List.mem_cons.1 hq with rfl | hq
          · exact h1
          · exact h2 q hq
        · rcases h3 with h3 | ⟨h3, h4, h5⟩
          · rw [h3]
            simp only [List.length_cons]
            exact ⟨le_refl _, by omega, h⟩
          · simp only [List.length_cons]
            exact ⟨by omega, by omega, lt_trans h h5⟩
      · obtain ⟨h1, h2, h3⟩ := ih (i + 1) md mi
        refine ⟨h1, ?_, ?_⟩
        · intro q hq
          rcases List.mem_cons.1 hq with rfl | hq
          · exact le_trans (not_lt.1 h) h1
          · exact h2 q hq
        · rcases h3 with h3 | ⟨h3, h4, h5⟩
          · exact Or.inl h3
          · simp only [List.length_cons]
            exact Or.inr ⟨by omega, by omega, h5⟩
  have douglasPeuckerFuel_short : ∀ (fuel : ℕ) (points : List Point) (tol : ℝ)
      (_ : points.length ≤ 2),
      douglasPeuckerFuel fuel points tol = some points := by
    intro fuel points tol h
    cases fuel with
    | zero => simp [douglasPeuckerFuel, h]
    | succ fuel => simp [douglasPeuckerFuel, h]
  have douglasPeuckerFuel_long : ∀ (fuel : ℕ) (start e : Point) (mid : List Point) (tol : ℝ)
      (_ : mid ≠ []),
      douglasPeuckerFuel (fuel + 1) (start :: (mid ++ [e])) tol =
        if (maxDistanceLoop start e 1 mid (0, 0)).1 > tol then
          match douglasPeuckerFuel fuel
              ((start :: (mid ++ [e])).take ((maxDistanceLoop start e 1 mid (0, 0)).2 + 1)) tol,
            douglasPeuckerFuel fuel
              ((start :: (mid ++ [e])).drop (maxDistanceLoop start e 1 mid (0, 0)).2) tol with
          | some left, some right => some (left.dropLast ++ right)
          | _, _ => none
        else some [start, e] := by
    intro fuel start e mid tol hmid
    have hlen : ¬ (start :: (mid ++ [e])).length ≤ 2 := by
      have : 0 < mid.length := List.length_pos.2 hmid
      simp only [List.length_cons, List.length_append, List.length_nil]
      omega
    have hlast : (start :: (mid ++ [e])).getLast? = some e := by
      rw [← List.cons_append]
      exact List.getLast?_concat _
    have htail : (start :: (mid ++ [e])).tail.dropLast = mid := by
      simp
    rw [douglasPeuckerFuel, if_neg hlen, hlast, htail]
    rfl
  /- The Douglas-Peucker guarantee of the recursion, with enough fuel. -/
  have douglasPeuckerFuel_spec : ∀ (tol : ℝ) (_ : 0 ≤ tol),
      ∀ (fuel : ℕ) (points : List Point), 2 ≤ points.length → points.length ≤ fuel + 2 →
        ∃ out, douglasPeuckerFuel fuel points tol = some out ∧
          out.head? = points.head? ∧ out.getLast? = points.getLast? ∧
          ∀ p ∈ points, ∃ (a b : Point) (pre post : List Point),
            out = pre ++ a :: b :: post ∧ perpendicularDistance p a b ≤ tol := by
    intro tol htol
    have hshort : ∀ (fuel : ℕ) (points : List Point), points.length = 2 →
        ∃ out, douglasPeuckerFuel fuel points tol = some out ∧
          out.head? = points.head? ∧ out.getLast? = points.getLast? ∧
          ∀ p ∈ points, ∃ (a b : Point) (pre post : List Point),
            out = pre ++ a :: b :: post ∧ perpendicularDistance p a b ≤ tol := by
      intro fuel points h2
      refine ⟨points, douglasPeuckerFuel_short fuel points tol h2.le, rfl, rfl, ?_⟩
      match points, h2 with
      | [a, b], _ =>
        intro p hp
        refine ⟨a, b, [], [], rfl, ?_⟩
        simp only [List.mem_cons, List.mem_singleton, List.not_mem_nil, or_false] at hp
        rcases hp with rfl | rfl
        · rw [perpendicularDistance_start]; exact htol
        · rw [perpendicularDistance_end]; exact htol
    intro fuel
    induction fuel with
    | zero =>
      intro points h2 hf
      exact hshort 0 points (by omega)
    | succ fuel ih =>
      intro points h2 hf
      rcases Nat.lt_or_ge 2 points.length with h3 | h3
      swap
      · exact hshort _ points (by omega)
      obtain ⟨start, t, rfl⟩ : ∃ s t, points = s :: t := by
        cases points with
        | nil => simp at h2
        | cons s t => exact ⟨s, t, rfl⟩
      obtain ⟨mid, e, rfl⟩ : ∃ mid e, t = mid ++ [e] := by
        rcases List.eq_nil_or_concat t with h | ⟨L, b, h⟩
        · subst h; simp at h2
        · exact ⟨L, b, by rw [h, List.concat_eq_append]⟩
      have hmid : mid ≠ [] := by
        intro h
        subst h
        simp at h3
      have hn : (start :: (mid ++ [e])).length = mid.length + 2 := by simp
      rw [douglasPeuckerFuel_long fuel start e mid tol hmid]
      obtain ⟨hm1, hm2, hm3⟩ := maxDistanceLoop_spec start e mid 1 0 0
      set found := maxDistanceLoop start e 1 mid (0, 0) with hfound
      by_cases hgt : found.1 > tol
      · rw [if_pos hgt]
        have hidx : 1 ≤ found.2 ∧ found.2 < 1 + mid.length := by
          rcases hm3 with h | ⟨h, h', -⟩
          · rw [h] at hgt
            exact absurd hgt (not_lt.2 htol)
          · exact ⟨h, h'⟩
        set m := found.2 with hm
        have htl : ((start :: (mid ++ [e])).take (m + 1)).length = m + 1 := by
          rw [List.length_take, hn]; omega
        have hdl : ((start :: (mid ++ [e])).drop m).length = mid.length + 2 - m := by
          rw [List.length_drop, hn]
        obtain ⟨L, hL, hLh, hLl, hLc⟩ := ih ((start :: (mid ++ [e])).take (m + 1))
          (by rw [htl]; omega) (by rw [htl]; rw [hn] at hf; omega)
        obtain ⟨R, hR, hRh, hRl, hRc⟩ := ih ((start :: (mid ++ [e])).drop m)
          (by rw [hdl]; omega) (by rw [hdl]; rw [hn] at hf; omega)
        rw [hL, hR]
        simp only
        obtain ⟨x, hx⟩ : ∃ x, (start :: (mid ++ [e]))[m]? = some x := by
          have hlt : m < (start :: (mid ++ [e])).length := by rw [hn]; omega
          exact ⟨_, List.getElem?_eq_getElem hlt⟩
        have hT : (start :: (mid ++ [e])).take (m + 1) = (start :: (mid ++ [e])).take m ++ [x] := by
          rw [List.take_succ, hx]
          rfl
        have hDh : ((start :: (mid ++ [e])).drop m).head? = some x := by
          rw [List.head?_drop, hx]
        have hLx : L.dropLast ++ [x] = L := by
          apply List.dropLast_append_getLast?
          rw [hLl, hT, List.getLast?_concat]
          rfl
        have hRx : x :: R.tail = R := by
          apply List.cons_head?_tail
          rw [hRh, hDh]
          rfl
        have hout : L.dropLast ++ R = L ++ R.tail := by
          conv_lhs => rw [← hRx]
          conv_rhs => rw [← hLx]
          simp
        have hLne : L ≠ [] := by
          intro h
          rw [h] at hLx
          simp at hLx
        have hRne : R ≠ [] := by
          intro h
          rw [h] at hRx
          simp at hRx
        have hDne : (start :: (mid ++ [e])).drop m ≠ [] := by
          intro h
          rw [h] at hDh
          simp at hDh
        refine ⟨L.dropLast ++ R, rfl, ?_, ?_, ?_⟩
        · rw [hout, List.head?_append_of_ne_nil _ hLne, hLh, hT]
          cases hm0 : m with
          | zero => omega
          | succ k => simp
        · rw [List.getLast?_append_of_ne_nil _ hRne, hRl]
          conv_rhs => rw [← List.take_append_drop m (start :: (mid ++ [e]))]
          rw [List.getLast?_append_of_ne_nil _ hDne]
        · intro p hp
          rw [← List.take_append_drop m (start :: (mid ++ [e]))] at hp
          rcases List.mem_append.1 hp with hp | hp
          · obtain ⟨a, b, pre, post, h1, h2⟩ := hLc p (by rw [hT]; exact List.mem_append_left _ hp)
            refine ⟨a, b, pre, post ++ R.tail, ?_, h2⟩
            rw [hout, h1]
            simp
          · obtain ⟨a, b, pre, post, h1, h2⟩ := hRc p hp
            refine ⟨a, b, L.dropLast ++ pre, post, ?_, h2⟩
            rw [h1]
            simp
      · rw [if_neg hgt]
        refine ⟨[start, e], rfl, rfl, ?_, ?_⟩
        · rw [← List.cons_append]
          exact (List.getLast?_concat _).symm
        · intro p hp
          refine ⟨start, e, [], [], rfl, ?_⟩
          rcases List.mem_cons.1 hp with rfl | hp
          · rw [perpendicularDistance_start]; exact htol
          · rcases List.mem_append.1 hp with hp | hp
            · exact le_trans (hm2 p hp) (not_lt.1 hgt)
            · rw [List.mem_singleton] at hp
              rw [hp, perpendicularDistance_end]; exact htol
  /- With `gridSize = 10` and `tolerance = 1` the stroke `(0,0), (14,0)` is simplified to
  the polyline `(0,0), (10,0)`, whose only segment is at distance 4 from `(14,0)`. -/
  have simplifyPath_grid_example :
      simplifyPath 10 [⟨0, 0⟩, ⟨14, 0⟩] 1 = some [⟨0, 0⟩, ⟨10, 0⟩] ∧
      perpendicularDistance ⟨14, 0⟩ ⟨0, 0⟩ ⟨10, 0⟩ = 4 := by
    have hs0 : snapToGrid 10 0 = 0 := by
      unfold snapToGrid
      rw [if_neg (by norm_num)]
      have : ⌊(0 : ℝ) / 10 + 1 / 2⌋ = 0 := by
        rw [Int.floor_eq_iff]; norm_num
      rw [this]; norm_num
    have hs14 : snapToGrid 10 14 = 10 := by
      unfold snapToGrid
      rw [if_neg (by norm_num)]
      have : ⌊(14 : ℝ) / 10 + 1 / 2⌋ = 1 := by
        rw [Int.floor_eq_iff]; norm_num
      rw [this]; norm_num
    have hd : calculateDistance ⟨0, 0⟩ ⟨10, 0⟩ = 10 := by
      rw [calculateDistance_horizontal]; norm_num
    constructor
    · unfold simplifyPath douglasPeucker
      rw [if_neg (by simp), douglasPeuckerFuel_short _ _ _ (by simp)]
      simp only [List.map_cons, List.map_nil, snapPointToGrid, hs0, hs14]
      simp only [removeDuplicates, List.getLast?_singleton, hd]
      norm_num
    · unfold perpendicularDistance
      simp only
      rw [if_neg (by norm_num), if_neg (by norm_num), if_pos (by norm_num),
        calculateDistance_horizontal]
      norm_num [abs_of_neg]
  /- The only segment of a polyline of two points. -/
  have segment_of_pair : ∀ (p q a b : Point) (pre post : List Point)
      (_ : [p, q] = pre ++ a :: b :: post),
      a = p ∧ b = q := by
    intro p q a b pre post h
    match pre, h with
    | [], h =>
      simp only [List.nil_append, List.cons.injEq] at h
      exact ⟨h.1.symm, h.2.1.symm⟩
    | [_], h => simp at h
    | _ :: _ :: _, h => simp at h
  /- Without a grid (`gridSize = 0`) and with `tolerance = 0`, the stroke
  `(0,0), (10,0), (11,1)` keeps its three points in `douglasPeucker`, and the removal of
  near-duplicates then drops `(11,1)`, which is at distance `√2` from the segment left. -/
  have simplifyPath_dedup_example :
      simplifyPath 0 [⟨0, 0⟩, ⟨10, 0⟩, ⟨11, 1⟩] 0 = some [⟨0, 0⟩, ⟨10, 0⟩] ∧
      perpendicularDistance ⟨11, 1⟩ ⟨0, 0⟩ ⟨10, 0⟩ = Real.sqrt 2 := by
    have hpd0 : 0 < perpendicularDistance ⟨10, 0⟩ ⟨0, 0⟩ ⟨11, 1⟩ := by
      unfold perpendicularDistance
      simp only
      rw [if_neg (by norm_num), if_neg (by norm_num), if_neg (by norm_num)]
      unfold calculateDistance
      apply Real.sqrt_pos.2
      norm_num
    have hloop : maxDistanceLoop ⟨0, 0⟩ ⟨11, 1⟩ 1 [⟨10, 0⟩] (0, 0) =
        (perpendicularDistance ⟨10, 0⟩ ⟨0, 0⟩ ⟨11, 1⟩, 1) := by
      simp only [maxDistanceLoop]
      rw [if_pos hpd0]
    have hdp : douglasPeucker [⟨0, 0⟩, ⟨10, 0⟩, ⟨11, 1⟩] 0 = some [⟨0, 0⟩, ⟨10, 0⟩, ⟨11, 1⟩] := by
      unfold douglasPeucker
      have := douglasPeuckerFuel_long 2 ⟨0, 0⟩ ⟨11, 1⟩ [⟨10, 0⟩] 0 (by simp)
      simp only [List.cons_append, List.nil_append] at this
      simp only [List.length_cons, List.length_nil]
      rw [this, hloop, if_pos hpd0]
      simp only [List.take, List.drop]
      rw [douglasPeuckerFuel_short _ _ _ (by simp), douglasPeuckerFuel_short _ _ _ (by simp)]
      rfl
    have hsnap : ∀ p : Point, snapPointToGrid 0 p = p := by
      intro p
      simp [snapPointToGrid, snapToGrid]
    have hd1 : calculateDistance ⟨0, 0⟩ ⟨10, 0⟩ = 10 := by
      rw [calculateDistance_horizontal]; norm_num
    have hd2 : calculateDistance ⟨10, 0⟩ ⟨11, 1⟩ = Real.sqrt 2 := by
      unfold calculateDistance
      norm_num
    have hs2 : Real.sqrt 2 ≤ 2 := by
      rw [Real.sqrt_le_left (by norm_num)]
      norm_num
    constructor
    · unfold simplifyPath
      rw [if_neg (by simp), hdp]
      simp only [List.map_cons, List.map_nil, hsnap]
      simp only [removeDuplicates, List.getLast?_singleton, hd1]
      rw [if_pos (by norm_num)]
      simp only [List.singleton_append, List.getLast?_cons_cons, List.getLast?_singleton, hd2]
      rw [if_neg (not_lt.2 hs2)]
    · unfold perpendicularDistance
      simp only
      rw [if_neg (by norm_num), if_neg (by norm_num), if_pos (by norm_num)]
      unfold calculateDistance
      norm_num
  exact ⟨calculateDistance_self, calculateDistance_nonneg, perpendicularDistance_nonneg,
    perpendicularDistance_start, perpendicularDistance_end, maxDistanceLoop_spec,
    douglasPeuckerFuel_short, douglasPeuckerFuel_long, douglasPeuckerFuel_spec,
    simplifyPath_grid_example, segment_of_pair, simplifyPath_dedup_example⟩
/-- C10 as stated fails because of the two steps that follow the simplification.
Grid snap: with `gridSize = 10` and `tolerance = 1` the stroke `(0,0), (14,0)` becomes
the polyline `(0,0), (10,0)`, whose only segment is at distance `4 > 1` from the point
`(14,0)`. Removal of near-duplicates: with `gridSize = 0` and `tolerance = 0` the stroke
`(0,0), (10,0), (11,1)` becomes `(0,0), (10,0)`, whose only segment is at distance
`√2 > 0` from the point `(11,1)`. -/
theorem C10_counterexample :
    (simplifyPath 10 [⟨0, 0⟩, ⟨14, 0⟩] 1 = some [⟨0, 0⟩, ⟨10, 0⟩] ∧
      ¬ ∃ (a b : Point) (pre post : List Point),
        [(⟨0, 0⟩ : Point), ⟨10, 0⟩] = pre ++ a :: b :: post ∧
          perpendicularDistance ⟨14, 0⟩ a b ≤ 1) ∧
    (simplifyPath 0 [⟨0, 0⟩, ⟨10, 0⟩, ⟨11, 1⟩] 0 = some [⟨0, 0⟩, ⟨10, 0⟩] ∧
      ¬ ∃ (a b : Point) (pre post : List Point),
        [(⟨0, 0⟩ : Point), ⟨10, 0⟩] = pre ++ a :: b :: post ∧
          perpendicularDistance ⟨11, 1⟩ a b ≤ 0) := by
  have simplifyPath_grid_example := simplifier_lemmas.2.2.2.2.2.2.2.2.2.1
  have segment_of_pair := simplifier_lemmas.2.2.2.2.2.2.2.2.2.2.1
  have simplifyPath_dedup_example := simplifier_lemmas.2.2.2.2.2.2.2.2.2.2.2
  obtain ⟨hg1, hg2⟩ := simplifyPath_grid_example
  obtain ⟨hd1, hd2⟩ := simplifyPath_dedup_example
  refine ⟨⟨hg1, ?_⟩, ⟨hd1, ?_⟩⟩
  · rintro ⟨a, b, pre, post, heq, hle⟩
    obtain ⟨rfl, rfl⟩ := segment_of_pair _ _ _ _ _ _ heq
    rw [hg2] at hle
    norm_num at hle
  · rintro ⟨a, b, pre, post, heq, hle⟩
    obtain ⟨rfl, rfl⟩ := segment_of_pair _ _ _ _ _ _ heq
    rw [hd2] at hle
    have : 0 < Real.sqrt 2 := Real.sqrt_pos.2 (by norm_num)
    linarith

/-- C10, amended (simplification error bound). For every stroke of at least 2 points
and every tolerance `≥ 0`, `douglasPeucker` returns a polyline, and every point of the
stroke lies within distance `tolerance` (as measured by `perpendicularDistance`, the
distance to the segment) of some segment `a`-`b` of that polyline: the bound holds for
the Douglas-Peucker stage of `simplifyPath`, before the grid snap and the removal of
near-duplicate points. -/
theorem C10_simplification_error_bound (points : List Point) (tolerance : ℝ)
    (hlen : 2 ≤ points.length) (htol : 0 ≤ tolerance) :
    ∃ out, douglasPeucker points tolerance = some out ∧
      ∀ p ∈ points, ∃ (a b : Point) (pre post : List Point),
        out = pre ++ a :: b :: post ∧ perpendicularDistance p a b ≤ tolerance := by
  have douglasPeuckerFuel_spec := simplifier_lemmas.2.2.2.2.2.2.2.2.1
  obtain ⟨out, h1, -, -, h2⟩ :=
    douglasPeuckerFuel_spec tolerance htol points.length points hlen (by omega)
  exact ⟨out, h1, h2⟩

/-- C10 (amended) on the stroke `(0,0), (5,5), (10,0)` with tolerance 1. -/
theorem C10_simplification_error_bound_witness :
    ∃ out, douglasPeucker [⟨0, 0⟩, ⟨5, 5⟩, ⟨10, 0⟩] 1 = some out ∧
      ∀ p ∈ [(⟨0, 0⟩ : Point), ⟨5, 5⟩, ⟨10, 0⟩], ∃ (a b : Point) (pre post : List Point),
        out = pre ++ a :: b :: post ∧ perpendicularDistance p a b ≤ 1 :=
  C10_simplification_error_bound [⟨0, 0⟩, ⟨5, 5⟩, ⟨10, 0⟩] 1 (by simp) (by norm_num)

/-! ### Snap resolver -/

theorem snapToGrid_pos_facts (g v : ℝ) (hg : 0 < g) :
    snapToGrid g v = (⌊v / g + 1 / 2⌋ : ℝ) * g ∧
    v / g - 1 / 2 < (⌊v / g + 1 / 2⌋ : ℝ) ∧ (⌊v / g + 1 / 2⌋ : ℝ) ≤ v / g + 1 / 2 := by
  refine ⟨?_, ?_, ?_⟩
  · unfold snapToGrid
    rw [if_neg hg.ne']
  · have := Int.lt_floor_add_one (v / g + 1 / 2)
    linarith
  · exact Int.floor_le _

/-- C14 (grid snap). For every value `v`, `snapToGrid` returns `v` unchanged when
`gridSize` is 0; for `gridSize > 0` it returns an integer multiple of `gridSize` at
distance at most `gridSize / 2` from `v`, no other multiple is nearer, an exact half-way
value `(k + 1/2) * gridSize` goes to the larger multiple `(k + 1) * gridSize`, and a
value `k * gridSize` on the grid is returned unchanged. -/
theorem C14_grid_snap (gridSize v : ℝ) :
    (gridSize = 0 → snapToGrid gridSize v = v) ∧
    (0 < gridSize →
      (∃ k : ℤ, snapToGrid gridSize v = k * gridSize) ∧
      |snapToGrid gridSize v - v| ≤ gridSize / 2 ∧
      (∀ m : ℤ, |snapToGrid gridSize v - v| ≤ |(m : ℝ) * gridSize - v|) ∧
      (∀ k : ℤ, v = ((k : ℝ) + 1 / 2) * gridSize →
        snapToGrid gridSize v = ((k : ℝ) + 1) * gridSize) ∧
      (∀ k : ℤ, v = (k : ℝ) * gridSize → snapToGrid gridSize v = v)) := by
  constructor
  · intro h
    unfold snapToGrid
    rw [if_pos h]
  · intro hg
    obtain ⟨hs, hlo, hhi⟩ := snapToGrid_pos_facts gridSize v hg
    set n : ℤ := ⌊v / gridSize + 1 / 2⌋ with hn
    have hv : v / gridSize * gridSize = v := by field_simp
    have hdiff : snapToGrid gridSize v - v = ((n : ℝ) - v / gridSize) * gridSize := by
      rw [hs]; linear_combination hv
    have habs : |snapToGrid gridSize v - v| = |(n : ℝ) - v / gridSize| * gridSize := by
      rw [hdiff, abs_mul, abs_of_pos hg]
    have hhalf : |(n : ℝ) - v / gridSize| ≤ 1 / 2 := by
      rw [abs_le]; constructor <;> linarith
    refine ⟨⟨n, hs⟩, ?_, ?_, ?_, ?_⟩
    · rw [habs]
      calc |(n : ℝ) - v / gridSize| * gridSize ≤ 1 / 2 * gridSize :=
            mul_le_mul_of_nonneg_right hhalf hg.le
        _ = gridSize / 2 := by ring
    · intro m
      have hm : (m : ℝ) * gridSize - v = ((m : ℝ) - v / gridSize) * gridSize := by
        linear_combination hv
      rw [habs, hm, abs_mul, abs_of_pos hg]
      apply mul_le_mul_of_nonneg_right _ hg.le
      by_cases hmn : m = n
      · rw [hmn]
      · have h1 : (1 : ℝ) ≤ |(m : ℝ) - (n : ℝ)| := by
          have : (1 : ℤ) ≤ |m - n| := Int.one_le_abs (sub_ne_zero.2 hmn)
          have h2 : ((1 : ℤ) : ℝ) ≤ ((|m - n| : ℤ) : ℝ) := Int.cast_le.2 this
          simpa using h2
        have h3 : |(m : ℝ) - (n : ℝ)| ≤ |(m : ℝ) - v / gridSize| + |(n : ℝ) - v / gridSize| := by
          have := abs_sub_le (m : ℝ) (v / gridSize) (n : ℝ)
          rwa [abs_sub_comm (v / gridSize) (n : ℝ)] at this
        linarith
    · intro k hk
      have hx : v / gridSize + 1 / 2 = ((k + 1 : ℤ) : ℝ) := by
        rw [hk]; field_simp; ring
      have : n = k + 1 := by
        rw [hn, hx, Int.floor_intCast]
      rw [hs, this]; push_cast; ring
    · intro k hk
      have hx : v / gridSize = (k : ℝ) := by
        rw [hk]; field_simp
      have : n = k := by
        rw [hn, hx, Int.floor_eq_iff]
        constructor <;> linarith
      rw [hs, this, hk]

/-- C14 on the examples of the unit test, `gridSize = 6`: 3 goes to 6 (half-way, upward),
12 stays 12, and with `gridSize = 0` the value 7.5 is unchanged. -/
theorem C14_grid_snap_witness :
    snapToGrid 6 3 = 6 ∧ snapToGrid 6 12 = 12 ∧ snapToGrid 0 7.5 = 7.5 := by
  refine ⟨?_, ?_, ?_⟩
  · have := ((C14_grid_snap 6 3).2 (by norm_num)).2.2.2.1 0 (by norm_num)
    rw [this]; norm_num
  · have := ((C14_grid_snap 6 12).2 (by norm_num)).2.2.2.2 2 (by norm_num)
    exact this
  · exact (C14_grid_snap 0 7.5).1 rfl

/-- Facts on grid snapping and on the removal of near-duplicates; the parts are explained one by
one in the proof. -/
theorem dedup_lemmas :
    (
        snapToGrid 6 7 = 6 ∧ snapToGrid 6 10 = 12) ∧
    (∀ (g v : ℝ),
        snapToGrid g (snapToGrid g v) = snapToGrid g v) ∧
    (∀ (g : ℝ) (p : Point),
        snapPointToGrid g (snapPointToGrid g p) = snapPointToGrid g p) ∧
    (
        ∀ (rest result : List Point), result ≠ [] →
           ∃ ext, removeDuplicates result rest = result ++ ext ∧ (∀ q ∈ ext, q ∈ rest) ∧
             (List.Chain' (fun a b => 2 < calculateDistance a b) result →
               List.Chain' (fun a b => 2 < calculateDistance a b) (result ++ ext)) ∧
             (∀ prev, result.getLast? = some prev →
               (∃ p ∈ rest, 2 < calculateDistance prev p) → ext ≠ [])) ∧
    (
        ∀ (rest result : List Point), result ≠ [] →
           List.Chain' (fun a b => 2 < calculateDistance a b) (result ++ rest) →
           removeDuplicates result rest = result ++ rest) ∧
    (∀ (g : ℝ) (points : List Point) (tol : ℝ) (_ : 2 ≤ points.length) (_ : 0 ≤ tol),
        ∃ (dp : List Point) (first : Point) (rest : List Point),
          douglasPeucker points tol = some dp ∧
          dp.map (snapPointToGrid g) = first :: rest ∧
          points.head?.map (snapPointToGrid g) = some first ∧
          points.getLast?.map (snapPointToGrid g) = rest.getLast? ∧ rest ≠ [] ∧
          simplifyPath g points tol = some (removeDuplicates [first] rest)) := by
  have douglasPeuckerFuel_spec := simplifier_lemmas.2.2.2.2.2.2.2.2.1
  /- The other two examples of the unit test: with `gridSize = 6`, 7 goes to 6 and 10 goes
  to 12. -/
  have snapToGrid_examples :
      snapToGrid 6 7 = 6 ∧ snapToGrid 6 10 = 12 := by
    constructor
    · unfold snapToGrid
      rw [if_neg (by norm_num)]
      have : ⌊(7 : ℝ) / 6 + 1 / 2⌋ = 1 := by
        rw [Int.floor_eq_iff]; norm_num
      rw [this]; norm_num
    · unfold snapToGrid
      rw [if_neg (by norm_num)]
      have : ⌊(10 : ℝ) / 6 + 1 / 2⌋ = 2 := by
        rw [Int.floor_eq_iff]; norm_num
      rw [this]; norm_num
  /- Path simplifier: grid snap and removal of near-duplicates -/
  /- Grid snap is idempotent, for every grid size. -/
  have snapToGrid_idem : ∀ (g v : ℝ),
      snapToGrid g (snapToGrid g v) = snapToGrid g v := by
    intro g v
    unfold snapToGrid
    by_cases hg : g = 0
    · simp [hg]
    · simp only [if_neg hg]
      have h1 : (⌊v / g + 1 / 2⌋ : ℝ) * g / g + 1 / 2 = (⌊v / g + 1 / 2⌋ : ℝ) + 1 / 2 := by
        field_simp
      have h2 : ⌊(⌊v / g + 1 / 2⌋ : ℝ) + 1 / 2⌋ = ⌊v / g + 1 / 2⌋ := by
        rw [Int.floor_eq_iff]; constructor <;> linarith
      rw [h1, h2]
  have snapPointToGrid_idem : ∀ (g : ℝ) (p : Point),
      snapPointToGrid g (snapPointToGrid g p) = snapPointToGrid g p := by
    intro g p
    simp [snapPointToGrid, snapToGrid_idem]
  /- The loop that removes near-duplicates only appends to `result`; what it appends comes
  from the remaining points; consecutive points of the outcome are more than 2 apart when
  those of `result` are; and a remaining point more than 2 from the last point of `result`
  makes the loop append at least one point. -/
  have removeDuplicates_spec :
      ∀ (rest result : List Point), result ≠ [] →
         ∃ ext, removeDuplicates result rest = result ++ ext ∧ (∀ q ∈ ext, q ∈ rest) ∧
           (List.Chain' (fun a b => 2 < calculateDistance a b) result →
             List.Chain' (fun a b => 2 < calculateDistance a b) (result ++ ext)) ∧
           (∀ prev, result.getLast? = some prev →
             (∃ p ∈ rest, 2 < calculateDistance prev p) → ext ≠ []) := by
    intro rest
    induction rest with
    | nil =>
      intro result _
      refine ⟨[], by simp [removeDuplicates], by simp, by simp, ?_⟩
      rintro prev - ⟨p, hp, -⟩
      simp at hp
    | cons p r ih =>
      intro result hne
      obtain ⟨prev, hprev⟩ : ∃ prev, result.getLast? = some prev := by
        cases h : result.getLast? with
        | none => exact absurd (List.getLast?_eq_none_iff.1 h) hne
        | some prev => exact ⟨prev, rfl⟩
      by_cases hd : calculateDistance prev p > 2
      · obtain ⟨ext, h1, h2, h3, -⟩ := ih (result ++ [p]) (by simp)
        refine ⟨p :: ext, ?_, ?_, ?_, ?_⟩
        · simp only [removeDuplicates, hprev, if_pos hd, h1, List.append_assoc,
            List.singleton_append]
        · intro q hq
          rcases List.mem_cons.1 hq with rfl | hq
          · exact List.mem_cons_self _ _
          · exact List.mem_cons_of_mem _ (h2 q hq)
        · intro hch
          have : List.Chain' (fun a b => 2 < calculateDistance a b) (result ++ [p]) := by
            rw [List.chain'_append]
            refine ⟨hch, List.chain'_singleton _, ?_⟩
            intro x hx y hy
            rw [hprev] at hx
            simp only [Option.mem_def, Option.some.injEq, List.head?_cons] at hx hy
            rw [← hx, ← hy]; exact hd
          have := h3 this
          simpa only [List.append_assoc, List.singleton_append] using this
        · intro _ _ _
          simp
      · obtain ⟨ext, h1, h2, h3, h4⟩ := ih result hne
        refine ⟨ext, ?_, ?_, h3, ?_⟩
        · simp only [removeDuplicates, hprev, if_neg hd, h1]
        · intro q hq
          exact List.mem_cons_of_mem _ (h2 q hq)
        · intro prev1 hprev1 ⟨q, hq, hqd⟩
          apply h4 prev1 hprev1
          rw [hprev] at hprev1
          have hpp : prev = prev1 := Option.some.inj hprev1
          rcases List.mem_cons.1 hq with rfl | hq
          · rw [hpp] at hd
            exact absurd hqd hd
          · exact ⟨q, hq, hqd⟩
  /- A list whose consecutive points are more than 2 apart is left as it is by the loop
  that removes near-duplicates. -/
  have removeDuplicates_fixed :
      ∀ (rest result : List Point), result ≠ [] →
         List.Chain' (fun a b => 2 < calculateDistance a b) (result ++ rest) →
         removeDuplicates result rest = result ++ rest := by
    intro rest
    induction rest with
    | nil => intro result _ _; simp [removeDuplicates]
    | cons p r ih =>
      intro result hne hch
      obtain ⟨prev, hprev⟩ : ∃ prev, result.getLast? = some prev := by
        cases h : result.getLast? with
        | none => exact absurd (List.getLast?_eq_none_iff.1 h) hne
        | some prev => exact ⟨prev, rfl⟩
      have hd : calculateDistance prev p > 2 := by
        rw [List.chain'_append] at hch
        exact hch.2.2 prev hprev p rfl
      have hch2 : List.Chain' (fun a b => 2 < calculateDistance a b) ((result ++ [p]) ++ r) := by
        simpa only [List.append_assoc, List.singleton_append] using hch
      have := ih (result ++ [p]) (by simp) hch2
      simp only [removeDuplicates, hprev, if_pos hd, this, List.append_assoc,
        List.singleton_append]
  /- The steps of `simplifyPath` on a stroke of at least 2 points, tolerance `≥ 0`: the
  simplification returns, its outcome has at least 2 points, the first and last of which are
  those of the stroke, and the result is the removal of near-duplicates from the snapped
  points. -/
  have simplifyPath_long : ∀ (g : ℝ) (points : List Point) (tol : ℝ) (_ : 2 ≤ points.length)
      (_ : 0 ≤ tol),
      ∃ (dp : List Point) (first : Point) (rest : List Point),
        douglasPeucker points tol = some dp ∧
        dp.map (snapPointToGrid g) = first :: rest ∧
        points.head?.map (snapPointToGrid g) = some first ∧
        points.getLast?.map (snapPointToGrid g) = rest.getLast? ∧ rest ≠ [] ∧
        simplifyPath g points tol = some (removeDuplicates [first] rest) := by
    intro g points tol h2 htol
    obtain ⟨dp, hdp, hhead, hlast, hseg⟩ :=
      douglasPeuckerFuel_spec tol htol points.length points h2 (by omega)
    have hdp2 : douglasPeucker points tol = some dp := hdp
    obtain ⟨p0, hp0⟩ : ∃ p0, p0 ∈ points := by
      match points, h2 with
      | p0 :: _, _ => exact ⟨p0, List.mem_cons_self _ _⟩
    obtain ⟨a, b, pre, post, hout, -⟩ := hseg p0 hp0
    have hlen : 2 ≤ dp.length := by
      rw [hout]; simp only [List.length_append, List.length_cons]; omega
    match dp, hlen, hhead, hlast, hdp2 with
    | d0 :: d1 :: ds, _, hhead, hlast, hdp2 =>
      refine ⟨d0 :: d1 :: ds, snapPointToGrid g d0, (d1 :: ds).map (snapPointToGrid g), hdp2, rfl,
        ?_, ?_, by simp, ?_⟩
      · rw [← hhead]; rfl
      · rw [← hlast, List.getLast?_cons_cons, List.getLast?_map]
      · unfold simplifyPath
        rw [if_neg (by omega), hdp2]
        rfl
  exact ⟨snapToGrid_examples, snapToGrid_idem, snapPointToGrid_idem, removeDuplicates_spec,
    removeDuplicates_fixed, simplifyPath_long⟩
/-- C12 is false as stated: without a grid (`gridSize = 0`) the stroke `(0,0), (1,0)` of
2 points is returned as the single point `(0,0)`, the second point being within 2 units
of the first. -/
theorem C12_counterexample :
    simplifyPath 0 [⟨0, 0⟩, ⟨1, 0⟩] 0 = some [⟨0, 0⟩] ∧
    ([(⟨0, 0⟩ : Point), ⟨1, 0⟩].length = 2 ∧ [(⟨0, 0⟩ : Point)].length = 1) := by
  have calculateDistance_horizontal := rectangle_outline_lemmas.2.2.2.2.2.2.2.2.1
  have douglasPeuckerFuel_short := simplifier_lemmas.2.2.2.2.2.2.1
  have hsnap : ∀ p : Point, snapPointToGrid 0 p = p := by
    intro p
    simp [snapPointToGrid, snapToGrid]
  have hd : calculateDistance ⟨0, 0⟩ ⟨1, 0⟩ = 1 := by
    rw [calculateDistance_horizontal]; norm_num
  refine ⟨?_, rfl, rfl⟩
  unfold simplifyPath douglasPeucker
  rw [if_neg (by simp), douglasPeuckerFuel_short _ _ _ (by simp)]
  simp only [List.map_cons, List.map_nil, hsnap]
  simp only [removeDuplicates, List.getLast?_singleton, hd]
  rw [if_neg (by norm_num)]

/-- C12 (amended). For every tolerance `≥ 0`: a stroke of fewer than 2 points is returned
unchanged; for a stroke of at least 2 points `simplifyPath` returns a sequence of at least
1 point, which starts with the grid-snapped first point of the stroke, and which has at
least 2 points whenever the grid-snapped first and last points of the stroke are more
than 2 units apart. -/
theorem C12_simplifier_output_length (gridSize : ℝ) (points : List Point) (tolerance : ℝ)
    (htol : 0 ≤ tolerance) :
    (points.length < 2 → simplifyPath gridSize points tolerance = some points) ∧
    (2 ≤ points.length → ∃ out, simplifyPath gridSize points tolerance = some out ∧
      1 ≤ out.length ∧
      out.head? = points.head?.map (snapPointToGrid gridSize) ∧
      (∀ a b, points.head? = some a → points.getLast? = some b →
        2 < calculateDistance (snapPointToGrid gridSize a) (snapPointToGrid gridSize b) →
        2 ≤ out.length)) := by
  have removeDuplicates_spec := dedup_lemmas.2.2.2.1
  have simplifyPath_long := dedup_lemmas.2.2.2.2.2
  constructor
  · intro h
    unfold simplifyPath
    rw [if_pos h]
  · intro h2
    obtain ⟨dp, first, rest, -, -, hfirst, hlast, hrest, hsimp⟩ :=
      simplifyPath_long gridSize points tolerance h2 htol
    obtain ⟨ext, hext, -, -, hgrow⟩ := removeDuplicates_spec rest [first] (by simp)
    refine ⟨[first] ++ ext, by rw [hsimp, hext], by simp, ?_, ?_⟩
    · rw [hfirst]; rfl
    · intro a b ha hb hd
      rw [ha] at hfirst
      rw [hb] at hlast
      simp only [Option.map_some', Option.some.injEq] at hfirst
      have hmem : snapPointToGrid gridSize b ∈ rest :=
        List.mem_of_getLast?_eq_some hlast.symm
      have := hgrow first rfl ⟨_, hmem, by rw [← hfirst]; exact hd⟩
      have hpos : 0 < ext.length := List.length_pos.2 this
      simp only [List.singleton_append, List.length_cons]
      omega

/-- C12 (amended) on the stroke `(0,0), (14,0)` with `gridSize = 10`, tolerance 1. -/
theorem C12_simplifier_output_length_witness :
    ∃ out, simplifyPath 10 [⟨0, 0⟩, ⟨14, 0⟩] 1 = some out ∧ 1 ≤ out.length ∧
      out.head? = [(⟨0, 0⟩ : Point), ⟨14, 0⟩].head?.map (snapPointToGrid 10) ∧
      (∀ a b, [(⟨0, 0⟩ : Point), ⟨14, 0⟩].head? = some a →
        [(⟨0, 0⟩ : Point), ⟨14, 0⟩].getLast? = some b →
        2 < calculateDistance (snapPointToGrid 10 a) (snapPointToGrid 10 b) →
        2 ≤ out.length) :=
  (C12_simplifier_output_length 10 [⟨0, 0⟩, ⟨14, 0⟩] 1 (by norm_num)).2 (by simp)

/-- Two evaluations of `simplifyPath`: a first pass and a second pass over its result. -/
theorem simplifyPath_pass_lemmas :
    (
        simplifyPath 10 [⟨0, 0⟩, ⟨50, 4⟩, ⟨100, 0⟩] 1 = some [⟨0, 0⟩, ⟨50, 0⟩, ⟨100, 0⟩]) ∧
    (
        simplifyPath 10 [⟨0, 0⟩, ⟨50, 0⟩, ⟨100, 0⟩] 1 = some [⟨0, 0⟩, ⟨100, 0⟩]) := by
  have calculateDistance_horizontal := rectangle_outline_lemmas.2.2.2.2.2.2.2.2.1
  have calculateDistance_vertical := rectangle_outline_lemmas.2.2.2.2.2.2.2.2.2.1
  have calculateDistance_self := simplifier_lemmas.1
  have douglasPeuckerFuel_short := simplifier_lemmas.2.2.2.2.2.2.1
  have douglasPeuckerFuel_long := simplifier_lemmas.2.2.2.2.2.2.2.1
  /- With `gridSize = 10` and tolerance 1, the stroke `(0,0), (50,4), (100,0)` keeps its
  three points, the middle one snapped to `(50,0)`. -/
  have simplifyPath_first_pass :
      simplifyPath 10 [⟨0, 0⟩, ⟨50, 4⟩, ⟨100, 0⟩] 1 = some [⟨0, 0⟩, ⟨50, 0⟩, ⟨100, 0⟩] := by
    have hfl : ∀ (v : ℝ) (k : ℤ), (k : ℝ) ≤ v / 10 + 1 / 2 → v / 10 + 1 / 2 < (k : ℝ) + 1 →
        snapToGrid 10 v = (k : ℝ) * 10 := by
      intro v k h1 h2
      unfold snapToGrid
      rw [if_neg (by norm_num)]
      have : ⌊v / 10 + 1 / 2⌋ = k := by
        rw [Int.floor_eq_iff]; exact ⟨h1, h2⟩
      rw [this]
    have hs0 : snapToGrid 10 0 = 0 := by
      have := hfl 0 0 (by norm_num) (by norm_num)
      simpa using this
    have hs4 : snapToGrid 10 4 = 0 := by
      have := hfl 4 0 (by norm_num) (by norm_num)
      simpa using this
    have hs50 : snapToGrid 10 50 = 50 := by
      have := hfl 50 5 (by norm_num) (by norm_num)
      rw [this]; norm_num
    have hs100 : snapToGrid 10 100 = 100 := by
      have := hfl 100 10 (by norm_num) (by norm_num)
      rw [this]; norm_num
    have hpd : perpendicularDistance ⟨50, 4⟩ ⟨0, 0⟩ ⟨100, 0⟩ = 4 := by
      unfold perpendicularDistance
      simp only
      rw [if_neg (by norm_num), if_neg (by norm_num), if_neg (by norm_num)]
      have : (⟨0 + ((50 - 0) * (100 - 0) + (4 - 0) * (0 - 0)) /
          ((100 - 0) * (100 - 0) + (0 - 0) * (0 - 0)) * (100 - 0),
          0 + ((50 - 0) * (100 - 0) + (4 - 0) * (0 - 0)) /
          ((100 - 0) * (100 - 0) + (0 - 0) * (0 - 0)) * (0 - 0)⟩ : Point) = ⟨50, 0⟩ := by
        norm_num
      rw [this, calculateDistance_vertical]
      norm_num
    have hloop : maxDistanceLoop ⟨0, 0⟩ ⟨100, 0⟩ 1 [⟨50, 4⟩] (0, 0) = (4, 1) := by
      simp only [maxDistanceLoop, hpd]
      rw [if_pos (by norm_num)]
    have hdp : douglasPeucker [⟨0, 0⟩, ⟨50, 4⟩, ⟨100, 0⟩] 1 =
        some [⟨0, 0⟩, ⟨50, 4⟩, ⟨100, 0⟩] := by
      unfold douglasPeucker
      have := douglasPeuckerFuel_long 2 ⟨0, 0⟩ ⟨100, 0⟩ [⟨50, 4⟩] 1 (by simp)
      simp only [List.cons_append, List.nil_append] at this
      simp only [List.length_cons, List.length_nil]
      rw [this, hloop, if_pos (by norm_num)]
      simp only [List.take, List.drop]
      rw [douglasPeuckerFuel_short _ _ _ (by simp), douglasPeuckerFuel_short _ _ _ (by simp)]
      rfl
    have hd1 : calculateDistance ⟨0, 0⟩ ⟨50, 0⟩ = 50 := by
      rw [calculateDistance_horizontal]; norm_num
    have hd2 : calculateDistance ⟨50, 0⟩ ⟨100, 0⟩ = 50 := by
      rw [calculateDistance_horizontal]; norm_num
    unfold simplifyPath
    rw [if_neg (by simp), hdp]
    simp only [List.map_cons, List.map_nil, snapPointToGrid, hs0, hs4, hs50, hs100]
    simp only [removeDuplicates, List.getLast?_singleton, hd1]
    rw [if_pos (by norm_num)]
    simp only [List.singleton_append, List.getLast?_cons_cons, List.getLast?_singleton, hd2]
    rw [if_pos (by norm_num)]
    rfl
  /- With `gridSize = 10` and tolerance 1, the polyline `(0,0), (50,0), (100,0)` loses its
  middle point, which is on the chord of the other two. -/
  have simplifyPath_second_pass :
      simplifyPath 10 [⟨0, 0⟩, ⟨50, 0⟩, ⟨100, 0⟩] 1 = some [⟨0, 0⟩, ⟨100, 0⟩] := by
    have hfl : ∀ (v : ℝ) (k : ℤ), (k : ℝ) ≤ v / 10 + 1 / 2 → v / 10 + 1 / 2 < (k : ℝ) + 1 →
        snapToGrid 10 v = (k : ℝ) * 10 := by
      intro v k h1 h2
      unfold snapToGrid
      rw [if_neg (by norm_num)]
      have : ⌊v / 10 + 1 / 2⌋ = k := by
        rw [Int.floor_eq_iff]; exact ⟨h1, h2⟩
      rw [this]
    have hs0 : snapToGrid 10 0 = 0 := by
      have := hfl 0 0 (by norm_num) (by norm_num)
      simpa using this
    have hs100 : snapToGrid 10 100 = 100 := by
      have := hfl 100 10 (by norm_num) (by norm_num)
      rw [this]; norm_num
    have hpd : perpendicularDistance ⟨50, 0⟩ ⟨0, 0⟩ ⟨100, 0⟩ = 0 := by
      unfold perpendicularDistance
      simp only
      rw [if_neg (by norm_num), if_neg (by norm_num), if_neg (by norm_num)]
      have : (⟨0 + ((50 - 0) * (100 - 0) + (0 - 0) * (0 - 0)) /
          ((100 - 0) * (100 - 0) + (0 - 0) * (0 - 0)) * (100 - 0),
          0 + ((50 - 0) * (100 - 0) + (0 - 0) * (0 - 0)) /
          ((100 - 0) * (100 - 0) + (0 - 0) * (0 - 0)) * (0 - 0)⟩ : Point) = ⟨50, 0⟩ := by
        norm_num
      rw [this, calculateDistance_self]
    have hloop : maxDistanceLoop ⟨0, 0⟩ ⟨100, 0⟩ 1 [⟨50, 0⟩] (0, 0) = (0, 0) := by
      simp only [maxDistanceLoop, hpd]
      rw [if_neg (by norm_num)]
    have hdp : douglasPeucker [⟨0, 0⟩, ⟨50, 0⟩, ⟨100, 0⟩] 1 = some [⟨0, 0⟩, ⟨100, 0⟩] := by
      unfold douglasPeucker
      have := douglasPeuckerFuel_long 2 ⟨0, 0⟩ ⟨100, 0⟩ [⟨50, 0⟩] 1 (by simp)
      simp only [List.cons_append, List.nil_append] at this
      simp only [List.length_cons, List.length_nil]
      rw [this, hloop, if_neg (by norm_num)]
    have hd1 : calculateDistance ⟨0, 0⟩ ⟨100, 0⟩ = 100 := by
      rw [calculateDistance_horizontal]; norm_num
    unfold simplifyPath
    rw [if_neg (by simp), hdp]
    simp only [List.map_cons, List.map_nil, snapPointToGrid, hs0, hs100]
    simp only [removeDuplicates, List.getLast?_singleton, hd1]
    rw [if_pos (by norm_num)]
    rfl
  exact ⟨simplifyPath_first_pass, simplifyPath_second_pass⟩
/-- C11 is false as stated: with `gridSize = 10` and tolerance 1 the stroke
`(0,0), (50,4), (100,0)` is simplified to `(0,0), (50,0), (100,0)` (the grid snap moves
the middle point onto the chord), and simplifying that result again gives
`(0,0), (100,0)`. -/
theorem C11_counterexample :
    simplifyPath 10 [⟨0, 0⟩, ⟨50, 4⟩, ⟨100, 0⟩] 1 = some [⟨0, 0⟩, ⟨50, 0⟩, ⟨100, 0⟩] ∧
    simplifyPath 10 [⟨0, 0⟩, ⟨50, 0⟩, ⟨100, 0⟩] 1 = some [⟨0, 0⟩, ⟨100, 0⟩] ∧
    [(⟨0, 0⟩ : Point), ⟨50, 0⟩, ⟨100, 0⟩] ≠ [⟨0, 0⟩, ⟨100, 0⟩] := by
  have simplifyPath_first_pass := simplifyPath_pass_lemmas.1
  have simplifyPath_second_pass := simplifyPath_pass_lemmas.2
  exact
    ⟨simplifyPath_first_pass, simplifyPath_second_pass, by simp⟩

/-- C11 (amended). Let `out` be the result of `simplifyPath` on a stroke, tolerance `≥ 0`.
The grid snap and the removal of near-duplicates leave `out` as it is, so that a second
call returns `out` again whenever `douglasPeucker` removes no point of `out`; this is so
in particular when `out` has at most 2 points. -/
theorem C11_simplification_idempotence (gridSize : ℝ) (points out : List Point)
    (tolerance : ℝ) (htol : 0 ≤ tolerance)
    (hout : simplifyPath gridSize points tolerance = some out) :
    (douglasPeucker out tolerance = some out →
      simplifyPath gridSize out tolerance = some out) ∧
    (out.length ≤ 2 → simplifyPath gridSize out tolerance = some out) := by
  have douglasPeuckerFuel_short := simplifier_lemmas.2.2.2.2.2.2.1
  have snapPointToGrid_idem := dedup_lemmas.2.2.1
  have removeDuplicates_spec := dedup_lemmas.2.2.2.1
  have removeDuplicates_fixed := dedup_lemmas.2.2.2.2.1
  have simplifyPath_long := dedup_lemmas.2.2.2.2.2
  have hshort : out.length < 2 → simplifyPath gridSize out tolerance = some out := by
    intro h
    unfold simplifyPath
    rw [if_pos h]
  have key : douglasPeucker out tolerance = some out →
      simplifyPath gridSize out tolerance = some out := by
    intro hdp
    by_cases hlen : points.length < 2
    · have : simplifyPath gridSize points tolerance = some points := by
        unfold simplifyPath
        rw [if_pos hlen]
      rw [this] at hout
      have : points = out := Option.some.inj hout
      exact hshort (this ▸ hlen)
    · obtain ⟨dp, first, rest, -, hmap, -, -, -, hsimp⟩ :=
        simplifyPath_long gridSize points tolerance (by omega) htol
      obtain ⟨ext, hext, hmem, hchain, -⟩ := removeDuplicates_spec rest [first] (by simp)
      have hQ : out = first :: ext := by
        rw [hsimp, hext] at hout
        exact (Option.some.inj hout).symm
      have hsnapped : ∀ q ∈ out, snapPointToGrid gridSize q = q := by
        intro q hq
        have hq2 : q ∈ dp.map (snapPointToGrid gridSize) := by
          rw [hmap]
          rw [hQ] at hq
          rcases List.mem_cons.1 hq with rfl | hq
          · exact List.mem_cons_self _ _
          · exact List.mem_cons_of_mem _ (hmem q hq)
        obtain ⟨d, -, rfl⟩ := List.mem_map.1 hq2
        exact snapPointToGrid_idem gridSize d
      have hmapQ : out.map (snapPointToGrid gridSize) = out := by
        conv_rhs => rw [← List.map_id out]
        exact List.map_congr_left hsnapped
      by_cases hlen2 : out.length < 2
      · exact hshort hlen2
      · unfold simplifyPath
        rw [if_neg hlen2, hdp]
        simp only [hmapQ]
        rw [hQ]
        simp only
        have hch := hchain (List.chain'_singleton _)
        rw [removeDuplicates_fixed ext [first] (by simp) hch]
        rfl
  refine ⟨key, ?_⟩
  intro h2
  exact key (douglasPeuckerFuel_short _ _ _ h2)

/-- C11 (amended) on the stroke `(0,0), (14,0)` with `gridSize = 10` and tolerance 1,
whose simplification is `(0,0), (10,0)`. -/
theorem C11_simplification_idempotence_witness :
    simplifyPath 10 [⟨0, 0⟩, ⟨14, 0⟩] 1 = some [⟨0, 0⟩, ⟨10, 0⟩] ∧
    simplifyPath 10 [⟨0, 0⟩, ⟨10, 0⟩] 1 = some [⟨0, 0⟩, ⟨10, 0⟩] := by
  have simplifyPath_grid_example := simplifier_lemmas.2.2.2.2.2.2.2.2.2.1
  exact
    ⟨simplifyPath_grid_example.1,
      (C11_simplification_idempotence 10 [⟨0, 0⟩, ⟨14, 0⟩] [⟨0, 0⟩, ⟨10, 0⟩] 1 (by norm_num)
        simplifyPath_grid_example.1).2 (by simp)⟩

/-- Facts on the scan of the wall endpoints by `snapToHVAlignment`, one axis at a time; the parts
are explained one by one in the proof. -/
theorem hv_snap_lemmas :
    (∀ (point : Point) (st : HVResult) (ep : Point),
        (hvEndpointStep point st ep).snappedX = (st.snappedX || decide (|point.x - ep.x| < 8)) ∧
        (hvEndpointStep point st ep).point.x =
          if st.snappedX = true then st.point.x
          else if |point.x - ep.x| < 8 then ep.x else st.point.x) ∧
    (∀ (point : Point) (st : HVResult) (ep : Point),
        (hvEndpointStep point st ep).snappedY = (st.snappedY || decide (|point.y - ep.y| < 8)) ∧
        (hvEndpointStep point st ep).point.y =
          if st.snappedY = true then st.point.y
          else if |point.y - ep.y| < 8 then ep.y else st.point.y) ∧
    (∀ (point : Point) (excl : List ℕ),
        ∀ (walls : List Wall) (i : ℕ) (st : HVResult),
          (snapToHVAlignmentFrom point excl i walls st).snappedX =
            (st.snappedX || ((scanEndpoints excl i walls).find?
              (fun ep => decide (|point.x - ep.x| < 8))).isSome) ∧
          (snapToHVAlignmentFrom point excl i walls st).point.x =
            if st.snappedX = true then st.point.x
            else match (scanEndpoints excl i walls).find?
                (fun ep => decide (|point.x - ep.x| < 8)) with
              | some ep => ep.x
              | none => st.point.x) ∧
    (∀ (point : Point) (excl : List ℕ),
        ∀ (walls : List Wall) (i : ℕ) (st : HVResult),
          (snapToHVAlignmentFrom point excl i walls st).snappedY =
            (st.snappedY || ((scanEndpoints excl i walls).find?
              (fun ep => decide (|point.y - ep.y| < 8))).isSome) ∧
          (snapToHVAlignmentFrom point excl i walls st).point.y =
            if st.snappedY = true then st.point.y
            else match (scanEndpoints excl i walls).find?
                (fun ep => decide (|point.y - ep.y| < 8)) with
              | some ep => ep.y
              | none => st.point.y) := by
  have hvEndpointStep_x : ∀ (point : Point) (st : HVResult) (ep : Point),
      (hvEndpointStep point st ep).snappedX = (st.snappedX || decide (|point.x - ep.x| < 8)) ∧
      (hvEndpointStep point st ep).point.x =
        if st.snappedX = true then st.point.x
        else if |point.x - ep.x| < 8 then ep.x else st.point.x := by
    intro point st ep
    unfold hvEndpointStep
    cases hX : st.snappedX <;> by_cases hx : |point.x - ep.x| < 8 <;>
      by_cases hy : st.snappedY = false ∧ |point.y - ep.y| < 8 <;> simp [hX, hx, hy]
  have hvEndpointStep_y : ∀ (point : Point) (st : HVResult) (ep : Point),
      (hvEndpointStep point st ep).snappedY = (st.snappedY || decide (|point.y - ep.y| < 8)) ∧
      (hvEndpointStep point st ep).point.y =
        if st.snappedY = true then st.point.y
        else if |point.y - ep.y| < 8 then ep.y else st.point.y := by
    intro point st ep
    unfold hvEndpointStep
    cases hY : st.snappedY <;> by_cases hy : |point.y - ep.y| < 8 <;>
      by_cases hx : st.snappedX = false ∧ |point.x - ep.x| < 8 <;> simp [hY, hx, hy]
  /- The outcome of the scan of `snapToHVAlignment` on the axis `x`: snapped when the state
  was snapped already or some scanned endpoint is within the threshold, and then to the
  first such endpoint. -/
  have snapToHVAlignmentFrom_x : ∀ (point : Point) (excl : List ℕ),
      ∀ (walls : List Wall) (i : ℕ) (st : HVResult),
        (snapToHVAlignmentFrom point excl i walls st).snappedX =
          (st.snappedX || ((scanEndpoints excl i walls).find?
            (fun ep => decide (|point.x - ep.x| < 8))).isSome) ∧
        (snapToHVAlignmentFrom point excl i walls st).point.x =
          if st.snappedX = true then st.point.x
          else match (scanEndpoints excl i walls).find?
              (fun ep => decide (|point.x - ep.x| < 8)) with
            | some ep => ep.x
            | none => st.point.x := by
    intro point excl
    intro walls
    induction walls with
    | nil => intro i st; simp [snapToHVAlignmentFrom, scanEndpoints]
    | cons wall rest ih =>
      intro i st
      by_cases hex : i ∈ excl
      · have h1 : snapToHVAlignmentFrom point excl i (wall :: rest) st =
            snapToHVAlignmentFrom point excl (i + 1) rest st := by
          simp [snapToHVAlignmentFrom, hex]
        have h2 : scanEndpoints excl i (wall :: rest) = scanEndpoints excl (i + 1) rest := by
          simp [scanEndpoints, hex]
        rw [h1, h2]
        exact ih (i + 1) st
      · have h2 : scanEndpoints excl i (wall :: rest) =
            wall.start :: wall.end_ :: scanEndpoints excl (i + 1) rest := by
          simp [scanEndpoints, hex]
        obtain ⟨a1, a2⟩ := hvEndpointStep_x point st wall.start
        obtain ⟨b1, b2⟩ := hvEndpointStep_x point (hvEndpointStep point st wall.start) wall.end_
        obtain ⟨c1, c2⟩ := ih (i + 1)
          (hvEndpointStep point (hvEndpointStep point st wall.start) wall.end_)
        by_cases hbr : ((hvEndpointStep point (hvEndpointStep point st wall.start)
            wall.end_).snappedX &&
            (hvEndpointStep point (hvEndpointStep point st wall.start) wall.end_).snappedY) = true
        · have h1 : snapToHVAlignmentFrom point excl i (wall :: rest) st =
              hvEndpointStep point (hvEndpointStep point st wall.start) wall.end_ := by
            simp only [snapToHVAlignmentFrom, if_neg hex, List.foldl, if_pos hbr]
          have hsx : (hvEndpointStep point (hvEndpointStep point st wall.start)
              wall.end_).snappedX = true := by
            simp only [Bool.and_eq_true] at hbr
            exact hbr.1
          rw [h1, h2, b2, a2, hsx]
          rw [b1, a1] at hsx
          cases hX : st.snappedX <;> by_cases hs : |point.x - wall.start.x| < 8 <;>
            by_cases he : |point.x - wall.end_.x| < 8 <;>
            simp [hX, hs, he, a1, List.find?_cons] at hsx ⊢
        · have h1 : snapToHVAlignmentFrom point excl i (wall :: rest) st =
              snapToHVAlignmentFrom point excl (i + 1) rest
                (hvEndpointStep point (hvEndpointStep point st wall.start) wall.end_) := by
            simp only [snapToHVAlignmentFrom, if_neg hex, List.foldl, if_neg hbr]
          rw [h1, h2, c1, c2, b1, b2, a1, a2]
          cases hX : st.snappedX <;> by_cases hs : |point.x - wall.start.x| < 8 <;>
            by_cases he : |point.x - wall.end_.x| < 8 <;>
            simp [hX, hs, he, List.find?_cons]
  /- The outcome of the scan of `snapToHVAlignment` on the axis `y`: snapped when the state
  was snapped already or some scanned endpoint is within the threshold, and then to the
  first such endpoint. -/
  have snapToHVAlignmentFrom_y : ∀ (point : Point) (excl : List ℕ),
      ∀ (walls : List Wall) (i : ℕ) (st : HVResult),
        (snapToHVAlignmentFrom point excl i walls st).snappedY =
          (st.snappedY || ((scanEndpoints excl i walls).find?
            (fun ep => decide (|point.y - ep.y| < 8))).isSome) ∧
        (snapToHVAlignmentFrom point excl i walls st).point.y =
          if st.snappedY = true then st.point.y
          else match (scanEndpoints excl i walls).find?
              (fun ep => decide (|point.y - ep.y| < 8)) with
            | some ep => ep.y
            | none => st.point.y := by
    intro point excl
    intro walls
    induction walls with
    | nil => intro i st; simp [snapToHVAlignmentFrom, scanEndpoints]
    | cons wall rest ih =>
      intro i st
      by_cases hex : i ∈ excl
      · have h1 : snapToHVAlignmentFrom point excl i (wall :: rest) st =
            snapToHVAlignmentFrom point excl (i + 1) rest st := by
          simp [snapToHVAlignmentFrom, hex]
        have h2 : scanEndpoints excl i (wall :: rest) = scanEndpoints excl (i + 1) rest := by
          simp [scanEndpoints, hex]
        rw [h1, h2]
        exact ih (i + 1) st
      · have h2 : scanEndpoints excl i (wall :: rest) =
            wall.start :: wall.end_ :: scanEndpoints excl (i + 1) rest := by
          simp [scanEndpoints, hex]
        obtain ⟨a1, a2⟩ := hvEndpointStep_y point st wall.start
        obtain ⟨b1, b2⟩ := hvEndpointStep_y point (hvEndpointStep point st wall.start) wall.end_
        obtain ⟨c1, c2⟩ := ih (i + 1)
          (hvEndpointStep point (hvEndpointStep point st wall.start) wall.end_)
        by_cases hbr : ((hvEndpointStep point (hvEndpointStep point st wall.start)
            wall.end_).snappedX &&
            (hvEndpointStep point (hvEndpointStep point st wall.start) wall.end_).snappedY) = true
        · have h1 : snapToHVAlignmentFrom point excl i (wall :: rest) st =
              hvEndpointStep point (hvEndpointStep point st wall.start) wall.end_ := by
            simp only [snapToHVAlignmentFrom, if_neg hex, List.foldl, if_pos hbr]
          have hsy : (hvEndpointStep point (hvEndpointStep point st wall.start)
              wall.end_).snappedY = true := by
            simp only [Bool.and_eq_true] at hbr
            exact hbr.2
          rw [h1, h2, b2, a2, hsy]
          rw [b1, a1] at hsy
          cases hX : st.snappedY <;> by_cases hs : |point.y - wall.start.y| < 8 <;>
            by_cases he : |point.y - wall.end_.y| < 8 <;>
            simp [hX, hs, he, a1, List.find?_cons] at hsy ⊢
        · have h1 : snapToHVAlignmentFrom point excl i (wall :: rest) st =
              snapToHVAlignmentFrom point excl (i + 1) rest
                (hvEndpointStep point (hvEndpointStep point st wall.start) wall.end_) := by
            simp only [snapToHVAlignmentFrom, if_neg hex, List.foldl, if_neg hbr]
          rw [h1, h2, c1, c2, b1, b2, a1, a2]
          cases hX : st.snappedY <;> by_cases hs : |point.y - wall.start.y| < 8 <;>
            by_cases he : |point.y - wall.end_.y| < 8 <;>
            simp [hX, hs, he, List.find?_cons]
  exact ⟨hvEndpointStep_x, hvEndpointStep_y, snapToHVAlignmentFrom_x, snapToHVAlignmentFrom_y⟩
/-- C13 (snap combination and priority). For every point, wall list and exclusion list,
`snapPointWithHVAlignment` returns on each axis, independently of the other axis, the
coordinate of the first wall endpoint in scan order (walls in insertion order, excluded
walls skipped, `start` before `end`) whose coordinate on that axis differs from the
point's by strictly less than 8, and the grid-snapped coordinate of the point when there
is no such endpoint. -/
theorem C13_snap_priority (gridSize : ℝ) (walls : List Wall) (point : Point)
    (excludeWalls : List ℕ) :
    (snapPointWithHVAlignment gridSize walls point excludeWalls).x =
      (match (scanEndpoints excludeWalls 0 walls).find?
          (fun ep => decide (|point.x - ep.x| < 8)) with
        | some ep => ep.x
        | none => snapToGrid gridSize point.x) ∧
    (snapPointWithHVAlignment gridSize walls point excludeWalls).y =
      (match (scanEndpoints excludeWalls 0 walls).find?
          (fun ep => decide (|point.y - ep.y| < 8)) with
        | some ep => ep.y
        | none => snapToGrid gridSize point.y) := by
  have snapToHVAlignmentFrom_x := hv_snap_lemmas.2.2.1
  have snapToHVAlignmentFrom_y := hv_snap_lemmas.2.2.2
  obtain ⟨x1, x2⟩ := snapToHVAlignmentFrom_x point excludeWalls walls 0
    ⟨⟨point.x, point.y⟩, false, false⟩
  obtain ⟨y1, y2⟩ := snapToHVAlignmentFrom_y point excludeWalls walls 0
    ⟨⟨point.x, point.y⟩, false, false⟩
  unfold snapPointWithHVAlignment snapToHVAlignment
  simp only [Bool.false_or] at x1 y1
  simp only [Bool.false_eq_true, if_false] at x2 y2
  constructor
  · cases hf : (scanEndpoints excludeWalls 0 walls).find?
        (fun ep => decide (|point.x - ep.x| < 8)) with
    | none =>
      rw [hf] at x1
      cases hY : (snapToHVAlignmentFrom point excludeWalls 0 walls
          ⟨⟨point.x, point.y⟩, false, false⟩).snappedY <;>
        simp [x1, hY, snapPointToGrid]
    | some ep =>
      rw [hf] at x1 x2
      cases hY : (snapToHVAlignmentFrom point excludeWalls 0 walls
          ⟨⟨point.x, point.y⟩, false, false⟩).snappedY <;>
        simp [x1, x2, hY, snapPointToGrid]
  · cases hf : (scanEndpoints excludeWalls 0 walls).find?
        (fun ep => decide (|point.y - ep.y| < 8)) with
    | none =>
      rw [hf] at y1
      cases hX : (snapToHVAlignmentFrom point excludeWalls 0 walls
          ⟨⟨point.x, point.y⟩, false, false⟩).snappedX <;>
        simp [y1, hX, snapPointToGrid]
    | some ep =>
      rw [hf] at y1 y2
      cases hX : (snapToHVAlignmentFrom point excludeWalls 0 walls
          ⟨⟨point.x, point.y⟩, false, false⟩).snappedX <;>
        simp [y1, y2, hX, snapPointToGrid]

/-- C13 on the example of the specification: with `gridSize = 6` and a wall from `(100,0)`
to `(300,200)`, the point `(97,3)` snaps to `(100,0)`; the grid alone gives `(96,6)`. -/
theorem C13_snap_priority_witness :
    snapPointWithHVAlignment 6 [⟨1, ⟨100, 0⟩, ⟨300, 200⟩, 6, 96⟩] ⟨97, 3⟩ [] = ⟨100, 0⟩ ∧
    snapPointToGrid 6 ⟨97, 3⟩ = ⟨96, 6⟩ := by
  constructor
  · obtain ⟨hx, hy⟩ := C13_snap_priority 6 [⟨1, ⟨100, 0⟩, ⟨300, 200⟩, 6, 96⟩] ⟨97, 3⟩ []
    have h1 : |(97 : ℝ) - 100| < 8 := by rw [abs_lt]; constructor <;> norm_num
    have h2 : (3 : ℝ) < 8 := by norm_num
    have ex : (snapPointWithHVAlignment 6 [⟨1, ⟨100, 0⟩, ⟨300, 200⟩, 6, 96⟩] ⟨97, 3⟩ []).x
        = 100 := by
      rw [hx]
      simp [scanEndpoints, List.find?_cons, h1]
    have ey : (snapPointWithHVAlignment 6 [⟨1, ⟨100, 0⟩, ⟨300, 200⟩, 6, 96⟩] ⟨97, 3⟩ []).y
        = 0 := by
      rw [hy]
      simp [scanEndpoints, List.find?_cons, h2]
    cases h : snapPointWithHVAlignment 6 [⟨1, ⟨100, 0⟩, ⟨300, 200⟩, 6, 96⟩] ⟨97, 3⟩ [] with
    | mk x y =>
      rw [h] at ex ey
      simp only at ex ey
      rw [ex, ey]
  · have hx : snapToGrid 6 97 = 96 := by
      unfold snapToGrid
      rw [if_neg (by norm_num)]
      have : ⌊(97 : ℝ) / 6 + 1 / 2⌋ = 16 := by
        rw [Int.floor_eq_iff]; norm_num
      rw [this]; norm_num
    have hy : snapToGrid 6 3 = 6 := by
      unfold snapToGrid
      rw [if_neg (by norm_num)]
      have : ⌊(3 : ℝ) / 6 + 1 / 2⌋ = 1 := by
        rw [Int.floor_eq_iff]; norm_num
      rw [this]; norm_num
    simp only [snapPointToGrid, hx, hy]

/-! ### Chain discovery: the extension step -/

/-- Facts on the first match of `findConnectedWall`, and chain discovery on the walls of a
T-junction; the parts are explained one by one in the proof. -/
theorem first_match_lemmas :
    (∀ (used : List ℕ) (p : Point) (ex : ℕ),
        ∀ (rest : List Wall) (i : ℕ), findConnectedWallFrom used p ex i rest = none ↔
          ∀ (j : ℕ) (w : Wall), rest[j]? = some w → i + j ≠ ex → w.id ∉ used →
            ¬ pointsMatch p w.start ∧ ¬ pointsMatch p w.end_) ∧
    (∀ (used : List ℕ) (p : Point) (ex : ℕ) (c : Connected),
        ∀ (rest : List Wall) (i : ℕ), findConnectedWallFrom used p ex i rest = some c →
          ∃ j, c.idx = i + j ∧ rest[j]? = some c.wall ∧ c.idx ≠ ex ∧ c.wall.id ∉ used ∧
            ((c.startPoint = .start ∧ c.endPoint = .end_ ∧ pointsMatch p c.wall.start) ∨
              (c.startPoint = .end_ ∧ c.endPoint = .start ∧ ¬ pointsMatch p c.wall.start ∧
                pointsMatch p c.wall.end_)) ∧
            ∀ (k : ℕ) (w : Wall), k < j → rest[k]? = some w → i + k ≠ ex → w.id ∉ used →
              ¬ pointsMatch p w.start ∧ ¬ pointsMatch p w.end_) ∧
    (
        findWallChains tJunctionWalls =
          some [[⟨⟨1, ⟨0, 0⟩, ⟨100, 0⟩, 6, 96⟩, ⟨0, 0⟩, ⟨100, 0⟩⟩,
              ⟨⟨2, ⟨100, 0⟩, ⟨200, 0⟩, 6, 96⟩, ⟨100, 0⟩, ⟨200, 0⟩⟩],
            [⟨⟨3, ⟨100, 0⟩, ⟨100, 100⟩, 6, 96⟩, ⟨100, 0⟩, ⟨100, 100⟩⟩]]) := by
  have calculateDistance_lt_five := distance_lemmas.2.2.2.2.1
  /- The search of `findConnectedWall` fails exactly when no wall that is neither the
  excluded one nor used has an endpoint matching the point. -/
  have findConnectedWallFrom_none : ∀ (used : List ℕ) (p : Point) (ex : ℕ),
      ∀ (rest : List Wall) (i : ℕ), findConnectedWallFrom used p ex i rest = none ↔
        ∀ (j : ℕ) (w : Wall), rest[j]? = some w → i + j ≠ ex → w.id ∉ used →
          ¬ pointsMatch p w.start ∧ ¬ pointsMatch p w.end_ := by
    intro used p ex
    intro rest
    induction rest with
    | nil => intro i; simp [findConnectedWallFrom]
    | cons wall rest ih =>
      intro i
      have hshift : (∀ (j : ℕ) (w : Wall), rest[j]? = some w → i + 1 + j ≠ ex → w.id ∉ used →
          ¬ pointsMatch p w.start ∧ ¬ pointsMatch p w.end_) ↔
          (∀ (j : ℕ) (w : Wall), (wall :: rest)[j + 1]? = some w → i + (j + 1) ≠ ex →
            w.id ∉ used → ¬ pointsMatch p w.start ∧ ¬ pointsMatch p w.end_) := by
        constructor
        · intro h j w hj hne
          exact h j w (by simpa using hj) (by omega)
        · intro h j w hj hne
          exact h j w (by simpa using hj) (by omega)
      unfold findConnectedWallFrom
      split_ifs with h1 h2 h3
      · rw [ih (i + 1), hshift]
        constructor
        · intro h j w hj hne hu
          cases j with
          | zero =>
            simp only [List.getElem?_cons_zero, Option.some.injEq] at hj
            subst hj
            rcases h1 with h1 | h1
            · exact absurd h1 (by simpa using hne)
            · exact absurd h1 hu
          | succ j => exact h j w hj hne hu
        · intro h j w hj hne hu
          exact h (j + 1) w hj hne hu
      · simp only [reduceCtorEq, false_iff, not_forall]
        push_neg at h1
        exact ⟨0, wall, by simp, by simpa using h1.1, h1.2, fun h => h.1 h2⟩
      · simp only [reduceCtorEq, false_iff, not_forall]
        push_neg at h1
        exact ⟨0, wall, by simp, by simpa using h1.1, h1.2, fun h => h.2 h3⟩
      · rw [ih (i + 1), hshift]
        constructor
        · intro h j w hj hne hu
          cases j with
          | zero =>
            simp only [List.getElem?_cons_zero, Option.some.injEq] at hj
            subst hj
            exact ⟨h2, h3⟩
          | succ j => exact h j w hj hne hu
        · intro h j w hj hne hu
          exact h (j + 1) w hj hne hu
  /- A successful search of `findConnectedWall` returns the first wall in array order that
  is neither the excluded one nor used and has an endpoint matching the point, `start`
  being tested before `end`. -/
  have findConnectedWallFrom_first : ∀ (used : List ℕ) (p : Point) (ex : ℕ) (c : Connected),
      ∀ (rest : List Wall) (i : ℕ), findConnectedWallFrom used p ex i rest = some c →
        ∃ j, c.idx = i + j ∧ rest[j]? = some c.wall ∧ c.idx ≠ ex ∧ c.wall.id ∉ used ∧
          ((c.startPoint = .start ∧ c.endPoint = .end_ ∧ pointsMatch p c.wall.start) ∨
            (c.startPoint = .end_ ∧ c.endPoint = .start ∧ ¬ pointsMatch p c.wall.start ∧
              pointsMatch p c.wall.end_)) ∧
          ∀ (k : ℕ) (w : Wall), k < j → rest[k]? = some w → i + k ≠ ex → w.id ∉ used →
            ¬ pointsMatch p w.start ∧ ¬ pointsMatch p w.end_ := by
    intro used p ex c
    intro rest
    induction rest with
    | nil => intro i h; simp [findConnectedWallFrom] at h
    | cons wall rest ih =>
      intro i h
      unfold findConnectedWallFrom at h
      split_ifs at h with h1 h2 h3
      · obtain ⟨j, a1, a2, a3, a4, a5, a6⟩ := ih (i + 1) h
        refine ⟨j + 1, by omega, by simpa using a2, a3, a4, a5, ?_⟩
        intro k w hk hw hne hu
        cases k with
        | zero =>
          simp only [List.getElem?_cons_zero, Option.some.injEq] at hw
          subst hw
          rcases h1 with h1 | h1
          · exact absurd h1 (by simpa using hne)
          · exact absurd h1 hu
        | succ k => exact a6 k w (by omega) (by simpa using hw) (by omega) hu
      · cases h
        push_neg at h1
        exact ⟨0, rfl, by simp, h1.1, h1.2, Or.inl ⟨rfl, rfl, h2⟩, fun k w hk => absurd hk (by omega)⟩
      · cases h
        push_neg at h1
        exact ⟨0, rfl, by simp, h1.1, h1.2, Or.inr ⟨rfl, rfl, h2, h3⟩,
          fun k w hk => absurd hk (by omega)⟩
      · obtain ⟨j, a1, a2, a3, a4, a5, a6⟩ := ih (i + 1) h
        refine ⟨j + 1, by omega, by simpa using a2, a3, a4, a5, ?_⟩
        intro k w hk hw hne hu
        cases k with
        | zero =>
          simp only [List.getElem?_cons_zero, Option.some.injEq] at hw
          subst hw
          exact ⟨h2, h3⟩
        | succ k => exact a6 k w (by omega) (by simpa using hw) (by omega) hu
  /- The chains of the T-junction: the first two walls form one chain through the
  junction, the third wall is a chain of its own. -/
  have findWallChains_tJunction :
      findWallChains tJunctionWalls =
        some [[⟨⟨1, ⟨0, 0⟩, ⟨100, 0⟩, 6, 96⟩, ⟨0, 0⟩, ⟨100, 0⟩⟩,
            ⟨⟨2, ⟨100, 0⟩, ⟨200, 0⟩, 6, 96⟩, ⟨100, 0⟩, ⟨200, 0⟩⟩],
          [⟨⟨3, ⟨100, 0⟩, ⟨100, 100⟩, 6, 96⟩, ⟨100, 0⟩, ⟨100, 100⟩⟩]] := by
    norm_num [tJunctionWalls, findWallChains, buildChainsFrom, extendForward, extendBackward,
      findConnectedWall, findConnectedWallFrom, pointsMatch, calculateDistance_lt_five,
      getWallPointPos]
  exact ⟨findConnectedWallFrom_none, findConnectedWallFrom_first, findWallChains_tJunction⟩
/-- C15 is false as stated. In the wall set `(0,0)-(100,0)`, `(100,0)-(200,0)`,
`(100,0)-(100,100)` the vertex `(100,0)` is shared by three wall endpoints, and the first
chain returned by `findWallChains` runs through it: `(100,0)` is the joint between its
two consecutive entries. -/
theorem C15_counterexample :
    ∃ (e1 e2 e3 : Segment), findWallChains tJunctionWalls = some [[e1, e2], [e3]] ∧
      e1.end_ = ⟨100, 0⟩ ∧ e2.start = ⟨100, 0⟩ ∧ e3.start = ⟨100, 0⟩ ∧
      e1.wall.end_ = ⟨100, 0⟩ ∧ e2.wall.start = ⟨100, 0⟩ ∧ e3.wall.start = ⟨100, 0⟩ ∧
      [e1.wall, e2.wall, e3.wall] = tJunctionWalls := by
  have findWallChains_tJunction := first_match_lemmas.2.2
  exact
    ⟨_, _, _, findWallChains_tJunction, rfl, rfl, rfl, rfl, rfl, rfl, rfl⟩

/-- C15 (amended). The number of walls meeting at a vertex plays no part in the extension
of a chain. From the current end point, `findConnectedWall` fails, and the extension
stops, exactly when no wall that is neither the excluded one nor used has an endpoint
within 5 units (strictly) of that point; otherwise it returns the first such wall in
array order, entered by its `start` when that matches and by its `end` otherwise, and
the extension goes on with this wall. -/
theorem C15_extension_rule (walls : List Wall) (used : List ℕ) (point : Point)
    (excludeWall : ℕ) :
    (findConnectedWall walls used point excludeWall = none ↔
      ∀ (j : ℕ) (w : Wall), walls[j]? = some w → j ≠ excludeWall → w.id ∉ used →
        ¬ pointsMatch point w.start ∧ ¬ pointsMatch point w.end_) ∧
    (∀ c : Connected, findConnectedWall walls used point excludeWall = some c →
      walls[c.idx]? = some c.wall ∧ c.idx ≠ excludeWall ∧ c.wall.id ∉ used ∧
      ((c.startPoint = .start ∧ c.endPoint = .end_ ∧ pointsMatch point c.wall.start) ∨
        (c.startPoint = .end_ ∧ c.endPoint = .start ∧ ¬ pointsMatch point c.wall.start ∧
          pointsMatch point c.wall.end_)) ∧
      ∀ (k : ℕ) (w : Wall), k < c.idx → walls[k]? = some w → k ≠ excludeWall → w.id ∉ used →
        ¬ pointsMatch point w.start ∧ ¬ pointsMatch point w.end_) := by
  have findConnectedWallFrom_none := first_match_lemmas.1
  have findConnectedWallFrom_first := first_match_lemmas.2.1
  constructor
  · have := findConnectedWallFrom_none used point excludeWall walls 0
    simpa only [zero_add] using this
  · intro c hc
    obtain ⟨j, a1, a2, a3, a4, a5, a6⟩ :=
      findConnectedWallFrom_first used point excludeWall c walls 0 hc
    have hj : c.idx = j := by omega
    subst hj
    refine ⟨a2, a3, a4, a5, ?_⟩
    intro k w hk hw hne hu
    exact a6 k w hk hw (by simpa using hne) hu

/-- C15 (amended) at the T-junction: from the end `(100,0)` of the first wall, the first
wall being excluded and used, the search returns the second wall, entered by its `start`;
the third wall, which also starts at `(100,0)`, comes later in the array. -/
theorem C15_extension_rule_witness :
    findConnectedWall tJunctionWalls [1] ⟨100, 0⟩ 0 =
        some ⟨1, ⟨2, ⟨100, 0⟩, ⟨200, 0⟩, 6, 96⟩, .start, .end_⟩ ∧
      tJunctionWalls[1]? = some ⟨2, ⟨100, 0⟩, ⟨200, 0⟩, 6, 96⟩ ∧ (1 : ℕ) ≠ 0 ∧ 2 ∉ [1] := by
  have calculateDistance_lt_five := distance_lemmas.2.2.2.2.1
  have h : findConnectedWall tJunctionWalls [1] ⟨100, 0⟩ 0 =
      some ⟨1, ⟨2, ⟨100, 0⟩, ⟨200, 0⟩, 6, 96⟩, .start, .end_⟩ := by
    norm_num [tJunctionWalls, findConnectedWall, findConnectedWallFrom, pointsMatch,
      calculateDistance_lt_five]
  obtain ⟨a1, a2, a3, -⟩ := (C15_extension_rule tJunctionWalls [1] ⟨100, 0⟩ 0).2 _ h
  exact ⟨h, a1, a2, a3⟩

/-! ### Chain discovery: well-formed chains -/

/-- Well-formedness of the chain entries through the forward loop, the backward loop and the chain
builder; the parts are explained one by one in the proof. -/
theorem well_formed_lemmas :
    (∀ (p q : Point),
        calculateDistance p q = calculateDistance q p) ∧
    (∀ (walls : List Wall),
        ∀ (fuel : ℕ) (used : List ℕ) (p : Point) (last : ℕ) (chain : List Segment)
          (used1 : List ℕ) (out : List Segment),
          extendForward walls fuel used p last chain = some (used1, out) →
          chain.getLast?.map Segment.end_ = some p →
          List.Chain' (fun a b : Segment => calculateDistance a.end_ b.start < 5) chain →
          (∀ e ∈ chain, (e.start = e.wall.start ∧ e.end_ = e.wall.end_) ∨
            (e.start = e.wall.end_ ∧ e.end_ = e.wall.start)) →
          List.Chain' (fun a b : Segment => calculateDistance a.end_ b.start < 5) out ∧
          (∀ e ∈ out, (e.start = e.wall.start ∧ e.end_ = e.wall.end_) ∨
            (e.start = e.wall.end_ ∧ e.end_ = e.wall.start)) ∧
          out.head? = chain.head? ∧ out ≠ []) ∧
    (∀ (walls : List Wall) (tail : List Segment),
        ∀ (fuel : ℕ) (used : List ℕ) (p : Point) (last : ℕ) (front : List Segment)
          (used1 : List ℕ) (out : List Segment),
          extendBackward walls fuel used p last front = some (used1, out) →
          (front ++ tail).head?.map Segment.start = some p →
          List.Chain' (fun a b : Segment => calculateDistance a.end_ b.start < 5) (front ++ tail) →
          (∀ e ∈ front, (e.start = e.wall.start ∧ e.end_ = e.wall.end_) ∨
            (e.start = e.wall.end_ ∧ e.end_ = e.wall.start)) →
          List.Chain' (fun a b : Segment => calculateDistance a.end_ b.start < 5) (out ++ tail) ∧
          (∀ e ∈ out, (e.start = e.wall.start ∧ e.end_ = e.wall.end_) ∨
            (e.start = e.wall.end_ ∧ e.end_ = e.wall.start))) ∧
    (∀ (walls : List Wall),
        ∀ (rest : List Wall) (i : ℕ) (used : List ℕ) (chains out : List (List Segment)),
          buildChainsFrom walls i rest used chains = some out →
          (∀ chain ∈ chains,
            List.Chain' (fun a b : Segment => calculateDistance a.end_ b.start < 5) chain ∧
            ∀ e ∈ chain, (e.start = e.wall.start ∧ e.end_ = e.wall.end_) ∨
              (e.start = e.wall.end_ ∧ e.end_ = e.wall.start)) →
          ∀ chain ∈ out,
            List.Chain' (fun a b : Segment => calculateDistance a.end_ b.start < 5) chain ∧
            ∀ e ∈ chain, (e.start = e.wall.start ∧ e.end_ = e.wall.end_) ∨
              (e.start = e.wall.end_ ∧ e.end_ = e.wall.start)) := by
  have findConnectedWallFrom_some := chain_partition_lemmas.1
  have calculateDistance_comm : ∀ (p q : Point),
      calculateDistance p q = calculateDistance q p := by
    intro p q
    simp only [calculateDistance]
    congr 1
    ring
  /- The forward extension keeps a chain well formed: every entry lists the endpoints of
  its wall in one of the two orders, and each entry starts within 5 units of the end of the
  entry before it. -/
  have extendForward_wellFormed : ∀ (walls : List Wall),
      ∀ (fuel : ℕ) (used : List ℕ) (p : Point) (last : ℕ) (chain : List Segment)
        (used1 : List ℕ) (out : List Segment),
        extendForward walls fuel used p last chain = some (used1, out) →
        chain.getLast?.map Segment.end_ = some p →
        List.Chain' (fun a b : Segment => calculateDistance a.end_ b.start < 5) chain →
        (∀ e ∈ chain, (e.start = e.wall.start ∧ e.end_ = e.wall.end_) ∨
          (e.start = e.wall.end_ ∧ e.end_ = e.wall.start)) →
        List.Chain' (fun a b : Segment => calculateDistance a.end_ b.start < 5) out ∧
        (∀ e ∈ out, (e.start = e.wall.start ∧ e.end_ = e.wall.end_) ∨
          (e.start = e.wall.end_ ∧ e.end_ = e.wall.start)) ∧
        out.head? = chain.head? ∧ out ≠ [] := by
    intro walls
    intro fuel
    induction fuel with
    | zero => intro used p last chain used1 out h; simp [extendForward] at h
    | succ fuel ih =>
      intro used p last chain used1 out h hlast hch hor
      have hne : chain ≠ [] := by
        intro h0; rw [h0] at hlast; simp at hlast
      unfold extendForward at h
      cases hf : findConnectedWall walls used p last with
      | none =>
        rw [hf] at h
        simp only [Option.some.injEq, Prod.mk.injEq] at h
        rw [← h.2]
        exact ⟨hch, hor, rfl, hne⟩
      | some next =>
        rw [hf] at h
        simp only at h
        obtain ⟨-, -, hm⟩ := findConnectedWallFrom_some used p last next walls 0 hf
        have hstart : pointsMatch p (getWallPointPos next.wall next.startPoint) ∧
            ((getWallPointPos next.wall next.startPoint = next.wall.start ∧
              getWallPointPos next.wall next.endPoint = next.wall.end_) ∨
            (getWallPointPos next.wall next.startPoint = next.wall.end_ ∧
              getWallPointPos next.wall next.endPoint = next.wall.start)) := by
          rcases hm with ⟨h1, h2, h3⟩ | ⟨h1, h2, h3⟩
          · rw [h1, h2]; exact ⟨h3, Or.inl ⟨rfl, rfl⟩⟩
          · rw [h1, h2]; exact ⟨h3, Or.inr ⟨rfl, rfl⟩⟩
        obtain ⟨b1, b2, b3, b4⟩ := ih _ _ _ _ _ _ h (by simp) (by
            rw [List.chain'_append]
            refine ⟨hch, List.chain'_singleton _, ?_⟩
            intro x hx y hy
            simp only [List.head?_cons, Option.mem_def, Option.some.injEq] at hy
            rw [Option.mem_def] at hx
            rw [hx] at hlast
            simp only [Option.map_some', Option.some.injEq] at hlast
            rw [← hy, hlast]
            exact hstart.1) (by
            intro e he
            rcases List.mem_append.1 he with he | he
            · exact hor e he
            · rw [List.mem_singleton] at he
              rw [he]
              exact hstart.2)
        refine ⟨b1, b2, ?_, b4⟩
        rw [b3, List.head?_append_of_ne_nil _ hne]
  /- The backward extension keeps a chain well formed; `tail` is the part of the chain
  that follows the front segments. -/
  have extendBackward_wellFormed : ∀ (walls : List Wall) (tail : List Segment),
      ∀ (fuel : ℕ) (used : List ℕ) (p : Point) (last : ℕ) (front : List Segment)
        (used1 : List ℕ) (out : List Segment),
        extendBackward walls fuel used p last front = some (used1, out) →
        (front ++ tail).head?.map Segment.start = some p →
        List.Chain' (fun a b : Segment => calculateDistance a.end_ b.start < 5) (front ++ tail) →
        (∀ e ∈ front, (e.start = e.wall.start ∧ e.end_ = e.wall.end_) ∨
          (e.start = e.wall.end_ ∧ e.end_ = e.wall.start)) →
        List.Chain' (fun a b : Segment => calculateDistance a.end_ b.start < 5) (out ++ tail) ∧
        (∀ e ∈ out, (e.start = e.wall.start ∧ e.end_ = e.wall.end_) ∨
          (e.start = e.wall.end_ ∧ e.end_ = e.wall.start)) := by
    intro walls tail
    intro fuel
    induction fuel with
    | zero => intro used p last front used1 out h; simp [extendBackward] at h
    | succ fuel ih =>
      intro used p last front used1 out h hhead hch hor
      unfold extendBackward at h
      cases hf : findConnectedWall walls used p last with
      | none =>
        rw [hf] at h
        simp only [Option.some.injEq, Prod.mk.injEq] at h
        rw [← h.2]
        exact ⟨hch, hor⟩
      | some prev =>
        rw [hf] at h
        simp only at h
        obtain ⟨-, -, hm⟩ := findConnectedWallFrom_some used p last prev walls 0 hf
        have hstart : pointsMatch p (getWallPointPos prev.wall prev.startPoint) ∧
            ((getWallPointPos prev.wall prev.endPoint = prev.wall.start ∧
              getWallPointPos prev.wall prev.startPoint = prev.wall.end_) ∨
            (getWallPointPos prev.wall prev.endPoint = prev.wall.end_ ∧
              getWallPointPos prev.wall prev.startPoint = prev.wall.start)) := by
          rcases hm with ⟨h1, h2, h3⟩ | ⟨h1, h2, h3⟩
          · rw [h1, h2]; exact ⟨h3, Or.inr ⟨rfl, rfl⟩⟩
          · rw [h1, h2]; exact ⟨h3, Or.inl ⟨rfl, rfl⟩⟩
        refine ih _ _ _ _ _ _ h (by simp) ?_ ?_
        · rw [List.cons_append, List.chain'_cons']
          refine ⟨?_, hch⟩
          intro y hy
          rw [Option.mem_def] at hy
          rw [hy] at hhead
          simp only [Option.map_some', Option.some.injEq] at hhead
          show calculateDistance (getWallPointPos prev.wall prev.startPoint) y.start < 5
          rw [hhead, calculateDistance_comm]
          exact hstart.1
        · intro e he
          rcases List.mem_cons.1 he with he | he
          · rw [he]
            rcases hstart.2 with h1 | h1
            · exact Or.inl h1
            · exact Or.inr h1
          · exact hor e he
  /- The loop that builds the chains only adds well-formed chains. -/
  have buildChainsFrom_wellFormed : ∀ (walls : List Wall),
      ∀ (rest : List Wall) (i : ℕ) (used : List ℕ) (chains out : List (List Segment)),
        buildChainsFrom walls i rest used chains = some out →
        (∀ chain ∈ chains,
          List.Chain' (fun a b : Segment => calculateDistance a.end_ b.start < 5) chain ∧
          ∀ e ∈ chain, (e.start = e.wall.start ∧ e.end_ = e.wall.end_) ∨
            (e.start = e.wall.end_ ∧ e.end_ = e.wall.start)) →
        ∀ chain ∈ out,
          List.Chain' (fun a b : Segment => calculateDistance a.end_ b.start < 5) chain ∧
          ∀ e ∈ chain, (e.start = e.wall.start ∧ e.end_ = e.wall.end_) ∨
            (e.start = e.wall.end_ ∧ e.end_ = e.wall.start) := by
    intro walls
    intro rest
    induction rest with
    | nil =>
      intro i used chains out h hgood
      simp only [buildChainsFrom, Option.some.injEq] at h
      rw [← h]; exact hgood
    | cons startWall rest ih =>
      intro i used chains out h hgood
      unfold buildChainsFrom at h
      by_cases hu : startWall.id ∈ used
      · rw [if_pos hu] at h
        exact ih _ _ _ _ h hgood
      · rw [if_neg hu] at h
        cases hf : extendForward walls (walls.length + 1) (startWall.id :: used)
            startWall.end_ i [⟨startWall, startWall.start, startWall.end_⟩] with
        | none => rw [hf] at h; simp at h
        | some r1 =>
          obtain ⟨used1, chain⟩ := r1
          rw [hf] at h
          simp only at h
          cases hb : extendBackward walls (walls.length + 1) used1 startWall.start i [] with
          | none => rw [hb] at h; simp at h
          | some r2 =>
            obtain ⟨used2, front⟩ := r2
            rw [hb] at h
            simp only at h
            obtain ⟨f1, f2, f3, f4⟩ := extendForward_wellFormed walls _ _ _ _ _ _ _ hf
              (by simp) (List.chain'_singleton _) (by
                intro e he
                rw [List.mem_singleton] at he
                rw [he]; exact Or.inl ⟨rfl, rfl⟩)
            obtain ⟨b1, b2⟩ := extendBackward_wellFormed walls chain _ _ _ _ _ _ _ hb
              (by
                rw [List.nil_append, f3]
                rfl) (by rw [List.nil_append]; exact f1) (by simp)
            apply ih _ _ _ _ h
            intro c hc
            rcases List.mem_append.1 hc with hc | hc
            · exact hgood c hc
            · rw [List.mem_singleton] at hc
              rw [hc]
              refine ⟨b1, ?_⟩
              intro e he
              rcases List.mem_append.1 he with he | he
              · exact b2 e he
              · exact f2 e he
  exact ⟨calculateDistance_comm, extendForward_wellFormed, extendBackward_wellFormed,
    buildChainsFrom_wellFormed⟩
/-- C16 (chain well-formedness). For every wall list `findWallChains` returns, and in every
chain it returns each entry's `(start, end)` is its wall's `(start, end)` or its wall's
`(end, start)`, and for every two consecutive entries the end of the earlier one is within
5 units (strictly) of the start of the later one; this covers the entries appended by the
forward extension and those prepended by the backward extension. -/
theorem C16_chain_well_formed (walls : List Wall) :
    ∃ chains, findWallChains walls = some chains ∧
      ∀ chain ∈ chains,
        (∀ e ∈ chain, (e.start = e.wall.start ∧ e.end_ = e.wall.end_) ∨
          (e.start = e.wall.end_ ∧ e.end_ = e.wall.start)) ∧
        List.Chain' (fun a b : Segment => calculateDistance a.end_ b.start < 5) chain := by
  have buildChainsFrom_spec := chain_partition_lemmas.2.2.2.2
  have buildChainsFrom_wellFormed := well_formed_lemmas.2.2.2
  obtain ⟨chains, -, h1, -⟩ :=
    buildChainsFrom_spec walls walls 0 [] [] (fun w hw => hw) List.nodup_nil (by simp)
      (by simp) (by simp)
  refine ⟨chains, h1, ?_⟩
  intro chain hc
  have := buildChainsFrom_wellFormed walls walls 0 [] [] chains h1 (by simp) chain hc
  exact ⟨this.2, this.1⟩

/-! ### Corner arcs: the two sides of a joint -/

/-- Facts on the two angle wrap loops and on the test of `generateCornerArc`; the parts are
explained one by one in the proof. -/
theorem wrap_lemmas :
    (∀ (x : ℝ),
        (∃ k : ℤ, wrapAbovePi x = x + 2 * Real.pi * k) ∧ wrapAbovePi x ≤ Real.pi ∧
          (x ≤ Real.pi → wrapAbovePi x = x) ∧ (Real.pi < x → -Real.pi < wrapAbovePi x)) ∧
    (∀ (x : ℝ),
        (∃ k : ℤ, wrapBelowNegPi x = x + 2 * Real.pi * k) ∧ -Real.pi ≤ wrapBelowNegPi x ∧
          (-Real.pi ≤ x → wrapBelowNegPi x = x) ∧ (x < -Real.pi → wrapBelowNegPi x < Real.pi)) ∧
    (∀ (x : ℝ),
        (∃ k : ℤ, wrapBelowNegPi (wrapAbovePi x) = x + 2 * Real.pi * k) ∧
          -Real.pi ≤ wrapBelowNegPi (wrapAbovePi x) ∧ wrapBelowNegPi (wrapAbovePi x) ≤ Real.pi) ∧
    (∀ (x : ℝ),
        |wrapBelowNegPi (wrapAbovePi (x + 2 * Real.pi))| = |wrapBelowNegPi (wrapAbovePi x)|) ∧
    (∀ (center : Point) (seg1 seg2 : Segment) (halfThick : ℝ),
        generateCornerArc center seg1 seg2 halfThick true = none ↔
          generateCornerArc center seg1 seg2 halfThick false = none) ∧
    (
        generateCornerArc ⟨100, 0⟩ rectangleSeg1 rectangleSeg2 3 false ≠ none) := by
  have wrapAbovePi_spec : ∀ (x : ℝ),
      (∃ k : ℤ, wrapAbovePi x = x + 2 * Real.pi * k) ∧ wrapAbovePi x ≤ Real.pi ∧
        (x ≤ Real.pi → wrapAbovePi x = x) ∧ (Real.pi < x → -Real.pi < wrapAbovePi x) := by
    intro x
    induction x using wrapAbovePi.induct with
    | case1 x h ih =>
      obtain ⟨⟨k, hk⟩, h2, h3, h4⟩ := ih
      rw [wrapAbovePi, if_pos h]
      refine ⟨⟨k - 1, ?_⟩, h2, fun h5 => absurd h (not_lt.2 h5), fun _ => ?_⟩
      · rw [hk]; push_cast; ring
      · rcases le_or_lt (x - 2 * Real.pi) Real.pi with h6 | h6
        · rw [h3 h6]; linarith
        · exact h4 h6
    | case2 x h =>
      rw [wrapAbovePi, if_neg h]
      exact ⟨⟨0, by simp⟩, not_lt.1 h, fun _ => rfl, fun h5 => absurd h5 h⟩
  have wrapBelowNegPi_spec : ∀ (x : ℝ),
      (∃ k : ℤ, wrapBelowNegPi x = x + 2 * Real.pi * k) ∧ -Real.pi ≤ wrapBelowNegPi x ∧
        (-Real.pi ≤ x → wrapBelowNegPi x = x) ∧ (x < -Real.pi → wrapBelowNegPi x < Real.pi) := by
    intro x
    induction x using wrapBelowNegPi.induct with
    | case1 x h ih =>
      obtain ⟨⟨k, hk⟩, h2, h3, h4⟩ := ih
      rw [wrapBelowNegPi, if_pos h]
      refine ⟨⟨k + 1, ?_⟩, h2, fun h5 => absurd h (not_lt.2 h5), fun _ => ?_⟩
      · rw [hk]; push_cast; ring
      · rcases le_or_lt (-Real.pi) (x + 2 * Real.pi) with h6 | h6
        · rw [h3 h6]; linarith
        · exact h4 h6
    | case2 x h =>
      rw [wrapBelowNegPi, if_neg h]
      exact ⟨⟨0, by simp⟩, not_lt.1 h, fun _ => rfl, fun h5 => absurd h5 h⟩
  /- The two wrap loops of `generateCornerArc` bring an angle into `[-π, π]` by a multiple
  of `2π`. -/
  have wrap_spec : ∀ (x : ℝ),
      (∃ k : ℤ, wrapBelowNegPi (wrapAbovePi x) = x + 2 * Real.pi * k) ∧
        -Real.pi ≤ wrapBelowNegPi (wrapAbovePi x) ∧ wrapBelowNegPi (wrapAbovePi x) ≤ Real.pi := by
    intro x
    obtain ⟨⟨k1, hk1⟩, a2, -, -⟩ := wrapAbovePi_spec x
    obtain ⟨⟨k2, hk2⟩, b2, b3, b4⟩ := wrapBelowNegPi_spec (wrapAbovePi x)
    refine ⟨⟨k1 + k2, ?_⟩, b2, ?_⟩
    · rw [hk2, hk1]; push_cast; ring
    · rcases le_or_lt (-Real.pi) (wrapAbovePi x) with h | h
      · rw [b3 h]; exact a2
      · exact (b4 h).le
  /- Two angles that differ by `2π` have the same magnitude after the wrap loops. -/
  have wrap_abs_eq : ∀ (x : ℝ),
      |wrapBelowNegPi (wrapAbovePi (x + 2 * Real.pi))| = |wrapBelowNegPi (wrapAbovePi x)| := by
    intro x
    obtain ⟨⟨k1, hk1⟩, a1, a2⟩ := wrap_spec (x + 2 * Real.pi)
    obtain ⟨⟨k2, hk2⟩, b1, b2⟩ := wrap_spec x
    have hpi := Real.pi_pos
    set w1 := wrapBelowNegPi (wrapAbovePi (x + 2 * Real.pi)) with hw1
    set w2 := wrapBelowNegPi (wrapAbovePi x) with hw2
    have hd : w1 - w2 = 2 * Real.pi * ((1 + k1 - k2 : ℤ) : ℝ) := by
      rw [hk1, hk2]; push_cast; ring
    have hm1 : ((1 + k1 - k2 : ℤ) : ℝ) ≤ 1 := by
      by_contra hc
      push_neg at hc
      have : 2 * Real.pi * 1 < 2 * Real.pi * ((1 + k1 - k2 : ℤ) : ℝ) :=
        mul_lt_mul_of_pos_left hc (by linarith)
      linarith
    have hm2 : (-1 : ℝ) ≤ ((1 + k1 - k2 : ℤ) : ℝ) := by
      by_contra hc
      push_neg at hc
      have : 2 * Real.pi * ((1 + k1 - k2 : ℤ) : ℝ) < 2 * Real.pi * (-1) :=
        mul_lt_mul_of_pos_left hc (by linarith)
      linarith
    have hm1z : (1 + k1 - k2 : ℤ) ≤ 1 := by exact_mod_cast hm1
    have hm2z : (-1 : ℤ) ≤ (1 + k1 - k2 : ℤ) := by exact_mod_cast hm2
    clear_value w1 w2
    obtain hz | hz | hz : (1 + k1 - k2 : ℤ) = -1 ∨ (1 + k1 - k2 : ℤ) = 0 ∨ (1 + k1 - k2 : ℤ) = 1 := by
      omega
    · rw [hz] at hd
      push_cast at hd
      have e1 : w1 = -Real.pi := by linarith
      have e2 : w2 = Real.pi := by linarith
      rw [e1, e2, abs_neg]
    · rw [hz] at hd
      push_cast at hd
      have : w1 = w2 := by linarith
      rw [this]
    · rw [hz] at hd
      push_cast at hd
      have e1 : w1 = Real.pi := by linarith
      have e2 : w2 = -Real.pi := by linarith
      rw [e1, e2, abs_neg]
  /- The arc of the outer side and the arc of the inner side of a joint are both `null` or
  both non-`null`: the two angle differences tested by `generateCornerArc` differ by `2π`. -/
  have generateCornerArc_sides : ∀ (center : Point) (seg1 seg2 : Segment) (halfThick : ℝ),
      generateCornerArc center seg1 seg2 halfThick true = none ↔
        generateCornerArc center seg1 seg2 halfThick false = none := by
    intro center seg1 seg2 halfThick
    have key := wrap_abs_eq
      (atan2 (seg2.end_.y - seg2.start.y) (seg2.end_.x - seg2.start.x) + -Real.pi / 2 -
        (atan2 (-(seg1.end_.y - seg1.start.y)) (-(seg1.end_.x - seg1.start.x)) + Real.pi / 2))
    have harg : atan2 (seg2.end_.y - seg2.start.y) (seg2.end_.x - seg2.start.x) + -Real.pi / 2 -
        (atan2 (-(seg1.end_.y - seg1.start.y)) (-(seg1.end_.x - seg1.start.x)) + Real.pi / 2) +
        2 * Real.pi =
        atan2 (seg2.end_.y - seg2.start.y) (seg2.end_.x - seg2.start.x) + Real.pi / 2 -
        (atan2 (-(seg1.end_.y - seg1.start.y)) (-(seg1.end_.x - seg1.start.x)) + -Real.pi / 2) := by
      ring
    rw [harg] at key
    unfold generateCornerArc
    simp only [if_true, Bool.false_eq_true, if_false]
    rw [key]
    split_ifs <;> simp
  /- At the right-angle corner of the rectangle, between `(0,0)-(100,0)` and
  `(100,0)-(100,80)`, the angle difference of the inner side is `π/2`, and the arc of the
  inner side is not `null`. -/
  have generateCornerArc_rectangle_inner :
      generateCornerArc ⟨100, 0⟩ rectangleSeg1 rectangleSeg2 3 false ≠ none := by
    have hpi := Real.pi_gt_three
    have h1 : atan2 (-((0 : ℝ) - 0)) (-((100 : ℝ) - 0)) = Real.pi := by
      unfold atan2
      rw [Complex.arg_eq_pi_iff]
      norm_num
    have h2 : atan2 ((80 : ℝ) - 0) ((100 : ℝ) - 100) = Real.pi / 2 := by
      unfold atan2
      rw [Complex.arg_eq_pi_div_two_iff]
      norm_num
    have h3 : Real.pi / 2 + Real.pi / 2 - (Real.pi + -Real.pi / 2) = Real.pi / 2 := by ring
    have h4 : wrapBelowNegPi (wrapAbovePi (Real.pi / 2)) = Real.pi / 2 := by
      rw [(wrapAbovePi_spec (Real.pi / 2)).2.2.1 (by linarith),
        (wrapBelowNegPi_spec (Real.pi / 2)).2.2.1 (by linarith)]
    unfold generateCornerArc
    simp only [rectangleSeg1, rectangleSeg2, Bool.false_eq_true, if_false, h1, h2, h3, h4]
    rw [if_neg (by rw [abs_of_pos (by linarith)]; norm_num; linarith)]
    simp
  exact ⟨wrapAbovePi_spec, wrapBelowNegPi_spec, wrap_spec, wrap_abs_eq, generateCornerArc_sides,
    generateCornerArc_rectangle_inner⟩
/-- C17 fails in the code: the test of `generateCornerArc` does not tell the convex side
from the concave side of a corner. For every two segments and every half thickness the
arcs returned by `calculateMiterPoint` are both `null` or both non-`null`; at the
right-angle corner between `(0,0)-(100,0)` and `(100,0)-(100,80)`, half thickness 3, both
the outer arc and the inner arc are non-`null`. -/
theorem C17_arcs_on_both_sides :
    (∀ (seg1 seg2 : Segment) (halfThick : ℝ),
      (calculateMiterPoint seg1 seg2 halfThick true).outerArc = none ↔
        (calculateMiterPoint seg1 seg2 halfThick true).innerArc = none) ∧
    (∃ outerArc innerArc : List Point,
      (calculateMiterPoint rectangleSeg1 rectangleSeg2 3 true).outerArc = some outerArc ∧
      (calculateMiterPoint rectangleSeg1 rectangleSeg2 3 true).innerArc = some innerArc) := by
  have generateCornerArc_sides := wrap_lemmas.2.2.2.2.1
  have generateCornerArc_rectangle_inner := wrap_lemmas.2.2.2.2.2
  have hgen : ∀ (seg1 seg2 : Segment) (halfThick : ℝ),
      (calculateMiterPoint seg1 seg2 halfThick true).outerArc = none ↔
        (calculateMiterPoint seg1 seg2 halfThick true).innerArc = none := by
    intro seg1 seg2 halfThick
    exact generateCornerArc_sides seg1.end_ seg1 seg2 halfThick
  refine ⟨hgen, ?_⟩
  have hin : (calculateMiterPoint rectangleSeg1 rectangleSeg2 3 true).innerArc ≠ none :=
    generateCornerArc_rectangle_inner
  have hout : (calculateMiterPoint rectangleSeg1 rectangleSeg2 3 true).outerArc ≠ none :=
    fun h => hin ((hgen _ _ _).1 h)
  obtain ⟨a, ha⟩ := Option.ne_none_iff_exists'.1 hout
  obtain ⟨b, hb⟩ := Option.ne_none_iff_exists'.1 hin
  exact ⟨a, b, ha, hb⟩

/-! ### Extrusion of a chain of one wall -/

/-- C18 fails in the code: `createChainMesh` reads `state.defaultWallThickness` and
`state.defaultWallHeight`, not the fields of the wall. For a chain of one wall of length at
least 0.1 the outline is the rectangle `start + n*h`, `end + n*h`, `end - n*h`,
`start - n*h`, closed back to `start + n*h` (each point passed to the shape as `(x, -y)`),
where `n` is the left-hand unit perpendicular of the wall and `h` is half of the default
thickness, and the extrusion height is the default height, whatever the thickness and the
height of the wall. -/
theorem C18_single_wall_outline (seg : Segment) (defaultWallThickness defaultWallHeight : ℝ)
    (hlen : 0.1 ≤ calculateDistance seg.start seg.end_) :
    createChainMesh [seg] defaultWallThickness defaultWallHeight =
      .ok (some
        { outline :=
            [(⟨seg.start.x + (unitPerp seg).1 * (defaultWallThickness / 2),
                seg.start.y + (unitPerp seg).2 * (defaultWallThickness / 2)⟩ : Point),
              ⟨seg.end_.x + (unitPerp seg).1 * (defaultWallThickness / 2),
                seg.end_.y + (unitPerp seg).2 * (defaultWallThickness / 2)⟩,
              ⟨seg.end_.x - (unitPerp seg).1 * (defaultWallThickness / 2),
                seg.end_.y - (unitPerp seg).2 * (defaultWallThickness / 2)⟩,
              ⟨seg.start.x - (unitPerp seg).1 * (defaultWallThickness / 2),
                seg.start.y - (unitPerp seg).2 * (defaultWallThickness / 2)⟩,
              ⟨seg.start.x + (unitPerp seg).1 * (defaultWallThickness / 2),
                seg.start.y + (unitPerp seg).2 * (defaultWallThickness / 2)⟩].map shapePoint
          depth := defaultWallHeight }) := by
  have chainLoop_single := rectangle_outline_lemmas.2.2.2.2.2.1
  have hl : ¬ calculateDistance seg.start seg.end_ < 0.1 := not_lt.2 hlen
  have hb : chainBoundaryPoints seg seg [seg] (defaultWallThickness / 2) =
      chainLoop (defaultWallThickness / 2) true [seg] [] [] := by
    unfold chainBoundaryPoints
    simp
  unfold createChainMesh
  simp only [List.head?_cons, List.getLast?_singleton, hb,
    chainLoop_single (defaultWallThickness / 2) true seg [] [] hl]
  simp [unitPerp, calculateDistance]

/-- C18 on a wall `(0,0)-(100,0)` of thickness 10 and height 120, with the default
thickness 6 and the default height 96: the outline is 3 units to each side of the
centerline and the extrusion height is 96, where half of the wall's own thickness is 5 and
its own height is 120. -/
theorem C18_single_wall_outline_witness :
    createChainMesh [⟨⟨1, ⟨0, 0⟩, ⟨100, 0⟩, 10, 120⟩, ⟨0, 0⟩, ⟨100, 0⟩⟩] 6 96 =
      .ok (some
        { outline := [⟨0, -3⟩, ⟨100, -3⟩, ⟨100, 3⟩, ⟨0, 3⟩, ⟨0, -3⟩]
          depth := 96 }) ∧
    (10 : ℝ) / 2 = 5 ∧ (5 : ℝ) ≠ 3 ∧ (120 : ℝ) ≠ 96 := by
  have calculateDistance_horizontal := rectangle_outline_lemmas.2.2.2.2.2.2.2.2.1
  have hd : calculateDistance ⟨0, 0⟩ ⟨100, 0⟩ = 100 := by
    rw [calculateDistance_horizontal]; norm_num
  have hs : Real.sqrt ((100 - 0) * (100 - 0) + (0 - 0) * (0 - 0)) = 100 := hd
  refine ⟨?_, by norm_num, by norm_num, by norm_num⟩
  rw [C18_single_wall_outline _ 6 96 (by rw [hd]; norm_num)]
  simp only [unitPerp, hs, List.map_cons, List.map_nil, shapePoint]
  norm_num

/-! ### Opening sill and header -/

/-- C19 (opening sill and header). For every opening on a wall of height `H`, the boxes
of wall material among the children of the group built by `createOpening3DMesh` are, in
this order, a sill box exactly when `sillHeight > 0` and a header box exactly when
`H - sillHeight - openingHeight > 0`; the sill box spans the heights `[0, sillHeight]`,
the header box spans the heights `[sillHeight + openingHeight, H]`, and both have the
width of the opening. -/
theorem C19_sill_and_header (wall : Wall) (opening : Opening) :
    ∃ sill header : BoxMesh,
      (createOpening3DMesh wall opening).children.filter (fun b => b.material = .wallMat) =
        (if opening.sillHeight > 0 then [sill] else []) ++
          (if wall.height - opening.sillHeight - opening.height > 0 then [header] else []) ∧
      sill.bottom = 0 ∧ sill.top = opening.sillHeight ∧ sill.width = opening.width ∧
      header.bottom = opening.sillHeight + opening.height ∧ header.top = wall.height ∧
      header.width = opening.width := by
  refine ⟨⟨opening.width, opening.sillHeight, wall.thickness + 2, 0, opening.sillHeight / 2, 0,
      .wallMat⟩,
    ⟨opening.width, wall.height - opening.sillHeight - opening.height, wall.thickness + 2, 0,
      opening.sillHeight + opening.height +
        (wall.height - opening.sillHeight - opening.height) / 2, 0, .wallMat⟩,
    ?_, ?_, ?_, rfl, ?_, ?_, rfl⟩
  · unfold createOpening3DMesh
    simp only
    generalize opening.type.startsWith "door" = isDoor
    cases isDoor <;> split_ifs <;>
      simp only [List.filter_append, List.filter_cons, List.filter_nil, List.nil_append,
        List.append_nil, decide_True, decide_False, reduceCtorEq, if_true, if_false,
        Bool.false_eq_true, List.singleton_append]
  · simp [BoxMesh.bottom]
  · simp only [BoxMesh.top]; ring
  · simp only [BoxMesh.bottom]; ring
  · simp only [BoxMesh.top]; ring

/-! ### Deletion of walls and their openings -/

/-- C20 fails in the code: `deleteWallPoint` removes walls from `data.walls` and never
touches `data.openings`, in any of its three branches, where `deleteObject` removes the
openings of the wall it deletes. On a scene of one wall `(0,0)-(100,0)` that carries one
opening, `deleteObject` leaves no wall and no opening, while deleting the `start` point of
the wall leaves no wall and the opening, which refers to the deleted wall. -/
theorem C20_openings_outlive_wall :
    (∀ (data : SceneData) (wall : WallObject) (point : PointType) (t h : ℝ) (newId : ℕ),
      (deleteWallPoint data wall point t h newId).openings = data.openings) ∧
    (∀ (w : WallObject) (o : Opening), w.openings = [o.id] → o.wall = w.wall.id →
      deleteObject ⟨[w], [o]⟩ w = ⟨[], []⟩ ∧
      ∀ (point : PointType) (t h : ℝ) (newId : ℕ),
        deleteWallPoint ⟨[w], [o]⟩ w point t h newId = ⟨[], [o]⟩ ∧
        openingsAttached ⟨[w], [o]⟩ ∧
        ¬ openingsAttached (deleteWallPoint ⟨[w], [o]⟩ w point t h newId)) := by
  constructor
  · intro data wall point t h newId
    unfold deleteWallPoint
    simp only
    split <;> rfl
  · intro w o hw ho
    constructor
    · simp [deleteObject, removeOpening, hw, List.eraseP_cons]
    · intro point t h newId
      have hdel : deleteWallPoint ⟨[w], [o]⟩ w point t h newId = ⟨[], [o]⟩ := by
        simp [deleteWallPoint]
      refine ⟨hdel, ?_, ?_⟩
      · intro o1 ho1
        simp only [List.mem_singleton] at ho1
        exact ⟨w, List.mem_singleton_self _, by rw [ho1, ho]⟩
      · rw [hdel]
        intro hatt
        obtain ⟨w1, hw1, -⟩ := hatt o (List.mem_singleton_self _)
        simp at hw1

/-- C20 on a wall `(0,0)-(100,0)` with id 1 that carries the door with id 7. -/
theorem C20_openings_outlive_wall_witness :
    deleteObject ⟨[⟨⟨1, ⟨0, 0⟩, ⟨100, 0⟩, 6, 96⟩, [7]⟩], [⟨7, "door-single", 1, 0.5, 36, 80, 0⟩]⟩
        ⟨⟨1, ⟨0, 0⟩, ⟨100, 0⟩, 6, 96⟩, [7]⟩ = ⟨[], []⟩ ∧
    deleteWallPoint
        ⟨[⟨⟨1, ⟨0, 0⟩, ⟨100, 0⟩, 6, 96⟩, [7]⟩], [⟨7, "door-single", 1, 0.5, 36, 80, 0⟩]⟩
        ⟨⟨1, ⟨0, 0⟩, ⟨100, 0⟩, 6, 96⟩, [7]⟩ .start 6 96 2 =
      ⟨[], [⟨7, "door-single", 1, 0.5, 36, 80, 0⟩]⟩ := by
  obtain ⟨h1, h2⟩ := C20_openings_outlive_wall.2 ⟨⟨1, ⟨0, 0⟩, ⟨100, 0⟩, 6, 96⟩, [7]⟩
    ⟨7, "door-single", 1, 0.5, 36, 80, 0⟩ rfl rfl
  exact ⟨h1, (h2 .start 6 96 2).1⟩

/-! ### Distance from a point to a chord -/

/-- Facts on the distance from a point to the points of a chord; the parts are explained one by
one in the proof. -/
theorem chord_lemmas :
    (∀ (p a b : Point) (s : ℝ),
        calculateDistance p (chordPoint a b s) =
          Real.sqrt (s * s * ((b.x - a.x) * (b.x - a.x) + (b.y - a.y) * (b.y - a.y)) -
            2 * s * ((p.x - a.x) * (b.x - a.x) + (p.y - a.y) * (b.y - a.y)) +
            ((p.x - a.x) * (p.x - a.x) + (p.y - a.y) * (p.y - a.y)))) ∧
    (∀ (p a b : Point),
        ∃ t, 0 ≤ t ∧ t ≤ 1 ∧ perpendicularDistance p a b = calculateDistance p (chordPoint a b t) ∧
          ∀ s, 0 ≤ s → s ≤ 1 →
            calculateDistance p (chordPoint a b t) ≤ calculateDistance p (chordPoint a b s)) := by
  /- The squared distance from `p` to the point of the chord at the parameter `s`, as a
  polynomial in `s`. -/
  have calculateDistance_chordPoint : ∀ (p a b : Point) (s : ℝ),
      calculateDistance p (chordPoint a b s) =
        Real.sqrt (s * s * ((b.x - a.x) * (b.x - a.x) + (b.y - a.y) * (b.y - a.y)) -
          2 * s * ((p.x - a.x) * (b.x - a.x) + (p.y - a.y) * (b.y - a.y)) +
          ((p.x - a.x) * (p.x - a.x) + (p.y - a.y) * (p.y - a.y))) := by
    intro p a b s
    simp only [calculateDistance, chordPoint]
    congr 1
    ring
  /- The value of `perpendicularDistance` is the distance from the point to the point of the
  chord at the clamped projection parameter, which is in `[0, 1]`, and no point of the closed
  segment is nearer. -/
  have perpendicularDistance_min : ∀ (p a b : Point),
      ∃ t, 0 ≤ t ∧ t ≤ 1 ∧ perpendicularDistance p a b = calculateDistance p (chordPoint a b t) ∧
        ∀ s, 0 ≤ s → s ≤ 1 →
          calculateDistance p (chordPoint a b t) ≤ calculateDistance p (chordPoint a b s) := by
    intro p a b
    unfold perpendicularDistance
    simp only
    set D := (b.x - a.x) * (b.x - a.x) + (b.y - a.y) * (b.y - a.y) with hD
    set N := (p.x - a.x) * (b.x - a.x) + (p.y - a.y) * (b.y - a.y) with hN
    set W := (p.x - a.x) * (p.x - a.x) + (p.y - a.y) * (p.y - a.y) with hW
    have hform : ∀ s, calculateDistance p (chordPoint a b s) =
        Real.sqrt (s * s * D - 2 * s * N + W) := calculateDistance_chordPoint p a b
    have hD0 : 0 ≤ D := add_nonneg (mul_self_nonneg _) (mul_self_nonneg _)
    by_cases hdeg : b.x - a.x = 0 ∧ b.y - a.y = 0
    · rw [if_pos hdeg]
      have hD' : D = 0 := by rw [hD, hdeg.1, hdeg.2]; ring
      have hN' : N = 0 := by rw [hN, hdeg.1, hdeg.2]; ring
      refine ⟨0, le_refl _, zero_le_one, ?_, ?_⟩
      · simp only [chordPoint, zero_mul, add_zero]
      · intro s _ _
        rw [hform, hform, hD', hN']
        apply Real.sqrt_le_sqrt
        apply le_of_eq
        ring
    · rw [if_neg hdeg]
      have hDpos : 0 < D := by
        rcases not_and_or.1 hdeg with h | h
        · have := mul_self_pos.2 h
          have := mul_self_nonneg (b.y - a.y)
          rw [hD]; linarith
        · have := mul_self_pos.2 h
          have := mul_self_nonneg (b.x - a.x)
          rw [hD]; linarith
      by_cases ht0 : N / D < 0
      · rw [if_pos ht0]
        have hN0 : N < 0 := by
          rcases div_neg_iff.1 ht0 with h | h
          · linarith [h.2]
          · exact h.1
        refine ⟨0, le_refl _, zero_le_one, ?_, ?_⟩
        · simp only [chordPoint, zero_mul, add_zero]
        · intro s hs0 _
          rw [hform, hform]
          apply Real.sqrt_le_sqrt
          have h1 : 0 ≤ s * s * D := mul_nonneg (mul_self_nonneg s) hD0
          have h2 : 0 ≤ s * (-N) := mul_nonneg hs0 (by linarith)
          show 0 * 0 * D - 2 * 0 * N + W ≤ s * s * D - 2 * s * N + W
          linarith
      · rw [if_neg ht0]
        by_cases ht1 : N / D > 1
        · rw [if_pos ht1]
          have hND : D < N := by
            have := (lt_div_iff₀ hDpos).1 ht1
            linarith
          refine ⟨1, zero_le_one, le_refl _, ?_, ?_⟩
          · have hb : chordPoint a b 1 = b := by
              simp only [chordPoint, one_mul, add_sub_cancel]
            rw [hb]
          · intro s _ hs1
            rw [hform, hform]
            apply Real.sqrt_le_sqrt
            show 1 * 1 * D - 2 * 1 * N + W ≤ s * s * D - 2 * s * N + W
            have h1 : 0 ≤ (1 - s) * (N - D) := mul_nonneg (by linarith) (by linarith)
            have h2 : 0 ≤ (1 - s) * (1 - s) * D := mul_nonneg (mul_self_nonneg _) hD0
            have key : s * s * D - 2 * s * N + W - (1 * 1 * D - 2 * 1 * N + W) =
                2 * ((1 - s) * (N - D)) + (1 - s) * (1 - s) * D := by ring
            linarith
        · rw [if_neg ht1]
          push_neg at ht0 ht1
          refine ⟨N / D, ht0, ht1, rfl, ?_⟩
          intro s _ _
          rw [hform, hform]
          apply Real.sqrt_le_sqrt
          have ht : N / D * D = N := by field_simp
          have key : s * s * D - 2 * s * N + W - (N / D * (N / D) * D - 2 * (N / D) * N + W) =
              D * (s - N / D) ^ 2 + 2 * (s - N / D) * (N / D * D - N) := by ring
          have h3 : 0 ≤ D * (s - N / D) ^ 2 := mul_nonneg hD0 (sq_nonneg _)
          rw [ht, sub_self, mul_zero, add_zero] at key
          linarith
  exact ⟨calculateDistance_chordPoint, perpendicularDistance_min⟩
/-- C21 (point-to-chord distance). For every point `p` and chord endpoints `a`, `b`, the
value `perpendicularDistance(p, a, b)` is the minimum distance from `p` to the closed
segment `[a, b]`: it is the distance from `p` to a point of the segment, and no point of
the segment is nearer. In particular it is the distance from `p` to `a` when `a = b`, and
it is 0 when `p` is on the segment. -/
theorem C21_point_to_chord_distance (p a b : Point) :
    (∃ t, 0 ≤ t ∧ t ≤ 1 ∧
      perpendicularDistance p a b = calculateDistance p (chordPoint a b t)) ∧
    (∀ s, 0 ≤ s → s ≤ 1 →
      perpendicularDistance p a b ≤ calculateDistance p (chordPoint a b s)) ∧
    (a = b → perpendicularDistance p a b = calculateDistance p a) ∧
    (∀ s, 0 ≤ s → s ≤ 1 → p = chordPoint a b s → perpendicularDistance p a b = 0) := by
  have calculateDistance_self := simplifier_lemmas.1
  have perpendicularDistance_nonneg := simplifier_lemmas.2.2.1
  have perpendicularDistance_min := chord_lemmas.2
  obtain ⟨t, h0, h1, heq, hmin⟩ := perpendicularDistance_min p a b
  have hle : ∀ s, 0 ≤ s → s ≤ 1 →
      perpendicularDistance p a b ≤ calculateDistance p (chordPoint a b s) := by
    intro s hs0 hs1
    rw [heq]
    exact hmin s hs0 hs1
  refine ⟨⟨t, h0, h1, heq⟩, hle, ?_, ?_⟩
  · intro hab
    unfold perpendicularDistance
    simp only
    rw [if_pos (by rw [hab]; simp)]
  · intro s hs0 hs1 hp
    have := hle s hs0 hs1
    rw [← hp, calculateDistance_self] at this
    exact le_antisymm this (perpendicularDistance_nonneg p a b)

/-- C21 on the examples of the unit test: the point `(5,5)` is at distance 5 from the
chord `(0,0)-(10,0)`, and the point `(5,0)`, which is on the chord, at distance 0. -/
theorem C21_point_to_chord_distance_witness :
    perpendicularDistance ⟨5, 5⟩ ⟨0, 0⟩ ⟨10, 0⟩ = 5 ∧
    perpendicularDistance ⟨5, 0⟩ ⟨0, 0⟩ ⟨10, 0⟩ = 0 := by
  have le_calculateDistance_iff := distance_lemmas.2.2.2.1
  have calculateDistance_vertical := rectangle_outline_lemmas.2.2.2.2.2.2.2.2.2.1
  constructor
  · obtain ⟨⟨t, -, -, heq⟩, hle, -, -⟩ := C21_point_to_chord_distance ⟨5, 5⟩ ⟨0, 0⟩ ⟨10, 0⟩
    apply le_antisymm
    · have h := hle (1 / 2) (by norm_num) (by norm_num)
      have hc : chordPoint ⟨0, 0⟩ ⟨10, 0⟩ (1 / 2) = ⟨5, 0⟩ := by
        simp only [chordPoint]; norm_num
      rw [hc, calculateDistance_vertical] at h
      norm_num at h
      exact h
    · rw [heq, le_calculateDistance_iff _ _ _ (by norm_num)]
      simp only [chordPoint]
      nlinarith [mul_self_nonneg (0 + t * (10 - 0) - 5)]
  · exact (C21_point_to_chord_distance ⟨5, 0⟩ ⟨0, 0⟩ ⟨10, 0⟩).2.2.2 (1 / 2) (by norm_num)
      (by norm_num) (by simp only [chordPoint]; norm_num)

/-! ### Outline of a chain of short segments -/

/-- Facts on the number of points that the loop of `createChainMesh` pushes; the parts are
explained one by one in the proof. -/
theorem chain_loop_lemmas :
    (∀ (arc : Option (List Point)) (m : Point),
        jointPoints arc m ≠ []) ∧
    (∀ (h : ℝ),
        ∀ (chain : List Segment) (first : Bool) (outer inner : List Point),
          outer.length ≤ (chainLoop h first chain outer inner).1.length ∧
          inner.length ≤ (chainLoop h first chain outer inner).2.length ∧
          ((∃ seg ∈ chain, ¬ calculateDistance seg.start seg.end_ < 0.1) →
            outer.length < (chainLoop h first chain outer inner).1.length ∧
            inner.length < (chainLoop h first chain outer inner).2.length)) := by
  have chainLoop_cons_cons := rectangle_outline_lemmas.2.2.2.2.1
  have chainLoop_single := rectangle_outline_lemmas.2.2.2.2.2.1
  /- The joint of two segments always contributes at least one point to a boundary. -/
  have jointPoints_ne_nil : ∀ (arc : Option (List Point)) (m : Point),
      jointPoints arc m ≠ [] := by
    intro arc m
    unfold jointPoints
    cases arc with
    | none => simp
    | some arcPoints =>
      by_cases h : arcPoints.length > 0
      · simp only [if_pos h]
        exact List.ne_nil_of_length_pos h
      · simp [if_neg h]
  /- The loop of `createChainMesh` never removes points, and a segment of length at least
  0.1 makes it add points to both boundaries. -/
  have chainLoop_grows : ∀ (h : ℝ),
      ∀ (chain : List Segment) (first : Bool) (outer inner : List Point),
        outer.length ≤ (chainLoop h first chain outer inner).1.length ∧
        inner.length ≤ (chainLoop h first chain outer inner).2.length ∧
        ((∃ seg ∈ chain, ¬ calculateDistance seg.start seg.end_ < 0.1) →
          outer.length < (chainLoop h first chain outer inner).1.length ∧
          inner.length < (chainLoop h first chain outer inner).2.length) := by
    intro h
    intro chain
    induction chain with
    | nil =>
      intro first outer inner
      simp [chainLoop]
    | cons seg rest ih =>
      intro first outer inner
      by_cases hl : calculateDistance seg.start seg.end_ < 0.1
      · have hstep : chainLoop h first (seg :: rest) outer inner =
            chainLoop h false rest outer inner := by
          have hl2 := hl
          unfold calculateDistance at hl2
          simp only at hl2
          simp only [chainLoop, if_pos hl2]
        rw [hstep]
        obtain ⟨a1, a2, a3⟩ := ih false outer inner
        refine ⟨a1, a2, ?_⟩
        rintro ⟨s, hs, hsl⟩
        rcases List.mem_cons.1 hs with rfl | hs
        · exact absurd hl hsl
        · exact a3 ⟨s, hs, hsl⟩
      · have hgrow : outer.length < (chainLoop h first (seg :: rest) outer inner).1.length ∧
            inner.length < (chainLoop h first (seg :: rest) outer inner).2.length := by
          cases rest with
          | nil =>
            rw [chainLoop_single h first seg outer inner hl]
            cases first <;> simp
          | cons next rest =>
            rw [chainLoop_cons_cons h first seg next rest outer inner hl]
            obtain ⟨a1, a2, -⟩ := ih false
              ((if first then outer ++ [⟨seg.start.x +
                    -((seg.end_.y - seg.start.y) / calculateDistance seg.start seg.end_) * h,
                  seg.start.y +
                    (seg.end_.x - seg.start.x) / calculateDistance seg.start seg.end_ * h⟩]
                else outer) ++
                jointPoints (calculateMiterPoint seg next h true).outerArc
                  (calculateMiterPoint seg next h true).outer)
              ((if first then inner ++ [⟨seg.start.x -
                    -((seg.end_.y - seg.start.y) / calculateDistance seg.start seg.end_) * h,
                  seg.start.y -
                    (seg.end_.x - seg.start.x) / calculateDistance seg.start seg.end_ * h⟩]
                else inner) ++
                jointPoints (calculateMiterPoint seg next h true).innerArc
                  (calculateMiterPoint seg next h true).inner)
            have j1 := List.length_pos.2 (jointPoints_ne_nil
              (calculateMiterPoint seg next h true).outerArc
              (calculateMiterPoint seg next h true).outer)
            have j2 := List.length_pos.2 (jointPoints_ne_nil
              (calculateMiterPoint seg next h true).innerArc
              (calculateMiterPoint seg next h true).inner)
            rw [List.length_append] at a1 a2
            constructor
            · refine lt_of_lt_of_le ?_ a1
              cases first <;> simp <;> omega
            · refine lt_of_lt_of_le ?_ a2
              cases first <;> simp <;> omega
        exact ⟨hgrow.1.le, hgrow.2.le, fun _ => hgrow⟩
  exact ⟨jointPoints_ne_nil, chainLoop_grows⟩
/-- C22 fails in the code: the loop of `createChainMesh` skips a segment shorter than 0.1,
and for a chain of one such segment (of zero length, for instance) `outerPoints` is empty
when the polygon is started, so that reading `outerPoints[0].x` throws a `TypeError`. -/
theorem C22_short_chain_throws (seg : Segment) (defaultWallThickness defaultWallHeight : ℝ)
    (hlen : calculateDistance seg.start seg.end_ < 0.1) :
    createChainMesh [seg] defaultWallThickness defaultWallHeight =
      .error "TypeError: outerPoints[0] is undefined" := by
  have hl2 := hlen
  unfold calculateDistance at hl2
  simp only at hl2
  have hloop : chainLoop (defaultWallThickness / 2) true [seg] [] [] = ([], []) := by
    simp only [chainLoop, if_pos hl2]
  have hb : chainBoundaryPoints seg seg [seg] (defaultWallThickness / 2) = ([], []) := by
    unfold chainBoundaryPoints
    simp [hloop]
  unfold createChainMesh
  simp only [List.head?_cons, List.getLast?_singleton, hb, List.head?_nil]

/-- C22 on the chain of the one wall from `(0,0)` to `(0,0)`, with the default thickness 6
and the default height 96. -/
theorem C22_short_chain_throws_witness :
    createChainMesh [⟨⟨1, ⟨0, 0⟩, ⟨0, 0⟩, 6, 96⟩, ⟨0, 0⟩, ⟨0, 0⟩⟩] 6 96 =
      .error "TypeError: outerPoints[0] is undefined" := by
  have calculateDistance_self := simplifier_lemmas.1
  exact
    C22_short_chain_throws _ 6 96 (by rw [calculateDistance_self]; norm_num)

/-! ### Chain discovery: maximal chains -/

/-- Facts on where the extension loops stop, and maximality of the chains; the parts are explained
one by one in the proof. -/
theorem maximal_lemmas :
    (∀ (walls : List Wall),
        ∀ (fuel : ℕ) (used : List ℕ) (p : Point) (last : ℕ) (chain : List Segment)
          (used1 : List ℕ) (out : List Segment),
          extendForward walls fuel used p last chain = some (used1, out) →
          (∃ lw, walls[last]? = some lw ∧ lw.id ∈ used) →
          chain.getLast?.map Segment.end_ = some p →
          ∃ q, out.getLast?.map Segment.end_ = some q ∧
            ∀ w ∈ walls, w.id ∉ used1 → ¬ pointsMatch q w.start ∧ ¬ pointsMatch q w.end_) ∧
    (∀ (walls : List Wall) (tail : List Segment),
        ∀ (fuel : ℕ) (used : List ℕ) (p : Point) (last : ℕ) (front : List Segment)
          (used1 : List ℕ) (out : List Segment),
          extendBackward walls fuel used p last front = some (used1, out) →
          (∃ lw, walls[last]? = some lw ∧ lw.id ∈ used) →
          (front ++ tail).head?.map Segment.start = some p →
          ∃ q, (out ++ tail).head?.map Segment.start = some q ∧
            ∀ w ∈ walls, w.id ∉ used1 → ¬ pointsMatch q w.start ∧ ¬ pointsMatch q w.end_) ∧
    (∀ (walls : List Wall),
        ∀ (rest : List Wall) (i : ℕ) (used : List ℕ) (chains out : List (List Segment)),
          walls.drop i = rest → used.Nodup → (∀ a ∈ used, a ∈ walls.map Wall.id) →
          buildChainsFrom walls i rest used chains = some out →
          List.Pairwise (fun X Y : List Segment => ∀ q,
            (X.head?.map Segment.start = some q ∨ X.getLast?.map Segment.end_ = some q) →
            ∀ e ∈ Y, ¬ pointsMatch q e.wall.start ∧ ¬ pointsMatch q e.wall.end_) chains →
          (∀ X ∈ chains, ∀ q,
            (X.head?.map Segment.start = some q ∨ X.getLast?.map Segment.end_ = some q) →
            ∀ w ∈ walls, w.id ∉ used → ¬ pointsMatch q w.start ∧ ¬ pointsMatch q w.end_) →
          List.Pairwise (fun X Y : List Segment => ∀ q,
            (X.head?.map Segment.start = some q ∨ X.getLast?.map Segment.end_ = some q) →
            ∀ e ∈ Y, ¬ pointsMatch q e.wall.start ∧ ¬ pointsMatch q e.wall.end_) out) ∧
    (∀ (Y : List Segment) (r : Point)
        (_ : ∀ e ∈ Y, (e.start = e.wall.start ∧ e.end_ = e.wall.end_) ∨ (e.start = e.wall.end_ ∧ e.end_ = e.wall.start))
        (_ : Y.head?.map Segment.start = some r ∨ Y.getLast?.map Segment.end_ = some r),
        ∃ e ∈ Y, r = e.wall.start ∨ r = e.wall.end_) := by
  have extendForward_spec := chain_partition_lemmas.2.2.1
  have extendBackward_spec := chain_partition_lemmas.2.2.2.1
  have findConnectedWallFrom_none := first_match_lemmas.1
  have findConnectedWallFrom_first := first_match_lemmas.2.1
  /- When the forward extension stops, no wall whose id is still unused has an endpoint
  matching the end of the chain. -/
  have extendForward_stop : ∀ (walls : List Wall),
      ∀ (fuel : ℕ) (used : List ℕ) (p : Point) (last : ℕ) (chain : List Segment)
        (used1 : List ℕ) (out : List Segment),
        extendForward walls fuel used p last chain = some (used1, out) →
        (∃ lw, walls[last]? = some lw ∧ lw.id ∈ used) →
        chain.getLast?.map Segment.end_ = some p →
        ∃ q, out.getLast?.map Segment.end_ = some q ∧
          ∀ w ∈ walls, w.id ∉ used1 → ¬ pointsMatch q w.start ∧ ¬ pointsMatch q w.end_ := by
    intro walls
    intro fuel
    induction fuel with
    | zero => intro used p last chain used1 out h; simp [extendForward] at h
    | succ fuel ih =>
      intro used p last chain used1 out h hlast hp
      unfold extendForward at h
      cases hf : findConnectedWall walls used p last with
      | none =>
        rw [hf] at h
        simp only [Option.some.injEq, Prod.mk.injEq] at h
        rw [← h.1, ← h.2]
        refine ⟨p, hp, ?_⟩
        intro w hw hu
        obtain ⟨j, hj, hjw⟩ := List.getElem_of_mem hw
        have hget : walls[j]? = some w := by rw [List.getElem?_eq_getElem hj, hjw]
        have hne : j ≠ last := by
          rintro rfl
          obtain ⟨lw, h1, h2⟩ := hlast
          rw [hget] at h1
          exact hu ((Option.some.inj h1) ▸ h2)
        have := (findConnectedWallFrom_none used p last walls 0).1 hf j w hget
          (by simpa using hne) hu
        exact this
      | some next =>
        rw [hf] at h
        simp only at h
        obtain ⟨j, a1, a2, -⟩ := findConnectedWallFrom_first used p last next walls 0 hf
        have hj : next.idx = j := by omega
        exact ih _ _ _ _ _ _ h ⟨next.wall, by rw [hj]; exact a2, List.mem_cons_self _ _⟩ (by simp)
  /- When the backward extension stops, no wall whose id is still unused has an endpoint
  matching the start of the chain; `tail` is the part of the chain that follows the front
  segments. -/
  have extendBackward_stop : ∀ (walls : List Wall) (tail : List Segment),
      ∀ (fuel : ℕ) (used : List ℕ) (p : Point) (last : ℕ) (front : List Segment)
        (used1 : List ℕ) (out : List Segment),
        extendBackward walls fuel used p last front = some (used1, out) →
        (∃ lw, walls[last]? = some lw ∧ lw.id ∈ used) →
        (front ++ tail).head?.map Segment.start = some p →
        ∃ q, (out ++ tail).head?.map Segment.start = some q ∧
          ∀ w ∈ walls, w.id ∉ used1 → ¬ pointsMatch q w.start ∧ ¬ pointsMatch q w.end_ := by
    intro walls tail
    intro fuel
    induction fuel with
    | zero => intro used p last front used1 out h; simp [extendBackward] at h
    | succ fuel ih =>
      intro used p last front used1 out h hlast hp
      unfold extendBackward at h
      cases hf : findConnectedWall walls used p last with
      | none =>
        rw [hf] at h
        simp only [Option.some.injEq, Prod.mk.injEq] at h
        rw [← h.1, ← h.2]
        refine ⟨p, hp, ?_⟩
        intro w hw hu
        obtain ⟨j, hj, hjw⟩ := List.getElem_of_mem hw
        have hget : walls[j]? = some w := by rw [List.getElem?_eq_getElem hj, hjw]
        have hne : j ≠ last := by
          rintro rfl
          obtain ⟨lw, h1, h2⟩ := hlast
          rw [hget] at h1
          exact hu ((Option.some.inj h1) ▸ h2)
        have := (findConnectedWallFrom_none used p last walls 0).1 hf j w hget
          (by simpa using hne) hu
        exact this
      | some prev =>
        rw [hf] at h
        simp only at h
        obtain ⟨j, a1, a2, -⟩ := findConnectedWallFrom_first used p last prev walls 0 hf
        have hj : prev.idx = j := by omega
        exact ih _ _ _ _ _ _ h ⟨prev.wall, by rw [hj]; exact a2, List.mem_cons_self _ _⟩ (by simp)
  /- The loop that builds the chains keeps this invariant: no end point of a chain matches
  an endpoint of a wall of a chain built later, nor of a wall whose id is still unused. -/
  have buildChainsFrom_maximal : ∀ (walls : List Wall),
      ∀ (rest : List Wall) (i : ℕ) (used : List ℕ) (chains out : List (List Segment)),
        walls.drop i = rest → used.Nodup → (∀ a ∈ used, a ∈ walls.map Wall.id) →
        buildChainsFrom walls i rest used chains = some out →
        List.Pairwise (fun X Y : List Segment => ∀ q,
          (X.head?.map Segment.start = some q ∨ X.getLast?.map Segment.end_ = some q) →
          ∀ e ∈ Y, ¬ pointsMatch q e.wall.start ∧ ¬ pointsMatch q e.wall.end_) chains →
        (∀ X ∈ chains, ∀ q,
          (X.head?.map Segment.start = some q ∨ X.getLast?.map Segment.end_ = some q) →
          ∀ w ∈ walls, w.id ∉ used → ¬ pointsMatch q w.start ∧ ¬ pointsMatch q w.end_) →
        List.Pairwise (fun X Y : List Segment => ∀ q,
          (X.head?.map Segment.start = some q ∨ X.getLast?.map Segment.end_ = some q) →
          ∀ e ∈ Y, ¬ pointsMatch q e.wall.start ∧ ¬ pointsMatch q e.wall.end_) out := by
    intro walls
    intro rest
    induction rest with
    | nil =>
      intro i used chains out _ _ _ h hpw _
      simp only [buildChainsFrom, Option.some.injEq] at h
      rw [← h]; exact hpw
    | cons startWall rest ih =>
      intro i used chains out hdrop hn hs h hpw hfree
      have hdrop1 : walls.drop (i + 1) = rest := by
        rw [← List.drop_drop, hdrop]
        rfl
      have hget : walls[i]? = some startWall := by
        have := congrArg List.head? hdrop
        rw [List.head?_drop] at this
        simpa using this
      have hsw : startWall ∈ walls := List.mem_iff_getElem?.2 ⟨i, hget⟩
      unfold buildChainsFrom at h
      by_cases hu : startWall.id ∈ used
      · rw [if_pos hu] at h
        exact ih _ _ _ _ hdrop1 hn hs h hpw hfree
      · rw [if_neg hu] at h
        have hn0 : (startWall.id :: used).Nodup := List.nodup_cons.2 ⟨hu, hn⟩
        have hs0 : ∀ a ∈ startWall.id :: used, a ∈ walls.map Wall.id := by
          intro a ha
          rcases List.mem_cons.1 ha with rfl | ha
          · exact List.mem_map_of_mem _ hsw
          · exact hs a ha
        obtain ⟨used1, new, f1, f2, f3, f4, f5⟩ :=
          extendForward_spec walls (walls.length + 1) (startWall.id :: used) startWall.end_ i
            [⟨startWall, startWall.start, startWall.end_⟩] hn0 hs0
            (by simp only [List.length_cons]; omega)
        obtain ⟨used2, new2, b1, b2, b3, b4, b5⟩ :=
          extendBackward_spec walls (walls.length + 1) used1 startWall.start i [] f2 f3
            (by
              have := f4.length_eq
              simp only [List.length_append, List.length_map, List.length_cons] at this
              omega)
        obtain ⟨qe, e1, e2⟩ := extendForward_stop walls _ _ _ _ _ _ _ f1
          ⟨startWall, hget, List.mem_cons_self _ _⟩ (by simp)
        obtain ⟨qs, s1, s2⟩ := extendBackward_stop walls
          ([⟨startWall, startWall.start, startWall.end_⟩] ++ new) _ _ _ _ _ _ _ b1
          ⟨startWall, hget, f4.mem_iff.2 (by simp)⟩ (by simp)
        rw [f1] at h
        simp only at h
        rw [b1] at h
        simp only [List.append_nil] at h s1
        have hsub1 : ∀ a ∈ used, a ∈ used1 := fun a ha =>
          f4.mem_iff.2 (List.mem_append_right _ (List.mem_cons_of_mem _ ha))
        have hsub2 : ∀ a ∈ used1, a ∈ used2 := fun a ha =>
          b4.mem_iff.2 (List.mem_append_right _ ha)
        have hnd1 := f4.nodup_iff.1 f2
        have hnd2 := b4.nodup_iff.1 b2
        have hnew : ∀ e ∈ new2 ++ ([⟨startWall, startWall.start, startWall.end_⟩] ++ new),
            e.wall ∈ walls ∧ e.wall.id ∉ used := by
          intro e he
          rcases List.mem_append.1 he with he | he
          · refine ⟨b5 e he, fun hin => ?_⟩
            exact (List.disjoint_of_nodup_append hnd2)
              (List.mem_map_of_mem (fun e : Segment => e.wall.id) he) (hsub1 _ hin)
          · rcases List.mem_append.1 he with he | he
            · rw [List.mem_singleton] at he
              rw [he]
              exact ⟨hsw, hu⟩
            · refine ⟨f5 e he, fun hin => ?_⟩
              exact (List.disjoint_of_nodup_append hnd1)
                (List.mem_map_of_mem (fun e : Segment => e.wall.id) he)
                (List.mem_cons_of_mem _ hin)
        apply ih _ _ _ _ hdrop1 b2 b3 h
        · rw [List.pairwise_append]
          refine ⟨hpw, List.pairwise_singleton _ _, ?_⟩
          intro X hX Y hY q hq e he
          rw [List.mem_singleton] at hY
          rw [hY] at he
          obtain ⟨g1, g2⟩ := hnew e he
          exact hfree X hX q hq e.wall g1 g2
        · intro X hX q hq w hw hwu
          rcases List.mem_append.1 hX with hX | hX
          · exact hfree X hX q hq w hw (fun hin => hwu (hsub2 _ (hsub1 _ hin)))
          · rw [List.mem_singleton] at hX
            rw [hX] at hq
            rcases hq with hq | hq
            · rw [s1] at hq
              rw [← Option.some.inj hq]
              exact s2 w hw hwu
            · rw [List.getLast?_append_of_ne_nil _ (by simp), e1] at hq
              rw [← Option.some.inj hq]
              exact e2 w hw (fun hin => hwu (hsub2 _ hin))
  /- An end point of a well-formed chain is an endpoint of the wall of one of its
  entries. -/
  have chain_end_is_wall_endpoint : ∀ (Y : List Segment) (r : Point)
      (_ : ∀ e ∈ Y, (e.start = e.wall.start ∧ e.end_ = e.wall.end_) ∨ (e.start = e.wall.end_ ∧ e.end_ = e.wall.start))
      (_ : Y.head?.map Segment.start = some r ∨ Y.getLast?.map Segment.end_ = some r),
      ∃ e ∈ Y, r = e.wall.start ∨ r = e.wall.end_ := by
    intro Y r hor hr
    rcases hr with hr | hr
    · obtain ⟨e, he, her⟩ := Option.map_eq_some'.1 hr
      refine ⟨e, List.mem_of_mem_head? he, ?_⟩
      rcases hor e (List.mem_of_mem_head? he) with h | h
      · left; rw [← her, h.1]
      · right; rw [← her, h.1]
    · obtain ⟨e, he, her⟩ := Option.map_eq_some'.1 hr
      refine ⟨e, List.mem_of_getLast?_eq_some he, ?_⟩
      rcases hor e (List.mem_of_getLast?_eq_some he) with h | h
      · right; rw [← her, h.2]
      · left; rw [← her, h.2]
  exact ⟨extendForward_stop, extendBackward_stop, buildChainsFrom_maximal,
    chain_end_is_wall_endpoint⟩
/-- C23 (chains are maximal). For every wall list `findWallChains` returns chains such
that no end point of a chain (the start of its first entry, the end of its last entry) is
within 5 units (strictly, the test of the code) of an endpoint of a wall of a chain built
later; hence for two distinct chains no end point of the one is within 5 units of an end
point of the other, and the two could not be joined end to end. -/
theorem C23_chains_maximal (walls : List Wall) :
    ∃ chains, findWallChains walls = some chains ∧
      List.Pairwise (fun X Y : List Segment => ∀ q,
        (X.head?.map Segment.start = some q ∨ X.getLast?.map Segment.end_ = some q) →
        ∀ e ∈ Y, 5 ≤ calculateDistance q e.wall.start ∧
          5 ≤ calculateDistance q e.wall.end_) chains ∧
      ∀ (i j : ℕ) (X Y : List Segment), i ≠ j → chains[i]? = some X → chains[j]? = some Y →
        ∀ q r,
          (X.head?.map Segment.start = some q ∨ X.getLast?.map Segment.end_ = some q) →
          (Y.head?.map Segment.start = some r ∨ Y.getLast?.map Segment.end_ = some r) →
          5 ≤ calculateDistance q r := by
  have buildChainsFrom_spec := chain_partition_lemmas.2.2.2.2
  have calculateDistance_comm := well_formed_lemmas.1
  have buildChainsFrom_wellFormed := well_formed_lemmas.2.2.2
  have buildChainsFrom_maximal := maximal_lemmas.2.2.1
  have chain_end_is_wall_endpoint := maximal_lemmas.2.2.2
  obtain ⟨chains, -, h1, -⟩ :=
    buildChainsFrom_spec walls walls 0 [] [] (fun w hw => hw) List.nodup_nil (by simp)
      (by simp) (by simp)
  have hmax := buildChainsFrom_maximal walls walls 0 [] [] chains rfl List.nodup_nil (by simp)
    h1 List.Pairwise.nil (by simp)
  have hwf := buildChainsFrom_wellFormed walls walls 0 [] [] chains h1 (by simp)
  have hpw : List.Pairwise (fun X Y : List Segment => ∀ q,
      (X.head?.map Segment.start = some q ∨ X.getLast?.map Segment.end_ = some q) →
      ∀ e ∈ Y, 5 ≤ calculateDistance q e.wall.start ∧
        5 ≤ calculateDistance q e.wall.end_) chains := by
    refine hmax.imp ?_
    intro X Y hXY q hq e he
    obtain ⟨a, b⟩ := hXY q hq e he
    exact ⟨not_lt.1 a, not_lt.1 b⟩
  refine ⟨chains, h1, hpw, ?_⟩
  have hlt : ∀ (i j : ℕ) (X Y : List Segment), i < j → chains[i]? = some X →
      chains[j]? = some Y → ∀ q r,
        (X.head?.map Segment.start = some q ∨ X.getLast?.map Segment.end_ = some q) →
        (Y.head?.map Segment.start = some r ∨ Y.getLast?.map Segment.end_ = some r) →
        5 ≤ calculateDistance q r := by
    intro i j X Y hij hX hY q r hq hr
    obtain ⟨hi, hXi⟩ := List.getElem?_eq_some_iff.1 hX
    obtain ⟨hj, hYj⟩ := List.getElem?_eq_some_iff.1 hY
    have hR := List.pairwise_iff_getElem.1 hpw i j hi hj hij
    rw [hXi, hYj] at hR
    have hYmem : Y ∈ chains := List.mem_iff_getElem?.2 ⟨j, hY⟩
    obtain ⟨e, he, her⟩ := chain_end_is_wall_endpoint Y r (hwf Y hYmem).2 hr
    rcases her with her | her
    · rw [her]; exact (hR q hq e he).1
    · rw [her]; exact (hR q hq e he).2
  intro i j X Y hij hX hY q r hq hr
  rcases Nat.lt_or_gt_of_ne hij with h | h
  · exact hlt i j X Y h hX hY q r hq hr
  · rw [calculateDistance_comm]
    exact hlt j i Y X h hY hX r q hr hq

/-! ### The core recursion of the path simplifier -/

/-- Facts on the farthest-point search, on the Douglas-Peucker recursion and on `keepsWithin`; the
parts are explained one by one in the proof. -/
theorem keepsWithin_lemmas :
    (∀ (s e : Point),
        ∀ (rest : List Point) (i : ℕ) (md : ℝ) (mi : ℕ),
          (∀ p ∈ rest, perpendicularDistance p s e ≤ md) →
          maxDistanceLoop s e i rest (md, mi) = (md, mi)) ∧
    (∀ (s e m : Point) (B : List Point)
        (_ : ∀ b ∈ B, perpendicularDistance b s e ≤ perpendicularDistance m s e),
        ∀ (A : List Point) (i : ℕ) (md : ℝ) (mi : ℕ),
          (∀ a ∈ A, perpendicularDistance a s e < perpendicularDistance m s e) →
          md < perpendicularDistance m s e →
          maxDistanceLoop s e i (A ++ m :: B) (md, mi) =
            (perpendicularDistance m s e, i + A.length)) ∧
    (∀ (s e : Point),
        ∀ (rest : List Point) (md : ℝ),
          (∀ p ∈ rest, perpendicularDistance p s e ≤ md) ∨
          ∃ (A : List Point) (m : Point) (B : List Point), rest = A ++ m :: B ∧
            (∀ a ∈ A, perpendicularDistance a s e < perpendicularDistance m s e) ∧
            (∀ b ∈ B, perpendicularDistance b s e ≤ perpendicularDistance m s e) ∧
            md < perpendicularDistance m s e) ∧
    (∀ (fuel : ℕ) (start e : Point) (mid : List Point) (tol : ℝ) (_ : 0 ≤ tol) (_ : mid ≠ [])
        (_ : ∀ p ∈ mid, perpendicularDistance p start e ≤ tol),
        douglasPeuckerFuel (fuel + 1) (start :: (mid ++ [e])) tol = some [start, e]) ∧
    (∀ (fuel : ℕ) (start e m : Point) (A B : List Point) (tol : ℝ) (_ : 0 ≤ tol)
        (_ : ∀ a ∈ A, perpendicularDistance a start e < perpendicularDistance m start e)
        (_ : ∀ b ∈ B, perpendicularDistance b start e ≤ perpendicularDistance m start e)
        (_ : tol < perpendicularDistance m start e),
        douglasPeuckerFuel (fuel + 1) (start :: ((A ++ m :: B) ++ [e])) tol =
          match douglasPeuckerFuel fuel (start :: (A ++ [m])) tol,
            douglasPeuckerFuel fuel (m :: (B ++ [e])) tol with
          | some left, some right => some (left.dropLast ++ right)
          | _, _ => none) ∧
    (∀ (tol : ℝ),
        ∀ (out points : List Point), keepsWithin tol out points → out ≠ [] →
          points.head? = out.head?) ∧
    (∀ (tol : ℝ),
        ∀ (out points : List Point), keepsWithin tol out points →
          points.getLast? = out.getLast?) ∧
    (∀ (tol : ℝ),
        ∀ (out points : List Point), keepsWithin tol out points → out.Sublist points) ∧
    (∀ (tol : ℝ) (right pointsR : List Point) (m : Point) (_ : keepsWithin tol right pointsR)
        (_ : right.head? = some m),
        ∀ (left pointsL : List Point), keepsWithin tol left pointsL → left.getLast? = some m →
          keepsWithin tol (left.dropLast ++ right) (pointsL.dropLast ++ pointsR)) ∧
    (∀ (tol : ℝ) (_ : 0 ≤ tol),
        ∀ (fuel : ℕ) (points out : List Point), douglasPeuckerFuel fuel points tol = some out →
          2 ≤ points.length → keepsWithin tol out points ∧ 2 ≤ out.length) ∧
    (∀ (points : List Point) (tol : ℝ) (_ : 0 ≤ tol),
        ∃ out, douglasPeucker points tol = some out) := by
  have douglasPeuckerFuel_short := simplifier_lemmas.2.2.2.2.2.2.1
  have douglasPeuckerFuel_long := simplifier_lemmas.2.2.2.2.2.2.2.1
  have douglasPeuckerFuel_spec := simplifier_lemmas.2.2.2.2.2.2.2.2.1
  /- The scan for the farthest point leaves its state alone when no remaining point is
  farther than the current maximum. -/
  have maxDistanceLoop_unchanged : ∀ (s e : Point),
      ∀ (rest : List Point) (i : ℕ) (md : ℝ) (mi : ℕ),
        (∀ p ∈ rest, perpendicularDistance p s e ≤ md) →
        maxDistanceLoop s e i rest (md, mi) = (md, mi) := by
    intro s e
    intro rest
    induction rest with
    | nil => intro i md mi _; rfl
    | cons p r ih =>
      intro i md mi h
      have hp : ¬ perpendicularDistance p s e > md := not_lt.2 (h p (List.mem_cons_self _ _))
      simp only [maxDistanceLoop, if_neg hp]
      exact ih _ _ _ (fun q hq => h q (List.mem_cons_of_mem _ hq))
  /- The scan for the farthest point finds the first point at the maximum distance: with
  the points before it nearer, the points after it not farther, and the point itself
  farther than the initial maximum, the scan ends on this point. -/
  have maxDistanceLoop_split : ∀ (s e m : Point) (B : List Point)
      (_ : ∀ b ∈ B, perpendicularDistance b s e ≤ perpendicularDistance m s e),
      ∀ (A : List Point) (i : ℕ) (md : ℝ) (mi : ℕ),
        (∀ a ∈ A, perpendicularDistance a s e < perpendicularDistance m s e) →
        md < perpendicularDistance m s e →
        maxDistanceLoop s e i (A ++ m :: B) (md, mi) =
          (perpendicularDistance m s e, i + A.length) := by
    intro s e m B hB
    intro A
    induction A with
    | nil =>
      intro i md mi _ hmd
      simp only [List.nil_append, maxDistanceLoop, if_pos hmd, List.length_nil, add_zero]
      exact maxDistanceLoop_unchanged s e B _ _ _ hB
    | cons a A ih =>
      intro i md mi hA hmd
      have hA1 : ∀ x ∈ A, perpendicularDistance x s e < perpendicularDistance m s e :=
        fun x hx => hA x (List.mem_cons_of_mem _ hx)
      have ha := hA a (List.mem_cons_self _ _)
      have step : maxDistanceLoop s e i ((a :: A) ++ m :: B) (md, mi) =
          if perpendicularDistance a s e > md then
            maxDistanceLoop s e (i + 1) (A ++ m :: B) (perpendicularDistance a s e, i)
          else maxDistanceLoop s e (i + 1) (A ++ m :: B) (md, mi) := rfl
      rw [step, List.length_cons]
      by_cases hgt : perpendicularDistance a s e > md
      · rw [if_pos hgt, ih _ _ _ hA1 ha]
        congr 1
        omega
      · rw [if_neg hgt, ih _ _ _ hA1 hmd]
        congr 1
        omega
  /- The outcome of the scan for the farthest point: either no point is farther than the
  initial maximum, or the points split at the first point at the maximum distance. -/
  have maxDistanceLoop_cases : ∀ (s e : Point),
      ∀ (rest : List Point) (md : ℝ),
        (∀ p ∈ rest, perpendicularDistance p s e ≤ md) ∨
        ∃ (A : List Point) (m : Point) (B : List Point), rest = A ++ m :: B ∧
          (∀ a ∈ A, perpendicularDistance a s e < perpendicularDistance m s e) ∧
          (∀ b ∈ B, perpendicularDistance b s e ≤ perpendicularDistance m s e) ∧
          md < perpendicularDistance m s e := by
    intro s e
    intro rest
    induction rest with
    | nil => intro md; left; simp
    | cons p r ih =>
      intro md
      by_cases hgt : perpendicularDistance p s e > md
      · rcases ih (perpendicularDistance p s e) with h | ⟨A, m, B, h1, h2, h3, h4⟩
        · right
          exact ⟨[], p, r, rfl, by simp, h, hgt⟩
        · right
          refine ⟨p :: A, m, B, by rw [h1]; rfl, ?_, h3, lt_trans hgt h4⟩
          intro a ha
          rcases List.mem_cons.1 ha with rfl | ha
          · exact h4
          · exact h2 a ha
      · rcases ih md with h | ⟨A, m, B, h1, h2, h3, h4⟩
        · left
          intro q hq
          rcases List.mem_cons.1 hq with rfl | hq
          · exact not_lt.1 hgt
          · exact h q hq
        · right
          refine ⟨p :: A, m, B, by rw [h1]; rfl, ?_, h3, h4⟩
          intro a ha
          rcases List.mem_cons.1 ha with rfl | ha
          · exact lt_of_le_of_lt (not_lt.1 hgt) h4
          · exact h2 a ha
  /- One step of `douglasPeucker` on a list of more than 2 points none of which is
  farther than the tolerance from the chord of the first and the last point. -/
  have douglasPeuckerFuel_flat : ∀ (fuel : ℕ) (start e : Point) (mid : List Point) (tol : ℝ)
      (_ : 0 ≤ tol) (_ : mid ≠ []) (_ : ∀ p ∈ mid, perpendicularDistance p start e ≤ tol),
      douglasPeuckerFuel (fuel + 1) (start :: (mid ++ [e])) tol = some [start, e] := by
    intro fuel start e mid tol htol hmid hall
    rw [douglasPeuckerFuel_long fuel start e mid tol hmid]
    rcases maxDistanceLoop_cases start e mid 0 with h | ⟨A, m, B, h1, h2, h3, h4⟩
    · rw [maxDistanceLoop_unchanged start e mid 1 0 0 h, if_neg (not_lt.2 htol)]
    · rw [h1, maxDistanceLoop_split start e m B h3 A 1 0 0 h2 h4]
      rw [if_neg (not_lt.2 (hall m (by rw [h1]; simp)))]
  /- One step of `douglasPeucker` on a list that splits at its first farthest point `m`,
  which is farther than the tolerance from the chord of the first and the last point: the
  two recursive calls are on the points up to `m` and on the points from `m` on. -/
  have douglasPeuckerFuel_split : ∀ (fuel : ℕ) (start e m : Point) (A B : List Point) (tol : ℝ)
      (_ : 0 ≤ tol)
      (_ : ∀ a ∈ A, perpendicularDistance a start e < perpendicularDistance m start e)
      (_ : ∀ b ∈ B, perpendicularDistance b start e ≤ perpendicularDistance m start e)
      (_ : tol < perpendicularDistance m start e),
      douglasPeuckerFuel (fuel + 1) (start :: ((A ++ m :: B) ++ [e])) tol =
        match douglasPeuckerFuel fuel (start :: (A ++ [m])) tol,
          douglasPeuckerFuel fuel (m :: (B ++ [e])) tol with
        | some left, some right => some (left.dropLast ++ right)
        | _, _ => none := by
    intro fuel start e m A B tol htol hA hB hm
    rw [douglasPeuckerFuel_long fuel start e (A ++ m :: B) tol (by simp),
      maxDistanceLoop_split start e m B hB A 1 0 0 hA (lt_of_le_of_lt htol hm), if_pos hm]
    have hlist : start :: ((A ++ m :: B) ++ [e]) = (start :: A) ++ (m :: (B ++ [e])) := by simp
    have htake : (start :: ((A ++ m :: B) ++ [e])).take (1 + A.length + 1) =
        start :: (A ++ [m]) := by
      rw [hlist]
      have h1 : 1 + A.length + 1 = (start :: A).length + 1 := by
        simp only [List.length_cons]; omega
      rw [h1, List.take_append]
      simp
    have hdrop : (start :: ((A ++ m :: B) ++ [e])).drop (1 + A.length) = m :: (B ++ [e]) := by
      rw [hlist]
      have h1 : 1 + A.length = (start :: A).length := by
        simp only [List.length_cons]; omega
      rw [h1, List.drop_left]
    rw [htake, hdrop]
  have keepsWithin_head : ∀ (tol : ℝ),
      ∀ (out points : List Point), keepsWithin tol out points → out ≠ [] →
        points.head? = out.head? := by
    intro tol
    intro out points h hne
    match out, h, hne with
    | [q], h, _ =>
      simp only [keepsWithin] at h
      rw [h]
    | q :: q' :: rest, h, _ =>
      simp only [keepsWithin] at h
      obtain ⟨between, remaining, h1, -, -⟩ := h
      rw [h1]
      rfl
  have keepsWithin_getLast : ∀ (tol : ℝ),
      ∀ (out points : List Point), keepsWithin tol out points →
        points.getLast? = out.getLast? := by
    intro tol
    intro out
    induction out with
    | nil =>
      intro points h
      simp only [keepsWithin] at h
      rw [h]
    | cons q rest ih =>
      intro points h
      cases rest with
      | nil =>
        simp only [keepsWithin] at h
        rw [h]
      | cons q' rest =>
        simp only [keepsWithin] at h
        obtain ⟨between, remaining, h1, -, h3⟩ := h
        have hr := ih remaining h3
        have hrem := keepsWithin_head tol _ _ h3 (by simp)
        have hne : remaining ≠ [] := by
          intro h0
          rw [h0] at hrem
          simp at hrem
        rw [h1, List.getLast?_cons_cons, ← hr, ← List.cons_append,
          List.getLast?_append_of_ne_nil _ hne]
  /- A simplification that keeps within the tolerance is an order-preserving subsequence
  of the points. -/
  have keepsWithin_sublist : ∀ (tol : ℝ),
      ∀ (out points : List Point), keepsWithin tol out points → out.Sublist points := by
    intro tol
    intro out
    induction out with
    | nil => intro points _; exact List.nil_sublist _
    | cons q rest ih =>
      intro points h
      cases rest with
      | nil =>
        simp only [keepsWithin] at h
        rw [h]
      | cons q' rest =>
        simp only [keepsWithin] at h
        obtain ⟨between, remaining, h1, -, h3⟩ := h
        rw [h1]
        exact List.Sublist.cons₂ q ((ih remaining h3).trans (List.sublist_append_right _ _))
  /- Two simplifications that keep within the tolerance, the first ending with the point
  with which the second starts, combine as in `douglasPeucker`. -/
  have keepsWithin_glue : ∀ (tol : ℝ) (right pointsR : List Point) (m : Point)
      (_ : keepsWithin tol right pointsR) (_ : right.head? = some m),
      ∀ (left pointsL : List Point), keepsWithin tol left pointsL → left.getLast? = some m →
        keepsWithin tol (left.dropLast ++ right) (pointsL.dropLast ++ pointsR) := by
    intro tol right pointsR m hR hRh
    intro left
    induction left with
    | nil => intro pointsL _ h; simp at h
    | cons q rest ih =>
      intro pointsL hL hlast
      cases rest with
      | nil =>
        simp only [keepsWithin] at hL
        rw [hL]
        simpa using hR
      | cons q' rest =>
        simp only [keepsWithin] at hL
        obtain ⟨between, remaining, h1, h2, h3⟩ := hL
        have hrem := keepsWithin_head tol _ _ h3 (by simp)
        have hne : remaining ≠ [] := by
          intro h0
          rw [h0] at hrem
          simp at hrem
        have hrec := ih remaining h3 (by rw [← hlast, List.getLast?_cons_cons])
        have hshape : ∃ X, (q' :: rest).dropLast ++ right = q' :: X := by
          cases rest with
          | nil =>
            obtain ⟨r, hr⟩ : ∃ r, right = m :: r := by
              cases right with
              | nil => simp at hRh
              | cons x r =>
                simp only [List.head?_cons, Option.some.injEq] at hRh
                exact ⟨r, by rw [hRh]⟩
            have hq : q' = m := by
              simp only [List.getLast?_cons_cons, List.getLast?_singleton,
                Option.some.injEq] at hlast
              exact hlast
            exact ⟨r, by rw [hr, hq]; rfl⟩
          | cons r rs => exact ⟨(r :: rs).dropLast ++ right, rfl⟩
        obtain ⟨X, hX⟩ := hshape
        have hL2 : (q :: q' :: rest).dropLast ++ right = q :: q' :: X := by
          rw [← hX]; rfl
        have hP2 : pointsL.dropLast ++ pointsR =
            q :: (between ++ (remaining.dropLast ++ pointsR)) := by
          rw [h1, List.dropLast_cons_of_ne_nil (by simp [hne]),
            List.dropLast_append_of_ne_nil _ hne]
          simp
        rw [hL2, hP2]
        simp only [keepsWithin]
        refine ⟨between, remaining.dropLast ++ pointsR, rfl, h2, ?_⟩
        rw [← hX]
        exact hrec
  /- The outcome of `douglasPeucker`, when there is one, keeps within the tolerance. -/
  have douglasPeuckerFuel_keepsWithin : ∀ (tol : ℝ) (_ : 0 ≤ tol),
      ∀ (fuel : ℕ) (points out : List Point), douglasPeuckerFuel fuel points tol = some out →
        2 ≤ points.length → keepsWithin tol out points ∧ 2 ≤ out.length := by
    intro tol htol
    have hshort : ∀ (fuel : ℕ) (points out : List Point),
        douglasPeuckerFuel fuel points tol = some out → points.length = 2 →
        keepsWithin tol out points ∧ 2 ≤ out.length := by
      intro fuel points out h h2
      rw [douglasPeuckerFuel_short fuel points tol h2.le] at h
      rw [← Option.some.inj h]
      match points, h2 with
      | [a, b], _ =>
        refine ⟨?_, by simp⟩
        simp only [keepsWithin]
        exact ⟨[], [b], rfl, by simp, rfl⟩
    intro fuel
    induction fuel with
    | zero =>
      intro points out h h2
      rcases Nat.lt_or_ge 2 points.length with h3 | h3
      · simp [douglasPeuckerFuel, Nat.not_le.2 h3] at h
      · exact hshort 0 points out h (by omega)
    | succ fuel ih =>
      intro points out h h2
      rcases Nat.lt_or_ge 2 points.length with h3 | h3
      swap
      · exact hshort _ points out h (by omega)
      obtain ⟨start, t, rfl⟩ : ∃ s t, points = s :: t := by
        cases points with
        | nil => simp at h2
        | cons s t => exact ⟨s, t, rfl⟩
      obtain ⟨mid, e, rfl⟩ : ∃ mid e, t = mid ++ [e] := by
        rcases List.eq_nil_or_concat t with h | ⟨L, b, h⟩
        · subst h; simp at h2
        · exact ⟨L, b, by rw [h, List.concat_eq_append]⟩
      have hmid : mid ≠ [] := by
        intro h
        subst h
        simp at h3
      rcases maxDistanceLoop_cases start e mid tol with hall | ⟨A, m, B, h1, hA, hB, hm⟩
      · rw [douglasPeuckerFuel_flat fuel start e mid tol htol hmid hall] at h
        rw [← Option.some.inj h]
        refine ⟨?_, by simp⟩
        simp only [keepsWithin]
        exact ⟨mid, [e], rfl, hall, rfl⟩
      · subst h1
        rw [douglasPeuckerFuel_split fuel start e m A B tol htol hA hB hm] at h
        cases hl : douglasPeuckerFuel fuel (start :: (A ++ [m])) tol with
        | none => rw [hl] at h; simp at h
        | some left =>
          cases hr : douglasPeuckerFuel fuel (m :: (B ++ [e])) tol with
          | none => rw [hl, hr] at h; simp at h
          | some right =>
            rw [hl, hr] at h
            simp only [Option.some.injEq] at h
            obtain ⟨kl, -⟩ := ih _ _ hl (by simp)
            obtain ⟨kr, lr⟩ := ih _ _ hr (by simp)
            have hrh : right.head? = some m := by
              rw [← keepsWithin_head tol _ _ kr (by intro h0; rw [h0] at lr; simp at lr)]
              rfl
            have hll : left.getLast? = some m := by
              rw [← keepsWithin_getLast tol _ _ kl, ← List.cons_append, List.getLast?_concat]
            have := keepsWithin_glue tol right _ m kr hrh left _ kl hll
            rw [← h]
            refine ⟨?_, by rw [List.length_append]; omega⟩
            have hP : (start :: (A ++ [m])).dropLast ++ m :: (B ++ [e]) =
                start :: ((A ++ m :: B) ++ [e]) := by
              rw [← List.cons_append, List.dropLast_concat]
              simp
            rw [hP] at this
            exact this
  /- The recursion of `douglasPeucker` returns on every list, for a tolerance `≥ 0`, within
  the depth given by the number of points. -/
  have douglasPeucker_total : ∀ (points : List Point) (tol : ℝ) (_ : 0 ≤ tol),
      ∃ out, douglasPeucker points tol = some out := by
    intro points tol htol
    rcases Nat.lt_or_ge points.length 2 with h | h
    · exact ⟨points, douglasPeuckerFuel_short _ _ _ (by omega)⟩
    · obtain ⟨out, h1, -⟩ := douglasPeuckerFuel_spec tol htol points.length points h (by omega)
      exact ⟨out, h1⟩
  exact ⟨maxDistanceLoop_unchanged, maxDistanceLoop_split, maxDistanceLoop_cases,
    douglasPeuckerFuel_flat, douglasPeuckerFuel_split, keepsWithin_head, keepsWithin_getLast,
    keepsWithin_sublist, keepsWithin_glue, douglasPeuckerFuel_keepsWithin, douglasPeucker_total⟩
/-- C24 (Douglas-Peucker guarantee). For every list of at least 2 points and every
tolerance `≥ 0`, `douglasPeucker` returns an order-preserving subsequence of the points
that keeps the first and the last point, and every point lying (in input order) between
two consecutive retained points `q`, `q'` is at a `perpendicularDistance` of at most the
tolerance from the chord `(q, q')`. -/
theorem C24_douglas_peucker_guarantee (points : List Point) (tolerance : ℝ)
    (hlen : 2 ≤ points.length) (htol : 0 ≤ tolerance) :
    ∃ out, douglasPeucker points tolerance = some out ∧ out.Sublist points ∧
      out.head? = points.head? ∧ out.getLast? = points.getLast? ∧
      keepsWithin tolerance out points := by
  have keepsWithin_head := keepsWithin_lemmas.2.2.2.2.2.1
  have keepsWithin_getLast := keepsWithin_lemmas.2.2.2.2.2.2.1
  have keepsWithin_sublist := keepsWithin_lemmas.2.2.2.2.2.2.2.1
  have douglasPeuckerFuel_keepsWithin := keepsWithin_lemmas.2.2.2.2.2.2.2.2.2.1
  have douglasPeucker_total := keepsWithin_lemmas.2.2.2.2.2.2.2.2.2.2
  obtain ⟨out, h⟩ := douglasPeucker_total points tolerance htol
  obtain ⟨k, l⟩ := douglasPeuckerFuel_keepsWithin tolerance htol _ _ _ h hlen
  refine ⟨out, h, keepsWithin_sublist _ _ _ k, ?_, (keepsWithin_getLast _ _ _ k).symm, k⟩
  exact (keepsWithin_head _ _ _ k (by intro h0; rw [h0] at l; simp at l)).symm

/-- C24 on the stroke `(0,0), (5,5), (10,0)` with tolerance 1. -/
theorem C24_douglas_peucker_guarantee_witness :
    ∃ out, douglasPeucker [⟨0, 0⟩, ⟨5, 5⟩, ⟨10, 0⟩] 1 = some out ∧
      out.Sublist [⟨0, 0⟩, ⟨5, 5⟩, ⟨10, 0⟩] ∧
      out.head? = [(⟨0, 0⟩ : Point), ⟨5, 5⟩, ⟨10, 0⟩].head? ∧
      out.getLast? = [(⟨0, 0⟩ : Point), ⟨5, 5⟩, ⟨10, 0⟩].getLast? ∧
      keepsWithin 1 out [⟨0, 0⟩, ⟨5, 5⟩, ⟨10, 0⟩] :=
  C24_douglas_peucker_guarantee [⟨0, 0⟩, ⟨5, 5⟩, ⟨10, 0⟩] 1 (by simp) (by norm_num)

/-- C29 (simplification terminates). For every point list and every tolerance `≥ 0`,
`douglasPeucker` returns, within a recursion depth of the number of points. Whenever it
recurses (more than 2 points, maximum distance above the tolerance), the split index
`maxIndex` is strictly between the first and the last index, so that both recursive calls
receive a list of at least 2 points that is strictly shorter than the list. -/
theorem C29_simplification_terminates (points : List Point) (tolerance : ℝ)
    (htol : 0 ≤ tolerance) :
    (∃ out, douglasPeucker points tolerance = some out) ∧
    ∀ start end_ : Point, points.head? = some start → points.getLast? = some end_ →
      2 < points.length →
      tolerance < (maxDistanceLoop start end_ 1 points.tail.dropLast (0, 0)).1 →
      0 < (maxDistanceLoop start end_ 1 points.tail.dropLast (0, 0)).2 ∧
      (maxDistanceLoop start end_ 1 points.tail.dropLast (0, 0)).2 < points.length - 1 ∧
      2 ≤ (points.take
        ((maxDistanceLoop start end_ 1 points.tail.dropLast (0, 0)).2 + 1)).length ∧
      (points.take
        ((maxDistanceLoop start end_ 1 points.tail.dropLast (0, 0)).2 + 1)).length <
          points.length ∧
      2 ≤ (points.drop (maxDistanceLoop start end_ 1 points.tail.dropLast (0, 0)).2).length ∧
      (points.drop (maxDistanceLoop start end_ 1 points.tail.dropLast (0, 0)).2).length <
        points.length := by
  have maxDistanceLoop_spec := simplifier_lemmas.2.2.2.2.2.1
  have douglasPeucker_total := keepsWithin_lemmas.2.2.2.2.2.2.2.2.2.2
  refine ⟨douglasPeucker_total points tolerance htol, ?_⟩
  intro start end_ _ _ h3 hgt
  obtain ⟨-, -, hm3⟩ := maxDistanceLoop_spec start end_ points.tail.dropLast 1 0 0
  have hlen : points.tail.dropLast.length = points.length - 2 := by
    simp only [List.length_dropLast, List.length_tail]
    omega
  have hidx : 1 ≤ (maxDistanceLoop start end_ 1 points.tail.dropLast (0, 0)).2 ∧
      (maxDistanceLoop start end_ 1 points.tail.dropLast (0, 0)).2 <
        1 + points.tail.dropLast.length := by
    rcases hm3 with h | ⟨h, h', -⟩
    · rw [h] at hgt
      exact absurd hgt (not_lt.2 htol)
    · exact ⟨h, h'⟩
  rw [hlen] at hidx
  rw [List.length_take, List.length_drop]
  omega

/-- C29 on the stroke `(0,0), (5,5), (10,0)` with tolerance 1. -/
theorem C29_simplification_terminates_witness :
    ∃ out, douglasPeucker [⟨0, 0⟩, ⟨5, 5⟩, ⟨10, 0⟩] 1 = some out :=
  (C29_simplification_terminates [⟨0, 0⟩, ⟨5, 5⟩, ⟨10, 0⟩] 1 (by norm_num)).1

/-- Facts used for the idempotence of the Douglas-Peucker recursion; the parts are explained one
by one in the proof. -/
theorem idempotence_lemmas :
    (∀ (s e : Point) (X out : List Point) (_ : out.Sublist (s :: (X ++ [e])))
        (_ : out.head? = some s) (_ : out.getLast? = some e) (_ : 2 ≤ out.length),
        ∃ X', out = s :: (X' ++ [e]) ∧ X'.Sublist X) ∧
    (∀ (tol : ℝ) (_ : 0 ≤ tol),
        ∀ (fuel : ℕ) (points out : List Point), douglasPeuckerFuel fuel points tol = some out →
          ∀ fuel1 : ℕ, out.length ≤ fuel1 + 2 → douglasPeuckerFuel fuel1 out tol = some out) := by
  have douglasPeuckerFuel_short := simplifier_lemmas.2.2.2.2.2.2.1
  have maxDistanceLoop_cases := keepsWithin_lemmas.2.2.1
  have douglasPeuckerFuel_flat := keepsWithin_lemmas.2.2.2.1
  have douglasPeuckerFuel_split := keepsWithin_lemmas.2.2.2.2.1
  have keepsWithin_head := keepsWithin_lemmas.2.2.2.2.2.1
  have keepsWithin_getLast := keepsWithin_lemmas.2.2.2.2.2.2.1
  have keepsWithin_sublist := keepsWithin_lemmas.2.2.2.2.2.2.2.1
  have douglasPeuckerFuel_keepsWithin := keepsWithin_lemmas.2.2.2.2.2.2.2.2.2.1
  /- The shape of a subsequence of `s :: (X ++ [e])` of at least 2 points that starts with
  `s` and ends with `e`. -/
  have sublist_shape : ∀ (s e : Point) (X out : List Point) (_ : out.Sublist (s :: (X ++ [e])))
      (_ : out.head? = some s) (_ : out.getLast? = some e) (_ : 2 ≤ out.length),
      ∃ X', out = s :: (X' ++ [e]) ∧ X'.Sublist X := by
    intro s e X out hsub hh hl h2
    obtain ⟨a, t, rfl⟩ : ∃ a t, out = a :: t := by
      cases out with
      | nil => simp at h2
      | cons a t => exact ⟨a, t, rfl⟩
    simp only [List.head?_cons, Option.some.injEq] at hh
    subst hh
    obtain ⟨X', b, rfl⟩ : ∃ X' b, t = X' ++ [b] := by
      rcases List.eq_nil_or_concat t with h | ⟨L, b, h⟩
      · subst h; simp at h2
      · exact ⟨L, b, by rw [h, List.concat_eq_append]⟩
    have hb : b = e := by
      rw [← List.cons_append, List.getLast?_concat] at hl
      exact Option.some.inj hl
    subst hb
    refine ⟨X', rfl, ?_⟩
    have h1 := List.cons_sublist_cons.1 hsub
    exact (List.append_sublist_append_right [b]).1 h1
  /- The outcome of `douglasPeucker` is left as it is by `douglasPeucker`, with any
  sufficient depth of recursion. -/
  have douglasPeuckerFuel_idem : ∀ (tol : ℝ) (_ : 0 ≤ tol),
      ∀ (fuel : ℕ) (points out : List Point), douglasPeuckerFuel fuel points tol = some out →
        ∀ fuel1 : ℕ, out.length ≤ fuel1 + 2 → douglasPeuckerFuel fuel1 out tol = some out := by
    intro tol htol
    have hshort : ∀ (fuel : ℕ) (points out : List Point),
        douglasPeuckerFuel fuel points tol = some out → points.length ≤ 2 →
        ∀ fuel1 : ℕ, douglasPeuckerFuel fuel1 out tol = some out := by
      intro fuel points out h h2 fuel1
      rw [douglasPeuckerFuel_short fuel points tol h2] at h
      rw [← Option.some.inj h]
      exact douglasPeuckerFuel_short _ _ _ h2
    intro fuel
    induction fuel with
    | zero =>
      intro points out h fuel1 _
      rcases Nat.lt_or_ge 2 points.length with h3 | h3
      · simp [douglasPeuckerFuel, Nat.not_le.2 h3] at h
      · exact hshort 0 points out h h3 fuel1
    | succ fuel ih =>
      intro points out h fuel1 hf
      rcases Nat.lt_or_ge 2 points.length with h3 | h3
      swap
      · exact hshort _ points out h h3 fuel1
      obtain ⟨start, t, rfl⟩ : ∃ s t, points = s :: t := by
        cases points with
        | nil => simp at h3
        | cons s t => exact ⟨s, t, rfl⟩
      obtain ⟨mid, e, rfl⟩ : ∃ mid e, t = mid ++ [e] := by
        rcases List.eq_nil_or_concat t with h | ⟨L, b, h⟩
        · subst h; simp at h3
        · exact ⟨L, b, by rw [h, List.concat_eq_append]⟩
      have hmid : mid ≠ [] := by
        intro h
        subst h
        simp at h3
      rcases maxDistanceLoop_cases start e mid tol with hall | ⟨A, m, B, h1, hA, hB, hm⟩
      · rw [douglasPeuckerFuel_flat fuel start e mid tol htol hmid hall] at h
        rw [← Option.some.inj h]
        exact douglasPeuckerFuel_short _ _ _ (by simp)
      · subst h1
        rw [douglasPeuckerFuel_split fuel start e m A B tol htol hA hB hm] at h
        cases hl : douglasPeuckerFuel fuel (start :: (A ++ [m])) tol with
        | none => rw [hl] at h; simp at h
        | some left =>
          cases hr : douglasPeuckerFuel fuel (m :: (B ++ [e])) tol with
          | none => rw [hl, hr] at h; simp at h
          | some right =>
            rw [hl, hr] at h
            simp only [Option.some.injEq] at h
            obtain ⟨kl, ll⟩ := douglasPeuckerFuel_keepsWithin tol htol _ _ _ hl (by simp)
            obtain ⟨kr, lr⟩ := douglasPeuckerFuel_keepsWithin tol htol _ _ _ hr (by simp)
            obtain ⟨A', hA', sA⟩ := sublist_shape start m A left (keepsWithin_sublist _ _ _ kl)
              (by rw [← keepsWithin_head tol _ _ kl (by intro h0; rw [h0] at ll; simp at ll)]; rfl)
              (by rw [← keepsWithin_getLast tol _ _ kl, ← List.cons_append,
                List.getLast?_concat]) ll
            obtain ⟨B', hB', sB⟩ := sublist_shape m e B right (keepsWithin_sublist _ _ _ kr)
              (by rw [← keepsWithin_head tol _ _ kr (by intro h0; rw [h0] at lr; simp at lr)]; rfl)
              (by rw [← keepsWithin_getLast tol _ _ kr, ← List.cons_append,
                List.getLast?_concat]) lr
            have hout : out = start :: ((A' ++ m :: B') ++ [e]) := by
              rw [← h, hA', hB', ← List.cons_append, List.dropLast_concat]
              simp
            have hlen : out.length = A'.length + B'.length + 3 := by
              rw [hout]
              simp only [List.length_cons, List.length_append, List.length_nil]
              omega
            obtain ⟨f, rfl⟩ : ∃ f, fuel1 = f + 1 := ⟨fuel1 - 1, by omega⟩
            have il := ih _ _ hl f (by rw [hA']; simp only [List.length_cons,
              List.length_append, List.length_nil]; omega)
            have ir := ih _ _ hr f (by rw [hB']; simp only [List.length_cons,
              List.length_append, List.length_nil]; omega)
            rw [hout, douglasPeuckerFuel_split f start e m A' B' tol htol
              (fun a ha => hA a (sA.subset ha)) (fun b hb => hB b (sB.subset hb)) hm]
            rw [← hA', ← hB', il, ir]
            simp only
            rw [hA', hB', ← List.cons_append, List.dropLast_concat]
            simp
  exact ⟨sublist_shape, douglasPeuckerFuel_idem⟩
/-- C30 (the Douglas-Peucker core is idempotent). For every point list and every
tolerance `≥ 0`, `douglasPeucker` returns, and applied to its own result it returns this
result again. -/
theorem C30_douglas_peucker_idempotent (points : List Point) (tolerance : ℝ)
    (htol : 0 ≤ tolerance) :
    ∃ out, douglasPeucker points tolerance = some out ∧
      douglasPeucker out tolerance = some out := by
  have douglasPeucker_total := keepsWithin_lemmas.2.2.2.2.2.2.2.2.2.2
  have douglasPeuckerFuel_idem := idempotence_lemmas.2
  obtain ⟨out, h⟩ := douglasPeucker_total points tolerance htol
  exact ⟨out, h, douglasPeuckerFuel_idem tolerance htol _ _ _ h _ (by omega)⟩

/-- C30 on the stroke `(0,0), (5,5), (10,0)` with tolerance 1. -/
theorem C30_douglas_peucker_idempotent_witness :
    ∃ out, douglasPeucker [⟨0, 0⟩, ⟨5, 5⟩, ⟨10, 0⟩] 1 = some out ∧
      douglasPeucker out 1 = some out :=
  C30_douglas_peucker_idempotent [⟨0, 0⟩, ⟨5, 5⟩, ⟨10, 0⟩] 1 (by norm_num)

/-! ### Miter spike limit -/

/-- Facts on the length of the miter offset; the parts are explained one by one in the proof. -/
theorem miter_norm_lemmas :
    (∀ (a b c e h : ℝ) (_ : a * a + b * b = 1) (_ : 0 ≤ h)
        (_ : Real.sqrt ((-b + -e) * (-b + -e) + (a + c) * (a + c)) < 0.01),
        miterOffset a b c e h = (-b * h, a * h)) ∧
    (∀ (a b c e h : ℝ) (_ : a * a + b * b = 1) (_ : c * c + e * e = 1) (_ : 0 ≤ h),
        h ≤ Real.sqrt ((miterOffset a b c e h).1 * (miterOffset a b c e h).1 +
          (miterOffset a b c e h).2 * (miterOffset a b c e h).2) ∧
        Real.sqrt ((miterOffset a b c e h).1 * (miterOffset a b c e h).1 +
          (miterOffset a b c e h).2 * (miterOffset a b c e h).2) ≤ 2 * h) := by
  have miterOffset_normalized := miter_offset_lemmas.2.2.2.2.2.1
  have unit_dot_bounds := miter_scale_lemmas.1
  /- The offset vector of the fallback of `calculateMiterPoint` (`miterLen < 0.01`, a turn
  of about 180 degrees): the left-hand unit perpendicular of the first segment scaled by
  `halfThick`. -/
  have miterOffset_fallback : ∀ (a b c e h : ℝ) (_ : a * a + b * b = 1) (_ : 0 ≤ h)
      (_ : Real.sqrt ((-b + -e) * (-b + -e) + (a + c) * (a + c)) < 0.01),
      miterOffset a b c e h = (-b * h, a * h) := by
    intro a b c e h h1 hh hM
    have hdot : -b * -b + a * a = 1 := by linarith
    unfold miterOffset
    simp only [if_pos hM, hdot]
    rw [if_pos (by norm_num), div_one, min_eq_left (by linarith)]
  /- The length of the offset vector of `calculateMiterPoint` is between `halfThick` and
  `2 * halfThick`, for unit directions and `halfThick ≥ 0`. -/
  have miterOffset_norm : ∀ (a b c e h : ℝ) (_ : a * a + b * b = 1) (_ : c * c + e * e = 1)
      (_ : 0 ≤ h),
      h ≤ Real.sqrt ((miterOffset a b c e h).1 * (miterOffset a b c e h).1 +
        (miterOffset a b c e h).2 * (miterOffset a b c e h).2) ∧
      Real.sqrt ((miterOffset a b c e h).1 * (miterOffset a b c e h).1 +
        (miterOffset a b c e h).2 * (miterOffset a b c e h).2) ≤ 2 * h := by
    intro a b c e h h1 h2 hh
    have hS : (-b + -e) * (-b + -e) + (a + c) * (a + c) = 2 + 2 * (a * c + b * e) := by
      linear_combination h1 + h2
    obtain ⟨-, hk1⟩ := unit_dot_bounds a b c e h1 h2
    by_cases hM : Real.sqrt (2 + 2 * (a * c + b * e)) < 0.01
    · rw [miterOffset_fallback a b c e h h1 hh (by rw [hS]; exact hM)]
      have : -b * h * (-b * h) + a * h * (a * h) = h * h := by
        linear_combination (h * h) * h1
      simp only
      rw [this, Real.sqrt_mul_self hh]
      exact ⟨le_refl _, by linarith⟩
    · push_neg at hM
      rw [miterOffset_normalized a b c e h h1 h2 hM]
      set M := Real.sqrt (2 + 2 * (a * c + b * e)) with hMdef
      have hMpos : 0 < M := lt_of_lt_of_le (by norm_num) hM
      have hpos : 0 < 2 + 2 * (a * c + b * e) := Real.sqrt_pos.1 hMpos
      have hMsq : M * M = 2 + 2 * (a * c + b * e) := Real.mul_self_sqrt hpos.le
      have hM2 : M ≤ 2 := by
        rw [hMdef]
        apply Real.sqrt_le_iff.2
        constructor
        · norm_num
        · linarith
      set s := min (if M / 2 > 0.1 then h / (M / 2) else h) (h * 2) with hsdef
      have hs1 : h ≤ s := by
        apply le_min
        · split_ifs with hd
          · rw [le_div_iff₀ (by linarith)]
            have : 0 ≤ h * (1 - M / 2) := mul_nonneg hh (by linarith)
            linarith
          · exact le_refl _
        · linarith
      have hs2 : s ≤ 2 * h := by
        have := min_le_right (if M / 2 > 0.1 then h / (M / 2) else h) (h * 2)
        linarith
      have hs0 : 0 ≤ s := le_trans hh hs1
      have hnorm : -(b + e) / M * s * (-(b + e) / M * s) + (a + c) / M * s * ((a + c) / M * s) =
          s * s := by
        have e1 : -(b + e) / M * s * (-(b + e) / M * s) + (a + c) / M * s * ((a + c) / M * s) =
            ((-b + -e) * (-b + -e) + (a + c) * (a + c)) / (M * M) * (s * s) := by
          field_simp
          ring
        rw [e1, hS, hMsq, div_self hpos.ne', one_mul]
      simp only
      rw [hnorm, Real.sqrt_mul_self hs0]
      exact ⟨hs1, hs2⟩
  exact ⟨miterOffset_fallback, miterOffset_norm⟩
/-- C25 (miter spike limit). For every two non-degenerate segments, whatever the turn
angle, and every `halfThickness ≥ 0`, the distance from the joint `segA.end` to the point
`outer` returned by `calculateMiterPoint`, and to the point `inner`, is at least
`halfThickness` and at most `2 * halfThickness`, and `outer` and `inner` are mirror images
of each other about the joint. -/
theorem C25_miter_spike_limit (segA segB : Segment) (h : ℝ) (smooth : Bool)
    (hA : segA.start ≠ segA.end_) (hB : segB.start ≠ segB.end_) (hh : 0 ≤ h) :
    h ≤ calculateDistance segA.end_ (calculateMiterPoint segA segB h smooth).outer ∧
    calculateDistance segA.end_ (calculateMiterPoint segA segB h smooth).outer ≤ 2 * h ∧
    h ≤ calculateDistance segA.end_ (calculateMiterPoint segA segB h smooth).inner ∧
    calculateDistance segA.end_ (calculateMiterPoint segA segB h smooth).inner ≤ 2 * h ∧
    (calculateMiterPoint segA segB h smooth).outer.x - segA.end_.x =
      segA.end_.x - (calculateMiterPoint segA segB h smooth).inner.x ∧
    (calculateMiterPoint segA segB h smooth).outer.y - segA.end_.y =
      segA.end_.y - (calculateMiterPoint segA segB h smooth).inner.y := by
  have calculateMiterPoint_outer := miter_offset_lemmas.2.1
  have calculateMiterPoint_inner := miter_offset_lemmas.2.2.1
  have direction_facts := miter_offset_lemmas.2.2.2.1
  have miterOffset_norm := miter_norm_lemmas.2
  obtain ⟨-, hu1, -, -⟩ := direction_facts segA.start segA.end_ hA
  obtain ⟨-, hu2, -, -⟩ := direction_facts segB.start segB.end_ hB
  obtain ⟨n1, n2⟩ := miterOffset_norm _ _ _ _ h hu1 hu2 hh
  rw [calculateMiterPoint_outer, calculateMiterPoint_inner]
  set v := miterOffset
    ((segA.end_.x - segA.start.x) / calculateDistance segA.start segA.end_)
    ((segA.end_.y - segA.start.y) / calculateDistance segA.start segA.end_)
    ((segB.end_.x - segB.start.x) / calculateDistance segB.start segB.end_)
    ((segB.end_.y - segB.start.y) / calculateDistance segB.start segB.end_) h with hv
  have ho : calculateDistance segA.end_ ⟨segA.end_.x + v.1, segA.end_.y + v.2⟩ =
      Real.sqrt (v.1 * v.1 + v.2 * v.2) := by
    simp only [calculateDistance]
    congr 1
    ring
  have hi : calculateDistance segA.end_ ⟨segA.end_.x - v.1, segA.end_.y - v.2⟩ =
      Real.sqrt (v.1 * v.1 + v.2 * v.2) := by
    simp only [calculateDistance]
    congr 1
    ring
  rw [ho, hi]
  refine ⟨n1, n2, n1, n2, ?_, ?_⟩
  · simp only; ring
  · simp only; ring

/-- C25 at a reversal, the segments `(0,0)-(100,0)` and `(100,0)-(0,0)`, with
`halfThickness = 3`. -/
theorem C25_miter_spike_limit_witness :
    3 ≤ calculateDistance ⟨100, 0⟩
      (calculateMiterPoint (segmentOf 1 ⟨0, 0⟩ ⟨100, 0⟩) (segmentOf 2 ⟨100, 0⟩ ⟨0, 0⟩) 3
        true).outer ∧
    calculateDistance ⟨100, 0⟩
      (calculateMiterPoint (segmentOf 1 ⟨0, 0⟩ ⟨100, 0⟩) (segmentOf 2 ⟨100, 0⟩ ⟨0, 0⟩) 3
        true).outer ≤ 2 * 3 := by
  have point_ne_of_x := point_ne_lemmas.1
  obtain ⟨h1, h2, -⟩ := C25_miter_spike_limit (segmentOf 1 ⟨0, 0⟩ ⟨100, 0⟩)
    (segmentOf 2 ⟨100, 0⟩ ⟨0, 0⟩) 3 true (point_ne_of_x _ _ (by simp [segmentOf]))
    (point_ne_of_x _ _ (by simp [segmentOf])) (by norm_num)
  exact ⟨h1, h2⟩

/-! ### Corner arcs: the side of an arc -/

/-- Facts on the end points of a corner arc; the parts are explained one by one in the proof. -/
theorem arc_side_lemmas :
    (∀ (y x : ℝ) (_ : x ≠ 0 ∨ y ≠ 0),
        Real.cos (atan2 y x) = x / Real.sqrt (x * x + y * y) ∧
        Real.sin (atan2 y x) = y / Real.sqrt (x * x + y * y)) ∧
    (∀ (center : Point) (seg1 seg2 : Segment) (h : ℝ) (isOuter : Bool) (arc : List Point)
        (_ : generateCornerArc center seg1 seg2 h isOuter = some arc),
        arc.head? = some
          ⟨center.x + Real.cos (atan2 (-(seg1.end_.y - seg1.start.y)) (-(seg1.end_.x - seg1.start.x))
              + (if isOuter then Real.pi / 2 else -Real.pi / 2)) * h,
            center.y + Real.sin (atan2 (-(seg1.end_.y - seg1.start.y))
              (-(seg1.end_.x - seg1.start.x)) + (if isOuter then Real.pi / 2 else -Real.pi / 2)) * h⟩ ∧
        arc.getLast? = some
          ⟨center.x + Real.cos (atan2 (seg2.end_.y - seg2.start.y) (seg2.end_.x - seg2.start.x)
              + (if isOuter then -Real.pi / 2 else Real.pi / 2)) * h,
            center.y + Real.sin (atan2 (seg2.end_.y - seg2.start.y) (seg2.end_.x - seg2.start.x)
              + (if isOuter then -Real.pi / 2 else Real.pi / 2)) * h⟩) ∧
    (∀ (s e : Point) (_ : s ≠ e),
        e.x - s.x ≠ 0 ∨ e.y - s.y ≠ 0) ∧
    (∀ (center : Point) (seg1 seg2 : Segment) (h : ℝ) (isOuter : Bool)
        (_ : seg1.start ≠ seg1.end_) (_ : seg2.start ≠ seg2.end_) (arc : List Point)
        (_ : generateCornerArc center seg1 seg2 h isOuter = some arc),
        arc.head? = some
          ⟨center.x + (if isOuter then -1 else 1) * ((unitPerp seg1).1 * h),
            center.y + (if isOuter then -1 else 1) * ((unitPerp seg1).2 * h)⟩ ∧
        arc.getLast? = some
          ⟨center.x + (if isOuter then -1 else 1) * ((unitPerp seg2).1 * h),
            center.y + (if isOuter then -1 else 1) * ((unitPerp seg2).2 * h)⟩) := by
  have wrap_spec := wrap_lemmas.2.2.1
  /- The cosine and the sine of `Math.atan2(y, x)` away from the origin. -/
  have atan2_cos_sin : ∀ (y x : ℝ) (_ : x ≠ 0 ∨ y ≠ 0),
      Real.cos (atan2 y x) = x / Real.sqrt (x * x + y * y) ∧
      Real.sin (atan2 y x) = y / Real.sqrt (x * x + y * y) := by
    intro y x h
    have hz : (⟨x, y⟩ : ℂ) ≠ 0 := by
      intro h0
      have h1 := congrArg Complex.re h0
      have h2 := congrArg Complex.im h0
      simp only [Complex.zero_re, Complex.zero_im] at h1 h2
      rcases h with h | h
      · exact h h1
      · exact h h2
    have habs : Complex.abs ⟨x, y⟩ = Real.sqrt (x * x + y * y) := by
      rw [Complex.abs_apply, Complex.normSq_mk]
    unfold atan2
    rw [Complex.cos_arg hz, Complex.sin_arg, habs]
    exact ⟨rfl, rfl⟩
  /- The first and the last point of a corner arc: the points of the circle of radius
  `halfThick` around the centre at the angles `perpAngle1` and `perpAngle2`. -/
  have generateCornerArc_ends : ∀ (center : Point) (seg1 seg2 : Segment) (h : ℝ) (isOuter : Bool)
      (arc : List Point) (_ : generateCornerArc center seg1 seg2 h isOuter = some arc),
      arc.head? = some
        ⟨center.x + Real.cos (atan2 (-(seg1.end_.y - seg1.start.y)) (-(seg1.end_.x - seg1.start.x))
            + (if isOuter then Real.pi / 2 else -Real.pi / 2)) * h,
          center.y + Real.sin (atan2 (-(seg1.end_.y - seg1.start.y))
            (-(seg1.end_.x - seg1.start.x)) + (if isOuter then Real.pi / 2 else -Real.pi / 2)) * h⟩ ∧
      arc.getLast? = some
        ⟨center.x + Real.cos (atan2 (seg2.end_.y - seg2.start.y) (seg2.end_.x - seg2.start.x)
            + (if isOuter then -Real.pi / 2 else Real.pi / 2)) * h,
          center.y + Real.sin (atan2 (seg2.end_.y - seg2.start.y) (seg2.end_.x - seg2.start.x)
            + (if isOuter then -Real.pi / 2 else Real.pi / 2)) * h⟩ := by
    intro center seg1 seg2 h isOuter arc harc
    unfold generateCornerArc at harc
    simp only at harc
    set p1 := atan2 (-(seg1.end_.y - seg1.start.y)) (-(seg1.end_.x - seg1.start.x))
      + (if isOuter then Real.pi / 2 else -Real.pi / 2) with hp1
    set p2 := atan2 (seg2.end_.y - seg2.start.y) (seg2.end_.x - seg2.start.x)
      + (if isOuter then -Real.pi / 2 else Real.pi / 2) with hp2
    obtain ⟨⟨k, hk⟩, -, -⟩ := wrap_spec (p2 - p1)
    set d := wrapBelowNegPi (wrapAbovePi (p2 - p1)) with hd
    split_ifs at harc with hsmall
    simp only [Option.some.injEq] at harc
    set steps : ℕ := max 3 ⌈|d| / (Real.pi / 8)⌉₊ with hsteps
    have hs3 : 3 ≤ steps := le_max_left _ _
    have hs0 : (steps : ℝ) ≠ 0 := by
      have : 0 < steps := by omega
      exact_mod_cast this.ne'
    rw [← harc]
    constructor
    · rw [List.head?_map, List.range_succ_eq_map]
      simp only [List.head?_cons, Option.map_some', Nat.cast_zero, zero_div, mul_zero, add_zero]
    · rw [List.getLast?_map, List.range_succ, List.getLast?_concat]
      simp only [Option.map_some']
      have ha : p1 + d * ((steps : ℝ) / (steps : ℝ)) = p2 + (k : ℝ) * (2 * Real.pi) := by
        rw [div_self hs0, hk]
        ring
      rw [ha, Real.cos_add_int_mul_two_pi, Real.sin_add_int_mul_two_pi]
  have delta_ne : ∀ (s e : Point) (_ : s ≠ e),
      e.x - s.x ≠ 0 ∨ e.y - s.y ≠ 0 := by
    intro s e hne
    by_contra hcon
    push_neg at hcon
    apply hne
    cases s; cases e
    simp only [Point.mk.injEq]
    simp only at hcon
    constructor <;> linarith [hcon.1, hcon.2]
  /- The first and the last point of a corner arc in terms of the left-hand unit
  perpendiculars of the two segments: the arc of the outer side runs on the right-hand side,
  the arc of the inner side on the left-hand side. -/
  have generateCornerArc_side : ∀ (center : Point) (seg1 seg2 : Segment) (h : ℝ) (isOuter : Bool)
      (_ : seg1.start ≠ seg1.end_) (_ : seg2.start ≠ seg2.end_) (arc : List Point)
      (_ : generateCornerArc center seg1 seg2 h isOuter = some arc),
      arc.head? = some
        ⟨center.x + (if isOuter then -1 else 1) * ((unitPerp seg1).1 * h),
          center.y + (if isOuter then -1 else 1) * ((unitPerp seg1).2 * h)⟩ ∧
      arc.getLast? = some
        ⟨center.x + (if isOuter then -1 else 1) * ((unitPerp seg2).1 * h),
          center.y + (if isOuter then -1 else 1) * ((unitPerp seg2).2 * h)⟩ := by
    intro center seg1 seg2 h isOuter h1 h2 arc harc
    obtain ⟨e1, e2⟩ := generateCornerArc_ends center seg1 seg2 h isOuter arc harc
    have d1 := delta_ne _ _ h1
    have d2 := delta_ne _ _ h2
    have d1' : -(seg1.end_.x - seg1.start.x) ≠ 0 ∨ -(seg1.end_.y - seg1.start.y) ≠ 0 := by
      rcases d1 with h | h
      · exact Or.inl (neg_ne_zero.2 h)
      · exact Or.inr (neg_ne_zero.2 h)
    obtain ⟨c1, s1⟩ := atan2_cos_sin _ _ d1'
    obtain ⟨c2, s2⟩ := atan2_cos_sin _ _ d2
    simp only [neg_mul_neg] at c1 s1
    have hneg : -Real.pi / 2 = -(Real.pi / 2) := by ring
    rw [e1, e2]
    cases isOuter
    · simp only [Bool.false_eq_true, if_false, hneg, ← sub_eq_add_neg, Real.cos_sub_pi_div_two,
        Real.sin_sub_pi_div_two, Real.cos_add_pi_div_two, Real.sin_add_pi_div_two, c1, s1, c2, s2,
        unitPerp, Option.some.injEq, Point.mk.injEq]
      refine ⟨⟨?_, ?_⟩, ⟨?_, ?_⟩⟩ <;> ring
    · simp only [if_true, hneg, ← sub_eq_add_neg, Real.cos_sub_pi_div_two,
        Real.sin_sub_pi_div_two, Real.cos_add_pi_div_two, Real.sin_add_pi_div_two, c1, s1, c2, s2,
        unitPerp, Option.some.injEq, Point.mk.injEq]
      refine ⟨⟨?_, ?_⟩, ⟨?_, ?_⟩⟩ <;> ring
  exact ⟨atan2_cos_sin, generateCornerArc_ends, delta_ne, generateCornerArc_side⟩
/-- C26 fails in the code: the arcs are on the wrong sides. For every two non-degenerate
segments and every `halfThickness`, with `perpA` and `perpB` the left-hand unit
perpendiculars of `segA` and `segB` (the side of `outer` and of the outer flat caps): a
non-null `outerArc` runs from `joint - halfThickness * perpA` to
`joint - halfThickness * perpB`, on the right-hand side, and a non-null `innerArc` runs
from `joint + halfThickness * perpA` to `joint + halfThickness * perpB`, on the left-hand
side. -/
theorem C26_arcs_on_the_other_side (segA segB : Segment) (h : ℝ)
    (hA : segA.start ≠ segA.end_) (hB : segB.start ≠ segB.end_) :
    (∀ arc, (calculateMiterPoint segA segB h true).outerArc = some arc →
      arc.head? = some ⟨segA.end_.x - (unitPerp segA).1 * h,
        segA.end_.y - (unitPerp segA).2 * h⟩ ∧
      arc.getLast? = some ⟨segA.end_.x - (unitPerp segB).1 * h,
        segA.end_.y - (unitPerp segB).2 * h⟩) ∧
    (∀ arc, (calculateMiterPoint segA segB h true).innerArc = some arc →
      arc.head? = some ⟨segA.end_.x + (unitPerp segA).1 * h,
        segA.end_.y + (unitPerp segA).2 * h⟩ ∧
      arc.getLast? = some ⟨segA.end_.x + (unitPerp segB).1 * h,
        segA.end_.y + (unitPerp segB).2 * h⟩) := by
  have generateCornerArc_side := arc_side_lemmas.2.2.2
  constructor
  · intro arc harc
    have harc2 : generateCornerArc segA.end_ segA segB h true = some arc := harc
    obtain ⟨e1, e2⟩ := generateCornerArc_side segA.end_ segA segB h true hA hB arc harc2
    simp only [if_true, neg_one_mul, ← sub_eq_add_neg] at e1 e2
    exact ⟨e1, e2⟩
  · intro arc harc
    have harc2 : generateCornerArc segA.end_ segA segB h false = some arc := harc
    obtain ⟨e1, e2⟩ := generateCornerArc_side segA.end_ segA segB h false hA hB arc harc2
    simp only [Bool.false_eq_true, if_false, one_mul] at e1 e2
    exact ⟨e1, e2⟩

/-- C26 at the corner of the rectangle between `(0,0)-(100,0)` and `(100,0)-(100,80)`,
half thickness 3: the outer arc runs from `(100,-3)` to `(103,0)`, while the left-hand
side of the first wall at the joint is the point `(100,3)`. -/
theorem C26_arcs_on_the_other_side_witness :
    ∃ arc, (calculateMiterPoint rectangleSeg1 rectangleSeg2 3 true).outerArc = some arc ∧
      arc.head? = some ⟨100, -3⟩ ∧ arc.getLast? = some ⟨103, 0⟩ ∧
      (⟨100 + (unitPerp rectangleSeg1).1 * 3, 0 + (unitPerp rectangleSeg1).2 * 3⟩ : Point) =
        ⟨100, 3⟩ := by
  have sqrt_eq_of_mul_self := miter_offset_lemmas.2.2.2.2.1
  have point_ne_of_x := point_ne_lemmas.1
  have point_ne_of_y := point_ne_lemmas.2
  have generateCornerArc_sides := wrap_lemmas.2.2.2.2.1
  have generateCornerArc_rectangle_inner := wrap_lemmas.2.2.2.2.2
  have hin : generateCornerArc ⟨100, 0⟩ rectangleSeg1 rectangleSeg2 3 false ≠ none :=
    generateCornerArc_rectangle_inner
  have hout : generateCornerArc ⟨100, 0⟩ rectangleSeg1 rectangleSeg2 3 true ≠ none :=
    fun h => hin ((generateCornerArc_sides _ _ _ _).1 h)
  obtain ⟨arc, harc⟩ := Option.ne_none_iff_exists'.1 hout
  have harc2 : (calculateMiterPoint rectangleSeg1 rectangleSeg2 3 true).outerArc = some arc :=
    harc
  obtain ⟨e1, e2⟩ := (C26_arcs_on_the_other_side rectangleSeg1 rectangleSeg2 3
    (point_ne_of_x _ _ (by simp [rectangleSeg1])) (point_ne_of_y _ _ (by simp [rectangleSeg2]))).1
    arc harc2
  have hs1 : Real.sqrt ((100 - 0) * (100 - 0) + (0 - 0) * (0 - 0)) = 100 :=
    sqrt_eq_of_mul_self _ _ (by norm_num) (by norm_num)
  have hs2 : Real.sqrt ((100 - 100) * (100 - 100) + (80 - 0) * (80 - 0)) = 80 :=
    sqrt_eq_of_mul_self _ _ (by norm_num) (by norm_num)
  have p1 : unitPerp rectangleSeg1 = (0, 1) := by
    simp only [unitPerp, rectangleSeg1, hs1]
    norm_num
  have p2 : unitPerp rectangleSeg2 = (-1, 0) := by
    simp only [unitPerp, rectangleSeg2, hs2]
    norm_num
  rw [p1] at e1
  rw [p2] at e2
  refine ⟨arc, harc2, ?_, ?_, ?_⟩
  · rw [e1]
    simp only [rectangleSeg1]
    norm_num
  · rw [e2]
    simp only [rectangleSeg1]
    norm_num
  · rw [p1]
    norm_num

/-! ### Constrained move of a corner shared by three walls -/

/-- C27 fails in the code. At the corner `(100,100)` shared by the diagonal wall
`(100,100)-(200,200)`, the horizontal wall `(0,100)-(100,100)` and the vertical wall
`(100,0)-(100,100)`, dragging the start of the diagonal wall to `(130,140)` in constrained
mode leaves the dragged endpoint at `(100,100)` (the horizontal wall resets its `y`, the
vertical wall its `x`), and moves the end of the horizontal wall to `(130,100)` and the end
of the vertical wall to `(100,140)`: the three endpoints that were joined are now at three
different positions. -/
theorem C27_constrained_move_splits_corner :
    findWallsAtPoint cornerWalls ⟨100, 100⟩ (some 0) = [(1, .end_), (2, .end_)] ∧
    moveWallPointWithConstraints cornerWalls 0 .start ⟨130, 140⟩ false =
      [⟨1, ⟨100, 100⟩, ⟨200, 200⟩, 6, 96⟩, ⟨2, ⟨0, 100⟩, ⟨130, 100⟩, 6, 96⟩,
        ⟨3, ⟨100, 0⟩, ⟨100, 140⟩, 6, 96⟩] := by
  have calculateDistance_lt_five := distance_lemmas.2.2.2.2.1
  constructor
  · norm_num [cornerWalls, findWallsAtPoint, findWallsAtPointFrom, calculateDistance_lt_five]
  · norm_num [moveWallPointWithConstraints, cornerWalls, findWallsAtPoint,
      findWallsAtPointFrom, getWallPointPos, calculateDistance_lt_five, constrainedAlign,
      alignStep, propagateStep, furtherStep, updateWall, setWallPointPos, setWallPointX,
      setWallPointY, otherPointType]

/-! ### Chain discovery: the number of loop passes -/

/-- The loops with counters compute what the loops without counters compute, and what the counters
count; the parts are explained one by one in the proof. -/
theorem count_lemmas :
    (∀ (walls : List Wall),
        ∀ (fuel : ℕ) (used : List ℕ) (p : Point) (last : ℕ) (chain : List Segment) (s x : ℕ),
          (extendForward walls fuel used p last chain = none ∧
            extendForwardCount walls fuel used p last chain (s, x) = none) ∨
          ∃ used1 new, extendForward walls fuel used p last chain = some (used1, chain ++ new) ∧
            extendForwardCount walls fuel used p last chain (s, x) =
              some (used1, chain ++ new, (s + new.length, x + 1))) ∧
    (∀ (walls : List Wall),
        ∀ (fuel : ℕ) (used : List ℕ) (p : Point) (last : ℕ) (front : List Segment) (s x : ℕ),
          (extendBackward walls fuel used p last front = none ∧
            extendBackwardCount walls fuel used p last front (s, x) = none) ∨
          ∃ used1 new, extendBackward walls fuel used p last front = some (used1, new ++ front) ∧
            extendBackwardCount walls fuel used p last front (s, x) =
              some (used1, new ++ front, (s + new.length, x + 1))) ∧
    (∀ (walls : List Wall),
        ∀ (rest : List Wall) (i : ℕ) (used : List ℕ) (chains : List (List Segment)) (s x : ℕ),
          s + chains.length = chains.flatten.length → x = 2 * chains.length →
          (buildChainsFrom walls i rest used chains = none ∧
            buildChainsFromCount walls i rest used chains (s, x) = none) ∨
          ∃ out s1 x1, buildChainsFrom walls i rest used chains = some out ∧
            buildChainsFromCount walls i rest used chains (s, x) = some (out, (s1, x1)) ∧
            s1 + out.length = out.flatten.length ∧ x1 = 2 * out.length) := by
  /- The forward loop with counters computes what the forward loop computes; each pass that
  marks a wall appends one entry, and exactly one pass leaves the loop. -/
  have extendForwardCount_spec : ∀ (walls : List Wall),
      ∀ (fuel : ℕ) (used : List ℕ) (p : Point) (last : ℕ) (chain : List Segment) (s x : ℕ),
        (extendForward walls fuel used p last chain = none ∧
          extendForwardCount walls fuel used p last chain (s, x) = none) ∨
        ∃ used1 new, extendForward walls fuel used p last chain = some (used1, chain ++ new) ∧
          extendForwardCount walls fuel used p last chain (s, x) =
            some (used1, chain ++ new, (s + new.length, x + 1)) := by
    intro walls
    intro fuel
    induction fuel with
    | zero => intro used p last chain s x; left; exact ⟨rfl, rfl⟩
    | succ fuel ih =>
      intro used p last chain s x
      unfold extendForward extendForwardCount
      cases hf : findConnectedWall walls used p last with
      | none => right; exact ⟨used, [], by simp, by simp⟩
      | some next =>
        simp only
        rcases ih (next.wall.id :: used) (getWallPointPos next.wall next.endPoint) next.idx
          (chain ++ [⟨next.wall, getWallPointPos next.wall next.startPoint,
            getWallPointPos next.wall next.endPoint⟩]) (s + 1) x with ⟨h1, h2⟩ | ⟨u, new, h1, h2⟩
        · left; exact ⟨h1, h2⟩
        · right
          refine ⟨u, (⟨next.wall, getWallPointPos next.wall next.startPoint,
            getWallPointPos next.wall next.endPoint⟩ : Segment) :: new, ?_, ?_⟩
          · rw [h1]; simp
          · rw [h2]
            simp only [List.append_assoc, List.singleton_append, List.length_cons]
            congr 4
            omega
  /- The backward loop with counters computes what the backward loop computes; each pass
  that marks a wall prepends one entry, and exactly one pass leaves the loop. -/
  have extendBackwardCount_spec : ∀ (walls : List Wall),
      ∀ (fuel : ℕ) (used : List ℕ) (p : Point) (last : ℕ) (front : List Segment) (s x : ℕ),
        (extendBackward walls fuel used p last front = none ∧
          extendBackwardCount walls fuel used p last front (s, x) = none) ∨
        ∃ used1 new, extendBackward walls fuel used p last front = some (used1, new ++ front) ∧
          extendBackwardCount walls fuel used p last front (s, x) =
            some (used1, new ++ front, (s + new.length, x + 1)) := by
    intro walls
    intro fuel
    induction fuel with
    | zero => intro used p last front s x; left; exact ⟨rfl, rfl⟩
    | succ fuel ih =>
      intro used p last front s x
      unfold extendBackward extendBackwardCount
      cases hf : findConnectedWall walls used p last with
      | none => right; exact ⟨used, [], by simp, by simp⟩
      | some prev =>
        simp only
        rcases ih (prev.wall.id :: used) (getWallPointPos prev.wall prev.endPoint) prev.idx
          (⟨prev.wall, getWallPointPos prev.wall prev.endPoint,
            getWallPointPos prev.wall prev.startPoint⟩ :: front) (s + 1) x
          with ⟨h1, h2⟩ | ⟨u, new, h1, h2⟩
        · left; exact ⟨h1, h2⟩
        · right
          refine ⟨u, new ++ [(⟨prev.wall, getWallPointPos prev.wall prev.endPoint,
            getWallPointPos prev.wall prev.startPoint⟩ : Segment)], ?_, ?_⟩
          · rw [h1]; simp
          · rw [h2]
            simp only [List.append_assoc, List.singleton_append, List.length_append,
              List.length_singleton]
            congr 4
            omega
  /- The chain builder with counters computes what the chain builder computes; the marking
  passes number the entries less the chains, and the leaving passes are two per chain. -/
  have buildChainsFromCount_spec : ∀ (walls : List Wall),
      ∀ (rest : List Wall) (i : ℕ) (used : List ℕ) (chains : List (List Segment)) (s x : ℕ),
        s + chains.length = chains.flatten.length → x = 2 * chains.length →
        (buildChainsFrom walls i rest used chains = none ∧
          buildChainsFromCount walls i rest used chains (s, x) = none) ∨
        ∃ out s1 x1, buildChainsFrom walls i rest used chains = some out ∧
          buildChainsFromCount walls i rest used chains (s, x) = some (out, (s1, x1)) ∧
          s1 + out.length = out.flatten.length ∧ x1 = 2 * out.length := by
    intro walls
    intro rest
    induction rest with
    | nil =>
      intro i used chains s x hs hx
      right
      exact ⟨chains, s, x, rfl, rfl, hs, hx⟩
    | cons startWall rest ih =>
      intro i used chains s x hs hx
      unfold buildChainsFrom buildChainsFromCount
      by_cases hu : startWall.id ∈ used
      · rw [if_pos hu, if_pos hu]
        exact ih _ _ _ _ _ hs hx
      · rw [if_neg hu, if_neg hu]
        rcases extendForwardCount_spec walls (walls.length + 1) (startWall.id :: used)
          startWall.end_ i [⟨startWall, startWall.start, startWall.end_⟩] s x
          with ⟨f1, f2⟩ | ⟨u1, new1, f1, f2⟩
        · left
          rw [f1, f2]
          exact ⟨rfl, rfl⟩
        · rw [f1, f2]
          simp only
          rcases extendBackwardCount_spec walls (walls.length + 1) u1 startWall.start i []
            (s + new1.length) (x + 1) with ⟨b1, b2⟩ | ⟨u2, new2, b1, b2⟩
          · left
            rw [b1, b2]
            exact ⟨rfl, rfl⟩
          · rw [b1, b2]
            simp only
            apply ih
            · simp only [List.length_append, List.length_singleton, List.flatten_append,
                List.flatten_cons, List.flatten_nil, List.append_nil, List.length_cons,
                List.length_nil]
              omega
            · simp only [List.length_append, List.length_singleton]
              omega
  exact ⟨extendForwardCount_spec, extendBackwardCount_spec, buildChainsFromCount_spec⟩
/-- C28 as stated fails: for two walls that do not touch, `(0,0)-(100,0)` and
`(0,50)-(100,50)`, the two `while (true)` loops run four passes in all, two per chain, and
none of the four marks a wall: each finds no connected wall and leaves its loop. Four
passes are more than the two walls. -/
theorem C28_counterexample :
    findWallChainsCount [⟨1, ⟨0, 0⟩, ⟨100, 0⟩, 6, 96⟩, ⟨2, ⟨0, 50⟩, ⟨100, 50⟩, 6, 96⟩] =
      some ([[⟨⟨1, ⟨0, 0⟩, ⟨100, 0⟩, 6, 96⟩, ⟨0, 0⟩, ⟨100, 0⟩⟩],
        [⟨⟨2, ⟨0, 50⟩, ⟨100, 50⟩, 6, 96⟩, ⟨0, 50⟩, ⟨100, 50⟩⟩]], (0, 4)) ∧
    ([⟨1, ⟨0, 0⟩, ⟨100, 0⟩, 6, 96⟩, ⟨2, ⟨0, 50⟩, ⟨100, 50⟩, 6, 96⟩] : List Wall).length <
      0 + 4 := by
  have calculateDistance_lt_five := distance_lemmas.2.2.2.2.1
  constructor
  · norm_num [findWallChainsCount, buildChainsFromCount, extendForwardCount,
      extendBackwardCount, findConnectedWall, findConnectedWallFrom, pointsMatch,
      calculateDistance_lt_five, getWallPointPos]
  · decide

/-- C28, amended (chain discovery terminates). For every wall list `findWallChains`
returns, each of its `while (true)` loops running at most `walls.length + 1` passes. A pass
through a loop body either finds no wall and leaves the loop (two such passes per chain),
or marks a wall that was not yet used and adds its entry to the chain. The number of
marking passes over the whole call is the number of entries less the number of chains, and
it is at most the number of walls; the number of all passes is at most twice the number of
walls. -/
theorem C28_chain_discovery_terminates (walls : List Wall) :
    ∃ (chains : List (List Segment)) (steps exits : ℕ),
      findWallChains walls = some chains ∧
      findWallChainsCount walls = some (chains, (steps, exits)) ∧
      steps + chains.length = (chains.map List.length).sum ∧
      exits = 2 * chains.length ∧
      steps ≤ walls.length ∧
      steps + exits ≤ 2 * walls.length ∧
      (∀ e ∈ chains.flatten, e.wall ∈ walls) ∧
      (chains.flatten.map (fun e => e.wall.id)).Nodup := by
  have used_length_le := chain_partition_lemmas.2.1
  have buildChainsFrom_spec := chain_partition_lemmas.2.2.2.2
  have buildChainsFromCount_spec := count_lemmas.2.2
  obtain ⟨chains, used, h1, h2, h3, h4, h5, -, -⟩ :=
    buildChainsFrom_spec walls walls 0 [] [] (fun w hw => hw) List.nodup_nil (by simp)
      (by simp) (by simp)
  rcases buildChainsFromCount_spec walls walls 0 [] [] 0 0 (by simp) (by simp)
    with ⟨c1, -⟩ | ⟨out, s1, x1, c1, c2, c3, c4⟩
  · rw [h1] at c1
    simp at c1
  · have hout : out = chains := by
      rw [h1] at c1
      exact (Option.some.inj c1).symm
    subst hout
    have hlen : out.flatten.length ≤ walls.length := by
      have := used_length_le walls used h2 h3
      have hp := h4.length_eq
      rw [List.length_map] at hp
      omega
    refine ⟨out, s1, x1, h1, c2, ?_, c4, by omega, by omega, h5, h4.nodup_iff.2 h2⟩
    rw [← List.length_flatten]
    exact c3

end Shopfloor
